import Mathlib

/-!
vAmiga: disk controller, FIFO and disk DMA.

A shallow embedding of `DiskController.cpp` (register DSKLEN, the byte FIFO,
`executeFifo`, `performDMA`, `performTurboDMA`) and of the disk part of
`AgnusDma.cpp` (`Agnus::peek`, `Agnus::poke`, `Agnus::doDiskDMA`).

Machine integers are natural numbers with an explicit `% 2^w` wherever the
C++ type can wrap.  Calls into classes whose source is not part of the tree
(Drive, Memory, Paula, the message queue) act on explicit model components.
`assert(c)` never aborts in the model: a failed assertion is recorded in the
field `failed` and execution goes on as in a release build.
-/

namespace VAmiga

/-! ## Enumerations -/

/-- The DMA states of the disk controller (`DriveState`). -/
inductive DriveState
  | DRIVE_DMA_OFF
  | DRIVE_DMA_WAIT
  | DRIVE_DMA_READ
  | DRIVE_DMA_WRITE
  | DRIVE_DMA_FLUSH
  deriving DecidableEq, Repr

/-- The two interrupt sources used by the disk controller. -/
inductive IrqSource
  | INT_DSKBLK
  | INT_DSKSYN
  deriving DecidableEq, Repr

/-- Modelled from the spec: `Paula::raiseIrq` and `Paula::scheduleIrqRel`
(Paula.cpp is missing from the tree).  Each call is recorded, in call order. -/
inductive IrqCall
  | raiseIrq (src : IrqSource)
  | scheduleIrqRel (src : IrqSource) (delay : Nat)
  deriving DecidableEq, Repr

/-- The GUI messages sent by `setState`. -/
inductive Message
  | MSG_DRIVE_READ
  | MSG_DRIVE_WRITE
  deriving DecidableEq, Repr

/-- The owners of a DMA bus slot (`BusOwner`). -/
inductive BusOwner
  | BUS_NONE
  | BUS_DISK
  | BUS_AUDIO
  | BUS_BITPLANE
  | BUS_SPRITE
  | BUS_COPPER
  | BUS_BLITTER
  | BUS_CPU
  deriving DecidableEq, Repr

/-- The assertions of the embedded functions, one label per `assert`. -/
inductive Assertion
  | selectedBelow4        -- getSelectedDrive: assert(selected < 4)
  | readFifoNonEmpty      -- readFifo: assert(fifoCount > 0)
  | writeFifoCount        -- writeFifo: assert(fifoCount <= 6)
  | readFifo16HasWord     -- readFifo16: assert(fifoHasWord())
  | dmaReadHasWord        -- performDMARead: assert(fifoHasWord()) after the two executeFifo calls
  | dmaWriteCount4        -- performDMAWrite: assert(fifoCount <= 4)
  | dmaWriteCanStore      -- performDMAWrite: assert(fifoCanStoreWord()) after the two executeFifo calls
  | posBelowHposCnt       -- doDiskDMA: assert(pos.h < HPOS_CNT)
  | clockAfterIncoming    -- peekDSKBYTR: assert(agnus.clock >= incomingCycle)
  deriving DecidableEq, Repr

/-! ## Collaborators whose source is missing -/

/-- Modelled from the spec: the class Drive (Drive.h and Drive.cpp are missing
from the tree).  The drive interface of the spec, section 6, over an arbitrary
drive state `D`: every operation returns the new drive state, reads also return
the value read.  `alignHead` is the statement `head.offset = 0` under
`ALIGN_DRIVE_HEAD`; it does not change the kind of the drive. -/
structure DriveOps (D : Type) where
  isTurbo : D → Bool
  speed : D → Nat
  nr : D → Nat
  rotate : D → D
  readHead : D → Nat × D
  readHead16 : D → Nat × D
  writeHead : D → Nat → D
  writeHead16 : D → Nat → D
  findSyncMark : D → D
  alignHead : D → D
  isTurbo_alignHead : ∀ d, isTurbo (alignHead d) = isTurbo d

/-- Modelled from the spec: the class Memory (missing from the tree).  Chip RAM
and Slow RAM as stores of 16-bit words keyed by address. -/
structure Memory where
  chip : Nat → Nat
  slow : Nat → Nat

/-- Modelled from the spec: `Memory::pokeChip16`. -/
def Memory.pokeChip16 (m : Memory) (addr value : Nat) : Memory :=
  { m with chip := fun a => if a = addr then value else m.chip a }

/-- Modelled from the spec: `Memory::pokeSlow16`. -/
def Memory.pokeSlow16 (m : Memory) (addr value : Nat) : Memory :=
  { m with slow := fun a => if a = addr then value else m.slow a }

/-- Modelled from the spec: `Memory::peekChip16` (also `peek16<ACC_AGNUS, MEM_CHIP>`). -/
def Memory.peekChip16 (m : Memory) (addr : Nat) : Nat := m.chip addr

/-- Modelled from the spec: `Memory::peek16<ACC_AGNUS, MEM_SLOW>`. -/
def Memory.peekSlow16 (m : Memory) (addr : Nat) : Nat := m.slow addr

/-- Constants, preprocessor switches and helpers that the embedded functions use
and whose definitions are missing from the tree; they are parameters. -/
structure Env where
  DSK_CHECKSUM : Bool
  ALIGN_DRIVE_HEAD : Bool
  fnv_1a_init32 : Nat
  fnv_1a_it32 : Nat → Nat → Nat
  INC_CHIP_PTR : Nat → Nat
  ptrMask : Nat
  slowRamIsMirroredIn : Bool

/-- Modelled from the spec: `HPOS_CNT = 0xE3` (glossary). -/
def HPOS_CNT : Nat := 0xE3

/-- Modelled from the spec: `DMA_CYCLES(n)`, one DMA cycle is 2 master cycles. -/
def DMA_CYCLES (n : Nat) : Nat := 2 * n

/-- Modelled from the spec: `GET_BIT(x, nr)`, bit `nr` of `x`. -/
def GET_BIT (x nr : Nat) : Bool := x &&& (1 <<< nr) != 0

/-- Modelled from the spec: `HI_BYTE(x)`, the upper byte of a 16-bit word. -/
def HI_BYTE (x : Nat) : Nat := (x >>> 8) % 256

/-- Modelled from the spec: `LO_BYTE(x)`, the lower byte of a 16-bit word. -/
def LO_BYTE (x : Nat) : Nat := x &&& 0xFF

/-! ## The machine state -/

/-- The part of the machine that the disk controller reads or writes: the
members of DiskController, and the members of Paula, Agnus and Memory that its
functions reach. -/
structure Amiga (D : Type) where
  -- DiskController
  configUseFifo : Bool
  df : Nat → D
  state : DriveState
  fifo : Nat
  fifoCount : Nat
  dsklen : Nat
  dsksync : Nat
  incoming : Nat
  incomingCycle : Int
  prb : Nat
  selected : Int
  syncFlag : Bool
  useFifo : Bool
  checkcnt : Nat
  checksum : Nat
  wordCount : Nat → Nat
  -- Paula
  adkcon : Nat
  irqs : List IrqCall
  -- Agnus
  clock : Int
  dskpt : Nat
  posH : Nat
  busOwner : Nat → BusOwner
  busValue : Nat → Nat
  busRaw : BusOwner → Nat
  -- Memory
  mem : Memory
  -- message queue
  msgs : List Message
  -- failed assertions, most recent first
  failed : List Assertion

variable {D : Type}

/-- The statement `assert(c)`: record the label when `c` is false. -/
def assertThat (c : Bool) (a : Assertion) (s : Amiga D) : Amiga D :=
  if c then s else { s with failed := a :: s.failed }

/-! ## DiskController: small members -/

/-- `DiskController::setState`. -/
def setState (s : Amiga D) (t : DriveState) : Amiga D :=
  if s.state = t then s
  else
    let wasWriting := decide (s.state = .DRIVE_DMA_WRITE)
    let isWriting := decide (t = .DRIVE_DMA_WRITE)
    let s1 := { s with state := t }
    if wasWriting != isWriting then
      { s1 with msgs := s1.msgs ++ [if isWriting then .MSG_DRIVE_WRITE else .MSG_DRIVE_READ] }
    else s1

/-- `DiskController::getSelectedDrive`: the index of the selected drive, `none`
for the NULL pointer. -/
def getSelectedDrive (s : Amiga D) : Option Nat × Amiga D :=
  let s1 := assertThat (decide (s.selected < 4)) .selectedBelow4 s
  (if s.selected < 0 then none else some s.selected.toNat, s1)

/-- Replace drive `i` (writes through the pointer `df[i]`). -/
def setDrive (s : Amiga D) (i : Nat) (d : D) : Amiga D :=
  { s with df := fun j => if j = i then d else s.df j }

/-- Modelled from the spec: `fifoIsEmpty` (DiskController.h is missing). -/
def fifoIsEmpty (s : Amiga D) : Bool := s.fifoCount == 0

/-- Modelled from the spec: `fifoHasWord`, `fifoCount >= 2` (DiskController.h is missing). -/
def fifoHasWord (s : Amiga D) : Bool := decide (2 ≤ s.fifoCount)

/-- Modelled from the spec: `fifoCanStoreWord`, `fifoCount <= 4` (DiskController.h is missing). -/
def fifoCanStoreWord (s : Amiga D) : Bool := decide (s.fifoCount ≤ 4)

/-- `DiskController::clearFifo`. -/
def clearFifo (s : Amiga D) : Amiga D :=
  { s with fifo := 0, fifoCount := 0 }

/-- `DiskController::readFifo`; `fifoCount` is a `uint8_t`, `fifo` a `uint64_t`. -/
def readFifo (s : Amiga D) : Nat × Amiga D :=
  let s1 := assertThat (decide (0 < s.fifoCount)) .readFifoNonEmpty s
  let s2 := { s1 with fifoCount := (s1.fifoCount + 255) % 256 }
  ((s2.fifo >>> (8 * s2.fifoCount)) &&& 0xFF, s2)

/-- `DiskController::writeFifo`. -/
def writeFifo (s : Amiga D) (byte : Nat) : Amiga D :=
  let s1 := assertThat (decide (s.fifoCount ≤ 6)) .writeFifoCount s
  let s2 := if s1.fifoCount = 6 then { s1 with fifoCount := (s1.fifoCount + 254) % 256 } else s1
  let s3 := { s2 with fifo := ((s2.fifo <<< 8) ||| byte) % 2 ^ 64 }
  { s3 with fifoCount := (s3.fifoCount + 1) % 256 }

/-- `DiskController::readFifo16`. -/
def readFifo16 (s : Amiga D) : Nat × Amiga D :=
  let s1 := assertThat (fifoHasWord s) .readFifo16HasWord s
  let s2 := { s1 with fifoCount := (s1.fifoCount + 254) % 256 }
  ((s2.fifo >>> (8 * s2.fifoCount)) &&& 0xFFFF, s2)

/-- `DiskController::compareFifo`. -/
def compareFifo (s : Amiga D) (word : Nat) : Bool :=
  fifoHasWord s && (s.fifo &&& 0xFFFF == word)

/-- `Paula::raiseIrq`, recorded. -/
def raiseIrq (s : Amiga D) (src : IrqSource) : Amiga D :=
  { s with irqs := s.irqs ++ [.raiseIrq src] }

/-- `Paula::scheduleIrqRel`, recorded. -/
def scheduleIrqRel (s : Amiga D) (src : IrqSource) (delay : Nat) : Amiga D :=
  { s with irqs := s.irqs ++ [.scheduleIrqRel src delay] }

/-! ## Agnus: disk DMA -/

/-- `Agnus::peek`, on the memory alone. -/
def Agnus.peekMem (env : Env) (m : Memory) (addr : Nat) : Nat :=
  let addr := addr &&& env.ptrMask
  if 0x80000 ≤ addr ∧ env.slowRamIsMirroredIn = true then m.peekSlow16 addr
  else m.peekChip16 addr

/-- `Agnus::peek`. -/
def Agnus.peek (env : Env) (s : Amiga D) (addr : Nat) : Nat :=
  Agnus.peekMem env s.mem addr

/-- `Agnus::poke`, on the memory alone. -/
def Agnus.pokeMem (env : Env) (m : Memory) (addr value : Nat) : Memory :=
  let addr := addr &&& env.ptrMask
  if 0x80000 ≤ addr ∧ env.slowRamIsMirroredIn = true then m.pokeSlow16 addr value
  else m.pokeChip16 addr value

/-- `Agnus::poke`. -/
def Agnus.poke (env : Env) (s : Amiga D) (addr value : Nat) : Amiga D :=
  { s with mem := Agnus.pokeMem env s.mem addr value }

/-- The bus bookkeeping shared by both `doDiskDMA` overloads. -/
def Agnus.recordDiskBus (s : Amiga D) (value : Nat) : Amiga D :=
  let s1 := assertThat (decide (s.posH < HPOS_CNT)) .posBelowHposCnt s
  { s1 with
    busOwner := fun h => if h = s1.posH then .BUS_DISK else s1.busOwner h
    busValue := fun h => if h = s1.posH then value else s1.busValue h
    busRaw := fun o => if o = .BUS_DISK then s1.busRaw o + 1 else s1.busRaw o }

/-- `Agnus::doDiskDMA()`: read a word from memory at DSKPT (`dskpt` is a `u32`). -/
def Agnus.doDiskDMARead (env : Env) (s : Amiga D) : Nat × Amiga D :=
  let result := Agnus.peek env s s.dskpt
  let s1 := { s with dskpt := (s.dskpt + 2) % 2 ^ 32 }
  (result, Agnus.recordDiskBus s1 result)

/-- `Agnus::doDiskDMA(u16 value)`: write a word to memory at DSKPT. -/
def Agnus.doDiskDMAWrite (env : Env) (s : Amiga D) (value : Nat) : Amiga D :=
  let s1 := Agnus.poke env s s.dskpt value
  let s2 := { s1 with dskpt := (s1.dskpt + 2) % 2 ^ 32 }
  Agnus.recordDiskBus s2 value

/-! ## DiskController: FIFO execution and DMA -/

/-- The debug checksum update guarded by `DSK_CHECKSUM`. -/
def noteChecksum (env : Env) (s : Amiga D) (word : Nat) : Amiga D :=
  if env.DSK_CHECKSUM then
    { s with checkcnt := s.checkcnt + 1, checksum := env.fnv_1a_it32 s.checksum word }
  else s

/-- `DiskController::executeFifo`. -/
def executeFifo (ops : DriveOps D) (s : Amiga D) : Amiga D :=
  let (drive, s) := getSelectedDrive s
  match drive with
  | none => s
  | some i =>
    match s.state with
    | .DRIVE_DMA_OFF => setDrive s i (ops.rotate (s.df i))
    | .DRIVE_DMA_WAIT | .DRIVE_DMA_READ =>
      let r := ops.readHead (s.df i)
      let s := setDrive s i r.2
      let s := { s with incoming := r.1 % 256, incomingCycle := s.clock }
      let s := writeFifo s s.incoming
      let s := { s with syncFlag := compareFifo s s.dsksync }
      if s.syncFlag then
        let s := raiseIrq s .INT_DSKSYN
        if s.state = .DRIVE_DMA_WAIT then clearFifo (setState s .DRIVE_DMA_READ) else s
      else s
    | .DRIVE_DMA_WRITE | .DRIVE_DMA_FLUSH =>
      if fifoIsEmpty s then
        if s.state = .DRIVE_DMA_FLUSH then setState s .DRIVE_DMA_OFF else s
      else
        let (outgoing, s) := readFifo s
        setDrive s i (ops.writeHead (s.df i) outgoing)

/-- The statement `stats.wordCount[nr] += count` (a statistics counter). -/
def addWordCount (s : Amiga D) (nr count : Nat) : Amiga D :=
  { s with wordCount := fun j => if j = nr then s.wordCount j + count else s.wordCount j }

/-- The statement `--remaining` on a `uint32_t`. -/
def decU32 (x : Nat) : Nat := (x + 4294967295) % 4294967296

/-- The statement `--dsklen` on the `uint16_t` register. -/
def decDsklen (s : Amiga D) : Amiga D :=
  { s with dsklen := (s.dsklen + 65535) % 65536 }

/-- The do-while loop of `DiskController::performDMARead`; `remaining` is a
`uint32_t`.  Every pass decrements the 14-bit counter of DSKLEN and the loop is
left when the counter is 0, so `fuel` bounds the number of passes. -/
def performDMAReadLoop (env : Env) (ops : DriveOps D) : Nat → Nat → Amiga D → Amiga D
  | 0, _, s => s
  | fuel + 1, remaining, s =>
    let (word, s) := readFifo16 s
    let s := Agnus.doDiskDMAWrite env s word
    let s := noteChecksum env s word
    let s := decDsklen s
    if s.dsklen &&& 0x3FFF = 0 then
      setState (raiseIrq s .INT_DSKBLK) .DRIVE_DMA_OFF
    else
      let remaining := decU32 remaining
      if remaining ≠ 0 then
        let s := executeFifo ops (executeFifo ops s)
        let s := assertThat (fifoHasWord s) .dmaReadHasWord s
        performDMAReadLoop env ops fuel remaining s
      else s

/-- `DiskController::performDMARead`.  The loop ends after at most 0x4000 passes. -/
def performDMARead (env : Env) (ops : DriveOps D) (s : Amiga D) (remaining : Nat) : Amiga D :=
  if !fifoHasWord s then s
  else performDMAReadLoop env ops 0x4000 remaining s

/-- The loop `while (!fifoIsEmpty()) drive->writeHead(readFifo())` of
`performDMAWrite`; every pass decrements the 8-bit `fifoCount`. -/
def flushFifo (ops : DriveOps D) (i : Nat) : Nat → Amiga D → Amiga D
  | 0, s => s
  | fuel + 1, s =>
    if fifoIsEmpty s then s
    else
      let (b, s) := readFifo s
      flushFifo ops i fuel (setDrive s i (ops.writeHead (s.df i) b))

/-- The do-while loop of `DiskController::performDMAWrite` for the drive `df[i]`. -/
def performDMAWriteLoop (env : Env) (ops : DriveOps D) (i : Nat) : Nat → Nat → Amiga D → Amiga D
  | 0, _, s => s
  | fuel + 1, remaining, s =>
    let (word, s) := Agnus.doDiskDMARead env s
    let s := noteChecksum env s word
    let s := assertThat (decide (s.fifoCount ≤ 4)) .dmaWriteCount4 s
    let s := writeFifo s (HI_BYTE word)
    let s := writeFifo s (LO_BYTE word)
    let s := decDsklen s
    if s.dsklen &&& 0x3FFF = 0 then
      let s := raiseIrq s .INT_DSKBLK
      let s := flushFifo ops i 256 s
      setState s .DRIVE_DMA_OFF
    else
      let remaining := decU32 remaining
      if remaining ≠ 0 then
        let s := executeFifo ops (executeFifo ops s)
        let s := assertThat (fifoCanStoreWord s) .dmaWriteCanStore s
        performDMAWriteLoop env ops i fuel remaining s
      else s

/-- `DiskController::performDMAWrite` for the drive `df[i]`. -/
def performDMAWrite (env : Env) (ops : DriveOps D) (s : Amiga D) (i : Nat) (remaining : Nat) :
    Amiga D :=
  if !fifoCanStoreWord s then s
  else performDMAWriteLoop env ops i 0x4000 remaining s

/-- `DiskController::performDMA`. -/
def performDMA (env : Env) (ops : DriveOps D) (s : Amiga D) : Amiga D :=
  if s.dsklen &&& 0x3FFF = 0 then s
  else if s.state ≠ .DRIVE_DMA_READ ∧ s.state ≠ .DRIVE_DMA_WRITE then s
  else
    let (drive, s) := getSelectedDrive s
    match drive with
    | none => s
    | some i =>
      let count := ops.speed (s.df i) % 2 ^ 32
      let s := addWordCount s (ops.nr (s.df i)) count
      match s.state with
      | .DRIVE_DMA_READ => performDMARead env ops s count
      | .DRIVE_DMA_WRITE => performDMAWrite env ops s i count
      | _ => s

/-! ## DiskController: turbo DMA and DSKLEN -/

/-- `DiskController::performTurboRead` for the drive `df[i]`: `n` passes. -/
def performTurboRead (env : Env) (ops : DriveOps D) (i : Nat) : Nat → Amiga D → Amiga D
  | 0, s => s
  | n + 1, s =>
    let r := ops.readHead16 (s.df i)
    let word := r.1 % 65536
    let s := setDrive s i r.2
    let s := { s with mem := s.mem.pokeChip16 s.dskpt word }
    let s := { s with dskpt := env.INC_CHIP_PTR s.dskpt }
    performTurboRead env ops i n (noteChecksum env s word)

/-- `DiskController::performTurboWrite` for the drive `df[i]`: `n` passes. -/
def performTurboWrite (env : Env) (ops : DriveOps D) (i : Nat) : Nat → Amiga D → Amiga D
  | 0, s => s
  | n + 1, s =>
    let word := s.mem.peekChip16 s.dskpt
    let s := { s with dskpt := env.INC_CHIP_PTR s.dskpt }
    let s := noteChecksum env s word
    performTurboWrite env ops i n (setDrive s i (ops.writeHead16 (s.df i) word))

/-- `DiskController::performTurboDMA` for the drive `df[i]`. -/
def performTurboDMA (env : Env) (ops : DriveOps D) (s : Amiga D) (i : Nat) : Amiga D :=
  if s.dsklen &&& 0x3FFF = 0 then s
  else
    let s := addWordCount s (ops.nr (s.df i)) (s.dsklen &&& 0x3FFF)
    let done (s : Amiga D) : Amiga D :=
      setState (scheduleIrqRel s .INT_DSKBLK (DMA_CYCLES 512)) .DRIVE_DMA_OFF
    match s.state with
    | .DRIVE_DMA_WAIT =>
      let s := setDrive s i (ops.findSyncMark (s.df i))
      done (performTurboRead env ops i (s.dsklen &&& 0x3FFF) s)
    | .DRIVE_DMA_READ => done (performTurboRead env ops i (s.dsklen &&& 0x3FFF) s)
    | .DRIVE_DMA_WRITE => done (performTurboWrite env ops i (s.dsklen &&& 0x3FFF) s)
    | _ => s

/-- The block `if (DSK_CHECKSUM) { checkcnt = 0; checksum = fnv_1a_init32(); }`. -/
def initChecksum (env : Env) (s : Amiga D) : Amiga D :=
  if env.DSK_CHECKSUM then { s with checkcnt := 0, checksum := env.fnv_1a_init32 } else s

/-- The block `#ifdef ALIGN_DRIVE_HEAD  if (drive) drive->head.offset = 0;`. -/
def alignDriveHead (env : Env) (ops : DriveOps D) (drive : Option Nat) (s : Amiga D) : Amiga D :=
  if env.ALIGN_DRIVE_HEAD then
    match drive with
    | some i => setDrive s i (ops.alignHead (s.df i))
    | none => s
  else s

/-- The last statement of `pokeDSKLEN`:
`if (drive && drive->isTurbo()) performTurboDMA(drive);`. -/
def turboIfSelected (env : Env) (ops : DriveOps D) (drive : Option Nat) (s : Amiga D) : Amiga D :=
  match drive with
  | some i => if ops.isTurbo (s.df i) then performTurboDMA env ops s i else s
  | none => s

/-- `DiskController::pokeDSKLEN`. -/
def pokeDSKLEN (env : Env) (ops : DriveOps D) (s : Amiga D) (newDskLen : Nat) : Amiga D :=
  let (drive, s) := getSelectedDrive s
  let oldDsklen := s.dsklen
  let s := { s with dsklen := newDskLen }
  let s := initChecksum env s
  let s := { s with useFifo := s.configUseFifo }
  let s :=
    if newDskLen &&& 0x8000 = 0 then
      clearFifo (setState s .DRIVE_DMA_OFF)
    else if oldDsklen &&& newDskLen &&& 0x8000 ≠ 0 then
      let s := alignDriveHead env ops drive s
      if oldDsklen &&& newDskLen &&& 0x4000 ≠ 0 then
        clearFifo (setState s .DRIVE_DMA_WRITE)
      else if GET_BIT s.adkcon 10 then
        clearFifo (setState s .DRIVE_DMA_WAIT)
      else
        clearFifo (setState s .DRIVE_DMA_READ)
    else s
  turboIfSelected env ops drive s

/-- Modelled from the spec: the statement `RESET_SNAPSHOT_ITEMS` of `_reset`
(its definition is missing): the controller registers are zeroed. -/
def resetSnapshotItems (s : Amiga D) : Amiga D :=
  { s with state := .DRIVE_DMA_OFF, fifo := 0, fifoCount := 0, dsklen := 0, dsksync := 0,
           incoming := 0, incomingCycle := 0, prb := 0, selected := 0, syncFlag := false,
           useFifo := false, checkcnt := 0, checksum := 0 }

/-- `DiskController::_reset`. -/
def reset (s : Amiga D) : Amiga D :=
  let s := resetSnapshotItems s
  { s with prb := 0xFF, selected := -1, dsksync := 0x4489 }

/-- The results of `n` successive `readFifo` calls, first call first, and the
machine after them. -/
def readFifoN : Nat → Amiga D → List Nat × Amiga D
  | 0, s => ([], s)
  | n + 1, s =>
    let r := readFifo s
    let rest := readFifoN n r.2
    (r.1 :: rest.1, rest.2)

/-- Memory after the words `ws` have been written through `Agnus::poke` to the
addresses `a`, `a + 2`, ... (32-bit pointer arithmetic). -/
def pokeWords (env : Env) : Memory → Nat → List Nat → Memory
  | m, _, [] => m
  | m, a, w :: ws => pokeWords env (Agnus.pokeMem env m a w) ((a + 2) % 2 ^ 32) ws

/-- The `count` bytes held by the shift register `fifo`, oldest first: the oldest
byte is in bits `8 * count - 1 .. 8 * count - 8`, the newest in bits 7..0. -/
def fifoBytes (fifo : Nat) : Nat → List Nat
  | 0 => []
  | c + 1 => ((fifo >>> (8 * c)) &&& 0xFF) :: fifoBytes fifo c

/-- The bytes of the `n` memory words read through `Agnus::peek` at `a`, `a + 2`,
..., each word as high byte, low byte. -/
def memBytes (env : Env) (m : Memory) : Nat → Nat → List Nat
  | _, 0 => []
  | a, n + 1 =>
    HI_BYTE (Agnus.peekMem env m a) :: LO_BYTE (Agnus.peekMem env m a) ::
      memBytes env m ((a + 2) % 2 ^ 32) n

/-- The drive after the bytes `bs` have been written to its head one by one. -/
def writeAll (ops : DriveOps D) (d : D) (bs : List Nat) : D :=
  bs.foldl ops.writeHead d

/-- Drive `i` as it will be once the bytes now in the FIFO have reached its head. -/
def flushedDrive (ops : DriveOps D) (i : Nat) (s : Amiga D) : D :=
  writeAll ops (s.df i) (fifoBytes s.fifo s.fifoCount)

/-- DMA is on only while DMAEN is stored: DSKLEN is a 16-bit value, and a state
other than OFF implies that bit 15 of the stored DSKLEN is set. -/
def dmaenStored (s : Amiga D) : Prop :=
  s.dsklen < 65536 ∧ (s.state ≠ .DRIVE_DMA_OFF → s.dsklen &&& 0x8000 ≠ 0)

/-- The assertions about the FIFO fill level (all but the range checks of
`selected` and `pos.h`). -/
def Assertion.isFifo : Assertion → Bool
  | .selectedBelow4 => false
  | .posBelowHposCnt => false
  | .clockAfterIncoming => false
  | _ => true

/-- The FIFO invariant: `0 <= fifoCount <= 6`, and no assertion about the FIFO
fill level has failed. -/
def fifoSound (s : Amiga D) : Prop :=
  s.fifoCount ≤ 6 ∧ ∀ a ∈ s.failed, Assertion.isFifo a = false

/-- A turbo drive is selected: `drive && drive->isTurbo()`. -/
def turboSelected (ops : DriveOps D) (s : Amiga D) : Bool :=
  match (getSelectedDrive s).1 with
  | some i => ops.isTurbo (s.df i)
  | none => false

/-! ## A concrete drive for closed examples -/

/-- A drive whose head delivers the bytes of `tape` in turn (0xFF when the tape
is used up) and that records what is written to the head and how often it
was rotated without a transfer. -/
structure TapeDrive where
  tape : List Nat
  written : List Nat
  turns : Nat
  turbo : Bool
  speed : Nat
  deriving DecidableEq, Repr

/-- The drive operations of a `TapeDrive`. -/
def tapeOps : DriveOps TapeDrive where
  isTurbo d := d.turbo
  speed d := d.speed
  nr _ := 0
  rotate d := { d with turns := d.turns + 1 }
  readHead d := (d.tape.headD 0xFF, { d with tape := d.tape.tail })
  readHead16 d :=
    (d.tape.headD 0xFF * 256 + d.tape.tail.headD 0xFF, { d with tape := d.tape.tail.tail })
  writeHead d b := { d with written := d.written ++ [b] }
  writeHead16 d w := { d with written := d.written ++ [w / 256, w % 256] }
  findSyncMark d := d
  alignHead d := d
  isTurbo_alignHead _ := rfl

/-- An environment for closed examples: checksums off, a 512 KB pointer mask. -/
def env0 : Env where
  DSK_CHECKSUM := false
  ALIGN_DRIVE_HEAD := false
  fnv_1a_init32 := 0
  fnv_1a_it32 _ _ := 0
  INC_CHIP_PTR x := (x + 2) % 2 ^ 32
  ptrMask := 0x7FFFF
  slowRamIsMirroredIn := false

/-- A machine for closed examples: all registers zero, state OFF, drive 0
selected, every drive equal to `d`. -/
def amiga0 (d : TapeDrive) : Amiga TapeDrive where
  configUseFifo := true
  df _ := d
  state := .DRIVE_DMA_OFF
  fifo := 0
  fifoCount := 0
  dsklen := 0
  dsksync := 0x4489
  incoming := 0
  incomingCycle := 0
  prb := 0xFF
  selected := 0
  syncFlag := false
  useFifo := true
  checkcnt := 0
  checksum := 0
  wordCount _ := 0
  adkcon := 0
  irqs := []
  clock := 0
  dskpt := 0
  posH := 7
  busOwner _ := .BUS_NONE
  busValue _ := 0
  busRaw _ := 0
  mem := ⟨fun _ => 0, fun _ => 0⟩
  msgs := []
  failed := []

/-- A standard drive that delivers the bytes of `tape`. -/
def tapeDrive (tape : List Nat) : TapeDrive :=
  { tape := tape, written := [], turns := 0, turbo := false, speed := 1 }


/-! ## Auxiliary definitions used in the statements and proofs -/

/-- The messages that `setState` sends when the state changes from `a` to `b`. -/
def stateMsgs (a b : DriveState) : List Message :=
  if a = b then []
  else if decide (a = .DRIVE_DMA_WRITE) != decide (b = .DRIVE_DMA_WRITE) then
    [if b = .DRIVE_DMA_WRITE then .MSG_DRIVE_WRITE else .MSG_DRIVE_READ]
  else []

/-- The state that `pokeDSKLEN` makes the controller enter. -/
def dsklenTarget (s : Amiga D) (v : Nat) : DriveState :=
  if v &&& 0x8000 = 0 then .DRIVE_DMA_OFF
  else if s.dsklen &&& v &&& 0x8000 ≠ 0 then
    if s.dsklen &&& v &&& 0x4000 ≠ 0 then .DRIVE_DMA_WRITE
    else if GET_BIT s.adkcon 10 then .DRIVE_DMA_WAIT
    else .DRIVE_DMA_READ
  else s.state

/-- The machine of `pokeDSKLEN` just before its last statement, the turbo check. -/
def dsklenLatched (env : Env) (ops : DriveOps D) (s : Amiga D) (v : Nat) : Amiga D :=
  { s with
    dsklen := v
    checkcnt := if env.DSK_CHECKSUM then 0 else s.checkcnt
    checksum := if env.DSK_CHECKSUM then env.fnv_1a_init32 else s.checksum
    useFifo := s.configUseFifo
    failed := if decide (s.selected < 4) then s.failed else .selectedBelow4 :: s.failed
    state := dsklenTarget s v
    msgs := s.msgs ++ stateMsgs s.state (dsklenTarget s v)
    fifo := if v &&& 0x8000 = 0 ∨ s.dsklen &&& v &&& 0x8000 ≠ 0 then 0 else s.fifo
    fifoCount := if v &&& 0x8000 = 0 ∨ s.dsklen &&& v &&& 0x8000 ≠ 0 then 0 else s.fifoCount
    df := fun j =>
      if (v &&& 0x8000 ≠ 0 ∧ s.dsklen &&& v &&& 0x8000 ≠ 0) ∧ env.ALIGN_DRIVE_HEAD = true ∧
          (getSelectedDrive s).1 = some j
      then ops.alignHead (s.df j) else s.df j }

/-- The shift register after a push: `(fifo << 8) | byte` in 64 bits. -/
def pushBits (fifo byte : Nat) : Nat := ((fifo <<< 8) ||| byte) % 2 ^ 64

/-- The fill level after a push: a full FIFO first drops a word. -/
def pushCount (c : Nat) : Nat := ((if c = 6 then (c + 254) % 256 else c) + 1) % 256

/-- The sync comparison that `executeFifo` makes after pushing `b`. -/
def syncAfterPush (s : Amiga D) (b : Nat) : Bool :=
  decide (2 ≤ pushCount s.fifoCount) && (pushBits s.fifo b &&& 0xFFFF == s.dsksync)

/-- The machine after one word has gone from the FIFO to memory in
`performDMARead`: `readFifo16`, `doDiskDMA(word)`, checksum, `--dsklen`. -/
def dmaReadWord (env : Env) (s : Amiga D) : Amiga D :=
  decDsklen (noteChecksum env (Agnus.doDiskDMAWrite env (readFifo16 s).2 (readFifo16 s).1)
    (readFifo16 s).1)

/-- The word that `readFifo16` returns. -/
def fifoWord (s : Amiga D) : Nat :=
  (s.fifo >>> (8 * ((s.fifoCount + 254) % 256))) &&& 0xFFFF

/-- The words that read DMA takes in `n` successive passes from a FIFO with the
shift register `fifo` and `count >= 2` bytes, fed by the drive `d`: the oldest
FIFO word, and for the next pass the FIFO word after the two bytes that the head
of the drive delivers have been pushed. -/
def fifoReadWords (ops : DriveOps D) : Nat → Nat → Nat → D → List Nat
  | 0, _, _, _ => []
  | n + 1, fifo, count, d =>
    ((fifo >>> (8 * (count - 2))) &&& 0xFFFF) ::
      fifoReadWords ops n
        (pushBits (pushBits fifo ((ops.readHead d).1 % 256))
          ((ops.readHead (ops.readHead d).2).1 % 256))
        count (ops.readHead (ops.readHead d).2).2

/-- The memory cell that `Agnus::poke` addresses for word `j` of a disk DMA that
starts at the pointer `pt`: the pointer `pt + 2 * j` of 32 bits, masked with
`ptrMask`. -/
def dmaCell (env : Env) (pt j : Nat) : Nat := ((pt + 2 * j) % 2 ^ 32) &&& env.ptrMask

/-- A machine for closed examples: state READ, the FIFO holds AA BB CC, five words
are left in DSKLEN, DSKPT is 0x100, and drive 0 of speed 3 delivers the bytes
1, 2, .., 6. -/
def dmaReadExample : Amiga TapeDrive :=
  { amiga0 { tapeDrive [1, 2, 3, 4, 5, 6] with speed := 3 } with
      state := .DRIVE_DMA_READ, fifo := 0xAABBCC, fifoCount := 3, dsklen := 0x8005,
      dskpt := 0x100 }

/-- The failed assertions after `getSelectedDrive`. -/
def selFailed (s : Amiga D) : List Assertion :=
  if decide (s.selected < 4) then s.failed else .selectedBelow4 :: s.failed

/-- The machine after one word has gone from memory to the FIFO in
`performDMAWrite`: `doDiskDMA()`, checksum, the two `writeFifo`, `--dsklen`. -/
def dmaWriteWord (env : Env) (s : Amiga D) : Amiga D :=
  decDsklen (writeFifo (writeFifo
    (assertThat (decide ((noteChecksum env (Agnus.doDiskDMARead env s).2
        (Agnus.doDiskDMARead env s).1).fifoCount ≤ 4)) .dmaWriteCount4
      (noteChecksum env (Agnus.doDiskDMARead env s).2 (Agnus.doDiskDMARead env s).1))
    (HI_BYTE (Agnus.doDiskDMARead env s).1)) (LO_BYTE (Agnus.doDiskDMARead env s).1))


/-! ## DiskController: simple DMA -/

/-- The loop of `DiskController::performSimpleDMAWait` for the drive `df[i]`,
at most `remaining` passes. -/
def performSimpleDMAWait (ops : DriveOps D) (i : Nat) : Nat → Amiga D → Amiga D
  | 0, s => s
  | n + 1, s =>
    let r := ops.readHead16 (s.df i)
    let word := r.1 % 65536
    let s := setDrive s i r.2
    let s := { s with syncFlag := decide (word = s.dsksync) }
    if s.syncFlag then
      setState (raiseIrq s .INT_DSKSYN) .DRIVE_DMA_READ
    else performSimpleDMAWait ops i n s

/-- The loop of `DiskController::performSimpleDMARead` for the drive `df[i]`,
at most `remaining` passes. -/
def performSimpleDMARead (env : Env) (ops : DriveOps D) (i : Nat) : Nat → Amiga D → Amiga D
  | 0, s => s
  | n + 1, s =>
    let r := ops.readHead16 (s.df i)
    let word := r.1 % 65536
    let s := setDrive s i r.2
    let s := Agnus.doDiskDMAWrite env s word
    let s := noteChecksum env s word
    let s := decDsklen s
    if s.dsklen &&& 0x3FFF = 0 then
      setState (raiseIrq s .INT_DSKBLK) .DRIVE_DMA_OFF
    else performSimpleDMARead env ops i n s

/-- The loop of `DiskController::performSimpleDMAWrite` for the drive `df[i]`,
at most `remaining` passes. -/
def performSimpleDMAWrite (env : Env) (ops : DriveOps D) (i : Nat) : Nat → Amiga D → Amiga D
  | 0, s => s
  | n + 1, s =>
    let (word, s) := Agnus.doDiskDMARead env s
    let s := noteChecksum env s word
    let s := setDrive s i (ops.writeHead16 (s.df i) word)
    let s := decDsklen s
    if s.dsklen &&& 0x3FFF = 0 then
      setState (raiseIrq s .INT_DSKBLK) .DRIVE_DMA_OFF
    else performSimpleDMAWrite env ops i n s

/-- `DiskController::performSimpleDMA`. -/
def performSimpleDMA (env : Env) (ops : DriveOps D) (s : Amiga D) : Amiga D :=
  let (drive, s) := getSelectedDrive s
  match drive with
  | none => s
  | some i =>
    if s.dsklen &&& 0x3FFF = 0 then s
    else
      let count := ops.speed (s.df i) % 2 ^ 32
      let s := addWordCount s (ops.nr (s.df i)) count
      match s.state with
      | .DRIVE_DMA_WAIT => performSimpleDMAWait ops i count s
      | .DRIVE_DMA_READ => performSimpleDMARead env ops i count s
      | .DRIVE_DMA_WRITE => performSimpleDMAWrite env ops i count s
      | _ => s

/-- The machine after one word of `performSimpleDMARead`: `readHead16`,
`doDiskDMA(word)`, checksum, `--dsklen`. -/
def simpleReadWord (env : Env) (ops : DriveOps D) (i : Nat) (s : Amiga D) : Amiga D :=
  decDsklen (noteChecksum env
    (Agnus.doDiskDMAWrite env (setDrive s i (ops.readHead16 (s.df i)).2)
      ((ops.readHead16 (s.df i)).1 % 65536))
    ((ops.readHead16 (s.df i)).1 % 65536))

/-- The machine after one word of `performSimpleDMAWrite`: `doDiskDMA()`,
checksum, `writeHead16`, `--dsklen`. -/
def simpleWriteWord (env : Env) (ops : DriveOps D) (i : Nat) (s : Amiga D) : Amiga D :=
  decDsklen (setDrive (noteChecksum env (Agnus.doDiskDMARead env s).2 (Agnus.doDiskDMARead env s).1)
    i (ops.writeHead16
      ((noteChecksum env (Agnus.doDiskDMARead env s).2 (Agnus.doDiskDMARead env s).1).df i)
      (Agnus.doDiskDMARead env s).1))

/-! ## Agnus: bus arbitration -/

/-- Modelled from the spec: the DMACON tests `copdma()`, `bltdma()` and `bltpri()`
(Agnus.h is missing), as functions of the DMACON register: Copper DMA enabled,
Blitter DMA enabled, Blitter priority bit. -/
structure DmaconTests where
  copdma : Nat → Bool
  bltdma : Nat → Bool
  bltpri : Nat → Bool

/-- The assertions of the embedded Agnus functions, one label per `assert`. -/
inductive AgnusAssertion
  | busIsFreeOwner        -- busIsFree: assert(false) after the switch
  | allocateBusOwner      -- allocateBus: assert(false) after the switch
  | bplEolSlotFree (r bpu : Nat)  -- init tables: assert(bplDMA[r][bpu][HPOS_MAX] == EVENT_NONE)
  | bplRangeInLine        -- updateBplEvents: assert(first >= 0 && last < HPOS_CNT)
  | channelsBelow7        -- updateBplEvents: assert(channels <= 6)
  | scrollHiresEvenBelow8 -- updateDrawingFlags: assert(scrollHiresEven < 8)
  | scrollHiresOddBelow8  -- updateDrawingFlags: assert(scrollHiresOdd < 8), first time
  | scrollLoresEvenBelow8 -- updateDrawingFlags: assert(scrollLoresEven < 8)
  | scrollHiresOddBelow8b -- updateDrawingFlags: assert(scrollHiresOdd < 8), second time
  | bplEndsWithEol        -- verifyBplEvents: assert((bplEvent[HPOS_MAX] & 0b11111100) == BPL_EOL)
  | nextBplAtEndZero      -- verifyBplEvents: assert(nextBplEvent[HPOS_MAX] == 0)
  | bplJumpEndInLine      -- updateBplJumpTable: assert(end <= HPOS_MAX)
  | dasJumpEndInLine      -- updateDasJumpTable: assert(end <= HPOS_MAX)
  | dmaconrBitsClear      -- peekDMACONR: assert((result & ((1 << 14) | (1 << 13))) == 0)
  deriving DecidableEq, Repr

/-- Modelled from the spec: the DDF window registers `ddfLores` and `ddfHires`
(their type is declared in a header that is missing): the start and stop
positions of the odd and of the even bitplanes. -/
structure DDF where
  strtOdd : Nat
  stopOdd : Nat
  strtEven : Nat
  stopEven : Nat

/-- Modelled from the spec: the register ids `REG_BPLxPTH` and `REG_BPLxPTL` passed
to `recordRegisterChange` (their declaration is missing). -/
inductive RegId
  | REG_BPL1PTH
  | REG_BPL2PTH
  | REG_BPL3PTH
  | REG_BPL4PTH
  | REG_BPL5PTH
  | REG_BPL6PTH
  | REG_BPL1PTL
  | REG_BPL2PTL
  | REG_BPL3PTL
  | REG_BPL4PTL
  | REG_BPL5PTL
  | REG_BPL6PTL
  deriving DecidableEq, Repr

/-- Modelled from the spec: one call `recordRegisterChange(delay, addr, value)`
(the change recorder is missing): the delay in master cycles, the register and
the value. -/
structure RegChange where
  delay : Nat
  addr : RegId
  value : Nat
  deriving DecidableEq, Repr

/-- Modelled from the spec: the calls that `setDMACON` makes to functions whose
code is missing, recorded in call order: the Agnus members `updateBplEvent()` and
`scheduleDasEventForCycle(h)`, which schedule events, the delegates
`blitter.pokeDMACON(old, new)` and `denise.pokeDMACON(old, new)`, the statement
`copper.activeInThisFrame = true`, and `enableDMA()` and `disableDMA()` of the
audio channel `ch`. -/
inductive AgnusCall
  | updateBplEvent
  | scheduleDasEventForCycle (h : Nat)
  | blitterPokeDMACON (oldValue newValue : Nat)
  | denisePokeDMACON (oldValue newValue : Nat)
  | copperActiveInThisFrame
  | audioEnableDMA (ch : Nat)
  | audioDisableDMA (ch : Nat)
  deriving DecidableEq, Repr

/-- The members of Agnus that the embedded functions read and write: the
horizontal position `pos.h`, the `busOwner` vector, DMACON, the BLS signal of the
CPU, the lookup tables `bplDMA[resolution][bpu][cycle]` and
`dasDMA[dmacon][cycle]`, the event tables `bplEvent` and `dasEvent` with their
jump tables, the DDF windows, the scroll values, the bitplane pointers, the
register changes recorded, the assertions that have failed, BPLCON0, the members
`dmaconAtDDFStrt`, `ddfstrtReached` and `hsyncActions`, and the recorded calls
to functions whose code is missing. -/
structure Agnus where
  posH : Nat
  busOwner : Nat → BusOwner
  dmacon : Nat
  bls : Bool
  bplDMA : Nat → Nat → Nat → Nat
  dasDMA : Nat → Nat → Nat
  bplEvent : Nat → Nat
  dasEvent : Nat → Nat
  nextBplEvent : Nat → Nat
  nextDasEvent : Nat → Nat
  ddfLores : DDF
  ddfHires : DDF
  scrollLoresOdd : Nat
  scrollLoresEven : Nat
  scrollHiresOdd : Nat
  scrollHiresEven : Nat
  bplpt : Nat → Nat
  changes : List RegChange
  failed : List AgnusAssertion
  bplcon0 : Nat
  dmaconAtDDFStrt : Nat
  ddfstrtReached : Int
  hsyncActions : Nat
  calls : List AgnusCall

/-- `Agnus::busIsFree<owner>`; the template parameter is the argument `owner`. -/
def busIsFree (t : DmaconTests) (owner : BusOwner) (a : Agnus) : Bool × Agnus :=
  if a.busOwner a.posH ≠ .BUS_NONE then (false, a)
  else
    match owner with
    | .BUS_COPPER =>
      if (!t.copdma a.dmacon) = true then (false, a)
      else if a.posH = 0xE0 then (false, a)
      else (true, a)
    | .BUS_BLITTER =>
      if (!t.bltdma a.dmacon) = true then (false, a)
      else if (a.bls && !t.bltpri a.dmacon) = true then (false, a)
      else (true, a)
    | _ => (false, { a with failed := .busIsFreeOwner :: a.failed })

/-- `Agnus::allocateBus<owner>`; the template parameter is the argument `owner`. -/
def allocateBus (t : DmaconTests) (owner : BusOwner) (a : Agnus) : Bool × Agnus :=
  if a.busOwner a.posH ≠ .BUS_NONE then (false, a)
  else
    match owner with
    | .BUS_COPPER =>
      (true, { a with busOwner := fun h => if h = a.posH then .BUS_COPPER else a.busOwner h })
    | .BUS_BLITTER =>
      if (!t.bltdma a.dmacon) = true then (false, a)
      else if (a.bls && !t.bltpri a.dmacon) = true then (false, a)
      else
        (true, { a with busOwner := fun h => if h = a.posH then .BUS_BLITTER else a.busOwner h })
    | _ => (false, { a with failed := .allocateBusOwner :: a.failed })

/-! ## Agnus: the bitplane DMA lookup table -/

/-- `EVENT_NONE = 0` (EventHandler.h); it is also what `memset(.., 0, ..)` stores. -/
def EVENT_NONE : Nat := 0

/-- Modelled from the spec: `HPOS_MAX = 0xE2` (glossary); the header that defines
it is missing. -/
def HPOS_MAX : Nat := 0xE2

/-- Modelled from the spec: the bitplane event ids `BPL_L1 .. BPL_L6`,
`BPL_H1 .. BPL_H4` and `BPL_EOL`, enumerators of `EventID` whose declaration is
missing; their values are parameters. -/
structure BplEventIds where
  BPL_L1 : Nat
  BPL_L2 : Nat
  BPL_L3 : Nat
  BPL_L4 : Nat
  BPL_L5 : Nat
  BPL_L6 : Nat
  BPL_H1 : Nat
  BPL_H2 : Nat
  BPL_H3 : Nat
  BPL_H4 : Nat
  BPL_EOL : Nat

/-- The assignment `bplDMA[r][bpu][h] = id`. -/
def pokeBplDMA (a : Agnus) (r bpu h id : Nat) : Agnus :=
  { a with bplDMA := fun r2 b2 h2 =>
      if r2 = r ∧ b2 = bpu ∧ h2 = h then id else a.bplDMA r2 b2 h2 }

/-- The `switch (bpu)` of `initBplEventTableLores`: the assignments `p[off] = id`
that are executed for `bpu`, in order, as pairs `(off, id)`.  No case has a
`break`, so a case runs into all the cases below it. -/
def loresSwitch (ids : BplEventIds) : Nat → List (Nat × Nat)
  | 6 => [(2, ids.BPL_L6), (6, ids.BPL_L5), (1, ids.BPL_L4), (5, ids.BPL_L3),
          (3, ids.BPL_L2), (7, ids.BPL_L1)]
  | 5 => [(6, ids.BPL_L5), (1, ids.BPL_L4), (5, ids.BPL_L3), (3, ids.BPL_L2), (7, ids.BPL_L1)]
  | 4 => [(1, ids.BPL_L4), (5, ids.BPL_L3), (3, ids.BPL_L2), (7, ids.BPL_L1)]
  | 3 => [(5, ids.BPL_L3), (3, ids.BPL_L2), (7, ids.BPL_L1)]
  | 2 => [(3, ids.BPL_L2), (7, ids.BPL_L1)]
  | 1 => [(7, ids.BPL_L1)]
  | _ => []

/-- The `switch (bpu)` of `initBplEventTableHires`, in the same form; the chained
assignment `p[0] = p[4] = BPL_H4` stores to `p[4]` first.  Cases 6 and 5 are
empty and run into case 4. -/
def hiresSwitch (ids : BplEventIds) : Nat → List (Nat × Nat)
  | 6 => [(4, ids.BPL_H4), (0, ids.BPL_H4), (6, ids.BPL_H3), (2, ids.BPL_H3),
          (5, ids.BPL_H2), (1, ids.BPL_H2), (7, ids.BPL_H1), (3, ids.BPL_H1)]
  | 5 => [(4, ids.BPL_H4), (0, ids.BPL_H4), (6, ids.BPL_H3), (2, ids.BPL_H3),
          (5, ids.BPL_H2), (1, ids.BPL_H2), (7, ids.BPL_H1), (3, ids.BPL_H1)]
  | 4 => [(4, ids.BPL_H4), (0, ids.BPL_H4), (6, ids.BPL_H3), (2, ids.BPL_H3),
          (5, ids.BPL_H2), (1, ids.BPL_H2), (7, ids.BPL_H1), (3, ids.BPL_H1)]
  | 3 => [(6, ids.BPL_H3), (2, ids.BPL_H3), (5, ids.BPL_H2), (1, ids.BPL_H2),
          (7, ids.BPL_H1), (3, ids.BPL_H1)]
  | 2 => [(5, ids.BPL_H2), (1, ids.BPL_H2), (7, ids.BPL_H1), (3, ids.BPL_H1)]
  | 1 => [(7, ids.BPL_H1), (3, ids.BPL_H1)]
  | _ => []

/-- One pass of the inner `for` loop with `p = &bplDMA[r][bpu][i]`: the
assignments `p[off] = id` of the switch, in order. -/
def fetchUnit (r bpu i : Nat) (stmts : List (Nat × Nat)) (a : Agnus) : Agnus :=
  stmts.foldl (fun a w => pokeBplDMA a r bpu (i + w.1) w.2) a

/-- The loop `for (int i = 0; i <= 0xD8; i += 8, p += 8)`: the passes
`i = 8 * u` for `u = 0 .. 27` (`0xD8 = 8 * 27`). -/
def fetchUnits (r bpu : Nat) (stmts : List (Nat × Nat)) (a : Agnus) : Agnus :=
  (List.range 28).foldl (fun a u => fetchUnit r bpu (8 * u) stmts a) a

/-- The body of the outer loop `for (int bpu = 0; bpu < 7; bpu++)`: the fetch
units, then `assert(bplDMA[r][bpu][HPOS_MAX] == EVENT_NONE)` and
`bplDMA[r][bpu][HPOS_MAX] = BPL_EOL`. -/
def bplRow (ids : BplEventIds) (r bpu : Nat) (stmts : List (Nat × Nat)) (a : Agnus) : Agnus :=
  let a := fetchUnits r bpu stmts a
  let a :=
    if a.bplDMA r bpu HPOS_MAX = EVENT_NONE then a
    else { a with failed := .bplEolSlotFree r bpu :: a.failed }
  pokeBplDMA a r bpu HPOS_MAX ids.BPL_EOL

/-- The common shape of both initialisers for the table `bplDMA[r]`:
`memset(bplDMA[r], 0, sizeof(bplDMA[r]))`, then the loop over `bpu = 0 .. 6`. -/
def initBplEventTable (ids : BplEventIds) (r : Nat) (switchBody : Nat → List (Nat × Nat))
    (a : Agnus) : Agnus :=
  let a := { a with bplDMA := fun r2 b h => if r2 = r then 0 else a.bplDMA r2 b h }
  (List.range 7).foldl (fun a bpu => bplRow ids r bpu (switchBody bpu) a) a

/-- `Agnus::initBplEventTableLores`. -/
def initBplEventTableLores (ids : BplEventIds) (a : Agnus) : Agnus :=
  initBplEventTable ids 0 (loresSwitch ids) a

/-- `Agnus::initBplEventTableHires`. -/
def initBplEventTableHires (ids : BplEventIds) (a : Agnus) : Agnus :=
  initBplEventTable ids 1 (hiresSwitch ids) a

/-! ## EventHandler -/

/-- `NEVER`, defined as `INT64_MAX`. -/
def NEVER : Int := 9223372036854775807

/-- `EVENT_SLOT_COUNT`: the number of primary slots, `CIAA_SLOT = 0`,
`CIAB_SLOT`, `DMA_SLOT`, `COP_SLOT`, `BLT_SLOT`, `RAS_SLOT`, `SEC_SLOT`. -/
def EVENT_SLOT_COUNT : Nat := 7

/-- `SEC_SLOT`, the last primary slot. -/
def SEC_SLOT : Nat := 6

/-- `SEC_SLOT_COUNT`: the number of secondary slots. -/
def SEC_SLOT_COUNT : Nat := 15

/-- `struct Event`, without the debugging field `framePos`: the trigger cycle
(`Cycle` is a signed 64-bit count of master cycles), the event id and the data. -/
structure Event where
  triggerCycle : Int
  id : Nat
  data : Int
  deriving DecidableEq, Repr

/-- The tables of the class EventHandler: `eventSlot`, `nextTrigger`,
`secondarySlot`, `nextSecTrigger`. -/
structure EventHandler where
  eventSlot : Nat → Event
  nextTrigger : Int
  secondarySlot : Nat → Event
  nextSecTrigger : Int

/-- Modelled from the spec: the service routines of the components that own the
slots (their code is missing).  A routine is called with the slot and its event
and may reschedule or cancel any slot; it is a function on the tables. -/
structure ServiceRoutines where
  serve : Nat → Event → EventHandler → EventHandler
  serveSec : Nat → Event → EventHandler → EventHandler

/-- One dispatch: the table (primary or secondary), the slot, and the id and data
of the event passed to the service routine. -/
structure Dispatch where
  primary : Bool
  slot : Nat
  id : Nat
  data : Int
  deriving DecidableEq, Repr

/-- The minimum of the trigger cycles of the slots `0 .. n` of a table. -/
def minTrigger (tbl : Nat → Event) : Nat → Int
  | 0 => (tbl 0).triggerCycle
  | n + 1 => min (minTrigger tbl n) (tbl (n + 1)).triggerCycle

/-- Modelled from the spec: "recompute the cached next-trigger" of the primary
table (the body of `_executeUntil` is missing). -/
def updateNextTrigger (h : EventHandler) : EventHandler :=
  { h with nextTrigger := minTrigger h.eventSlot (EVENT_SLOT_COUNT - 1) }

/-- Modelled from the spec: "recompute the cached next-trigger" of the secondary
table (the body of `_executeSecondaryUntil` is missing). -/
def updateNextSecTrigger (h : EventHandler) : EventHandler :=
  { h with nextSecTrigger := minTrigger h.secondarySlot (SEC_SLOT_COUNT - 1) }

/-- Modelled from the spec: one pass over the secondary slots `ss` in the given
order (the body of `_executeSecondaryUntil` is missing): a slot whose
`triggerCycle <= nextSecTrigger` is dispatched to its service routine, and the
cached next-trigger is recomputed after the dispatch.  The dispatches are
returned first to last. -/
def secondaryPass (R : ServiceRoutines) : List Nat → EventHandler → List Dispatch × EventHandler
  | [], h => ([], h)
  | s :: ss, h =>
    if (h.secondarySlot s).triggerCycle ≤ h.nextSecTrigger then
      let e := h.secondarySlot s
      let r := secondaryPass R ss (updateNextSecTrigger (R.serveSec s e h))
      (⟨false, s, e.id, e.data⟩ :: r.1, r.2)
    else secondaryPass R ss h

/-- Modelled from the spec: `_executeSecondaryUntil` (declared in EventHandler.h,
body missing), "run the inner secondary loop until `nextSecTrigger > target`,
applying the same smallest-slot-first rule within the secondary table".  The
loop runs at most `fuel` passes. -/
def _executeSecondaryUntil (R : ServiceRoutines) (cycle : Int) :
    Nat → EventHandler → List Dispatch × EventHandler
  | 0, h => ([], h)
  | fuel + 1, h =>
    if h.nextSecTrigger ≤ cycle then
      let p := secondaryPass R (List.range SEC_SLOT_COUNT) h
      let r := _executeSecondaryUntil R cycle fuel p.2
      (p.1 ++ r.1, r.2)
    else ([], h)

/-- Modelled from the spec: the dispatch of the primary slot `s` (the body of
`_executeUntil` is missing): the service routine of the owning component, for
`SEC_SLOT` the inner secondary loop; afterwards the cached next-trigger of the
primary table is recomputed. -/
def dispatchPrimary (R : ServiceRoutines) (cycle : Int) (fuel s : Nat) (e : Event)
    (h : EventHandler) : List Dispatch × EventHandler :=
  let r := if s = SEC_SLOT then _executeSecondaryUntil R cycle fuel h else ([], R.serve s e h)
  (r.1, updateNextTrigger r.2)

/-- Modelled from the spec: one pass over the primary slots `ss` in the given
order (the body of `_executeUntil` is missing): "for each primary slot in
declared order whose `triggerCycle <= nextTrigger`, dispatch to the owning
component's service routine with (slot, event.id, event.data)".  An entry whose
id is `EVENT_NONE` is a dispatch on an inactive slot. -/
def primaryPass (R : ServiceRoutines) (cycle : Int) (fuel : Nat) :
    List Nat → EventHandler → List Dispatch × EventHandler
  | [], h => ([], h)
  | s :: ss, h =>
    if (h.eventSlot s).triggerCycle ≤ h.nextTrigger then
      let e := h.eventSlot s
      let d := dispatchPrimary R cycle fuel s e h
      let r := primaryPass R cycle fuel ss d.2
      (⟨true, s, e.id, e.data⟩ :: (d.1 ++ r.1), r.2)
    else primaryPass R cycle fuel ss h

/-- Modelled from the spec: `_executeUntil` (declared in EventHandler.h, body
missing), "while `nextTrigger <= target`", one pass over the primary slots in
the declared order CIAA, CIAB, DMA, COP, BLT, RAS, SEC.  The loop runs at most
`fuel` passes. -/
def _executeUntil (R : ServiceRoutines) (cycle : Int) (secFuel : Nat) :
    Nat → EventHandler → List Dispatch × EventHandler
  | 0, h => ([], h)
  | fuel + 1, h =>
    if h.nextTrigger ≤ cycle then
      let p := primaryPass R cycle secFuel (List.range EVENT_SLOT_COUNT) h
      let r := _executeUntil R cycle secFuel fuel p.2
      (p.1 ++ r.1, r.2)
    else ([], h)

/-- `EventHandler::executeUntil`: `if (cycle >= nextTrigger) _executeUntil(cycle);`,
with the dispatches made, first to last. -/
def executeUntil (R : ServiceRoutines) (fuel : Nat) (cycle : Int) (h : EventHandler) :
    List Dispatch × EventHandler :=
  if cycle ≥ h.nextTrigger then _executeUntil R cycle fuel fuel h else ([], h)

/-! ## Auxiliary definitions for the turbo DMA statements -/

/-- The `n` words that successive `readHead16` calls deliver from the drive state
`d` (each truncated to `uint16_t`), first call first, and the drive afterwards. -/
def headWords (ops : DriveOps D) : Nat → D → List Nat × D
  | 0, d => ([], d)
  | n + 1, d =>
    let r := ops.readHead16 d
    let rest := headWords ops n r.2
    (r.1 % 65536 :: rest.1, rest.2)

/-- Chip memory after the words `ws` have been stored with `pokeChip16` at the
addresses `a`, `INC_CHIP_PTR a`, ... -/
def pokeChipWords (env : Env) : Memory → Nat → List Nat → Memory
  | m, _, [] => m
  | m, a, w :: ws => pokeChipWords env (m.pokeChip16 a w) (env.INC_CHIP_PTR a) ws

/-- The `n` words that `peekChip16` reads at the addresses `a`, `INC_CHIP_PTR a`, ... -/
def peekChipWords (env : Env) (m : Memory) : Nat → Nat → List Nat
  | _, 0 => []
  | a, n + 1 => m.peekChip16 a :: peekChipWords env m (env.INC_CHIP_PTR a) n

/-! ## Auxiliary definitions for the bus arbitration statements -/

/-- A bus request: a `busIsFree<owner>` query or an `allocateBus<owner>` call. -/
inductive BusRequest
  | isFree (owner : BusOwner)
  | allocate (owner : BusOwner)
  deriving DecidableEq, Repr

/-- One bus request: the answer and Agnus afterwards. -/
def serveRequest (t : DmaconTests) (a : Agnus) : BusRequest → Bool × Agnus
  | .isFree owner => busIsFree t owner a
  | .allocate owner => allocateBus t owner a

/-- A sequence of bus requests served one after the other without the owner
vector being cleared in between: the answers, first request first, and Agnus
afterwards. -/
def serveRequests (t : DmaconTests) : List BusRequest → Agnus → List Bool × Agnus
  | [], a => ([], a)
  | r :: rs, a =>
    let x := serveRequest t a r
    let rest := serveRequests t rs x.2
    (x.1 :: rest.1, rest.2)

/-- The DMACON tests with the bits of the Amiga hardware: DMAEN = 0x200,
COPEN = 0x80, BLTEN = 0x40, BLTPRI = 0x400. -/
def dmaconBits : DmaconTests where
  copdma v := decide (v &&& 0x280 = 0x280)
  bltdma v := decide (v &&& 0x240 = 0x240)
  bltpri v := decide (v &&& 0x400 ≠ 0)

/-- Agnus for closed examples: position `h`, no bus owner anywhere, the given
DMACON value and BLS signal. -/
def agnus0 (h dmacon : Nat) (bls : Bool) : Agnus :=
  { posH := h, busOwner := fun _ => .BUS_NONE, dmacon := dmacon, bls := bls,
    bplDMA := fun _ _ _ => 0, dasDMA := fun _ _ => 0,
    bplEvent := fun _ => 0, dasEvent := fun _ => 0,
    nextBplEvent := fun _ => 0, nextDasEvent := fun _ => 0,
    ddfLores := ⟨0x38, 0xD8, 0x38, 0xD8⟩, ddfHires := ⟨0x3C, 0xDC, 0x3C, 0xDC⟩,
    scrollLoresOdd := 0, scrollLoresEven := 0, scrollHiresOdd := 0, scrollHiresEven := 0,
    bplpt := fun _ => 0, changes := [], failed := [],
    bplcon0 := 0, dmaconAtDDFStrt := 0, ddfstrtReached := 0, hsyncActions := 0, calls := [] }

/-! ## Auxiliary definitions for the bitplane table statements -/

/-- The id that the assignments `stmts` leave at offset `off`: that of the last
assignment to `off`, if there is one. -/
def written : List (Nat × Nat) → Nat → Option Nat
  | [], _ => none
  | w :: ws, off =>
    match written ws off with
    | some id => some id
    | none => if w.1 = off then some w.2 else none

/-- The lores plane fetched at offset `off` of a fetch unit:
7 -> 1, 3 -> 2, 5 -> 3, 1 -> 4, 6 -> 5, 2 -> 6; offsets 0 and 4 fetch nothing. -/
def loresPlane : Nat → Option Nat
  | 7 => some 1
  | 3 => some 2
  | 5 => some 3
  | 1 => some 4
  | 6 => some 5
  | 2 => some 6
  | _ => none

/-- The hires plane fetched at offset `off` of a fetch unit:
0, 4 -> 4; 2, 6 -> 3; 1, 5 -> 2; 3, 7 -> 1. -/
def hiresPlane : Nat → Option Nat
  | 0 => some 4
  | 4 => some 4
  | 2 => some 3
  | 6 => some 3
  | 1 => some 2
  | 5 => some 2
  | 3 => some 1
  | 7 => some 1
  | _ => none

/-- The lores fetch event of plane `k`. -/
def loresFetch (ids : BplEventIds) : Nat → Nat
  | 1 => ids.BPL_L1
  | 2 => ids.BPL_L2
  | 3 => ids.BPL_L3
  | 4 => ids.BPL_L4
  | 5 => ids.BPL_L5
  | 6 => ids.BPL_L6
  | _ => EVENT_NONE

/-- The hires fetch event of plane `k`. -/
def hiresFetch (ids : BplEventIds) : Nat → Nat
  | 1 => ids.BPL_H1
  | 2 => ids.BPL_H2
  | 3 => ids.BPL_H3
  | 4 => ids.BPL_H4
  | _ => EVENT_NONE

/-- The number of events other than `EVENT_NONE` in the fetch unit `u` (positions
`8 * u .. 8 * u + 7`) of the row `bplDMA[r][b]`. -/
def unitEvents (a : Agnus) (r b u : Nat) : Nat :=
  ((List.range 8).filter (fun off => decide (a.bplDMA r b (8 * u + off) ≠ EVENT_NONE))).length

/-- The number of positions in the fetch unit `u` of the row `bplDMA[r][b]` that
hold the event `id`. -/
def unitFetches (a : Agnus) (r b u id : Nat) : Nat :=
  ((List.range 8).filter (fun off => decide (a.bplDMA r b (8 * u + off) = id))).length

/-- Event ids for closed examples: `BPL_L1 .. BPL_L6` are 1 .. 6, `BPL_H1 .. BPL_H4`
are 7 .. 10, `BPL_EOL` is 11. -/
def ids0 : BplEventIds :=
  { BPL_L1 := 1, BPL_L2 := 2, BPL_L3 := 3, BPL_L4 := 4, BPL_L5 := 5, BPL_L6 := 6,
    BPL_H1 := 7, BPL_H2 := 8, BPL_H3 := 9, BPL_H4 := 10, BPL_EOL := 11 }

/-! ## Auxiliary definitions for the event handler statements -/

/-- The primary slots of a dispatch log, first dispatch first (the entries of the
secondary table are left out). -/
def primarySlots (log : List Dispatch) : List Nat :=
  (log.filter (fun d => d.primary)).map (fun d => d.slot)

/-- An empty slot: no event id, trigger cycle `NEVER`. -/
def noEvent : Event := ⟨NEVER, 0, 0⟩

/-- Service routines for closed examples: the routine of a CIA slot reschedules
its slot 40 master cycles later (`CIA_EXECUTE`), every other routine cancels its
own slot. -/
def exampleRoutines : ServiceRoutines where
  serve s e h :=
    { h with eventSlot := fun k =>
        if k = s then (if s ≤ 1 then ⟨e.triggerCycle + 40, e.id, e.data⟩ else noEvent)
        else h.eventSlot k }
  serveSec s _ h :=
    { h with secondarySlot := fun k => if k = s then noEvent else h.secondarySlot k }

/-- The tables with `CIA_EXECUTE` (id 1) in `CIAA_SLOT` and `BLT_EXECUTE` (id 2) in
`BLT_SLOT`, both at cycle 1000, and nothing else. -/
def exampleHandler : EventHandler where
  eventSlot k := if k = 0 then ⟨1000, 1, 0⟩ else if k = 4 then ⟨1000, 2, 0⟩ else noEvent
  nextTrigger := 1000
  secondarySlot _ := noEvent
  nextSecTrigger := NEVER

/-- The cursor `uint8_t *& buffer` together with the memory it points into:
`mem a` is the byte at address `a`, `ptr` the address held by the cursor. -/
structure Buffer where
  mem : Nat → Nat
  ptr : Nat

/-- The byte order of the host: it decides how a `uint16_t` or `uint32_t` lies in
memory and what `ntohs`, `ntohl`, `htons`, `htonl` do. -/
inductive ByteOrder
  | little
  | big
  deriving DecidableEq, Repr

/-- The load `*((uint16_t *)buffer)` at address `p` on a host of byte order `o`. -/
def load16 (o : ByteOrder) (mem : Nat → Nat) (p : Nat) : Nat :=
  match o with
  | .little => mem p % 256 + 256 * (mem (p + 1) % 256)
  | .big => 256 * (mem p % 256) + mem (p + 1) % 256

/-- The load `*((uint32_t *)buffer)` at address `p` on a host of byte order `o`. -/
def load32 (o : ByteOrder) (mem : Nat → Nat) (p : Nat) : Nat :=
  match o with
  | .little =>
    mem p % 256 + 256 * (mem (p + 1) % 256) + 65536 * (mem (p + 2) % 256) +
      16777216 * (mem (p + 3) % 256)
  | .big =>
    16777216 * (mem p % 256) + 65536 * (mem (p + 1) % 256) + 256 * (mem (p + 2) % 256) +
      mem (p + 3) % 256

/-- The store `*((uint16_t *)buffer) = x` at address `p` on a host of byte order `o`. -/
def store16 (o : ByteOrder) (mem : Nat → Nat) (p x : Nat) : Nat → Nat :=
  match o with
  | .little => fun a => if a = p then x % 256 else if a = p + 1 then x / 256 % 256 else mem a
  | .big => fun a => if a = p then x / 256 % 256 else if a = p + 1 then x % 256 else mem a

/-- The store `*((uint32_t *)buffer) = x` at address `p` on a host of byte order `o`. -/
def store32 (o : ByteOrder) (mem : Nat → Nat) (p x : Nat) : Nat → Nat :=
  match o with
  | .little => fun a =>
    if a = p then x % 256
    else if a = p + 1 then x / 256 % 256
    else if a = p + 2 then x / 65536 % 256
    else if a = p + 3 then x / 16777216 % 256
    else mem a
  | .big => fun a =>
    if a = p then x / 16777216 % 256
    else if a = p + 1 then x / 65536 % 256
    else if a = p + 2 then x / 256 % 256
    else if a = p + 3 then x % 256
    else mem a

/-- The library functions `ntohs` and `htons` on a host of byte order `o`: the
identity on a big-endian host, the byte swap of a `uint16_t` on a little-endian
host. -/
def ntohs (o : ByteOrder) (x : Nat) : Nat :=
  match o with
  | .little => x % 256 * 256 + x / 256 % 256
  | .big => x % 65536

/-- The library functions `ntohl` and `htonl` on a host of byte order `o`. -/
def ntohl (o : ByteOrder) (x : Nat) : Nat :=
  match o with
  | .little =>
    x % 256 * 16777216 + x / 256 % 256 * 65536 + x / 65536 % 256 * 256 + x / 16777216 % 256
  | .big => x % 4294967296

/-- `read8`. -/
def read8 (b : Buffer) : Nat × Buffer :=
  (b.mem b.ptr % 256, { b with ptr := b.ptr + 1 })

/-- `read16`. -/
def read16 (o : ByteOrder) (b : Buffer) : Nat × Buffer :=
  (ntohs o (load16 o b.mem b.ptr), { b with ptr := b.ptr + 2 })

/-- `read32`. -/
def read32 (o : ByteOrder) (b : Buffer) : Nat × Buffer :=
  (ntohl o (load32 o b.mem b.ptr), { b with ptr := b.ptr + 4 })

/-- `read64`. -/
def read64 (o : ByteOrder) (b : Buffer) : Nat × Buffer :=
  let hi := read32 o b
  let lo := read32 o hi.2
  (((hi.1 <<< 32) % 2 ^ 64) ||| lo.1, lo.2)

/-- `write8`; the parameter is a `uint8_t`. -/
def write8 (b : Buffer) (value : Nat) : Buffer :=
  { mem := fun a => if a = b.ptr then value % 256 else b.mem a, ptr := b.ptr + 1 }

/-- `write16`; the parameter is a `uint16_t`. -/
def write16 (o : ByteOrder) (b : Buffer) (value : Nat) : Buffer :=
  { mem := store16 o b.mem b.ptr (ntohs o (value % 65536)), ptr := b.ptr + 2 }

/-- `write32`; the parameter is a `uint32_t`. -/
def write32 (o : ByteOrder) (b : Buffer) (value : Nat) : Buffer :=
  { mem := store32 o b.mem b.ptr (ntohl o (value % 4294967296)), ptr := b.ptr + 4 }

/-- `write64`; the parameter is a `uint64_t`, each half is cast to `uint32_t`. -/
def write64 (o : ByteOrder) (b : Buffer) (value : Nat) : Buffer :=
  let b := write32 o b ((value % 2 ^ 64) >>> 32 % 4294967296)
  write32 o b (value % 2 ^ 64 % 4294967296)

/-- The widths of the serialized fields: the macros `SERIALIZE8/16/32/64` and
`DESERIALIZE8/16/32/64`. -/
inductive Width
  | w8
  | w16
  | w32
  | w64
  deriving DecidableEq, Repr

/-- The number of bytes of a field. -/
def Width.bytes : Width → Nat
  | .w8 => 1
  | .w16 => 2
  | .w32 => 4
  | .w64 => 8

/-- The write primitive for a field of width `w`: `write8`, `write16`, `write32`
or `write64`. -/
def writeN (o : ByteOrder) (w : Width) (b : Buffer) (v : Nat) : Buffer :=
  match w with
  | .w8 => write8 b v
  | .w16 => write16 o b v
  | .w32 => write32 o b v
  | .w64 => write64 o b v

/-- The read primitive for a field of width `w`: `read8`, `read16`, `read32` or
`read64`. -/
def readN (o : ByteOrder) (w : Width) (b : Buffer) : Nat × Buffer :=
  match w with
  | .w8 => read8 b
  | .w16 => read16 o b
  | .w32 => read32 o b
  | .w64 => read64 o b

/-- The types `type` of the overloads of `operator&`: the unsigned and the signed
integer types of each width (the enumerations are integer types of the width of
their macro), `bool`, `float` and `double`. -/
inductive FieldType
  | unsigned (w : Width)
  | signed (w : Width)
  | bool
  | float
  | double
  deriving DecidableEq, Repr

/-- The width of the macro that defines the overload of a field type:
`SERIALIZE8(const bool)`, `SERIALIZE32(const float)`, `SERIALIZE64(const double)`. -/
def FieldType.width : FieldType → Width
  | .unsigned w => w
  | .signed w => w
  | .bool => .w8
  | .float => .w32
  | .double => .w64

/-- A field `v` that is serialized: its type and its value.  `F32` and `F64` are the
values of the types `float` and `double`. -/
inductive Field (F32 F64 : Type)
  | unsigned (w : Width) (v : Nat)
  | signed (w : Width) (v : Int)
  | bool (v : Bool)
  | float (v : F32)
  | double (v : F64)
  deriving DecidableEq, Repr

/-- The type of a field. -/
def Field.type {F32 F64 : Type} : Field F32 F64 → FieldType
  | .unsigned w _ => .unsigned w
  | .signed w _ => .signed w
  | .bool _ => .bool
  | .float _ => .float
  | .double _ => .double

/-- The conversions of C++ between the floating-point types and the unsigned
integer types: `(uint32_t)v` for a `float` and `(uint64_t)v` for a `double`
discard the fractional part of the value, `(float)n` and `(double)n` give the
floating-point value of the integer `n`. -/
structure FloatCasts (F32 F64 : Type) where
  floatToU32 : F32 → Nat
  u32ToFloat : Nat → F32
  doubleToU64 : F64 → Nat
  u64ToDouble : Nat → F64

/-- The cast `(cast)v` of `SerWriter::operator&`, to `uint8_t`, `uint16_t`,
`uint32_t` or `uint64_t`: the value that is passed to the write primitive.  For
an integer it is the value modulo `2 ^ N`, for a `float` or `double` the
conversion of the value to the unsigned type. -/
def SerWriter.cast {F32 F64 : Type} (c : FloatCasts F32 F64) : Field F32 F64 → Nat
  | .unsigned w v => v % 2 ^ (8 * w.bytes)
  | .signed w v => (v % 2 ^ (8 * w.bytes)).toNat
  | .bool v => if v then 1 else 0
  | .float v => c.floatToU32 v % 2 ^ 32
  | .double v => c.doubleToU64 v % 2 ^ 64

/-- `SerWriter::operator&` for a field: `function(ptr, (cast)v)`. -/
def SerWriter.write {F32 F64 : Type} (o : ByteOrder) (c : FloatCasts F32 F64) (b : Buffer)
    (f : Field F32 F64) : Buffer :=
  writeN o f.type.width b (SerWriter.cast c f)

/-- The cast `(type)function(ptr)` of `SerReader::operator&`: the field value for
the `N`-bit value `n` that the read primitive returns.  A signed type takes the
value modulo `2 ^ N` in its range, `bool` is true for a value other than 0, and
a `float` or `double` is the conversion of the integer to the floating-point
type. -/
def SerReader.cast {F32 F64 : Type} (c : FloatCasts F32 F64) : FieldType → Nat → Field F32 F64
  | .unsigned w, n => .unsigned w (n % 2 ^ (8 * w.bytes))
  | .signed w, n =>
    .signed w (if n % 2 ^ (8 * w.bytes) < 2 ^ (8 * w.bytes - 1) then (n % 2 ^ (8 * w.bytes) : Nat)
      else (n % 2 ^ (8 * w.bytes) : Nat) - 2 ^ (8 * w.bytes))
  | .bool, n => .bool (decide (n ≠ 0))
  | .float, n => .float (c.u32ToFloat n)
  | .double, n => .double (c.u64ToDouble n)

/-- `SerReader::operator&` for a field of type `t`: `v = (type)function(ptr)`. -/
def SerReader.read {F32 F64 : Type} (o : ByteOrder) (c : FloatCasts F32 F64) (b : Buffer)
    (t : FieldType) : Field F32 F64 × Buffer :=
  let r := readN o t.width b
  (SerReader.cast c t r.1, r.2)

/-- The chain `writer & f1 & f2 & ...` over the fields. -/
def SerWriter.writeAll {F32 F64 : Type} (o : ByteOrder) (c : FloatCasts F32 F64) :
    Buffer → List (Field F32 F64) → Buffer
  | b, [] => b
  | b, f :: fs => SerWriter.writeAll o c (SerWriter.write o c b f) fs

/-- The chain `reader & f1 & f2 & ...` over fields of the given types: the values
read, in order, and the reader afterwards. -/
def SerReader.readAll {F32 F64 : Type} (o : ByteOrder) (c : FloatCasts F32 F64) :
    Buffer → List FieldType → List (Field F32 F64) × Buffer
  | b, [] => ([], b)
  | b, t :: ts =>
    let r := SerReader.read o c b t
    let rest := SerReader.readAll o c r.2 ts
    (r.1 :: rest.1, rest.2)

/-- The value of a field is a value of its type: an unsigned integer of `N` bits is
in `0 .. 2 ^ N - 1`, a signed one in `-2 ^ (N - 1) .. 2 ^ (N - 1) - 1`. -/
def Field.inRange {F32 F64 : Type} : Field F32 F64 → Prop
  | .unsigned w v => v < 2 ^ (8 * w.bytes)
  | .signed w v => -(2 ^ (8 * w.bytes - 1) : Int) ≤ v ∧ v < 2 ^ (8 * w.bytes - 1)
  | .bool _ => True
  | .float _ => True
  | .double _ => True

/-- The field is of an integer type or of type `bool`. -/
def Field.isIntegral {F32 F64 : Type} : Field F32 F64 → Prop
  | .float _ => False
  | .double _ => False
  | _ => True

/-- The field that a reader returns for the bytes that a writer has stored for the
field `f`. -/
def Field.restored {F32 F64 : Type} (c : FloatCasts F32 F64) (f : Field F32 F64) :
    Field F32 F64 :=
  SerReader.cast c f.type (SerWriter.cast c f)

/-- Floating-point values for closed examples, as rational numbers: the conversion
to an unsigned integer discards the fractional part of a non-negative value,
the conversion of an integer below `2 ^ 24` (`float`) or `2 ^ 53` (`double`) is
exact. -/
def ratCasts : FloatCasts ℚ ℚ where
  floatToU32 v := v.num.toNat / v.den
  u32ToFloat n := n
  doubleToU64 v := v.num.toNat / v.den
  u64ToDouble n := n

/-- Fields for closed examples: a `uint16_t`, a `float` of value 1/2, an `int` of
value -2, a `double` of value 5/2 and a `bool`. -/
def exampleFields : List (Field ℚ ℚ) :=
  [.unsigned .w16 0xABCD, .float (1 / 2), .signed .w32 (-2), .double (5 / 2), .bool true]

/-! ## DiskController: DSKBYTR -/

/-- Modelled from the spec: the macro `SET_BIT(x, nr)`, `x |= (1 << nr)` (its
definition is missing). -/
def SET_BIT (x nr : Nat) : Nat := x ||| (1 <<< nr)

/-- `DiskController::peekDSKBYTR`: the word returned and the machine afterwards.
`doDskDMA` is the value of `agnus.doDskDMA()`, whose definition is missing;
`incoming` holds a byte. -/
def peekDSKBYTR (doDskDMA : Bool) (s : Amiga D) : Nat × Amiga D :=
  let result := s.incoming % 65536
  let s1 := assertThat (decide (s.clock ≥ s.incomingCycle)) .clockAfterIncoming s
  let result := if s.clock - s.incomingCycle ≤ 7 then SET_BIT result 15 else result
  let result :=
    if (doDskDMA && s.state != .DRIVE_DMA_OFF) = true then SET_BIT result 14 else result
  let result := if s.dsklen &&& 0x4000 ≠ 0 then SET_BIT result 13 else result
  let result := if s.syncFlag = true then SET_BIT result 12 else result
  (result, s1)

/-! ## EventHandler: slot checks -/

/-- `isEventSlot`: `s <= EVENT_SLOT_COUNT` on an `int32_t`. -/
def isEventSlot (s : Int) : Bool := decide (s ≤ (EVENT_SLOT_COUNT : Int))

/-- `isSecondarySlot`: `s <= SEC_SLOT_COUNT` on an `int32_t`. -/
def isSecondarySlot (s : Int) : Bool := decide (s ≤ (SEC_SLOT_COUNT : Int))

/-- The read `eventSlot[s]` of the array `Event eventSlot[EVENT_SLOT_COUNT]`:
`none` when the index is outside the array. -/
def eventSlotAt (h : EventHandler) (s : Int) : Option Event :=
  if 0 ≤ s ∧ s < (EVENT_SLOT_COUNT : Int) then some (h.eventSlot s.toNat) else none

/-- The read `secondarySlot[s]` of the array `Event secondarySlot[SEC_SLOT_COUNT]`:
`none` when the index is outside the array. -/
def secondarySlotAt (h : EventHandler) (s : Int) : Option Event :=
  if 0 ≤ s ∧ s < (SEC_SLOT_COUNT : Int) then some (h.secondarySlot s.toNat) else none

/-- `EventHandler::hasEvent`: whether `assert(isEventSlot(s))` holds, and the result
`eventSlot[s].id != 0`, which is `none` when the read is outside the array. -/
def hasEvent (h : EventHandler) (s : Int) : Bool × Option Bool :=
  (isEventSlot s, (eventSlotAt h s).map (fun e => e.id != 0))

/-- `EventHandler::isPending`: whether `assert(isEventSlot(s))` holds, and the
result `eventSlot[s].triggerCycle != INT64_MAX`, which is `none` when the read is
outside the array. -/
def isPending (h : EventHandler) (s : Int) : Bool × Option Bool :=
  (isEventSlot s, (eventSlotAt h s).map (fun e => e.triggerCycle != NEVER))

/-! ## Agnus: the disk, audio and sprite lookup table -/

/-- Modelled from the spec: the DMACON bits `DSKEN` and `SPREN` (their declaration
is missing); the masks are parameters. -/
structure DmaconBits where
  DSKEN : Nat
  SPREN : Nat

/-- Modelled from the spec: the event ids of the DAS slot, enumerators of `EventID`
whose declaration is missing; their values are parameters. -/
structure DasEventIds where
  DAS_REFRESH : Nat
  DAS_D0 : Nat
  DAS_D1 : Nat
  DAS_D2 : Nat
  DAS_A0 : Nat
  DAS_A1 : Nat
  DAS_A2 : Nat
  DAS_A3 : Nat
  DAS_S0_1 : Nat
  DAS_S0_2 : Nat
  DAS_S1_1 : Nat
  DAS_S1_2 : Nat
  DAS_S2_1 : Nat
  DAS_S2_2 : Nat
  DAS_S3_1 : Nat
  DAS_S3_2 : Nat
  DAS_S4_1 : Nat
  DAS_S4_2 : Nat
  DAS_S5_1 : Nat
  DAS_S5_2 : Nat
  DAS_S6_1 : Nat
  DAS_S6_2 : Nat
  DAS_S7_1 : Nat
  DAS_S7_2 : Nat
  DAS_SDMA : Nat

/-- The assignment `dasDMA[dmacon][h] = id`. -/
def pokeDasDMA (a : Agnus) (dmacon h id : Nat) : Agnus :=
  { a with dasDMA := fun d2 h2 => if d2 = dmacon ∧ h2 = h then id else a.dasDMA d2 h2 }

/-- The assignments `p[h] = id` that one pass of the loop of `initDasEventTable`
executes for `dmacon`, in order, as pairs `(h, id)`. -/
def dasStmts (bits : DmaconBits) (ids : DasEventIds) (dmacon : Nat) : List (Nat × Nat) :=
  [(0x01, ids.DAS_REFRESH)] ++
  (if dmacon &&& bits.DSKEN ≠ 0 then
    [(0x07, ids.DAS_D0), (0x09, ids.DAS_D1), (0x0B, ids.DAS_D2)]
   else []) ++
  [(0x0D, ids.DAS_A0), (0x0F, ids.DAS_A1), (0x11, ids.DAS_A2), (0x13, ids.DAS_A3)] ++
  (if dmacon &&& bits.SPREN ≠ 0 then
    [(0x15, ids.DAS_S0_1), (0x17, ids.DAS_S0_2), (0x19, ids.DAS_S1_1), (0x1B, ids.DAS_S1_2),
     (0x1D, ids.DAS_S2_1), (0x1F, ids.DAS_S2_2), (0x21, ids.DAS_S3_1), (0x23, ids.DAS_S3_2),
     (0x25, ids.DAS_S4_1), (0x27, ids.DAS_S4_2), (0x29, ids.DAS_S5_1), (0x2B, ids.DAS_S5_2),
     (0x2D, ids.DAS_S6_1), (0x2F, ids.DAS_S6_2), (0x31, ids.DAS_S7_1), (0x33, ids.DAS_S7_2)]
   else []) ++
  [(0xDF, ids.DAS_SDMA)]

/-- The body of the loop `for (int dmacon = 0; dmacon < 64; dmacon++)` with
`p = dasDMA[dmacon]`. -/
def dasRow (bits : DmaconBits) (ids : DasEventIds) (dmacon : Nat) (a : Agnus) : Agnus :=
  (dasStmts bits ids dmacon).foldl (fun a w => pokeDasDMA a dmacon w.1 w.2) a

/-- `Agnus::initDasEventTable`: `memset(dasDMA, 0, sizeof(dasDMA))`, then the loop. -/
def initDasEventTable (bits : DmaconBits) (ids : DasEventIds) (a : Agnus) : Agnus :=
  let a := { a with dasDMA := fun _ _ => 0 }
  (List.range 64).foldl (fun a dmacon => dasRow bits ids dmacon a) a

/-! ## Auxiliary definitions for the serialization statements -/

/-- The `n` bytes of `v`, most significant first. -/
def bytesBE : Nat → Nat → List Nat
  | 0, _ => []
  | n + 1, v => v / 256 ^ n % 256 :: bytesBE n v

/-- The `n` bytes of the memory at the addresses `p`, `p + 1`, ... -/
def bytesAt (mem : Nat → Nat) (p : Nat) : Nat → List Nat
  | 0 => []
  | n + 1 => mem p :: bytesAt mem (p + 1) n

/-- The value of a list of bytes read most significant first. -/
def fromBE (bs : List Nat) : Nat :=
  bs.foldl (fun acc x => acc * 256 + x % 256) 0

/-! ## Auxiliary definitions for the DAS table statements -/

/-- The sprite events in table order: `DAS_S0_1`, `DAS_S0_2`, ..., `DAS_S7_2`. -/
def spriteEvent (ids : DasEventIds) : Nat → Nat
  | 0 => ids.DAS_S0_1
  | 1 => ids.DAS_S0_2
  | 2 => ids.DAS_S1_1
  | 3 => ids.DAS_S1_2
  | 4 => ids.DAS_S2_1
  | 5 => ids.DAS_S2_2
  | 6 => ids.DAS_S3_1
  | 7 => ids.DAS_S3_2
  | 8 => ids.DAS_S4_1
  | 9 => ids.DAS_S4_2
  | 10 => ids.DAS_S5_1
  | 11 => ids.DAS_S5_2
  | 12 => ids.DAS_S6_1
  | 13 => ids.DAS_S6_2
  | 14 => ids.DAS_S7_1
  | 15 => ids.DAS_S7_2
  | _ => EVENT_NONE

/-- The row of the DAS table for a DMACON value with the given DSKEN and SPREN
bits: refresh at 0x01, the disk words at 0x07, 0x09, 0x0B if `dsken`, the audio
channels at 0x0D, 0x0F, 0x11, 0x13, the sprite events at the odd positions
0x15 .. 0x33 if `spren`, `DAS_SDMA` at 0xDF, `EVENT_NONE` elsewhere. -/
def dasPattern (ids : DasEventIds) (dsken spren : Bool) (h : Nat) : Nat :=
  if h = 0x01 then ids.DAS_REFRESH
  else if h = 0x07 then (if dsken then ids.DAS_D0 else EVENT_NONE)
  else if h = 0x09 then (if dsken then ids.DAS_D1 else EVENT_NONE)
  else if h = 0x0B then (if dsken then ids.DAS_D2 else EVENT_NONE)
  else if h = 0x0D then ids.DAS_A0
  else if h = 0x0F then ids.DAS_A1
  else if h = 0x11 then ids.DAS_A2
  else if h = 0x13 then ids.DAS_A3
  else if 0x15 ≤ h ∧ h ≤ 0x33 ∧ h % 2 = 1 then
    (if spren then spriteEvent ids ((h - 0x15) / 2) else EVENT_NONE)
  else if h = 0xDF then ids.DAS_SDMA
  else EVENT_NONE

/-- DAS event ids for closed examples: 1 .. 25 in the order of the structure. -/
def dasIds0 : DasEventIds :=
  { DAS_REFRESH := 1, DAS_D0 := 2, DAS_D1 := 3, DAS_D2 := 4, DAS_A0 := 5, DAS_A1 := 6,
    DAS_A2 := 7, DAS_A3 := 8, DAS_S0_1 := 9, DAS_S0_2 := 10, DAS_S1_1 := 11, DAS_S1_2 := 12,
    DAS_S2_1 := 13, DAS_S2_2 := 14, DAS_S3_1 := 15, DAS_S3_2 := 16, DAS_S4_1 := 17,
    DAS_S4_2 := 18, DAS_S5_1 := 19, DAS_S5_2 := 20, DAS_S6_1 := 21, DAS_S6_2 := 22,
    DAS_S7_1 := 23, DAS_S7_2 := 24, DAS_SDMA := 25 }

/-- The DMACON bits of the Amiga hardware: DSKEN = 0x10, SPREN = 0x20. -/
def dmaconBits0 : DmaconBits := { DSKEN := 0x10, SPREN := 0x20 }

/-! ## Agnus: bitplane pointer registers -/

/-- Modelled from the spec: the functions and constants of Agnus and Denise that
the bitplane event functions call and whose definitions are missing: `bpu`,
`Denise::hires`, `inBplDmaLine`, the four `in..DmaArea..` tests, `isBplxEvent`
and the event id `BPL_SR`.  The tests that are member functions take the Agnus
they are called on. -/
structure BplOps where
  bpu : Nat → Nat
  hires : Nat → Bool
  inBplDmaLine : Agnus → Nat → Nat → Bool
  inHiresDmaAreaOdd : Agnus → Nat → Bool
  inHiresDmaAreaEven : Agnus → Nat → Bool
  inLoresDmaAreaOdd : Agnus → Nat → Bool
  inLoresDmaAreaEven : Agnus → Nat → Bool
  isBplxEvent : Nat → Nat → Bool
  BPL_SR : Nat

/-- Modelled from the spec: `recordRegisterChange(delay, addr, value)` (the change
recorder is missing): the call is appended to the recorded changes. -/
def recordRegisterChange (a : Agnus) (delay : Nat) (addr : RegId) (value : Nat) : Agnus :=
  { a with changes := a.changes ++ [⟨delay, addr, value⟩] }

/-- `Agnus::skipBPLxPT`. -/
def skipBPLxPT (ops : BplOps) (x : Nat) (a : Agnus) : Bool :=
  if ops.isBplxEvent (a.bplEvent (a.posH + 1)) x = true then
    if a.bplEvent (a.posH + 2) = EVENT_NONE then true else false
  else false

/-- `Agnus::pokeBPLxPTH<x>`; the template parameter is the argument `x`, `value` is
a `u16`. -/
def pokeBPLxPTH (ops : BplOps) (x value : Nat) (a : Agnus) : Agnus :=
  if skipBPLxPT ops x a = true then a
  else
    match x with
    | 1 => recordRegisterChange a (DMA_CYCLES 2) .REG_BPL1PTH value
    | 2 => recordRegisterChange a (DMA_CYCLES 2) .REG_BPL2PTH value
    | 3 => recordRegisterChange a (DMA_CYCLES 2) .REG_BPL3PTH value
    | 4 => recordRegisterChange a (DMA_CYCLES 2) .REG_BPL4PTH value
    | 5 => recordRegisterChange a (DMA_CYCLES 2) .REG_BPL5PTH value
    | 6 => recordRegisterChange a (DMA_CYCLES 2) .REG_BPL6PTH value
    | _ => a

/-- `Agnus::pokeBPLxPTL<x>`; the template parameter is the argument `x`, `value` is
a `u16`. -/
def pokeBPLxPTL (ops : BplOps) (x value : Nat) (a : Agnus) : Agnus :=
  if skipBPLxPT ops x a = true then a
  else
    match x with
    | 1 => recordRegisterChange a (DMA_CYCLES 2) .REG_BPL1PTL value
    | 2 => recordRegisterChange a (DMA_CYCLES 2) .REG_BPL2PTL value
    | 3 => recordRegisterChange a (DMA_CYCLES 2) .REG_BPL3PTL value
    | 4 => recordRegisterChange a (DMA_CYCLES 2) .REG_BPL4PTL value
    | 5 => recordRegisterChange a (DMA_CYCLES 2) .REG_BPL5PTL value
    | 6 => recordRegisterChange a (DMA_CYCLES 2) .REG_BPL6PTL value
    | _ => a

/-! ## Agnus: the jump tables -/

/-- The loop `for (int i = end; i >= 0; i--) { next..Event[i] = next; if (..Event[i])
next = i; }` of `updateBplJumpTable` and `updateDasJumpTable`, from position `i`
downwards, on the event table `ev` and the jump table `tbl`; `next` is a `u8`. -/
def jumpLoop (ev : Nat → Nat) : Nat → Nat → (Nat → Nat) → (Nat → Nat)
  | 0, next, tbl => fun h => if h = 0 then next else tbl h
  | i + 1, next, tbl =>
    jumpLoop ev i (if ev (i + 1) ≠ 0 then (i + 1) % 256 else next)
      (fun h => if h = i + 1 then next else tbl h)

/-- `Agnus::updateBplJumpTable(end)`; `endPos` is the argument `end`, a position. -/
def updateBplJumpTable (endPos : Nat) (a : Agnus) : Agnus :=
  let a := if endPos ≤ HPOS_MAX then a else { a with failed := .bplJumpEndInLine :: a.failed }
  { a with nextBplEvent :=
      jumpLoop a.bplEvent endPos (a.nextBplEvent endPos % 256) a.nextBplEvent }

/-- `Agnus::updateDasJumpTable(end)`; `endPos` is the argument `end`, a position. -/
def updateDasJumpTable (endPos : Nat) (a : Agnus) : Agnus :=
  let a := if endPos ≤ HPOS_MAX then a else { a with failed := .dasJumpEndInLine :: a.failed }
  { a with nextDasEvent :=
      jumpLoop a.dasEvent endPos (a.nextDasEvent endPos % 256) a.nextDasEvent }

/-! ## Agnus: the bitplane event table of a line -/

/-- The assignment `bplEvent[i] = id`. -/
def pokeBplEvent (a : Agnus) (i id : Nat) : Agnus :=
  { a with bplEvent := fun h => if h = i then id else a.bplEvent h }

/-- The loop `for (int i = first; i <= last; i++) bplEvent[i] = odd(i) ?
bplDMA[r][channels][i] : even(i) ? bplDMA[r][channels][i] : EVENT_NONE` of
`updateBplEvents`; `odd` and `even` are the two tests of the DMA area. -/
def allocateSlots (odd even : Agnus → Nat → Bool) (r channels first last : Nat)
    (a : Agnus) : Agnus :=
  (List.range' first (last + 1 - first)).foldl
    (fun a i => pokeBplEvent a i
      (if odd a i = true then a.bplDMA r channels i
       else if even a i = true then a.bplDMA r channels i
       else EVENT_NONE)) a

/-- The loop `for (int i = lo; i < hi; i++) if ((i & mask) == mask && bplEvent[i] ==
EVENT_NONE) bplEvent[i] = BPL_SR` of `updateBplEvents`. -/
def addShiftRegEvents (ops : BplOps) (mask lo hi : Nat) (a : Agnus) : Agnus :=
  (List.range' lo (hi - lo)).foldl
    (fun a i =>
      if i &&& mask = mask ∧ a.bplEvent i = EVENT_NONE then pokeBplEvent a i ops.BPL_SR
      else a) a

/-- The part of `Agnus::updateBplEvents(dmacon, bplcon0, first, last)` before the
call of `updateDrawingFlags`: the slots are allocated, the shift register events
are added and `bplEvent[HPOS_MAX]` is set.  `first` is a position, so that the
half `first >= 0` of the assertion holds. -/
def updateBplEventsSlots (ops : BplOps) (ids : BplEventIds) (dmacon bplcon0 first last : Nat)
    (a : Agnus) : Agnus :=
  let a := if last < HPOS_CNT then a else { a with failed := .bplRangeInLine :: a.failed }
  let channels := ops.bpu bplcon0
  let hires := ops.hires bplcon0
  let channels := if ops.inBplDmaLine a dmacon bplcon0 = true then channels else 0
  let a := if channels ≤ 6 then a else { a with failed := .channelsBelow7 :: a.failed }
  let a :=
    if hires = true then
      let a := allocateSlots ops.inHiresDmaAreaOdd ops.inHiresDmaAreaEven 1 channels first last a
      let a := addShiftRegEvents ops 3 a.ddfHires.strtEven a.ddfHires.strtOdd a
      addShiftRegEvents ops 3 a.ddfHires.stopOdd a.ddfHires.stopEven a
    else
      let a := allocateSlots ops.inLoresDmaAreaOdd ops.inLoresDmaAreaEven 0 channels first last a
      let a := addShiftRegEvents ops 7 a.ddfLores.strtEven a.ddfLores.strtOdd a
      addShiftRegEvents ops 7 a.ddfLores.stopOdd a.ddfLores.stopEven a
  pokeBplEvent a HPOS_MAX ids.BPL_EOL

/-- The loop `for (int i = scroll; i < HPOS_CNT; i += stride) bplEvent[i] =
(EventID)(bplEvent[i] | flag)` of `updateDrawingFlags`, from position `i` on, for
at most `fuel` rounds (`HPOS_CNT` rounds are enough for any start). -/
def drawingFlagLoop (stride flag : Nat) : Nat → Nat → Agnus → Agnus
  | 0, _, a => a
  | fuel + 1, i, a =>
    if i < HPOS_CNT then
      drawingFlagLoop stride flag fuel (i + stride) (pokeBplEvent a i (a.bplEvent i ||| flag))
    else a

/-- Modelled from the spec: the default argument of `updateBplJumpTable`, which is
declared in the missing header of Agnus; the jump table is recomputed for the
whole line, from `HPOS_MAX` down. -/
def updateBplJumpTableDefaultEnd : Nat := HPOS_MAX

/-- `Agnus::updateDrawingFlags(hires)`.  The second and the fourth assertion both
test `scrollHiresOdd`. -/
def updateDrawingFlags (hires : Bool) (a : Agnus) : Agnus :=
  let a := if a.scrollHiresEven < 8 then a
    else { a with failed := .scrollHiresEvenBelow8 :: a.failed }
  let a := if a.scrollHiresOdd < 8 then a
    else { a with failed := .scrollHiresOddBelow8 :: a.failed }
  let a := if a.scrollLoresEven < 8 then a
    else { a with failed := .scrollLoresEvenBelow8 :: a.failed }
  let a := if a.scrollHiresOdd < 8 then a
    else { a with failed := .scrollHiresOddBelow8b :: a.failed }
  let a :=
    if hires = true then
      let a := drawingFlagLoop 4 1 HPOS_CNT a.scrollHiresOdd a
      drawingFlagLoop 4 2 HPOS_CNT a.scrollHiresEven a
    else
      let a := drawingFlagLoop 8 1 HPOS_CNT a.scrollLoresOdd a
      drawingFlagLoop 8 2 HPOS_CNT a.scrollLoresEven a
  updateBplJumpTable updateBplJumpTableDefaultEnd a

/-- `Agnus::verifyBplEvents`. -/
def verifyBplEvents (ids : BplEventIds) (a : Agnus) : Agnus :=
  let a := if a.bplEvent HPOS_MAX &&& 0b11111100 = ids.BPL_EOL then a
    else { a with failed := .bplEndsWithEol :: a.failed }
  if a.nextBplEvent HPOS_MAX = 0 then a
  else { a with failed := .nextBplAtEndZero :: a.failed }

/-- `Agnus::updateBplEvents(dmacon, bplcon0, first, last)`. -/
def updateBplEvents (ops : BplOps) (ids : BplEventIds) (dmacon bplcon0 first last : Nat)
    (a : Agnus) : Agnus :=
  verifyBplEvents ids
    (updateDrawingFlags (ops.hires bplcon0)
      (updateBplEventsSlots ops ids dmacon bplcon0 first last a))

/-! ## Auxiliary definitions for the bitplane pointer statements -/

/-- The register `REG_BPLxPTH` of plane `x`. -/
def regBPLxPTH : Nat → RegId
  | 1 => .REG_BPL1PTH
  | 2 => .REG_BPL2PTH
  | 3 => .REG_BPL3PTH
  | 4 => .REG_BPL4PTH
  | 5 => .REG_BPL5PTH
  | _ => .REG_BPL6PTH

/-- The register `REG_BPLxPTL` of plane `x`. -/
def regBPLxPTL : Nat → RegId
  | 1 => .REG_BPL1PTL
  | 2 => .REG_BPL2PTL
  | 3 => .REG_BPL3PTL
  | 4 => .REG_BPL4PTL
  | 5 => .REG_BPL5PTL
  | _ => .REG_BPL6PTL

/-- Bitplane operations for closed examples: two bitplanes in lores, every line a
DMA line, the DMA area 0x38 .. 0xD7 for both kinds of planes, fetch events as in
`ids0` (`BPL_L1 .. BPL_L6` are 1 .. 6, `BPL_H1 .. BPL_H4` are 7 .. 10), `BPL_SR`
is 12. -/
def bplOps0 : BplOps where
  bpu _ := 2
  hires _ := false
  inBplDmaLine _ _ _ := true
  inHiresDmaAreaOdd _ i := decide (0x38 ≤ i ∧ i < 0xD8)
  inHiresDmaAreaEven _ i := decide (0x38 ≤ i ∧ i < 0xD8)
  inLoresDmaAreaOdd _ i := decide (0x38 ≤ i ∧ i < 0xD8)
  inLoresDmaAreaEven _ i := decide (0x38 ≤ i ∧ i < 0xD8)
  isBplxEvent id x := decide (1 ≤ x ∧ x ≤ 6 ∧ id = x) || decide (1 ≤ x ∧ x ≤ 4 ∧ id = x + 6)
  BPL_SR := 12

/-! ## Auxiliary definitions for the jump table statements -/

/-- The first of the `n` positions `s`, `s + 1`, ... that holds an event. -/
def firstEventFrom (ev : Nat → Nat) : Nat → Nat → Option Nat
  | 0, _ => none
  | n + 1, s => if ev s ≠ 0 then some s else firstEventFrom ev n (s + 1)

/-- Position `j` is the smallest position above `i`, and not above `endPos`, that
holds an event. -/
def IsNextEvent (ev : Nat → Nat) (endPos i j : Nat) : Prop :=
  i < j ∧ j ≤ endPos ∧ ev j ≠ 0 ∧ ∀ m, i < m → m < j → ev m = 0

/-- The positions that the jump table `next` visits from position `i` on, until it
reaches 0 (at most `fuel` of them). -/
def jumpChain (next : Nat → Nat) : Nat → Nat → List Nat
  | 0, _ => []
  | fuel + 1, i => if i = 0 then [] else i :: jumpChain next fuel (next i)

/-! ## Auxiliary definitions for the statements on the event table of a line -/

/-- Bitplane event ids with the two low bits clear, for closed examples: the ids
are the multiples of 4 from 4 (`BPL_L1`) to 44 (`BPL_EOL`). -/
def ids4 : BplEventIds :=
  { BPL_L1 := 4, BPL_L2 := 8, BPL_L3 := 12, BPL_L4 := 16, BPL_L5 := 20, BPL_L6 := 24,
    BPL_H1 := 28, BPL_H2 := 32, BPL_H3 := 36, BPL_H4 := 40, BPL_EOL := 44 }

/-- Bitplane operations for closed examples with the ids `ids4`: as `bplOps0`,
with `BPL_SR` 48. -/
def bplOps4 : BplOps :=
  { bplOps0 with
    isBplxEvent := fun id x =>
      decide (1 ≤ x ∧ x ≤ 6 ∧ id = 4 * x) || decide (1 ≤ x ∧ x ≤ 4 ∧ id = 4 * x + 24)
    BPL_SR := 48 }

/-- An Agnus for closed examples: both bitplane tables are initialised with the
ids `ids4`, the odd planes are scrolled by `scrollOdd` and the even planes by
`scrollEven`, in both resolutions. -/
def agnus4 (scrollOdd scrollEven : Nat) : Agnus :=
  { initBplEventTableHires ids4 (initBplEventTableLores ids4 (agnus0 0 0 false)) with
    scrollLoresOdd := scrollOdd, scrollLoresEven := scrollEven,
    scrollHiresOdd := scrollOdd, scrollHiresEven := scrollEven }

/-- Agnus `b` differs from Agnus `a` in the bitplane event table of the line and in
the list of failed assertions only. -/
def SameLine (a b : Agnus) : Prop :=
  b = { a with bplEvent := b.bplEvent, failed := b.failed }

/-- The drawing flag `flag` at position `h`, if `h` is one of the positions `scroll`,
`scroll + stride`, `scroll + 2 * stride`, ... below `HPOS_CNT`, and 0 otherwise. -/
def flagAt (stride scroll flag h : Nat) : Nat :=
  if scroll ≤ h ∧ h < HPOS_CNT ∧ (h - scroll) % stride = 0 then flag else 0

/-! ## Agnus: the bitplane event table as an array -/

/-- Modelled from the spec: the read `bplEvent[i]` of the array `bplEvent`, which
has `HPOS_CNT` entries (its declaration is missing; the functions that fill the
table stop at `HPOS_CNT`): `none` for an index outside the array. -/
def bplEventAt (a : Agnus) (i : Nat) : Option Nat :=
  if i < HPOS_CNT then some (a.bplEvent i) else none

/-- `Agnus::skipBPLxPT` with the reads of `bplEvent` checked against the length of
the array: `none` when a read leaves the array. -/
def skipBPLxPTChecked (ops : BplOps) (x : Nat) (a : Agnus) : Option Bool :=
  match bplEventAt a (a.posH + 1) with
  | none => none
  | some e1 =>
    if ops.isBplxEvent e1 x = true then
      match bplEventAt a (a.posH + 2) with
      | none => none
      | some e2 => if e2 = EVENT_NONE then some true else some false
    else some false

/-! ## Agnus: DMACON -/

/-- Modelled from the spec: the constants and the test that `setDMACON` uses and
whose definitions are missing: the DMACON masks `DMAEN`, `BPLEN`, `COPEN`, `BLTEN`,
`SPREN`, `DSKEN` and `AUD0EN` .. `AUD3EN`, the bits `HSYNC_UPDATE_BPL_TABLE` and
`HSYNC_UPDATE_DAS_TABLE` of `hsyncActions`, and the test `bpldma`. -/
structure DmaconEnv where
  DMAEN : Nat
  BPLEN : Nat
  COPEN : Nat
  BLTEN : Nat
  SPREN : Nat
  DSKEN : Nat
  AUD0EN : Nat
  AUD1EN : Nat
  AUD2EN : Nat
  AUD3EN : Nat
  HSYNC_UPDATE_BPL_TABLE : Nat
  HSYNC_UPDATE_DAS_TABLE : Nat
  bpldma : Nat → Bool

/-- The operand `~value` of `setDMACON`: `value` is promoted to a 32-bit `int`
before it is complemented. -/
def bitNot (value : Nat) : Nat := 0xFFFFFFFF ^^^ value

/-- A call of a function whose code is missing, recorded. -/
def recordCall (a : Agnus) (c : AgnusCall) : Agnus :=
  { a with calls := a.calls ++ [c] }

/-- The assignment `dasEvent[i] = id`. -/
def pokeDasEvent (a : Agnus) (i id : Nat) : Agnus :=
  { a with dasEvent := fun h => if h = i then id else a.dasEvent h }

/-- Modelled from the spec: the default argument `last` of `updateBplEvents`, which
is declared in the missing header of Agnus; the line is patched from `first`
forward, up to `HPOS_MAX`. -/
def updateBplEventsDefaultLast : Nat := HPOS_MAX

/-- Modelled from the spec: the default argument of `updateDasJumpTable`, which is
declared in the missing header of Agnus; the jump table is recomputed for the
whole line, from `HPOS_MAX` down. -/
def updateDasJumpTableDefaultEnd : Nat := HPOS_MAX

/-- The statements `newXEN ? channelX.enableDMA() : channelX.disableDMA()` of
`setDMACON`, executed when the enable bit of audio channel `ch` toggles. -/
def toggleAudioDMA (ch : Nat) (oldEN newEN : Bool) (a : Agnus) : Agnus :=
  if (oldEN != newEN) = true then
    if newEN = true then recordCall a (.audioEnableDMA ch) else recordCall a (.audioDisableDMA ch)
  else a

/-- The block `// Bitplane DMA` of `setDMACON`, executed when the enable bit of the
bitplanes toggles. -/
def dmaconBitplaneBlock (env : DmaconEnv) (ops : BplOps) (ids : BplEventIds)
    (oldValue newValue : Nat) (toggleBPLEN newBPLEN : Bool) (a : Agnus) : Agnus :=
  if toggleBPLEN = true then
    let a := { a with hsyncActions := a.hsyncActions ||| env.HSYNC_UPDATE_BPL_TABLE }
    let a :=
      if newBPLEN = true then
        if (a.posH : Int) + 2 < a.ddfstrtReached ∨ env.bpldma a.dmaconAtDDFStrt = true then
          recordCall
            (updateBplEvents ops ids newValue a.bplcon0 (a.posH + 2)
              updateBplEventsDefaultLast a) .updateBplEvent
        else a
      else
        recordCall
          (updateBplEvents ops ids newValue a.bplcon0 (a.posH + 2)
            updateBplEventsDefaultLast a) .updateBplEvent
    recordCall a (.denisePokeDMACON oldValue newValue)
  else a

/-- The block `// Disk DMA and sprite DMA` of `setDMACON`, executed when the enable
bit of the disk or of the sprites toggles. -/
def dmaconDasBlock (env : DmaconEnv) (newValue : Nat) (newDMAEN toggleDSKEN toggleSPREN : Bool)
    (a : Agnus) : Agnus :=
  if (toggleDSKEN || toggleSPREN) = true then
    let newDAS := if newDMAEN = true then newValue &&& 0x3F else 0
    let a := { a with hsyncActions := a.hsyncActions ||| env.HSYNC_UPDATE_DAS_TABLE }
    let a := (List.range' a.posH (HPOS_CNT - a.posH)).foldl
      (fun a i => pokeDasEvent a i (a.dasDMA newDAS i)) a
    let a := updateDasJumpTable updateDasJumpTableDefaultEnd a
    recordCall a (.scheduleDasEventForCycle a.posH)
  else a

/-- The block `// Copper DMA` of `setDMACON`. -/
def dmaconCopperBlock (toggleCOPEN newCOPEN : Bool) (a : Agnus) : Agnus :=
  if toggleCOPEN = true then
    if newCOPEN = true then recordCall a .copperActiveInThisFrame else a
  else a

/-- `Agnus::setDMACON(oldValue, value)`; both arguments are `u16`.  The enable bits
of the Blitter are only used for a debug message and are left out. -/
def setDMACON (env : DmaconEnv) (ops : BplOps) (ids : BplEventIds) (oldValue value : Nat)
    (a : Agnus) : Agnus :=
  let newValue :=
    if value &&& 0x8000 ≠ 0 then (a.dmacon ||| value) &&& 0x07FF
    else (a.dmacon &&& bitNot value) &&& 0x07FF
  if oldValue = newValue then a
  else
    let a := { a with dmacon := newValue }
    let a :=
      if (a.posH : Int) + 2 < a.ddfstrtReached then { a with dmaconAtDDFStrt := newValue } else a
    let oldDMAEN := decide (oldValue &&& env.DMAEN ≠ 0)
    let oldBPLEN := decide (oldValue &&& env.BPLEN ≠ 0) && oldDMAEN
    let oldCOPEN := decide (oldValue &&& env.COPEN ≠ 0) && oldDMAEN
    let oldSPREN := decide (oldValue &&& env.SPREN ≠ 0) && oldDMAEN
    let oldDSKEN := decide (oldValue &&& env.DSKEN ≠ 0) && oldDMAEN
    let oldAUD0EN := decide (oldValue &&& env.AUD0EN ≠ 0) && oldDMAEN
    let oldAUD1EN := decide (oldValue &&& env.AUD1EN ≠ 0) && oldDMAEN
    let oldAUD2EN := decide (oldValue &&& env.AUD2EN ≠ 0) && oldDMAEN
    let oldAUD3EN := decide (oldValue &&& env.AUD3EN ≠ 0) && oldDMAEN
    let newDMAEN := decide (newValue &&& env.DMAEN ≠ 0)
    let newBPLEN := decide (newValue &&& env.BPLEN ≠ 0) && newDMAEN
    let newCOPEN := decide (newValue &&& env.COPEN ≠ 0) && newDMAEN
    let newSPREN := decide (newValue &&& env.SPREN ≠ 0) && newDMAEN
    let newDSKEN := decide (newValue &&& env.DSKEN ≠ 0) && newDMAEN
    let newAUD0EN := decide (newValue &&& env.AUD0EN ≠ 0) && newDMAEN
    let newAUD1EN := decide (newValue &&& env.AUD1EN ≠ 0) && newDMAEN
    let newAUD2EN := decide (newValue &&& env.AUD2EN ≠ 0) && newDMAEN
    let newAUD3EN := decide (newValue &&& env.AUD3EN ≠ 0) && newDMAEN
    let toggleBPLEN := oldBPLEN != newBPLEN
    let toggleCOPEN := oldCOPEN != newCOPEN
    let toggleSPREN := oldSPREN != newSPREN
    let toggleDSKEN := oldDSKEN != newDSKEN
    let a := recordCall a (.blitterPokeDMACON oldValue newValue)
    let a := dmaconBitplaneBlock env ops ids oldValue newValue toggleBPLEN newBPLEN a
    let a := dmaconDasBlock env newValue newDMAEN toggleDSKEN toggleSPREN a
    let a := dmaconCopperBlock toggleCOPEN newCOPEN a
    let a := toggleAudioDMA 0 oldAUD0EN newAUD0EN a
    let a := toggleAudioDMA 1 oldAUD1EN newAUD1EN a
    let a := toggleAudioDMA 2 oldAUD2EN newAUD2EN a
    toggleAudioDMA 3 oldAUD3EN newAUD3EN a

/-- `Agnus::peekDMACONR`; `isBusy` and `isZero` are the results of
`blitter.isBusy()` and `blitter.isZero()`, whose code is missing. -/
def peekDMACONR (isBusy isZero : Bool) (a : Agnus) : Nat × Agnus :=
  let result := a.dmacon
  let a :=
    if result &&& ((1 <<< 14) ||| (1 <<< 13)) = 0 then a
    else { a with failed := .dmaconrBitsClear :: a.failed }
  let result := if isBusy = true then result ||| (1 <<< 14) else result
  let result := if isZero = true then result ||| (1 <<< 13) else result
  (result, a)

/-! ## DiskController: changing disks -/

/-- Modelled from the spec: the members of the class Drive that a disk change
calls (Drive.h and Drive.cpp are missing), over the drive state `D` and the disks
`K`.  A pointer to a disk is an `Option K`, `none` for NULL. -/
structure DiskOps (D K : Type) where
  hasDisk : D → Bool
  ejectDisk : D → D
  insertDisk : D → Option K → D

/-- Modelled from the spec: the event ids `DCH_INSERT` and `DCH_EJECT` and the value
of `SEC(1.5)`, 1.5 seconds in master cycles (their definitions are missing). -/
structure DiskChangeEnv where
  DCH_INSERT : Nat
  DCH_EJECT : Nat
  SEC15 : Int

/-- The assertions of the disk-change functions. -/
inductive DiskChangeAssertion
  | diskNotNull           -- insertDisk: assert(disk != NULL)
  | nrInRange             -- ejectDisk, insertDisk: assert(nr >= 0 && nr <= 3)
  | driveNrInRange        -- serviceDiskChangeEvent: assert(driveNr >= 0 && driveNr <= 3)
  | diskToInsertNotNull   -- serviceDiskChangeEvent: assert(diskToInsert != NULL)
  | unknownEvent          -- serviceDiskChangeEvent: assert(false)
  deriving DecidableEq, Repr

/-- Modelled from the spec: `Amiga::suspend` and `Amiga::resume` (the class Amiga is
missing from the tree).  Each call is recorded, in call order. -/
inductive ThreadCall
  | suspend
  | resume
  deriving DecidableEq, Repr

/-- The part of the machine that a disk change reads or writes: what
`amiga.isRunning()` returns, the clock of Agnus and the event in its slot
`DCH_SLOT`, the drives, and the member `diskToInsert` of DiskController. -/
structure DiskChange (D K : Type) where
  running : Bool
  clock : Int
  dchSlot : Event
  df : Nat → D
  diskToInsert : Option K
  threadCalls : List ThreadCall
  failed : List DiskChangeAssertion

/-- The statement `assert(c)` of the disk-change functions. -/
def DiskChange.assertThat {D K : Type} (c : Bool) (a : DiskChangeAssertion)
    (s : DiskChange D K) : DiskChange D K :=
  if c then s else { s with failed := a :: s.failed }

/-- A call of `amiga.suspend()` or `amiga.resume()`, recorded. -/
def DiskChange.thread {D K : Type} (c : ThreadCall) (s : DiskChange D K) : DiskChange D K :=
  { s with threadCalls := s.threadCalls ++ [c] }

/-- Replace drive `i` (writes through the pointer `df[i]`). -/
def DiskChange.setDrive {D K : Type} (s : DiskChange D K) (i : Nat) (d : D) : DiskChange D K :=
  { s with df := fun j => if j = i then d else s.df j }

/-- Modelled from the spec: `Agnus::scheduleRel<DCH_SLOT>(delay, id, data)` (Agnus.h is
missing): the event of the slot becomes `(now + delay, id, data)`. -/
def DiskChange.scheduleRel {D K : Type} (delay : Int) (id : Nat) (data : Int)
    (s : DiskChange D K) : DiskChange D K :=
  { s with dchSlot := { triggerCycle := s.clock + delay, id := id, data := data } }

/-- Modelled from the spec: `Agnus::cancel<DCH_SLOT>()` (Agnus.h is missing): the id
of the slot becomes NONE, its trigger cycle NEVER. -/
def DiskChange.cancel {D K : Type} (s : DiskChange D K) : DiskChange D K :=
  { s with dchSlot := { s.dchSlot with id := 0, triggerCycle := NEVER } }

/-- `DiskController::ejectDisk(int nr, Cycle delay)`. -/
def ejectDisk {D K : Type} (env : DiskChangeEnv) (nr : Int) (delay : Int)
    (s : DiskChange D K) : DiskChange D K :=
  let s := s.assertThat (decide (0 ≤ nr ∧ nr ≤ 3)) .nrInRange
  let s := s.thread .suspend
  let s := s.scheduleRel delay env.DCH_EJECT nr
  s.thread .resume

/-- `DiskController::insertDisk(Disk *disk, int nr, Cycle delay)`; `MAX` is the
maximum of two cycle counts. -/
def insertDisk {D K : Type} (env : DiskChangeEnv) (ops : DiskOps D K) (disk : Option K)
    (nr : Int) (delay : Int) (s : DiskChange D K) : DiskChange D K :=
  let s := s.assertThat disk.isSome .diskNotNull
  let s := s.assertThat (decide (0 ≤ nr ∧ nr ≤ 3)) .nrInRange
  -- The easy case: The emulator is not running
  if (!s.running) = true then
    let s := s.setDrive nr.toNat (ops.ejectDisk (s.df nr.toNat))
    s.setDrive nr.toNat (ops.insertDisk (s.df nr.toNat) disk)
  else
    -- The not so easy case: The emulator is running
    let s := s.thread .suspend
    let hasDisk := ops.hasDisk (s.df nr.toNat)
    let s := if hasDisk = true then s.setDrive nr.toNat (ops.ejectDisk (s.df nr.toNat)) else s
    let delay := if hasDisk = true then max env.SEC15 delay else delay
    let s := { s with diskToInsert := disk }
    let s := s.scheduleRel delay env.DCH_INSERT nr
    s.thread .resume

/-- `DiskController::serviceDiskChangeEvent`. -/
def serviceDiskChangeEvent {D K : Type} (env : DiskChangeEnv) (ops : DiskOps D K) (id : Nat)
    (driveNr : Int) (s : DiskChange D K) : DiskChange D K :=
  let s := s.assertThat (decide (0 ≤ driveNr ∧ driveNr ≤ 3)) .driveNrInRange
  let s :=
    if id = env.DCH_INSERT then
      let s := s.assertThat s.diskToInsert.isSome .diskToInsertNotNull
      let s := s.setDrive driveNr.toNat (ops.insertDisk (s.df driveNr.toNat) s.diskToInsert)
      { s with diskToInsert := none }
    else if id = env.DCH_EJECT then
      s.setDrive driveNr.toNat (ops.ejectDisk (s.df driveNr.toNat))
    else s.assertThat false .unknownEvent
  s.cancel

/-! ## PixelEngine: the configuration -/

/-- The enumeration `Option` of configuration options (its declaration is missing;
the name `Option` is taken in Lean): the four options of the pixel engine, and
`other n` for every other option. -/
inductive Opt
  | OPT_PALETTE
  | OPT_BRIGHTNESS
  | OPT_CONTRAST
  | OPT_SATURATION
  | other (n : Nat)
  deriving DecidableEq, Repr

/-- The ways in which `getConfigItem` and `setConfigItem` fail: the exception
`VAError(ERROR_OPT_INVARG, ..)` and the macro `fatalError`. -/
inductive VAError
  | ERROR_OPT_INVARG
  | fatalError
  deriving DecidableEq, Repr

/-- The member `config` of PixelEngine (`PixelEngineConfig`, declared in a header
that is missing): the palette as the value of its enumerator, and the three
video settings. -/
structure PixelEngineConfig where
  palette : Int
  brightness : Int
  contrast : Int
  saturation : Int
  deriving DecidableEq, Repr

/-- The members of PixelEngine that the configuration functions read and write:
`config`, and the colour tables `colorSpace`, `palette` and `color`, of type `T`,
which `updateRGBA` recomputes. -/
structure PixelEngine (T : Type) where
  config : PixelEngineConfig
  tables : T

/-- Modelled from the spec: `PaletteEnum::isValid`, whose code is missing, and
`PixelEngine::updateRGBA`, which recomputes the colour tables from `config` in
floating-point arithmetic and writes no member of `config`. -/
structure PixelOps (T : Type) where
  paletteIsValid : Int → Bool
  updateRGBA : PixelEngineConfig → T → T

/-- `PixelEngine::getConfigItem`. -/
def getConfigItem {T : Type} (option : Opt) (p : PixelEngine T) : Except VAError Int :=
  match option with
  | .OPT_PALETTE => .ok p.config.palette
  | .OPT_BRIGHTNESS => .ok p.config.brightness
  | .OPT_CONTRAST => .ok p.config.contrast
  | .OPT_SATURATION => .ok p.config.saturation
  | .other _ => .error .fatalError

/-- `PixelEngine::setConfigItem`; `value` is an `i64`.  The result is the pixel
engine after the call, and the error when the call does not return normally. -/
def setConfigItem {T : Type} (ops : PixelOps T) (option : Opt) (value : Int)
    (p : PixelEngine T) : PixelEngine T × Option VAError :=
  match option with
  | .OPT_PALETTE =>
    if (!ops.paletteIsValid value) = true then (p, some .ERROR_OPT_INVARG)
    else
      let p := { p with config := { p.config with palette := value } }
      ({ p with tables := ops.updateRGBA p.config p.tables }, none)
  | .OPT_BRIGHTNESS =>
    if value < 0 ∨ value > 100 then (p, some .ERROR_OPT_INVARG)
    else
      let p := { p with config := { p.config with brightness := value } }
      ({ p with tables := ops.updateRGBA p.config p.tables }, none)
  | .OPT_CONTRAST =>
    if value < 0 ∨ value > 100 then (p, some .ERROR_OPT_INVARG)
    else
      let p := { p with config := { p.config with contrast := value } }
      ({ p with tables := ops.updateRGBA p.config p.tables }, none)
  | .OPT_SATURATION =>
    if value < 0 ∨ value > 100 then (p, some .ERROR_OPT_INVARG)
    else
      let p := { p with config := { p.config with saturation := value } }
      ({ p with tables := ops.updateRGBA p.config p.tables }, none)
  | .other _ => (p, some .fatalError)

/-! ## Snapshot: the version check -/

/-- Modelled from the spec: the constants `SNP_MAJOR`, `SNP_MINOR` and
`SNP_SUBMINOR` (their definitions are missing) and `sizeof(SnapshotHeader)`. -/
structure SnapshotEnv where
  SNP_MAJOR : Nat
  SNP_MINOR : Nat
  SNP_SUBMINOR : Nat
  headerSize : Nat

/-- Modelled from the spec: the fields of `struct SnapshotHeader` that the embedded
functions use (its declaration is missing): the magic bytes, by index, and the
three version bytes. -/
structure SnapshotHeader where
  magic : Nat → Nat
  major : Nat
  minor : Nat
  subminor : Nat

/-- The members of Snapshot: `size`, and `data`, of which the header is kept. -/
structure Snapshot where
  size : Nat
  header : SnapshotHeader

/-- The bytes of the array `signature` of the constructor: `'V','A','S','N','A','P'`. -/
def signature : List Nat := ['V', 'A', 'S', 'N', 'A', 'P'].map Char.toNat

/-- The constructor `Snapshot::Snapshot(isize capacity)`; `raw` is the header that
the fresh memory `new u8[size]` holds before the assignments.  The version
fields are bytes. -/
def Snapshot.create (env : SnapshotEnv) (raw : SnapshotHeader) (capacity : Nat) : Snapshot :=
  let size := capacity + env.headerSize
  let header := (List.range signature.length).foldl
    (fun (h : SnapshotHeader) i =>
      { h with magic := fun j => if j = i then signature.getD i 0 else h.magic j }) raw
  let header := { header with major := env.SNP_MAJOR % 256 }
  let header := { header with minor := env.SNP_MINOR % 256 }
  let header := { header with subminor := env.SNP_SUBMINOR % 256 }
  { size := size, header := header }

/-- `Snapshot::isTooOld`. -/
def Snapshot.isTooOld (env : SnapshotEnv) (s : Snapshot) : Bool :=
  if s.header.major < env.SNP_MAJOR then true
  else if s.header.major > env.SNP_MAJOR then false
  else if s.header.minor < env.SNP_MINOR then true
  else if s.header.minor > env.SNP_MINOR then false
  else decide (s.header.subminor < env.SNP_SUBMINOR)

/-- `Snapshot::isTooNew`. -/
def Snapshot.isTooNew (env : SnapshotEnv) (s : Snapshot) : Bool :=
  if s.header.major > env.SNP_MAJOR then true
  else if s.header.major < env.SNP_MAJOR then false
  else if s.header.minor > env.SNP_MINOR then true
  else if s.header.minor < env.SNP_MINOR then false
  else decide (s.header.subminor > env.SNP_SUBMINOR)

/-! ## RetroShell: completion of command names -/

/-- The members of the class Command that the completion reads (Command.h is
missing): `token`, `hidden` and the sub-commands `args`.  A string is the list of
its characters. -/
inductive Command
  | mk (token : List Char) (hidden : Bool) (args : List Command)

/-- The member `token`. -/
def Command.token : Command → List Char
  | .mk t _ _ => t

/-- The member `hidden`. -/
def Command.hidden : Command → Bool
  | .mk _ h _ => h

/-- The member `args`. -/
def Command.args : Command → List Command
  | .mk _ _ a => a

/-- `Command::filterPrefix`; `substr(0, n)` is the string of the first `n`
characters, the whole string when it is shorter. -/
def Command.filterPrefix (c : Command) (pre : List Char) : List Command :=
  c.args.filter (fun it => !it.hidden && decide (it.token.take pre.length = pre))

/-- The outer loop of `Command::autoComplete` from index `i` on, with `n` the
number of indices left below `first->token.size()`.  Both accesses `token[i]`
are within the strings; `getD` names no character that is read. -/
def autoCompleteLoop (ms : List Command) (first : Command) :
    Nat → Nat → List Char → List Char
  | 0, _, result => result
  | n + 1, i, result =>
    if ms.any (fun m => decide (m.token.length ≤ i) ||
        (m.token.getD i default != first.token.getD i default)) then result
    else autoCompleteLoop ms first n (i + 1) (result ++ [first.token.getD i default])

/-- `Command::autoComplete`. -/
def Command.autoComplete (c : Command) (token : List Char) : List Char :=
  let result := token
  let ms := c.filterPrefix token
  match ms with
  | [] => result
  | first :: _ =>
    autoCompleteLoop ms first (first.token.length - token.length) token.length result

/-! ## Auxiliary definitions for the statements on reachable controller states -/

/-- The machines that are reached from a reset by calls of `pokeDSKLEN` (with a
16-bit value), `executeFifo`, `performDMA`, `performSimpleDMA` and
`performTurboDMA`. -/
inductive Reachable (env : Env) (ops : DriveOps D) : Amiga D → Prop
  | reset (s : Amiga D) : Reachable env ops (reset s)
  | pokeDSKLEN (s : Amiga D) (v : Nat) :
      Reachable env ops s → v < 65536 → Reachable env ops (pokeDSKLEN env ops s v)
  | executeFifo (s : Amiga D) : Reachable env ops s → Reachable env ops (executeFifo ops s)
  | performDMA (s : Amiga D) : Reachable env ops s → Reachable env ops (performDMA env ops s)
  | performSimpleDMA (s : Amiga D) :
      Reachable env ops s → Reachable env ops (performSimpleDMA env ops s)
  | performTurboDMA (s : Amiga D) (i : Nat) :
      Reachable env ops s → Reachable env ops (performTurboDMA env ops s i)

/-- The relation between the DMA state before and after a step that does not write
DSKLEN: the state is kept, or it becomes OFF, or it was not OFF and becomes READ. -/
def stateStep (a b : DriveState) : Prop :=
  b = a ∨ b = .DRIVE_DMA_OFF ∨ (a ≠ .DRIVE_DMA_OFF ∧ b = .DRIVE_DMA_READ)

/-- The DMA state agrees with the stored DSKLEN: DSKLEN is a 16-bit value, a state
other than OFF implies that bit 15 is set, the state WRITE implies that bit 14 is
set, and the state is not FLUSH. -/
def dsklenAgrees (s : Amiga D) : Prop :=
  s.dsklen < 65536 ∧ (s.state ≠ .DRIVE_DMA_OFF → s.dsklen &&& 0x8000 ≠ 0) ∧
  (s.state = .DRIVE_DMA_WRITE → s.dsklen &&& 0x4000 ≠ 0) ∧ s.state ≠ .DRIVE_DMA_FLUSH

/-! ## Auxiliary definitions for the DMACON statements -/

/-- The DMACON masks of the Amiga, for closed examples: `DMAEN` is bit 9, `BPLEN`
bit 8, `COPEN` bit 7, `BLTEN` bit 6, `SPREN` bit 5, `DSKEN` bit 4, `AUD3EN` ..
`AUD0EN` bits 3 .. 0. -/
def dmaconEnv0 : DmaconEnv where
  DMAEN := 0x200
  BPLEN := 0x100
  COPEN := 0x80
  BLTEN := 0x40
  SPREN := 0x20
  DSKEN := 0x10
  AUD0EN := 1
  AUD1EN := 2
  AUD2EN := 4
  AUD3EN := 8
  HSYNC_UPDATE_BPL_TABLE := 1
  HSYNC_UPDATE_DAS_TABLE := 2
  bpldma v := decide (v &&& 0x300 = 0x300)

/-! ## Auxiliary definitions for the configuration and snapshot statements -/

/-- Pixel operations for closed examples: the palettes 0 .. 5 are valid, and the
colour table is the sum of the three video settings. -/
def pixelOps0 : PixelOps Int where
  paletteIsValid v := decide (0 ≤ v ∧ v ≤ 5)
  updateRGBA c _ := c.brightness + c.contrast + c.saturation

/-- A pixel engine for closed examples: colour palette, all settings 50. -/
def pixelEngine0 : PixelEngine Int :=
  { config := { palette := 0, brightness := 50, contrast := 50, saturation := 50 },
    tables := 150 }

/-- The header triple `(major, minor, subminor)` is smaller than the triple
`(M, m, s)` in the lexicographic order. -/
def versionLt (major minor subminor M m s : Nat) : Prop :=
  major < M ∨ (major = M ∧ (minor < m ∨ (minor = m ∧ subminor < s)))

/-- A snapshot environment for closed examples: version 2.4.1, a header of 32
bytes. -/
def snapshotEnv0 : SnapshotEnv :=
  { SNP_MAJOR := 2, SNP_MINOR := 4, SNP_SUBMINOR := 1, headerSize := 32 }

/-- Fresh memory for closed examples: every byte is 0xCD. -/
def rawHeader0 : SnapshotHeader :=
  { magic := fun _ => 0xCD, major := 0xCD, minor := 0xCD, subminor := 0xCD }

/-! ## Auxiliary definitions for the disk-change statements -/

/-- Drives for closed examples: a drive is the list of the disks put into it, an
ejected disk leaves the empty list. -/
def slotOps : DiskOps (List Nat) Nat where
  hasDisk d := !d.isEmpty
  ejectDisk _ := []
  insertDisk d k := match k with
    | some k => k :: d
    | none => d

/-- Constants for closed examples: 1.5 seconds are 42000000 master cycles. -/
def diskChangeEnv0 : DiskChangeEnv :=
  { DCH_INSERT := 1, DCH_EJECT := 2, SEC15 := 42000000 }

/-- A running machine at cycle 1000 with disk 7 in drive 0, for closed examples. -/
def diskChange0 : DiskChange (List Nat) Nat :=
  { running := true, clock := 1000, dchSlot := ⟨NEVER, 0, 0⟩,
    df := fun j => if j = 0 then [7] else [], diskToInsert := none,
    threadCalls := [], failed := [] }

/-! ## Auxiliary definitions for the completion statements -/

/-- The token `r` is the longest common prefix of the tokens of `ms`: it is a
prefix of each of them, and every common prefix is a prefix of `r`. -/
def IsLongestCommonPrefix (r : List Char) (ms : List Command) : Prop :=
  (∀ m ∈ ms, r <+: m.token) ∧ ∀ p : List Char, (∀ m ∈ ms, p <+: m.token) → p <+: r

/-- A command node for closed examples: the sub-commands `load`, `loop`, the hidden
`log`, and `quit`. -/
def command0 : Command :=
  .mk [] false
    [.mk ['l', 'o', 'a', 'd'] false [], .mk ['l', 'o', 'o', 'p'] false [],
     .mk ['l', 'o', 'g'] true [], .mk ['q', 'u', 'i', 't'] false []]
end VAmiga

namespace VAmiga

variable {D : Type}

/-! ## Bit tests -/

theorem and_two_pow_ne_zero (x k : Nat) : x &&& 2 ^ k ≠ 0 ↔ x.testBit k = true := by
  rw [Nat.land_comm, Nat.two_pow_and]
  cases h : x.testBit k <;> simp

theorem and_and_two_pow_ne_zero (x y k : Nat) :
    x &&& y &&& 2 ^ k ≠ 0 ↔ (x &&& 2 ^ k ≠ 0 ∧ y &&& 2 ^ k ≠ 0) := by
  simp only [and_two_pow_ne_zero, Nat.testBit_and, Bool.and_eq_true]

theorem and_and_8000 (x y : Nat) :
    x &&& y &&& 0x8000 ≠ 0 ↔ (x &&& 0x8000 ≠ 0 ∧ y &&& 0x8000 ≠ 0) :=
  and_and_two_pow_ne_zero x y 15

theorem and_and_4000 (x y : Nat) :
    x &&& y &&& 0x4000 ≠ 0 ↔ (x &&& 0x4000 ≠ 0 ∧ y &&& 0x4000 ≠ 0) :=
  and_and_two_pow_ne_zero x y 14

/-! ## Normal forms of the small members -/

theorem setState_eq (s : Amiga D) (t : DriveState) :
    setState s t = { s with state := t, msgs := s.msgs ++ stateMsgs s.state t } := by
  unfold setState stateMsgs
  by_cases h : s.state = t
  · subst h; simp
  · simp only [h, if_false]
    split_ifs <;> simp_all

theorem assertThat_true (a : Assertion) (s : Amiga D) : assertThat true a s = s := rfl

theorem assertThat_eq (c : Bool) (a : Assertion) (s : Amiga D) :
    assertThat c a s = { s with failed := if c then s.failed else a :: s.failed } := by
  unfold assertThat; cases c <;> simp

/-! ## Turbo DMA leaves the FIFO alone -/

theorem noteChecksum_eq (env : Env) (s : Amiga D) (w : Nat) :
    noteChecksum env s w =
      { s with checkcnt := if env.DSK_CHECKSUM then s.checkcnt + 1 else s.checkcnt,
               checksum := if env.DSK_CHECKSUM then env.fnv_1a_it32 s.checksum w
                           else s.checksum } := by
  unfold noteChecksum; cases env.DSK_CHECKSUM <;> simp

theorem performTurboRead_frame (env : Env) (ops : DriveOps D) (i n : Nat) (s : Amiga D) :
    (performTurboRead env ops i n s).state = s.state ∧
    (performTurboRead env ops i n s).fifo = s.fifo ∧
    (performTurboRead env ops i n s).fifoCount = s.fifoCount ∧
    (performTurboRead env ops i n s).dsklen = s.dsklen ∧
    (performTurboRead env ops i n s).irqs = s.irqs ∧
    (performTurboRead env ops i n s).failed = s.failed := by
  induction n generalizing s with
  | zero => simp [performTurboRead]
  | succ n ih =>
    simp only [performTurboRead]
    refine ⟨(ih _).1.trans ?_, (ih _).2.1.trans ?_, (ih _).2.2.1.trans ?_,
      (ih _).2.2.2.1.trans ?_, (ih _).2.2.2.2.1.trans ?_, (ih _).2.2.2.2.2.trans ?_⟩ <;>
    simp [noteChecksum_eq, setDrive]

theorem performTurboWrite_frame (env : Env) (ops : DriveOps D) (i n : Nat) (s : Amiga D) :
    (performTurboWrite env ops i n s).state = s.state ∧
    (performTurboWrite env ops i n s).fifo = s.fifo ∧
    (performTurboWrite env ops i n s).fifoCount = s.fifoCount ∧
    (performTurboWrite env ops i n s).dsklen = s.dsklen ∧
    (performTurboWrite env ops i n s).irqs = s.irqs ∧
    (performTurboWrite env ops i n s).failed = s.failed := by
  induction n generalizing s with
  | zero => simp [performTurboWrite]
  | succ n ih =>
    simp only [performTurboWrite]
    refine ⟨(ih _).1.trans ?_, (ih _).2.1.trans ?_, (ih _).2.2.1.trans ?_,
      (ih _).2.2.2.1.trans ?_, (ih _).2.2.2.2.1.trans ?_, (ih _).2.2.2.2.2.trans ?_⟩ <;>
    simp [noteChecksum_eq, setDrive]

/-- Turbo DMA never touches the FIFO or the DSKLEN register. -/
theorem performTurboDMA_fifo (env : Env) (ops : DriveOps D) (s : Amiga D) (i : Nat) :
    (performTurboDMA env ops s i).fifo = s.fifo ∧
    (performTurboDMA env ops s i).fifoCount = s.fifoCount ∧
    (performTurboDMA env ops s i).dsklen = s.dsklen ∧
    (performTurboDMA env ops s i).failed = s.failed := by
  unfold performTurboDMA
  split_ifs with h0
  · simp
  · cases hs : s.state <;>
    simp [addWordCount, hs, setState_eq, scheduleIrqRel, setDrive,
      performTurboRead_frame, performTurboWrite_frame]

/-- In state OFF turbo DMA changes neither the state nor the interrupts. -/
theorem performTurboDMA_off (env : Env) (ops : DriveOps D) (s : Amiga D) (i : Nat)
    (h : s.state = .DRIVE_DMA_OFF) :
    (performTurboDMA env ops s i).state = .DRIVE_DMA_OFF ∧
    (performTurboDMA env ops s i).irqs = s.irqs := by
  unfold performTurboDMA
  split_ifs with h0
  · simp [h]
  · simp [addWordCount, h]

/-- With a word count of 0 turbo DMA does nothing. -/
theorem performTurboDMA_zero (env : Env) (ops : DriveOps D) (s : Amiga D) (i : Nat)
    (h : s.dsklen &&& 0x3FFF = 0) : performTurboDMA env ops s i = s := by
  unfold performTurboDMA; simp [h]

/-- The state after turbo DMA. -/
theorem performTurboDMA_state (env : Env) (ops : DriveOps D) (s : Amiga D) (i : Nat) :
    (performTurboDMA env ops s i).state =
      if s.dsklen &&& 0x3FFF = 0 then s.state
      else if s.state = .DRIVE_DMA_FLUSH then .DRIVE_DMA_FLUSH else .DRIVE_DMA_OFF := by
  unfold performTurboDMA
  split_ifs with h0 h1
  · rfl
  · simp [addWordCount, h1]
  · cases hs : s.state <;> simp_all [addWordCount, setState_eq]

/-! ## DSKLEN -/

theorem initChecksum_eq (env : Env) (s : Amiga D) :
    initChecksum env s =
      { s with checkcnt := if env.DSK_CHECKSUM then 0 else s.checkcnt,
               checksum := if env.DSK_CHECKSUM then env.fnv_1a_init32 else s.checksum } := by
  unfold initChecksum; cases env.DSK_CHECKSUM <;> simp

theorem alignDriveHead_eq (env : Env) (ops : DriveOps D) (drive : Option Nat) (s : Amiga D) :
    alignDriveHead env ops drive s =
      { s with df := fun j =>
          if env.ALIGN_DRIVE_HEAD = true ∧ drive = some j then ops.alignHead (s.df j)
          else s.df j } := by
  unfold alignDriveHead
  cases env.ALIGN_DRIVE_HEAD <;> cases drive <;> simp [setDrive]
  funext j
  split_ifs with h1 h2 h3
  · subst h1; rfl
  · exact absurd h1.symm h2
  · exact absurd h3.symm h1
  · rfl

theorem turboIfSelected_fifo (env : Env) (ops : DriveOps D) (drive : Option Nat)
    (s : Amiga D) :
    (turboIfSelected env ops drive s).fifo = s.fifo ∧
    (turboIfSelected env ops drive s).fifoCount = s.fifoCount ∧
    (turboIfSelected env ops drive s).dsklen = s.dsklen ∧
    (turboIfSelected env ops drive s).failed = s.failed := by
  unfold turboIfSelected
  cases drive with
  | none => simp
  | some i =>
    dsimp only
    split_ifs
    · exact performTurboDMA_fifo env ops s i
    · simp

theorem turboIfSelected_off (env : Env) (ops : DriveOps D) (drive : Option Nat)
    (s : Amiga D) (h : s.state = .DRIVE_DMA_OFF) :
    (turboIfSelected env ops drive s).state = .DRIVE_DMA_OFF := by
  unfold turboIfSelected
  cases drive with
  | none => simpa using h
  | some i =>
    dsimp only
    split_ifs
    · exact (performTurboDMA_off env ops s i h).1
    · exact h

theorem turboIfSelected_zero (env : Env) (ops : DriveOps D) (drive : Option Nat)
    (s : Amiga D) (h : s.dsklen &&& 0x3FFF = 0) : turboIfSelected env ops drive s = s := by
  unfold turboIfSelected
  cases drive with
  | none => rfl
  | some i => dsimp only; split_ifs <;> simp [performTurboDMA_zero, h]

theorem turboIfSelected_none (env : Env) (ops : DriveOps D) (drive : Option Nat)
    (s : Amiga D) (h : ∀ i, drive = some i → ops.isTurbo (s.df i) = false) :
    turboIfSelected env ops drive s = s := by
  unfold turboIfSelected
  cases drive with
  | none => rfl
  | some i => simp [h i rfl]

theorem stateMsgs_self (a : DriveState) : stateMsgs a a = [] := by
  simp [stateMsgs]

theorem pokeDSKLEN_eq (env : Env) (ops : DriveOps D) (s : Amiga D) (v : Nat) :
    pokeDSKLEN env ops s v =
      turboIfSelected env ops (getSelectedDrive s).1 (dsklenLatched env ops s v) := by
  unfold pokeDSKLEN
  simp only [getSelectedDrive]
  congr 1
  unfold dsklenLatched dsklenTarget
  simp only [getSelectedDrive]
  by_cases hoff : v &&& 0x8000 = 0
  · simp [hoff, assertThat_eq, initChecksum_eq, setState_eq, clearFifo]
  · by_cases harm : s.dsklen &&& v &&& 0x8000 = 0
    · simp [hoff, harm, assertThat_eq, initChecksum_eq, stateMsgs_self]
    · by_cases hw : s.dsklen &&& v &&& 0x4000 = 0
      · by_cases hg : GET_BIT s.adkcon 10 = true
        · simp [hoff, harm, hw, hg, assertThat_eq, initChecksum_eq, alignDriveHead_eq,
            setState_eq, clearFifo]
        · simp [hoff, harm, hw, hg, assertThat_eq, initChecksum_eq, alignDriveHead_eq,
            setState_eq, clearFifo]
      · simp [hoff, harm, hw, assertThat_eq, initChecksum_eq, alignDriveHead_eq,
          setState_eq, clearFifo]

theorem dsklenLatched_isTurbo (env : Env) (ops : DriveOps D) (s : Amiga D) (v i : Nat) :
    ops.isTurbo ((dsklenLatched env ops s v).df i) = ops.isTurbo (s.df i) := by
  unfold dsklenLatched
  dsimp only
  split_ifs
  · exact ops.isTurbo_alignHead _
  · rfl

theorem pokeDSKLEN_noTurbo (env : Env) (ops : DriveOps D) (s : Amiga D) (v : Nat)
    (hT : turboSelected ops s = false) :
    pokeDSKLEN env ops s v = dsklenLatched env ops s v := by
  rw [pokeDSKLEN_eq]
  apply turboIfSelected_none
  intro i hi
  unfold turboSelected at hT
  rw [hi] at hT
  rw [dsklenLatched_isTurbo]
  exact hT

/-- C1. When the stored DSKLEN and the written value both have bit 15 set and no
turbo drive is selected, `pokeDSKLEN` clears the FIFO and sets the state to
WRITE if bit 14 is set in both values, else to WAIT if ADKCON bit 10 is set,
else to READ.  From OFF with DSKLEN = 0, writing 0x8000 twice with WORDSYNC
clear ends in READ with an empty FIFO. -/
theorem pokeDSKLEN_second_write (env : Env) (ops : DriveOps D) :
    (∀ (s : Amiga D) (v : Nat), s.dsklen &&& 0x8000 ≠ 0 → v &&& 0x8000 ≠ 0 →
      turboSelected ops s = false →
      (pokeDSKLEN env ops s v).fifo = 0 ∧ (pokeDSKLEN env ops s v).fifoCount = 0 ∧
      (pokeDSKLEN env ops s v).dsklen = v ∧
      (pokeDSKLEN env ops s v).state =
        (if s.dsklen &&& 0x4000 ≠ 0 ∧ v &&& 0x4000 ≠ 0 then .DRIVE_DMA_WRITE
         else if GET_BIT s.adkcon 10 = true then .DRIVE_DMA_WAIT
         else .DRIVE_DMA_READ)) ∧
    (∀ (s : Amiga D), s.state = .DRIVE_DMA_OFF → s.dsklen = 0 → GET_BIT s.adkcon 10 = false →
      (pokeDSKLEN env ops (pokeDSKLEN env ops s 0x8000) 0x8000).state = .DRIVE_DMA_READ ∧
      (pokeDSKLEN env ops (pokeDSKLEN env ops s 0x8000) 0x8000).fifo = 0 ∧
      (pokeDSKLEN env ops (pokeDSKLEN env ops s 0x8000) 0x8000).fifoCount = 0) := by
  constructor
  · intro s v hold hnew hT
    have h15 : s.dsklen &&& v &&& 0x8000 ≠ 0 := (and_and_8000 _ _).2 ⟨hold, hnew⟩
    rw [pokeDSKLEN_noTurbo env ops s v hT]
    refine ⟨?_, ?_, rfl, ?_⟩
    · simp [dsklenLatched, h15]
    · simp [dsklenLatched, h15]
    · simp only [dsklenLatched, dsklenTarget, if_neg hnew, if_pos h15, and_and_4000]
  · intro s hoff hlen hsync
    have h1 : pokeDSKLEN env ops s 0x8000 = dsklenLatched env ops s 0x8000 := by
      rw [pokeDSKLEN_eq]
      exact turboIfSelected_zero _ _ _ _ (by simp only [dsklenLatched]; decide)
    have h2 : ∀ t : Amiga D, t.dsklen = 0x8000 → t.adkcon = s.adkcon →
        pokeDSKLEN env ops t 0x8000 = dsklenLatched env ops t 0x8000 := by
      intro t _ _
      rw [pokeDSKLEN_eq]
      exact turboIfSelected_zero _ _ _ _ (by simp only [dsklenLatched]; decide)
    rw [h1, h2 _ (by simp [dsklenLatched]) (by simp [dsklenLatched])]
    have e1 : (32768 : Nat) &&& 16384 = 0 := by decide
    simp [dsklenLatched, dsklenTarget, hsync, e1]

/-- Witness for C1: the second write of 0xC005 over a stored 0xC005 enters WRITE,
and the double write of 0x8000 from OFF enters READ. -/
theorem pokeDSKLEN_second_write_witness :
    (pokeDSKLEN env0 tapeOps { amiga0 (tapeDrive []) with dsklen := 0xC005 } 0xC005).state
      = .DRIVE_DMA_WRITE ∧
    (pokeDSKLEN env0 tapeOps (pokeDSKLEN env0 tapeOps (amiga0 (tapeDrive [])) 0x8000)
      0x8000).state = .DRIVE_DMA_READ :=
  ⟨((pokeDSKLEN_second_write env0 tapeOps).1 { amiga0 (tapeDrive []) with dsklen := 0xC005 }
      0xC005 (by decide) (by decide) (by decide)).2.2.2,
   ((pokeDSKLEN_second_write env0 tapeOps).2 (amiga0 (tapeDrive [])) rfl rfl
      (by decide)).1⟩

/-- C2. DSKLEN takes effect only on the second consecutive write with bit 15
set: when the stored DSKLEN has bit 15 clear, a write with bit 15 set stores
the value and leaves the DMA state, the FIFO and `fifoCount` unchanged.  The
machine is one in which DMA is on only while the stored DSKLEN has bit 15 set
(true of every state the controller reaches), or one with no turbo drive
selected. -/
theorem pokeDSKLEN_first_write (env : Env) (ops : DriveOps D) (s : Amiga D) (v : Nat)
    (hold : s.dsklen &&& 0x8000 = 0) (hnew : v &&& 0x8000 ≠ 0)
    (h : (s.state ≠ .DRIVE_DMA_OFF → s.dsklen &&& 0x8000 ≠ 0) ∨ turboSelected ops s = false) :
    (pokeDSKLEN env ops s v).dsklen = v ∧
    (pokeDSKLEN env ops s v).state = s.state ∧
    (pokeDSKLEN env ops s v).fifo = s.fifo ∧
    (pokeDSKLEN env ops s v).fifoCount = s.fifoCount := by
  have h15 : ¬ (s.dsklen &&& v &&& 0x8000 ≠ 0) := fun hc => ((and_and_8000 _ _).1 hc).1 hold
  have hst : (dsklenLatched env ops s v).state = s.state := by
    simp only [dsklenLatched, dsklenTarget, if_neg hnew, if_neg h15]
  have hf : (dsklenLatched env ops s v).fifo = s.fifo := by
    simp only [dsklenLatched, hnew, h15, or_self, if_false]
  have hc : (dsklenLatched env ops s v).fifoCount = s.fifoCount := by
    simp only [dsklenLatched, hnew, h15, or_self, if_false]
  rw [pokeDSKLEN_eq]
  refine ⟨(turboIfSelected_fifo _ _ _ _).2.2.1.trans rfl, ?_,
    (turboIfSelected_fifo _ _ _ _).1.trans hf, (turboIfSelected_fifo _ _ _ _).2.1.trans hc⟩
  rcases h with h | h
  · have hoff : s.state = .DRIVE_DMA_OFF := by
      by_contra hne
      exact h hne hold
    rw [hoff]
    exact turboIfSelected_off _ _ _ _ (hst.trans hoff)
  · rw [← pokeDSKLEN_eq, pokeDSKLEN_noTurbo env ops s v h]
    exact hst

/-- Witness for C2: a first write of 0x8005 in state OFF with a turbo drive selected. -/
theorem pokeDSKLEN_first_write_witness :
    (pokeDSKLEN env0 tapeOps
        { amiga0 { tapeDrive [1, 2] with turbo := true } with fifo := 0xAB, fifoCount := 1 }
        0x8005).state = .DRIVE_DMA_OFF ∧
    (pokeDSKLEN env0 tapeOps
        { amiga0 { tapeDrive [1, 2] with turbo := true } with fifo := 0xAB, fifoCount := 1 }
        0x8005).fifoCount = 1 :=
  have h := pokeDSKLEN_first_write env0 tapeOps
    { amiga0 { tapeDrive [1, 2] with turbo := true } with fifo := 0xAB, fifoCount := 1 }
    0x8005 (by decide) (by decide) (Or.inl (fun hne => absurd rfl hne))
  ⟨h.2.1, h.2.2.2⟩

/-- C3. In every state, a write to DSKLEN with bit 15 clear sets the state to OFF
and empties the FIFO (`fifo = 0`, `fifoCount = 0`). -/
theorem pokeDSKLEN_disable (env : Env) (ops : DriveOps D) (s : Amiga D) (v : Nat)
    (hv : v &&& 0x8000 = 0) :
    (pokeDSKLEN env ops s v).state = .DRIVE_DMA_OFF ∧
    (pokeDSKLEN env ops s v).fifo = 0 ∧
    (pokeDSKLEN env ops s v).fifoCount = 0 := by
  rw [pokeDSKLEN_eq]
  refine ⟨turboIfSelected_off _ _ _ _ ?_, (turboIfSelected_fifo _ _ _ _).1.trans ?_,
    (turboIfSelected_fifo _ _ _ _).2.1.trans ?_⟩
  · simp only [dsklenLatched, dsklenTarget, if_pos hv]
  · simp only [dsklenLatched, hv, true_or, if_true]
  · simp only [dsklenLatched, hv, true_or, if_true]

/-- Witness for C3: writing 0x0005 while in READ with three bytes in the FIFO. -/
theorem pokeDSKLEN_disable_witness :
    (pokeDSKLEN env0 tapeOps
        { amiga0 (tapeDrive []) with state := .DRIVE_DMA_READ, dsklen := 0x8005,
                                     fifo := 0xAABBCC, fifoCount := 3 } 0x0005).state
      = .DRIVE_DMA_OFF ∧
    (pokeDSKLEN env0 tapeOps
        { amiga0 (tapeDrive []) with state := .DRIVE_DMA_READ, dsklen := 0x8005,
                                     fifo := 0xAABBCC, fifoCount := 3 } 0x0005).fifoCount = 0 :=
  have h := pokeDSKLEN_disable env0 tapeOps
    { amiga0 (tapeDrive []) with state := .DRIVE_DMA_READ, dsklen := 0x8005,
                                 fifo := 0xAABBCC, fifoCount := 3 } 0x0005 (by decide)
  ⟨h.1, h.2.2⟩

/-! ## Byte arithmetic -/

theorem shl8_or (x b : Nat) (hb : b < 256) : x <<< 8 ||| b = x * 256 + b := by
  rw [Nat.shiftLeft_eq, Nat.mul_comm x, ← Nat.mul_add_lt_is_or (i := 8) hb x]

theorem and_FF (x : Nat) : x &&& 0xFF = x % 256 :=
  Nat.and_pow_two_sub_one_eq_mod x 8

theorem and_FFFF (x : Nat) : x &&& 0xFFFF = x % 65536 :=
  Nat.and_pow_two_sub_one_eq_mod x 16

theorem and_3FFF (x : Nat) : x &&& 0x3FFF = x % 16384 :=
  Nat.and_pow_two_sub_one_eq_mod x 14

theorem shr8 (x : Nat) : x >>> 8 = x / 256 := by
  rw [Nat.shiftRight_eq_div_pow]

theorem pushBits_eq (f b : Nat) (hb : b < 256) :
    pushBits f b = (f * 256 + b) % 18446744073709551616 := by
  unfold pushBits; rw [shl8_or f b hb]; rfl

theorem pushBits_low16 (f hi lo : Nat) (hhi : hi < 256) (hlo : lo < 256) :
    pushBits (pushBits f hi) lo &&& 0xFFFF = hi * 256 + lo := by
  rw [and_FFFF, pushBits_eq _ _ hlo, pushBits_eq _ _ hhi]
  omega

theorem pushBits_low8 (f b : Nat) (hb : b < 256) : pushBits f b &&& 0xFF = b := by
  rw [and_FF, pushBits_eq _ _ hb]
  omega

/-! ## Normal forms of the FIFO members -/

theorem pushCount_le (c : Nat) (h : c ≤ 6) : pushCount c = if c = 6 then 5 else c + 1 := by
  unfold pushCount; split_ifs <;> omega

theorem writeFifo_eq (s : Amiga D) (b : Nat) :
    writeFifo s b =
      { s with failed := if decide (s.fifoCount ≤ 6) then s.failed
                         else .writeFifoCount :: s.failed,
               fifo := pushBits s.fifo b,
               fifoCount := pushCount s.fifoCount } := by
  unfold writeFifo pushBits pushCount
  simp only [assertThat_eq]
  by_cases h : s.fifoCount = 6 <;> simp [h]

theorem readFifo_eq (s : Amiga D) :
    readFifo s =
      ((s.fifo >>> (8 * ((s.fifoCount + 255) % 256))) &&& 0xFF,
       { s with failed := if decide (0 < s.fifoCount) then s.failed
                          else .readFifoNonEmpty :: s.failed,
                fifoCount := (s.fifoCount + 255) % 256 }) := by
  unfold readFifo
  simp only [assertThat_eq]

theorem readFifo16_eq (s : Amiga D) :
    readFifo16 s =
      ((s.fifo >>> (8 * ((s.fifoCount + 254) % 256))) &&& 0xFFFF,
       { s with failed := if decide (2 ≤ s.fifoCount) then s.failed
                          else .readFifo16HasWord :: s.failed,
                fifoCount := (s.fifoCount + 254) % 256 }) := by
  unfold readFifo16 fifoHasWord
  simp only [assertThat_eq]

/-- Normal form of `executeFifo` in the states WAIT and READ with drive `i` selected. -/
theorem executeFifo_read_eq (ops : DriveOps D) (s : Amiga D) (i : Nat)
    (hsel : (getSelectedDrive s).1 = some i)
    (hst : s.state = .DRIVE_DMA_WAIT ∨ s.state = .DRIVE_DMA_READ) :
    executeFifo ops s =
      { s with
        df := fun j => if j = i then (ops.readHead (s.df i)).2 else s.df j
        incoming := (ops.readHead (s.df i)).1 % 256
        incomingCycle := s.clock
        failed :=
          if decide (s.fifoCount ≤ 6) then (getSelectedDrive s).2.failed
          else .writeFifoCount :: (getSelectedDrive s).2.failed
        syncFlag := syncAfterPush s ((ops.readHead (s.df i)).1 % 256)
        irqs := s.irqs ++
          (if syncAfterPush s ((ops.readHead (s.df i)).1 % 256) then [.raiseIrq .INT_DSKSYN]
           else [])
        state :=
          if syncAfterPush s ((ops.readHead (s.df i)).1 % 256) then .DRIVE_DMA_READ
          else s.state
        msgs := s.msgs
        fifo :=
          if syncAfterPush s ((ops.readHead (s.df i)).1 % 256) = true ∧
              s.state = .DRIVE_DMA_WAIT then 0
          else pushBits s.fifo ((ops.readHead (s.df i)).1 % 256)
        fifoCount :=
          if syncAfterPush s ((ops.readHead (s.df i)).1 % 256) = true ∧
              s.state = .DRIVE_DMA_WAIT then 0
          else pushCount s.fifoCount } := by
  unfold executeFifo
  simp only [getSelectedDrive] at hsel ⊢
  simp only [hsel]
  unfold syncAfterPush
  generalize hb : (ops.readHead (s.df i)).1 % 256 = b
  rcases hst with hst | hst
  · cases hsync : (decide (2 ≤ pushCount s.fifoCount) && (pushBits s.fifo b &&& 0xFFFF == s.dsksync))
    · simp [hst, hb, hsync, assertThat_eq, writeFifo_eq, setDrive, compareFifo, fifoHasWord]
    · simp [hst, hb, hsync, assertThat_eq, writeFifo_eq, setDrive, compareFifo, fifoHasWord,
        raiseIrq, setState_eq, clearFifo, stateMsgs]
  · cases hsync : (decide (2 ≤ pushCount s.fifoCount) && (pushBits s.fifo b &&& 0xFFFF == s.dsksync))
    · simp [hst, hb, hsync, assertThat_eq, writeFifo_eq, setDrive, compareFifo, fifoHasWord]
    · simp [hst, hb, hsync, assertThat_eq, writeFifo_eq, setDrive, compareFifo, fifoHasWord,
        raiseIrq]

/-! ## Sync detection -/

theorem getSelectedDrive_of_selected (s : Amiga D) (i : Nat) (h : s.selected = (i : Int)) :
    (getSelectedDrive s).1 = some i := by
  unfold getSelectedDrive
  simp [h]

theorem hi_lo_word (w : Nat) (hw : w < 65536) : HI_BYTE w * 256 + LO_BYTE w = w := by
  unfold HI_BYTE LO_BYTE
  rw [and_FF, shr8]
  omega

theorem HI_BYTE_lt (w : Nat) : HI_BYTE w < 256 := by
  unfold HI_BYTE; omega

theorem LO_BYTE_lt (w : Nat) : LO_BYTE w < 256 := by
  unfold LO_BYTE; rw [and_FF]; omega

/-- C4. Sync detection: in state WAIT with an empty FIFO and drive `i` selected,
when the head delivers the high byte and then the low byte of DSKSYNC, the
first `executeFifo` leaves `syncFlag` false and the state WAIT, and the second
one sets `syncFlag`, raises INT_DSKSYN, enters READ and leaves the FIFO empty. -/
theorem executeFifo_sync_detect (ops : DriveOps D) (s : Amiga D) (i : Nat) (d1 d2 : D)
    (hsel : s.selected = (i : Int)) (hst : s.state = .DRIVE_DMA_WAIT)
    (hc : s.fifoCount = 0) (hw : s.dsksync < 65536)
    (h1 : ops.readHead (s.df i) = (HI_BYTE s.dsksync, d1))
    (h2 : ops.readHead d1 = (LO_BYTE s.dsksync, d2)) :
    (executeFifo ops s).syncFlag = false ∧
    (executeFifo ops s).state = .DRIVE_DMA_WAIT ∧
    (executeFifo ops s).irqs = s.irqs ∧
    (executeFifo ops (executeFifo ops s)).syncFlag = true ∧
    (executeFifo ops (executeFifo ops s)).irqs = s.irqs ++ [.raiseIrq .INT_DSKSYN] ∧
    (executeFifo ops (executeFifo ops s)).state = .DRIVE_DMA_READ ∧
    (executeFifo ops (executeFifo ops s)).fifo = 0 ∧
    (executeFifo ops (executeFifo ops s)).fifoCount = 0 := by
  have hhi : HI_BYTE s.dsksync % 256 = HI_BYTE s.dsksync := Nat.mod_eq_of_lt (HI_BYTE_lt _)
  have hlo : LO_BYTE s.dsksync % 256 = LO_BYTE s.dsksync := Nat.mod_eq_of_lt (LO_BYTE_lt _)
  have e1 := executeFifo_read_eq ops s i (getSelectedDrive_of_selected s i hsel) (Or.inl hst)
  have hs1 : syncAfterPush s (HI_BYTE s.dsksync) = false := by
    simp [syncAfterPush, hc, pushCount]
  rw [h1] at e1
  simp only [hhi, hs1, hst, hc, Bool.false_eq_true, false_and, if_false, List.append_nil] at e1
  have hsel1 : (executeFifo ops s).selected = (i : Int) := by rw [e1]; exact hsel
  have hst1 : (executeFifo ops s).state = .DRIVE_DMA_WAIT := by rw [e1]
  have e2 := executeFifo_read_eq ops (executeFifo ops s) i
    (getSelectedDrive_of_selected _ i hsel1) (Or.inl hst1)
  have hdf : (executeFifo ops s).df i = d1 := by rw [e1]; simp
  have hs2 : syncAfterPush (executeFifo ops s) (LO_BYTE s.dsksync) = true := by
    rw [e1]
    simp only [syncAfterPush]
    rw [pushBits_low16 _ _ _ (HI_BYTE_lt _) (LO_BYTE_lt _), hi_lo_word _ hw]
    simp [pushCount]
  rw [hdf, h2] at e2
  simp only [hlo, hs2, hst1] at e2
  refine ⟨?_, hst1, ?_, ?_, ?_, ?_, ?_, ?_⟩
  · rw [e1]
  · rw [e1]
  · rw [e2]
  · rw [e2]; simp only [if_true]; rw [e1]
  · rw [e2]; simp
  · rw [e2]; simp
  · rw [e2]; simp

/-- Witness for C4: DSKSYNC = 0x4489 and a head that delivers 0x44, 0x89. -/
theorem executeFifo_sync_detect_witness :
    (executeFifo tapeOps (executeFifo tapeOps
      { amiga0 (tapeDrive [0x44, 0x89]) with state := .DRIVE_DMA_WAIT })).syncFlag = true ∧
    (executeFifo tapeOps (executeFifo tapeOps
      { amiga0 (tapeDrive [0x44, 0x89]) with state := .DRIVE_DMA_WAIT })).state
        = .DRIVE_DMA_READ :=
  have h := executeFifo_sync_detect tapeOps
    { amiga0 (tapeDrive [0x44, 0x89]) with state := .DRIVE_DMA_WAIT } 0
    { tapeDrive [0x89] with tape := [0x89] } { tapeDrive [] with tape := [] }
    rfl rfl rfl (by decide) (by decide) (by decide)
  ⟨h.2.2.2.1, h.2.2.2.2.2.1⟩

/-- C5, counterexample.  In READ with an empty FIFO and DSKSYNC = 0x0044 the head
delivers 0x44: afterwards the low 16 bits of the FIFO equal DSKSYNC, the FIFO
holds only the byte just pushed, and neither INT_DSKSYN nor `syncFlag` is set. -/
theorem executeFifo_single_byte_no_sync :
    (executeFifo tapeOps
      { amiga0 (tapeDrive [0x44]) with state := .DRIVE_DMA_READ, dsksync := 0x44 }).fifo
        &&& 0xFFFF =
      (executeFifo tapeOps
        { amiga0 (tapeDrive [0x44]) with state := .DRIVE_DMA_READ, dsksync := 0x44 }).dsksync ∧
    (executeFifo tapeOps
      { amiga0 (tapeDrive [0x44]) with state := .DRIVE_DMA_READ, dsksync := 0x44 }).fifoCount
        = 1 ∧
    (executeFifo tapeOps
      { amiga0 (tapeDrive [0x44]) with state := .DRIVE_DMA_READ, dsksync := 0x44 }).irqs = [] ∧
    (executeFifo tapeOps
      { amiga0 (tapeDrive [0x44]) with state := .DRIVE_DMA_READ, dsksync := 0x44 }).syncFlag
        = false := by
  decide

/-- C5, amended.  In WAIT or READ with drive `i` selected and at most six bytes in
the FIFO, `executeFifo` reads one byte `b` from the head of that drive and
pushes it into the FIFO; it sets `syncFlag` and raises INT_DSKSYN exactly when
the FIFO then holds at least two bytes and its low 16 bits equal DSKSYNC.  With
only the byte just pushed in the FIFO, `syncFlag` is cleared and no interrupt
is raised.  On a sync in WAIT the state becomes READ and the FIFO is cleared;
otherwise the state stays and the FIFO holds the pushed byte. -/
theorem executeFifo_read_sync (ops : DriveOps D) (s : Amiga D) (i : Nat)
    (hsel : s.selected = (i : Int))
    (hst : s.state = .DRIVE_DMA_WAIT ∨ s.state = .DRIVE_DMA_READ)
    (hc : s.fifoCount ≤ 6) :
    (executeFifo ops s).df i = (ops.readHead (s.df i)).2 ∧
    (executeFifo ops s).incoming = (ops.readHead (s.df i)).1 % 256 ∧
    ((executeFifo ops s).syncFlag = true ↔
      (2 ≤ (if s.fifoCount = 6 then 5 else s.fifoCount + 1) ∧
        (((s.fifo <<< 8) ||| ((ops.readHead (s.df i)).1 % 256)) % 2 ^ 64) &&& 0xFFFF
          = s.dsksync)) ∧
    (executeFifo ops s).irqs =
      s.irqs ++ (if (executeFifo ops s).syncFlag then [.raiseIrq .INT_DSKSYN] else []) ∧
    (s.fifoCount = 0 →
      (executeFifo ops s).syncFlag = false ∧ (executeFifo ops s).irqs = s.irqs) ∧
    ((executeFifo ops s).syncFlag = true ∧ s.state = .DRIVE_DMA_WAIT →
      (executeFifo ops s).state = .DRIVE_DMA_READ ∧ (executeFifo ops s).fifo = 0 ∧
      (executeFifo ops s).fifoCount = 0) ∧
    (¬ ((executeFifo ops s).syncFlag = true ∧ s.state = .DRIVE_DMA_WAIT) →
      (executeFifo ops s).state = s.state ∧
      (executeFifo ops s).fifo =
        ((s.fifo <<< 8) ||| ((ops.readHead (s.df i)).1 % 256)) % 2 ^ 64 ∧
      (executeFifo ops s).fifoCount = (if s.fifoCount = 6 then 5 else s.fifoCount + 1)) := by
  have e := executeFifo_read_eq ops s i (getSelectedDrive_of_selected s i hsel) hst
  have hflag : (executeFifo ops s).syncFlag
      = syncAfterPush s ((ops.readHead (s.df i)).1 % 256) := by rw [e]
  have hcnt := pushCount_le s.fifoCount hc
  refine ⟨?_, ?_, ?_, ?_, ?_, ?_, ?_⟩
  · rw [e]; simp
  · rw [e]
  · rw [hflag]
    simp only [syncAfterPush, hcnt, pushBits, Bool.and_eq_true, decide_eq_true_eq, beq_iff_eq]
  · rw [hflag, e]
  · intro h0
    have hs : syncAfterPush s ((ops.readHead (s.df i)).1 % 256) = false := by
      simp [syncAfterPush, h0, pushCount]
    rw [hflag, hs, e]
    simp [hs]
  · rintro ⟨h1, h2⟩
    rw [hflag] at h1
    rw [e]
    simp [h1, h2]
  · intro h
    rw [hflag] at h
    rcases hst with hw | hr
    · have hs : syncAfterPush s ((ops.readHead (s.df i)).1 % 256) = false := by
        cases hx : syncAfterPush s ((ops.readHead (s.df i)).1 % 256)
        · rfl
        · exact absurd ⟨hx, hw⟩ h
      rw [e]
      simp [hs, hcnt, pushBits]
    · rw [e]
      have hne : s.state ≠ .DRIVE_DMA_WAIT := by rw [hr]; decide
      simp only [hne, and_false, if_false, hcnt, pushBits]
      refine ⟨?_, trivial, trivial⟩
      split_ifs
      · exact hr.symm
      · rfl

/-- Witness for C5, amended: in READ with FIFO 0x44 (one byte) the head delivers
0x89 and DSKSYNC = 0x4489 is found. -/
theorem executeFifo_read_sync_witness :
    (executeFifo tapeOps
      { amiga0 (tapeDrive [0x89]) with state := .DRIVE_DMA_READ, fifo := 0x44,
                                       fifoCount := 1 }).syncFlag = true ∧
    (executeFifo tapeOps
      { amiga0 (tapeDrive [0x89]) with state := .DRIVE_DMA_READ, fifo := 0x44,
                                       fifoCount := 1 }).irqs = [.raiseIrq .INT_DSKSYN] :=
  have h := executeFifo_read_sync tapeOps
    { amiga0 (tapeDrive [0x89]) with state := .DRIVE_DMA_READ, fifo := 0x44, fifoCount := 1 }
    0 rfl (Or.inr rfl) (by decide)
  have hf := h.2.2.1.2 ⟨by decide, by decide⟩
  ⟨hf, by rw [h.2.2.2.1, hf]; rfl⟩

/-! ## FIFO overrun -/

/-- C7. Pushing to a full FIFO drops the oldest word: when the FIFO holds the six
bytes b0..b5 (b0 oldest, in bits 47..40 of the shift register), `writeFifo n`
leaves `fifoCount = 5` and five successive `readFifo` calls return
b2, b3, b4, b5, n. -/
theorem writeFifo_full_drops_word (s : Amiga D) (b0 b1 b2 b3 b4 b5 n : Nat)
    (hc : s.fifoCount = 6)
    (hf : s.fifo % 2 ^ 48 = ((((b0 * 256 + b1) * 256 + b2) * 256 + b3) * 256 + b4) * 256 + b5)
    (h2 : b2 < 256) (h3 : b3 < 256) (h4 : b4 < 256) (h5 : b5 < 256) (hn : n < 256) :
    (writeFifo s n).fifoCount = 5 ∧
    (readFifoN 5 (writeFifo s n)).1 = [b2, b3, b4, b5, n] ∧
    (readFifoN 5 (writeFifo s n)).2.fifoCount = 0 := by
  have hp : pushCount 6 = 5 := by decide
  refine ⟨by rw [writeFifo_eq]; simp [hc, hp], ?_, ?_⟩
  · simp only [readFifoN, readFifo_eq, writeFifo_eq, hc, hp, pushBits_eq _ _ hn, and_FF,
      Nat.shiftRight_eq_div_pow]
    norm_num
    refine ⟨?_, ?_, ?_, ?_, ?_⟩ <;> omega
  · simp only [readFifoN, readFifo_eq, writeFifo_eq, hc, hp]

/-- Witness for C7: the FIFO 11 22 33 44 55 66 and the byte 0x77. -/
theorem writeFifo_full_drops_word_witness :
    (readFifoN 5 (writeFifo
      { amiga0 (tapeDrive []) with fifo := 0x112233445566, fifoCount := 6 } 0x77)).1
      = [0x33, 0x44, 0x55, 0x66, 0x77] :=
  (writeFifo_full_drops_word
    { amiga0 (tapeDrive []) with fifo := 0x112233445566, fifoCount := 6 }
    0x11 0x22 0x33 0x44 0x55 0x66 0x77 rfl (by decide) (by decide) (by decide) (by decide)
    (by decide) (by decide)).2.1

/-! ## One pass of the DMA loops -/

theorem performDMAReadLoop_succ (env : Env) (ops : DriveOps D) (fuel r : Nat) (s : Amiga D) :
    performDMAReadLoop env ops (fuel + 1) r s =
      if (dmaReadWord env s).dsklen &&& 0x3FFF = 0 then
        setState (raiseIrq (dmaReadWord env s) .INT_DSKBLK) .DRIVE_DMA_OFF
      else if decU32 r ≠ 0 then
        performDMAReadLoop env ops fuel (decU32 r)
          (assertThat (fifoHasWord (executeFifo ops (executeFifo ops (dmaReadWord env s))))
            .dmaReadHasWord (executeFifo ops (executeFifo ops (dmaReadWord env s))))
      else dmaReadWord env s := by
  rfl

theorem dmaReadWord_eq (env : Env) (s : Amiga D) :
    dmaReadWord env s =
      { s with
        failed :=
          if decide (s.posH < HPOS_CNT) then
            (if decide (2 ≤ s.fifoCount) then s.failed else .readFifo16HasWord :: s.failed)
          else .posBelowHposCnt ::
            (if decide (2 ≤ s.fifoCount) then s.failed else .readFifo16HasWord :: s.failed)
        fifoCount := (s.fifoCount + 254) % 256
        mem := Agnus.pokeMem env s.mem s.dskpt (fifoWord s)
        dskpt := (s.dskpt + 2) % 2 ^ 32
        busOwner := fun h => if h = s.posH then .BUS_DISK else s.busOwner h
        busValue := fun h => if h = s.posH then fifoWord s else s.busValue h
        busRaw := fun o => if o = .BUS_DISK then s.busRaw o + 1 else s.busRaw o
        checkcnt := if env.DSK_CHECKSUM then s.checkcnt + 1 else s.checkcnt
        checksum := if env.DSK_CHECKSUM then env.fnv_1a_it32 s.checksum (fifoWord s)
                    else s.checksum
        dsklen := (s.dsklen + 65535) % 65536 } := by
  unfold dmaReadWord decDsklen Agnus.doDiskDMAWrite Agnus.recordDiskBus Agnus.poke fifoWord
  simp only [readFifo16_eq, noteChecksum_eq, assertThat_eq]

/-! ## `executeFifo` in the other states -/

theorem getSelectedDrive_snd (s : Amiga D) :
    (getSelectedDrive s).2 = { s with failed := selFailed s } := by
  unfold getSelectedDrive selFailed
  simp only [assertThat_eq]

theorem executeFifo_none (ops : DriveOps D) (s : Amiga D)
    (h : (getSelectedDrive s).1 = none) :
    executeFifo ops s = { s with failed := selFailed s } := by
  unfold executeFifo
  rw [← getSelectedDrive_snd]
  generalize getSelectedDrive s = p at h ⊢
  obtain ⟨a, b⟩ := p
  simp only at h
  subst h
  rfl

theorem executeFifo_off_eq (ops : DriveOps D) (s : Amiga D) (i : Nat)
    (hsel : (getSelectedDrive s).1 = some i) (hst : s.state = .DRIVE_DMA_OFF) :
    executeFifo ops s =
      { s with failed := selFailed s,
               df := fun j => if j = i then ops.rotate (s.df i) else s.df j } := by
  unfold executeFifo selFailed
  simp only [getSelectedDrive] at hsel ⊢
  simp only [hsel]
  simp [hst, assertThat_eq, setDrive]

/-- Normal form of `executeFifo` in the states WRITE and FLUSH with drive `i` selected. -/
theorem executeFifo_write_eq (ops : DriveOps D) (s : Amiga D) (i : Nat)
    (hsel : (getSelectedDrive s).1 = some i)
    (hst : s.state = .DRIVE_DMA_WRITE ∨ s.state = .DRIVE_DMA_FLUSH) :
    executeFifo ops s =
      if s.fifoCount = 0 then
        { s with failed := selFailed s,
                 state := if s.state = .DRIVE_DMA_FLUSH then .DRIVE_DMA_OFF else s.state }
      else
        { s with failed := selFailed s,
                 fifoCount := (s.fifoCount + 255) % 256,
                 df := fun j =>
                   if j = i then
                     ops.writeHead (s.df i)
                       ((s.fifo >>> (8 * ((s.fifoCount + 255) % 256))) &&& 0xFF)
                   else s.df j } := by
  unfold executeFifo selFailed
  simp only [getSelectedDrive] at hsel ⊢
  simp only [hsel]
  by_cases hc : s.fifoCount = 0
  · rcases hst with hst | hst <;>
      simp [hst, hc, assertThat_eq, fifoIsEmpty, setState_eq, stateMsgs]
  · have hpos : 0 < s.fifoCount := Nat.pos_of_ne_zero hc
    rcases hst with hst | hst <;>
      simp [hst, hc, hpos, assertThat_eq, fifoIsEmpty, readFifo_eq, setDrive]

/-! ## The FIFO invariant -/

theorem selFailed_sound (s : Amiga D) (h : ∀ a ∈ s.failed, Assertion.isFifo a = false) :
    ∀ a ∈ selFailed s, Assertion.isFifo a = false := by
  intro a ha
  unfold selFailed at ha
  split_ifs at ha
  · exact h a ha
  · rcases List.mem_cons.1 ha with rfl | ha
    · rfl
    · exact h a ha

theorem fifoSound_congr (s t : Amiga D) (hc : t.fifoCount = s.fifoCount)
    (hf : t.failed = s.failed) (h : fifoSound s) : fifoSound t := by
  unfold fifoSound at h ⊢
  rw [hc, hf]; exact h

theorem pushCount_bound (c : Nat) (h : c ≤ 6) : pushCount c ≤ 6 := by
  rw [pushCount_le c h]; split_ifs <;> omega

theorem clearFifo_sound (s : Amiga D) (h : fifoSound s) : fifoSound (clearFifo s) :=
  ⟨Nat.zero_le _, h.2⟩

theorem writeFifo_sound (s : Amiga D) (b : Nat) (h : fifoSound s) : fifoSound (writeFifo s b) := by
  rw [writeFifo_eq]
  refine ⟨pushCount_bound _ h.1, ?_⟩
  intro a ha
  simp only [h.1, decide_True, if_true] at ha
  exact h.2 a ha

theorem readFifo_sound (s : Amiga D) (h : fifoSound s) (hc : 0 < s.fifoCount) :
    fifoSound (readFifo s).2 := by
  rw [readFifo_eq]
  refine ⟨?_, ?_⟩
  · have := h.1
    show (s.fifoCount + 255) % 256 ≤ 6
    omega
  · intro a ha
    simp only [hc, decide_True, if_true] at ha
    exact h.2 a ha

theorem readFifo16_sound (s : Amiga D) (h : fifoSound s) (hc : 2 ≤ s.fifoCount) :
    fifoSound (readFifo16 s).2 := by
  rw [readFifo16_eq]
  refine ⟨?_, ?_⟩
  · have := h.1
    show (s.fifoCount + 254) % 256 ≤ 6
    omega
  · intro a ha
    simp only [hc, decide_True, if_true] at ha
    exact h.2 a ha

theorem executeFifo_sound (ops : DriveOps D) (s : Amiga D) (h : fifoSound s) :
    fifoSound (executeFifo ops s) := by
  have hF := selFailed_sound s h.2
  cases hsel : (getSelectedDrive s).1 with
  | none => rw [executeFifo_none ops s hsel]; exact ⟨h.1, hF⟩
  | some i =>
    cases hst : s.state with
    | DRIVE_DMA_OFF => rw [executeFifo_off_eq ops s i hsel hst]; exact ⟨h.1, hF⟩
    | DRIVE_DMA_WAIT =>
      rw [executeFifo_read_eq ops s i hsel (Or.inl hst)]
      refine ⟨?_, ?_⟩
      · show (if _ then 0 else pushCount s.fifoCount) ≤ 6
        split_ifs
        · omega
        · exact pushCount_bound _ h.1
      · intro a ha
        simp only [h.1, decide_True, if_true, getSelectedDrive_snd] at ha
        exact hF a ha
    | DRIVE_DMA_READ =>
      rw [executeFifo_read_eq ops s i hsel (Or.inr hst)]
      refine ⟨?_, ?_⟩
      · show (if _ then 0 else pushCount s.fifoCount) ≤ 6
        split_ifs
        · omega
        · exact pushCount_bound _ h.1
      · intro a ha
        simp only [h.1, decide_True, if_true, getSelectedDrive_snd] at ha
        exact hF a ha
    | DRIVE_DMA_WRITE =>
      rw [executeFifo_write_eq ops s i hsel (Or.inl hst)]
      have := h.1
      by_cases hc : s.fifoCount = 0
      · rw [if_pos hc]; exact ⟨h.1, hF⟩
      · rw [if_neg hc]; exact ⟨by show (s.fifoCount + 255) % 256 ≤ 6; omega, hF⟩
    | DRIVE_DMA_FLUSH =>
      rw [executeFifo_write_eq ops s i hsel (Or.inr hst)]
      have := h.1
      by_cases hc : s.fifoCount = 0
      · rw [if_pos hc]; exact ⟨h.1, hF⟩
      · rw [if_neg hc]; exact ⟨by show (s.fifoCount + 255) % 256 ≤ 6; omega, hF⟩

theorem getSelectedDrive_fst_congr (s t : Amiga D) (h : t.selected = s.selected) :
    (getSelectedDrive t).1 = (getSelectedDrive s).1 := by
  unfold getSelectedDrive
  simp only [h]

/-- `executeFifo` in READ with drive `i` selected and room in the FIFO: one byte
is pushed, the state stays READ. -/
theorem executeFifo_READ (ops : DriveOps D) (s : Amiga D) (i : Nat)
    (hsel : (getSelectedDrive s).1 = some i) (hst : s.state = .DRIVE_DMA_READ)
    (hc : s.fifoCount ≤ 5) :
    (executeFifo ops s).state = .DRIVE_DMA_READ ∧
    (executeFifo ops s).selected = s.selected ∧
    (executeFifo ops s).fifoCount = s.fifoCount + 1 ∧
    (executeFifo ops s).failed = selFailed s ∧
    (executeFifo ops s).fifo = pushBits s.fifo ((ops.readHead (s.df i)).1 % 256) ∧
    (executeFifo ops s).df i = (ops.readHead (s.df i)).2 := by
  have e := executeFifo_read_eq ops s i hsel (Or.inr hst)
  have hne : s.state ≠ .DRIVE_DMA_WAIT := by rw [hst]; decide
  have h6 : s.fifoCount ≤ 6 := by omega
  have hp : pushCount s.fifoCount = s.fifoCount + 1 := by
    rw [pushCount_le _ h6]; split_ifs <;> omega
  rw [e]
  refine ⟨?_, rfl, ?_, ?_, ?_, ?_⟩
  · show (if _ then _ else s.state) = _
    split_ifs
    · rfl
    · exact hst
  · simp only [hne, and_false, if_false, hp]
  · simp only [h6, decide_True, if_true, getSelectedDrive_snd]
  · simp only [hne, and_false, if_false]
  · simp

/-- `executeFifo` in WRITE with drive `i` selected and a non-empty FIFO: the
oldest byte goes to the head, the state stays WRITE. -/
theorem executeFifo_WRITE (ops : DriveOps D) (s : Amiga D) (i : Nat)
    (hsel : (getSelectedDrive s).1 = some i) (hst : s.state = .DRIVE_DMA_WRITE)
    (hc : 0 < s.fifoCount) (h6 : s.fifoCount ≤ 6) :
    (executeFifo ops s).state = .DRIVE_DMA_WRITE ∧
    (executeFifo ops s).selected = s.selected ∧
    (executeFifo ops s).fifoCount = s.fifoCount - 1 ∧
    (executeFifo ops s).failed = selFailed s ∧
    (executeFifo ops s).fifo = s.fifo ∧
    (executeFifo ops s).df i =
      ops.writeHead (s.df i) ((s.fifo >>> (8 * (s.fifoCount - 1))) &&& 0xFF) := by
  have e := executeFifo_write_eq ops s i hsel (Or.inl hst)
  have hne : s.fifoCount ≠ 0 := by omega
  have hm : (s.fifoCount + 255) % 256 = s.fifoCount - 1 := by omega
  rw [if_neg hne, hm] at e
  rw [e]
  exact ⟨hst, rfl, rfl, rfl, rfl, by simp⟩

theorem performDMAReadLoop_sound (env : Env) (ops : DriveOps D) (i : Nat) :
    ∀ (fuel r : Nat) (s : Amiga D), fifoSound s → 2 ≤ s.fifoCount →
      s.state = .DRIVE_DMA_READ → (getSelectedDrive s).1 = some i →
      fifoSound (performDMAReadLoop env ops fuel r s) := by
  intro fuel
  induction fuel with
  | zero => intro r s h _ _ _; exact h
  | succ fuel ih =>
    intro r s h h2 hst hsel
    have h6 := h.1
    have hX : fifoSound (dmaReadWord env s) := by
      rw [dmaReadWord_eq]
      refine ⟨by show (s.fifoCount + 254) % 256 ≤ 6; omega, ?_⟩
      intro a ha
      simp only [h2, decide_True, if_true] at ha
      split_ifs at ha
      · exact h.2 a ha
      · rcases List.mem_cons.1 ha with rfl | ha
        · rfl
        · exact h.2 a ha
    have hXc : (dmaReadWord env s).fifoCount = s.fifoCount - 2 := by
      rw [dmaReadWord_eq]; show (s.fifoCount + 254) % 256 = _; omega
    have hXst : (dmaReadWord env s).state = .DRIVE_DMA_READ := by rw [dmaReadWord_eq]; exact hst
    have hXsel : (getSelectedDrive (dmaReadWord env s)).1 = some i :=
      (getSelectedDrive_fst_congr s (dmaReadWord env s) (by rw [dmaReadWord_eq])).trans hsel
    rw [performDMAReadLoop_succ]
    by_cases hend : (dmaReadWord env s).dsklen &&& 0x3FFF = 0
    · rw [if_pos hend, setState_eq]
      refine fifoSound_congr (dmaReadWord env s) _ ?_ ?_ hX <;> simp only [raiseIrq]
    rw [if_neg hend]
    by_cases hrem : decU32 r ≠ 0
    · rw [if_pos hrem]
      have e1 := executeFifo_READ ops _ i hXsel hXst (by omega)
      have hsel1 : (getSelectedDrive (executeFifo ops (dmaReadWord env s))).1 = some i :=
        (getSelectedDrive_fst_congr _ _ e1.2.1).trans hXsel
      have e2 := executeFifo_READ ops _ i hsel1 e1.1 (by rw [e1.2.2.1]; omega)
      have hsel2 : (getSelectedDrive
          (executeFifo ops (executeFifo ops (dmaReadWord env s)))).1 = some i :=
        (getSelectedDrive_fst_congr _ _ e2.2.1).trans hsel1
      have hYc := e2.2.2.1
      rw [e1.2.2.1] at hYc
      have hY := executeFifo_sound ops _ (executeFifo_sound ops _ hX)
      have hw : fifoHasWord (executeFifo ops (executeFifo ops (dmaReadWord env s))) = true := by
        simp only [fifoHasWord, decide_eq_true_eq]; omega
      rw [hw, assertThat_true]
      exact ih _ _ hY (by omega) e2.1 hsel2
    · rw [if_neg hrem]; exact hX

theorem performDMAWriteLoop_succ (env : Env) (ops : DriveOps D) (i fuel r : Nat)
    (s : Amiga D) :
    performDMAWriteLoop env ops i (fuel + 1) r s =
      if (dmaWriteWord env s).dsklen &&& 0x3FFF = 0 then
        setState (flushFifo ops i 256 (raiseIrq (dmaWriteWord env s) .INT_DSKBLK)) .DRIVE_DMA_OFF
      else if decU32 r ≠ 0 then
        performDMAWriteLoop env ops i fuel (decU32 r)
          (assertThat (fifoCanStoreWord (executeFifo ops (executeFifo ops (dmaWriteWord env s))))
            .dmaWriteCanStore (executeFifo ops (executeFifo ops (dmaWriteWord env s))))
      else dmaWriteWord env s := by
  rfl

theorem dmaWriteWord_eq (env : Env) (s : Amiga D) (h4 : s.fifoCount ≤ 4) :
    dmaWriteWord env s =
      { s with
        failed := if decide (s.posH < HPOS_CNT) then s.failed
                  else .posBelowHposCnt :: s.failed
        fifoCount := s.fifoCount + 2
        fifo := pushBits (pushBits s.fifo (HI_BYTE (Agnus.peek env s s.dskpt)))
                  (LO_BYTE (Agnus.peek env s s.dskpt))
        dskpt := (s.dskpt + 2) % 2 ^ 32
        busOwner := fun h => if h = s.posH then .BUS_DISK else s.busOwner h
        busValue := fun h => if h = s.posH then Agnus.peek env s s.dskpt else s.busValue h
        busRaw := fun o => if o = .BUS_DISK then s.busRaw o + 1 else s.busRaw o
        checkcnt := if env.DSK_CHECKSUM then s.checkcnt + 1 else s.checkcnt
        checksum := if env.DSK_CHECKSUM then env.fnv_1a_it32 s.checksum (Agnus.peek env s s.dskpt)
                    else s.checksum
        dsklen := (s.dsklen + 65535) % 65536 } := by
  have h6 : s.fifoCount ≤ 6 := by omega
  have hp1 : pushCount s.fifoCount = s.fifoCount + 1 := by
    rw [pushCount_le _ h6]; split_ifs <;> omega
  have hp2 : pushCount (s.fifoCount + 1) = s.fifoCount + 2 := by
    rw [pushCount_le _ (by omega)]; split_ifs <;> omega
  have h7 : s.fifoCount + 1 ≤ 6 := by omega
  unfold dmaWriteWord decDsklen Agnus.doDiskDMARead Agnus.recordDiskBus
  simp only [writeFifo_eq, noteChecksum_eq, assertThat_eq, h4, h6, h7, hp1, hp2, decide_True,
    if_true]

theorem flushFifo_sound (ops : DriveOps D) (i : Nat) :
    ∀ (fuel : Nat) (s : Amiga D), fifoSound s →
      fifoSound (flushFifo ops i fuel s) ∧
      (s.fifoCount ≤ fuel → (flushFifo ops i fuel s).fifoCount = 0) := by
  intro fuel
  induction fuel with
  | zero =>
    intro s h
    exact ⟨h, fun hc => Nat.le_zero.1 hc⟩
  | succ fuel ih =>
    intro s h
    unfold flushFifo
    by_cases he : s.fifoCount = 0
    · simp only [fifoIsEmpty, he, beq_self_eq_true, if_true]
      exact ⟨h, fun _ => trivial⟩
    · have hpos : 0 < s.fifoCount := Nat.pos_of_ne_zero he
      have hb : (s.fifoCount == 0) = false := by simpa using he
      simp only [fifoIsEmpty, hb, Bool.false_eq_true, if_false]
      have hr := readFifo_sound s h hpos
      have hrc : (readFifo s).2.fifoCount = s.fifoCount - 1 := by
        have := h.1
        rw [readFifo_eq]; show (s.fifoCount + 255) % 256 = _; omega
      have hs : fifoSound (setDrive (readFifo s).2 i
          (ops.writeHead ((readFifo s).2.df i) (readFifo s).1)) :=
        fifoSound_congr (readFifo s).2 _ (by simp only [setDrive]) (by simp only [setDrive]) hr
      refine ⟨(ih _ hs).1, fun hc => (ih _ hs).2 ?_⟩
      show (readFifo s).2.fifoCount ≤ fuel
      omega

theorem dmaWriteWord_sound (env : Env) (s : Amiga D) (h : fifoSound s) (h4 : s.fifoCount ≤ 4) :
    fifoSound (dmaWriteWord env s) := by
  rw [dmaWriteWord_eq env s h4]
  refine ⟨by show s.fifoCount + 2 ≤ 6; omega, ?_⟩
  intro a ha
  simp only at ha
  split_ifs at ha
  · exact h.2 a ha
  · rcases List.mem_cons.1 ha with rfl | ha
    · rfl
    · exact h.2 a ha

theorem performDMAWriteLoop_sound (env : Env) (ops : DriveOps D) (i : Nat) :
    ∀ (fuel r : Nat) (s : Amiga D), fifoSound s → s.fifoCount ≤ 4 →
      s.state = .DRIVE_DMA_WRITE → (getSelectedDrive s).1 = some i →
      fifoSound (performDMAWriteLoop env ops i fuel r s) := by
  intro fuel
  induction fuel with
  | zero => intro r s h _ _ _; exact h
  | succ fuel ih =>
    intro r s h h4 hst hsel
    have hX := dmaWriteWord_sound env s h h4
    have hXc : (dmaWriteWord env s).fifoCount = s.fifoCount + 2 := by
      rw [dmaWriteWord_eq env s h4]
    have hXst : (dmaWriteWord env s).state = .DRIVE_DMA_WRITE := by
      rw [dmaWriteWord_eq env s h4]; exact hst
    have hXsel : (getSelectedDrive (dmaWriteWord env s)).1 = some i :=
      (getSelectedDrive_fst_congr s (dmaWriteWord env s)
        (by rw [dmaWriteWord_eq env s h4])).trans hsel
    rw [performDMAWriteLoop_succ]
    by_cases hend : (dmaWriteWord env s).dsklen &&& 0x3FFF = 0
    · rw [if_pos hend, setState_eq]
      have hR : fifoSound (raiseIrq (dmaWriteWord env s) .INT_DSKBLK) :=
        fifoSound_congr (dmaWriteWord env s) _ (by simp only [raiseIrq])
          (by simp only [raiseIrq]) hX
      exact fifoSound_congr _ _ (by simp only) (by simp only) (flushFifo_sound ops i 256 _ hR).1
    rw [if_neg hend]
    by_cases hrem : decU32 r ≠ 0
    · rw [if_pos hrem]
      have e1 := executeFifo_WRITE ops _ i hXsel hXst (by omega) hX.1
      have hsel1 : (getSelectedDrive (executeFifo ops (dmaWriteWord env s))).1 = some i :=
        (getSelectedDrive_fst_congr _ _ e1.2.1).trans hXsel
      have hc1 := e1.2.2.1
      rw [hXc] at hc1
      have e2 := executeFifo_WRITE ops _ i hsel1 e1.1 (by omega) (by omega)
      have hsel2 : (getSelectedDrive
          (executeFifo ops (executeFifo ops (dmaWriteWord env s)))).1 = some i :=
        (getSelectedDrive_fst_congr _ _ e2.2.1).trans hsel1
      have hYc := e2.2.2.1
      rw [hc1] at hYc
      have hY := executeFifo_sound ops _ (executeFifo_sound ops _ hX)
      have hw : fifoCanStoreWord (executeFifo ops (executeFifo ops (dmaWriteWord env s)))
          = true := by
        simp only [fifoCanStoreWord, decide_eq_true_eq]; omega
      rw [hw, assertThat_true]
      exact ih _ _ hY (by omega) e2.1 hsel2
    · rw [if_neg hrem]; exact hX

theorem addWordCount_sound (s : Amiga D) (nr count : Nat) (h : fifoSound s) :
    fifoSound (addWordCount s nr count) :=
  fifoSound_congr s _ (by simp only [addWordCount]) (by simp only [addWordCount]) h

theorem performDMA_sound (env : Env) (ops : DriveOps D) (s : Amiga D) (h : fifoSound s) :
    fifoSound (performDMA env ops s) := by
  unfold performDMA
  by_cases h0 : s.dsklen &&& 0x3FFF = 0
  · rw [if_pos h0]; exact h
  rw [if_neg h0]
  by_cases hsts : s.state ≠ .DRIVE_DMA_READ ∧ s.state ≠ .DRIVE_DMA_WRITE
  · rw [if_pos hsts]; exact h
  rw [if_neg hsts]
  have hG : fifoSound (getSelectedDrive s).2 := by
    rw [getSelectedDrive_snd]; exact ⟨h.1, selFailed_sound s h.2⟩
  have hGst : (getSelectedDrive s).2.state = s.state := by rw [getSelectedDrive_snd]
  have hGsel : (getSelectedDrive s).2.selected = s.selected := by rw [getSelectedDrive_snd]
  cases hsel : (getSelectedDrive s).1 with
  | none => simp only [hsel]; exact hG
  | some i =>
    simp only [hsel]
    generalize hcnt : ops.speed ((getSelectedDrive s).2.df i) % 2 ^ 32 = count
    generalize hnr : ops.nr ((getSelectedDrive s).2.df i) = nr
    have hA := addWordCount_sound (getSelectedDrive s).2 nr count hG
    have hAst : (addWordCount (getSelectedDrive s).2 nr count).state = s.state := by
      simp only [addWordCount]; exact hGst
    have hAsel : (getSelectedDrive (addWordCount (getSelectedDrive s).2 nr count)).1 = some i :=
      (getSelectedDrive_fst_congr s _ (by simp only [addWordCount]; exact hGsel)).trans hsel
    cases hst : s.state with
    | DRIVE_DMA_READ =>
      rw [hst] at hAst
      simp only [hAst]
      unfold performDMARead
      by_cases hw : fifoHasWord (addWordCount (getSelectedDrive s).2 nr count) = true
      · simp only [hw, Bool.not_true, Bool.false_eq_true, if_false]
        exact performDMAReadLoop_sound env ops i _ _ _ hA
          (by simpa [fifoHasWord] using hw) hAst hAsel
      · simp only [hw, Bool.not_false, if_true]
        exact hA
    | DRIVE_DMA_WRITE =>
      rw [hst] at hAst
      simp only [hAst]
      unfold performDMAWrite
      by_cases hw : fifoCanStoreWord (addWordCount (getSelectedDrive s).2 nr count) = true
      · simp only [hw, Bool.not_true, Bool.false_eq_true, if_false]
        exact performDMAWriteLoop_sound env ops i _ _ _ hA
          (by simpa [fifoCanStoreWord] using hw) hAst hAsel
      · simp only [hw, Bool.not_false, if_true]
        exact hA
    | DRIVE_DMA_OFF => rw [hst] at hAst; simp only [hAst]; exact hA
    | DRIVE_DMA_WAIT => rw [hst] at hAst; simp only [hAst]; exact hA
    | DRIVE_DMA_FLUSH => rw [hst] at hAst; simp only [hAst]; exact hA

theorem pokeDSKLEN_sound (env : Env) (ops : DriveOps D) (s : Amiga D) (v : Nat)
    (h : fifoSound s) : fifoSound (pokeDSKLEN env ops s v) := by
  rw [pokeDSKLEN_eq]
  have hL : fifoSound (dsklenLatched env ops s v) := by
    refine ⟨?_, selFailed_sound s h.2⟩
    show (if _ then 0 else s.fifoCount) ≤ 6
    split_ifs
    · omega
    · exact h.1
  exact fifoSound_congr _ _ (turboIfSelected_fifo _ _ _ _).2.1
    (turboIfSelected_fifo _ _ _ _).2.2.2 hL

/-- C6. `0 <= fifoCount <= 6` is an invariant of the disk controller.  It holds
after reset; it is preserved by `clearFifo`, `writeFifo`, `readFifo` (when
`fifoCount > 0`) and `readFifo16` (when `fifoCount >= 2`); and `pokeDSKLEN`,
`executeFifo` and `performDMA` preserve it together with the fact that no
assertion about the FIFO fill level has failed, so none of them calls
`readFifo` or `readFifo16` with its precondition violated. -/
theorem fifoCount_invariant (env : Env) (ops : DriveOps D) :
    (∀ s : Amiga D, (reset s).fifoCount ≤ 6) ∧
    (∀ s : Amiga D, (clearFifo s).fifoCount ≤ 6) ∧
    (∀ (s : Amiga D) (b : Nat), s.fifoCount ≤ 6 → (writeFifo s b).fifoCount ≤ 6) ∧
    (∀ s : Amiga D, 0 < s.fifoCount → s.fifoCount ≤ 6 → (readFifo s).2.fifoCount ≤ 6) ∧
    (∀ s : Amiga D, 2 ≤ s.fifoCount → s.fifoCount ≤ 6 → (readFifo16 s).2.fifoCount ≤ 6) ∧
    (∀ (s : Amiga D) (v : Nat), fifoSound s → fifoSound (pokeDSKLEN env ops s v)) ∧
    (∀ s : Amiga D, fifoSound s → fifoSound (executeFifo ops s)) ∧
    (∀ s : Amiga D, fifoSound s → fifoSound (performDMA env ops s)) := by
  refine ⟨?_, ?_, ?_, ?_, ?_, ?_, ?_, ?_⟩
  · intro s; simp [reset, resetSnapshotItems]
  · intro s; simp [clearFifo]
  · intro s b h
    rw [writeFifo_eq]
    exact pushCount_bound _ h
  · intro s h0 h6
    rw [readFifo_eq]
    show (s.fifoCount + 255) % 256 ≤ 6
    omega
  · intro s h2 h6
    rw [readFifo16_eq]
    show (s.fifoCount + 254) % 256 ≤ 6
    omega
  · exact fun s v h => pokeDSKLEN_sound env ops s v h
  · exact fun s h => executeFifo_sound ops s h
  · exact fun s h => performDMA_sound env ops s h

/-- Witness for C6: a read DMA of three words at drive speed 3 from a FIFO of three
bytes keeps the FIFO within its bounds and fails no FIFO assertion. -/
theorem fifoCount_invariant_witness :
    fifoSound (performDMA env0 tapeOps
      { amiga0 { tapeDrive [1, 2, 3, 4, 5, 6] with speed := 3 } with
          state := .DRIVE_DMA_READ, fifo := 0xAABBCC, fifoCount := 3, dsklen := 0x8005 }) :=
  (fifoCount_invariant env0 tapeOps).2.2.2.2.2.2.2 _
    ⟨by decide, fun a ha => absurd ha (List.not_mem_nil a)⟩

/-! ## Read DMA -/

/-- C9. In READ, bytes never leave the FIFO until a word is present: with
`state = READ` and `fifoCount < 2`, `performDMA` writes nothing to memory and
leaves the FIFO, `fifoCount`, DSKLEN, DSKPT and the state unchanged. -/
theorem performDMA_read_needs_word (env : Env) (ops : DriveOps D) (s : Amiga D)
    (hst : s.state = .DRIVE_DMA_READ) (hc : s.fifoCount < 2) :
    (performDMA env ops s).mem = s.mem ∧
    (performDMA env ops s).fifo = s.fifo ∧
    (performDMA env ops s).fifoCount = s.fifoCount ∧
    (performDMA env ops s).dsklen = s.dsklen ∧
    (performDMA env ops s).dskpt = s.dskpt ∧
    (performDMA env ops s).state = s.state ∧
    (performDMA env ops s).busRaw = s.busRaw := by
  unfold performDMA
  by_cases h0 : s.dsklen &&& 0x3FFF = 0
  · rw [if_pos h0]; simp only [and_self]
  rw [if_neg h0]
  have hsts : ¬ (s.state ≠ .DRIVE_DMA_READ ∧ s.state ≠ .DRIVE_DMA_WRITE) := fun h => h.1 hst
  rw [if_neg hsts]
  cases hsel : (getSelectedDrive s).1 with
  | none => simp only [hsel, getSelectedDrive_snd, and_self]
  | some i =>
    simp only [hsel]
    have hAst : ∀ nr count, (addWordCount (getSelectedDrive s).2 nr count).state
        = .DRIVE_DMA_READ := by
      intro nr count; simp only [addWordCount, getSelectedDrive_snd]; exact hst
    have hw : ∀ nr count, fifoHasWord (addWordCount (getSelectedDrive s).2 nr count) = false := by
      intro nr count
      simp only [fifoHasWord, addWordCount, getSelectedDrive_snd, decide_eq_false_iff_not]
      omega
    simp only [hAst, performDMARead, hw, Bool.not_false, if_true]
    simp only [addWordCount, getSelectedDrive_snd, hst, and_self]

/-- Witness for C9: READ with one byte in the FIFO and five words to go. -/
theorem performDMA_read_needs_word_witness :
    (performDMA env0 tapeOps
      { amiga0 (tapeDrive [1, 2]) with state := .DRIVE_DMA_READ, fifo := 0xAB, fifoCount := 1,
                                       dsklen := 0x8005 }).fifoCount = 1 :=
  (performDMA_read_needs_word env0 tapeOps
    { amiga0 (tapeDrive [1, 2]) with state := .DRIVE_DMA_READ, fifo := 0xAB, fifoCount := 1,
                                     dsklen := 0x8005 } rfl (by decide)).2.2.1

theorem decU32_pos (r : Nat) (h1 : 1 ≤ r) (h2 : r < 4294967296) : decU32 r = r - 1 := by
  unfold decU32; omega

/-- What `executeFifo` leaves alone in READ, and the interrupts it may raise. -/
theorem executeFifo_READ_frame (ops : DriveOps D) (s : Amiga D) (i : Nat)
    (hsel : (getSelectedDrive s).1 = some i) (hst : s.state = .DRIVE_DMA_READ) :
    (executeFifo ops s).mem = s.mem ∧
    (executeFifo ops s).dskpt = s.dskpt ∧
    (executeFifo ops s).dsklen = s.dsklen ∧
    (executeFifo ops s).busRaw = s.busRaw ∧
    ∃ sy : List IrqCall, (∀ x ∈ sy, x = .raiseIrq .INT_DSKSYN) ∧
      (executeFifo ops s).irqs = s.irqs ++ sy := by
  have e := executeFifo_read_eq ops s i hsel (Or.inr hst)
  rw [e]
  refine ⟨rfl, rfl, rfl, rfl, _, ?_, rfl⟩
  intro x hx
  split_ifs at hx
  · simpa using hx
  · simp at hx

/-- The fields of the machine after one word of read DMA. -/
theorem dmaReadWord_fields (env : Env) (s : Amiga D) (h2 : 2 ≤ s.fifoCount)
    (h6 : s.fifoCount ≤ 6) (hn : 1 ≤ s.dsklen % 16384) (hlen : s.dsklen < 65536) :
    (dmaReadWord env s).mem = Agnus.pokeMem env s.mem s.dskpt (fifoWord s) ∧
    (dmaReadWord env s).dskpt = (s.dskpt + 2) % 2 ^ 32 ∧
    (dmaReadWord env s).dsklen = s.dsklen - 1 ∧
    (dmaReadWord env s).busRaw .BUS_DISK = s.busRaw .BUS_DISK + 1 ∧
    (dmaReadWord env s).irqs = s.irqs ∧
    (dmaReadWord env s).state = s.state ∧
    (dmaReadWord env s).fifoCount = s.fifoCount - 2 ∧
    (dmaReadWord env s).selected = s.selected := by
  rw [dmaReadWord_eq]
  refine ⟨rfl, rfl, ?_, ?_, rfl, rfl, ?_, rfl⟩
  · show (s.dsklen + 65535) % 65536 = s.dsklen - 1
    omega
  · simp
  · show (s.fifoCount + 254) % 256 = s.fifoCount - 2
    omega

/-- The machine after one word of read DMA and the two `executeFifo` calls that
follow it when the loop repeats. -/
theorem dmaReadPass_fields (env : Env) (ops : DriveOps D) (i : Nat) (s : Amiga D)
    (hsel : (getSelectedDrive s).1 = some i) (hst : s.state = .DRIVE_DMA_READ)
    (h2 : 2 ≤ s.fifoCount) (h6 : s.fifoCount ≤ 6) (hn : 1 ≤ s.dsklen % 16384)
    (hlen : s.dsklen < 65536) :
    (getSelectedDrive (executeFifo ops (executeFifo ops (dmaReadWord env s)))).1 = some i ∧
    (executeFifo ops (executeFifo ops (dmaReadWord env s))).state = .DRIVE_DMA_READ ∧
    (executeFifo ops (executeFifo ops (dmaReadWord env s))).fifoCount = s.fifoCount ∧
    (executeFifo ops (executeFifo ops (dmaReadWord env s))).mem
      = Agnus.pokeMem env s.mem s.dskpt (fifoWord s) ∧
    (executeFifo ops (executeFifo ops (dmaReadWord env s))).dskpt = (s.dskpt + 2) % 2 ^ 32 ∧
    (executeFifo ops (executeFifo ops (dmaReadWord env s))).dsklen = s.dsklen - 1 ∧
    (executeFifo ops (executeFifo ops (dmaReadWord env s))).busRaw .BUS_DISK
      = s.busRaw .BUS_DISK + 1 ∧
    ∃ sy : List IrqCall, (∀ x ∈ sy, x = .raiseIrq .INT_DSKSYN) ∧
      (executeFifo ops (executeFifo ops (dmaReadWord env s))).irqs = s.irqs ++ sy := by
  obtain ⟨xmem, xpt, xlen, xbus, xirq, xst, xcnt, xsel⟩ :=
    dmaReadWord_fields env s h2 h6 hn hlen
  have hXsel : (getSelectedDrive (dmaReadWord env s)).1 = some i :=
    (getSelectedDrive_fst_congr s _ xsel).trans hsel
  have hXst : (dmaReadWord env s).state = .DRIVE_DMA_READ := xst.trans hst
  have hXc : (dmaReadWord env s).fifoCount ≤ 5 := by rw [xcnt]; omega
  generalize dmaReadWord env s = X at *
  have e1 := executeFifo_READ ops X i hXsel hXst hXc
  obtain ⟨ymem1, ypt1, ylen1, ybus1, sy1, hsy1, yirq1⟩ := executeFifo_READ_frame ops X i hXsel hXst
  have hsel1 : (getSelectedDrive (executeFifo ops X)).1 = some i :=
    (getSelectedDrive_fst_congr _ _ e1.2.1).trans hXsel
  have hst1 := e1.1
  have hc1 : (executeFifo ops X).fifoCount = X.fifoCount + 1 := e1.2.2.1
  clear e1
  generalize executeFifo ops X = Y1 at *
  have hY1c : Y1.fifoCount ≤ 5 := by rw [hc1, xcnt]; omega
  have e2 := executeFifo_READ ops Y1 i hsel1 hst1 hY1c
  obtain ⟨ymem2, ypt2, ylen2, ybus2, sy2, hsy2, yirq2⟩ := executeFifo_READ_frame ops Y1 i hsel1 hst1
  have hsel2 : (getSelectedDrive (executeFifo ops Y1)).1 = some i :=
    (getSelectedDrive_fst_congr _ _ e2.2.1).trans hsel1
  have hst2 := e2.1
  have hc2 : (executeFifo ops Y1).fifoCount = Y1.fifoCount + 1 := e2.2.2.1
  clear e2
  generalize executeFifo ops Y1 = Y2 at *
  refine ⟨hsel2, hst2, ?_, ?_, ?_, ?_, ?_, sy1 ++ sy2, ?_, ?_⟩
  · rw [hc2, hc1, xcnt]; omega
  · rw [ymem2, ymem1, xmem]
  · rw [ypt2, ypt1, xpt]
  · rw [ylen2, ylen1, xlen]
  · rw [ybus2, ybus1, xbus]
  · intro x hx
    rcases List.mem_append.1 hx with hx | hx
    · exact hsy1 x hx
    · exact hsy2 x hx
  · rw [yirq2, yirq1, xirq, List.append_assoc]

/-- The FIFO and the drive after one word of read DMA and the two `executeFifo`
calls: two bytes from the head of the drive have been pushed. -/
theorem dmaReadPass_fifo (env : Env) (ops : DriveOps D) (i : Nat) (s : Amiga D)
    (hsel : (getSelectedDrive s).1 = some i) (hst : s.state = .DRIVE_DMA_READ)
    (h2 : 2 ≤ s.fifoCount) (h6 : s.fifoCount ≤ 6) (hn : 1 ≤ s.dsklen % 16384)
    (hlen : s.dsklen < 65536) :
    (executeFifo ops (executeFifo ops (dmaReadWord env s))).fifo
      = pushBits (pushBits s.fifo ((ops.readHead (s.df i)).1 % 256))
          ((ops.readHead (ops.readHead (s.df i)).2).1 % 256) ∧
    (executeFifo ops (executeFifo ops (dmaReadWord env s))).df i
      = (ops.readHead (ops.readHead (s.df i)).2).2 := by
  obtain ⟨-, -, -, -, -, xst, xcnt, xsel⟩ := dmaReadWord_fields env s h2 h6 hn hlen
  have xfifo : (dmaReadWord env s).fifo = s.fifo := by rw [dmaReadWord_eq]
  have xdf : (dmaReadWord env s).df = s.df := by rw [dmaReadWord_eq]
  have hXsel : (getSelectedDrive (dmaReadWord env s)).1 = some i :=
    (getSelectedDrive_fst_congr s _ xsel).trans hsel
  have hXst : (dmaReadWord env s).state = .DRIVE_DMA_READ := xst.trans hst
  have hXc : (dmaReadWord env s).fifoCount ≤ 5 := by rw [xcnt]; omega
  generalize dmaReadWord env s = X at *
  obtain ⟨hst1, hs1, hc1, -, hf1, hd1⟩ := executeFifo_READ ops X i hXsel hXst hXc
  have hsel1 : (getSelectedDrive (executeFifo ops X)).1 = some i :=
    (getSelectedDrive_fst_congr _ _ hs1).trans hXsel
  generalize executeFifo ops X = Y1 at *
  have hY1c : Y1.fifoCount ≤ 5 := by rw [hc1, xcnt]; omega
  obtain ⟨-, -, -, -, hf2, hd2⟩ := executeFifo_READ ops Y1 i hsel1 hst1 hY1c
  rw [hf2, hd2, hf1, hd1, xfifo, xdf]
  exact ⟨rfl, rfl⟩

theorem mod_pred_16384 (d : Nat) (h : 1 ≤ d % 16384) : (d - 1) % 16384 = d % 16384 - 1 := by
  omega

theorem min_step (r n : Nat) (hr : 2 ≤ r) (hn : 2 ≤ n) :
    min r n = min (r - 1) (n - 1) + 1 := by
  omega

theorem ptr_step (a m : Nat) : ((a + 2) % 2 ^ 32 + 2 * m) % 2 ^ 32 = (a + 2 * (m + 1)) % 2 ^ 32 := by
  omega

theorem performDMAReadLoop_spec (env : Env) (ops : DriveOps D) (i : Nat) :
    ∀ (fuel r : Nat) (s : Amiga D),
      (getSelectedDrive s).1 = some i → s.state = .DRIVE_DMA_READ →
      2 ≤ s.fifoCount → s.fifoCount ≤ 6 → 1 ≤ r → r < 4294967296 →
      1 ≤ s.dsklen % 16384 → s.dsklen % 16384 ≤ fuel → s.dsklen < 65536 →
      ∃ (ws : List Nat) (syncs : List IrqCall),
        ws.length = min r (s.dsklen % 16384) ∧
        ws.head? = some (fifoWord s) ∧
        ws = fifoReadWords ops (min r (s.dsklen % 16384)) s.fifo s.fifoCount (s.df i) ∧
        (performDMAReadLoop env ops fuel r s).mem = pokeWords env s.mem s.dskpt ws ∧
        (performDMAReadLoop env ops fuel r s).dskpt
          = (s.dskpt + 2 * min r (s.dsklen % 16384)) % 2 ^ 32 ∧
        (performDMAReadLoop env ops fuel r s).dsklen = s.dsklen - min r (s.dsklen % 16384) ∧
        (performDMAReadLoop env ops fuel r s).busRaw .BUS_DISK
          = s.busRaw .BUS_DISK + min r (s.dsklen % 16384) ∧
        (∀ x ∈ syncs, x = .raiseIrq .INT_DSKSYN) ∧
        (performDMAReadLoop env ops fuel r s).irqs
          = s.irqs ++ syncs ++
              (if s.dsklen % 16384 ≤ r then [.raiseIrq .INT_DSKBLK] else []) ∧
        (performDMAReadLoop env ops fuel r s).state
          = (if s.dsklen % 16384 ≤ r then .DRIVE_DMA_OFF else .DRIVE_DMA_READ) := by
  intro fuel
  induction fuel with
  | zero =>
    intro r s _ _ _ _ _ _ hn hf _
    omega
  | succ fuel ih =>
    intro r s hsel hst h2 h6 hr1 hr2 hn hf hlen
    obtain ⟨xmem, xpt, xlen, xbus, xirq, xst, -, -⟩ :=
      dmaReadWord_fields env s h2 h6 hn hlen
    have hXst : (dmaReadWord env s).state = .DRIVE_DMA_READ := xst.trans hst
    have hcnt : (dmaReadWord env s).dsklen &&& 0x3FFF = s.dsklen % 16384 - 1 := by
      rw [and_3FFF, xlen]; exact mod_pred_16384 _ hn
    have hdec := decU32_pos r hr1 hr2
    have hfw : fifoWord s = (s.fifo >>> (8 * (s.fifoCount - 2))) &&& 0xFFFF := by
      have hm : (s.fifoCount + 254) % 256 = s.fifoCount - 2 := by omega
      simp only [fifoWord, hm]
    rw [performDMAReadLoop_succ, hcnt, hdec]
    by_cases hend : s.dsklen % 16384 - 1 = 0
    · -- the last word of the block
      have hn1 : s.dsklen % 16384 = 1 := by omega
      have hmin : min r (s.dsklen % 16384) = 1 := by rw [hn1]; omega
      have hle : s.dsklen % 16384 ≤ r := by omega
      rw [if_pos hend, setState_eq, hmin, if_pos hle, if_pos hle]
      refine ⟨[fifoWord s], [], rfl, rfl, ?_, ?_, ?_, ?_, ?_, ?_, ?_, ?_⟩
      · rw [hfw]; rfl
      · simp only [raiseIrq, pokeWords]; exact xmem
      · simp only [raiseIrq]; exact xpt
      · simp only [raiseIrq]; exact xlen
      · simp only [raiseIrq]; exact xbus
      · intro x hx; simp at hx
      · simp only [raiseIrq, xirq, List.append_nil]
      · simp only
    · rw [if_neg hend]
      have hn2 : 2 ≤ s.dsklen % 16384 := by omega
      by_cases hrem : r - 1 ≠ 0
      · -- another pass
        rw [if_pos hrem]
        have hr3 : 2 ≤ r := by omega
        obtain ⟨ysel, yst, ycnt, ymem, ypt, ylen, ybus, sy, hsy, yirq⟩ :=
          dmaReadPass_fields env ops i s hsel hst h2 h6 hn hlen
        obtain ⟨yfifo, ydf⟩ := dmaReadPass_fifo env ops i s hsel hst h2 h6 hn hlen
        have hw : fifoHasWord (executeFifo ops (executeFifo ops (dmaReadWord env s)))
            = true := by
          simp only [fifoHasWord, decide_eq_true_eq, ycnt]; exact h2
        rw [hw, assertThat_true]
        have hn' : (s.dsklen - 1) % 16384 = s.dsklen % 16384 - 1 := mod_pred_16384 _ hn
        have a1 : 1 ≤ r - 1 := by omega
        have a2 : r - 1 < 4294967296 := by omega
        have a3 : 1 ≤ s.dsklen % 16384 - 1 := by omega
        have a4 : s.dsklen % 16384 - 1 ≤ fuel := by omega
        have a5 : s.dsklen - 1 < 65536 := by omega
        have hmin := min_step r (s.dsklen % 16384) hr3 hn2
        have hcond : s.dsklen % 16384 - 1 ≤ r - 1 ↔ s.dsklen % 16384 ≤ r := by omega
        have hsub : s.dsklen - 1 - min (r - 1) (s.dsklen % 16384 - 1)
            = s.dsklen - (min (r - 1) (s.dsklen % 16384 - 1) + 1) := by omega
        clear hcnt hdec hend hrem hf hr1 hr2 hXst xmem xpt xlen xbus xirq xst
        generalize executeFifo ops (executeFifo ops (dmaReadWord env s)) = Y at *
        have hih := ih (r - 1) Y ysel yst (ycnt.symm ▸ h2) (ycnt.symm ▸ h6) a1 a2
          (by rw [ylen, hn']; exact a3) (by rw [ylen, hn']; exact a4) (by rw [ylen]; exact a5)
        rw [ylen, hn', ymem, ypt, ybus, yirq, yfifo, ydf, ycnt] at hih
        obtain ⟨ws, syncs, hlenws, -, hws, hmem, hpt, hdl, hbus, hsyn, hirq, hstate⟩ := hih
        refine ⟨fifoWord s :: ws, sy ++ syncs, ?_, rfl, ?_, ?_, ?_, ?_, ?_, ?_, ?_, ?_⟩
        · rw [List.length_cons, hlenws, hmin]
        · rw [hmin, hws, hfw]; rfl
        · rw [hmem]; rfl
        · rw [hpt, hmin]; exact ptr_step _ _
        · rw [hdl, hmin]; exact hsub
        · rw [hbus, hmin, Nat.add_assoc, Nat.add_comm 1]
        · intro x hx
          rcases List.mem_append.1 hx with hx | hx
          · exact hsy x hx
          · exact hsyn x hx
        · rw [hirq]
          simp only [hcond, List.append_assoc]
        · rw [hstate]; simp only [hcond]
      · -- the budget of the line is used up
        rw [if_neg hrem]
        have hr1' : r = 1 := by omega
        have hmin : min r (s.dsklen % 16384) = 1 := by omega
        have hle : ¬ s.dsklen % 16384 ≤ r := by omega
        rw [hmin, if_neg hle, if_neg hle]
        refine ⟨[fifoWord s], [], rfl, rfl, ?_, ?_, xpt, xlen, xbus, ?_, ?_, hXst⟩
        · rw [hfw]; rfl
        · simp only [pokeWords]; exact xmem
        · intro x hx; simp at hx
        · simp only [xirq, List.append_nil]

/-- The machine on which `performDMA` runs its loop agrees with the machine at
entry, except for the statistics and the failed assertions. -/
theorem addWordCount_sel_fields (s : Amiga D) (nr count : Nat) :
    (addWordCount (getSelectedDrive s).2 nr count).selected = s.selected ∧
    (addWordCount (getSelectedDrive s).2 nr count).state = s.state ∧
    (addWordCount (getSelectedDrive s).2 nr count).fifoCount = s.fifoCount ∧
    (addWordCount (getSelectedDrive s).2 nr count).dsklen = s.dsklen ∧
    (addWordCount (getSelectedDrive s).2 nr count).mem = s.mem ∧
    (addWordCount (getSelectedDrive s).2 nr count).dskpt = s.dskpt ∧
    (addWordCount (getSelectedDrive s).2 nr count).busRaw = s.busRaw ∧
    (addWordCount (getSelectedDrive s).2 nr count).irqs = s.irqs ∧
    (addWordCount (getSelectedDrive s).2 nr count).fifo = s.fifo ∧
    (addWordCount (getSelectedDrive s).2 nr count).df = s.df := by
  simp only [addWordCount, getSelectedDrive_snd, and_self]

/-- A cell that `Agnus::poke` does not address keeps its content. -/
theorem pokeMem_frame (env : Env) (m : Memory) (a w c : Nat) (h : a &&& env.ptrMask ≠ c) :
    (Agnus.pokeMem env m a w).chip c = m.chip c ∧ (Agnus.pokeMem env m a w).slow c = m.slow c := by
  have h2 : ¬ c = a &&& env.ptrMask := fun e => h e.symm
  unfold Agnus.pokeMem
  by_cases hc : 0x80000 ≤ a &&& env.ptrMask ∧ env.slowRamIsMirroredIn = true
  · simp only [hc, and_self, if_true, Memory.pokeSlow16, if_neg h2]
  · simp only [if_neg hc, Memory.pokeChip16, if_neg h2, and_self]

/-- The cell that `Agnus::poke` addresses holds the value written: in Slow RAM when
the masked address is at or above 0x80000 and Slow RAM is mirrored in, in Chip
RAM otherwise. -/
theorem pokeMem_cell (env : Env) (m : Memory) (a w : Nat) :
    (if 0x80000 ≤ a &&& env.ptrMask ∧ env.slowRamIsMirroredIn = true
      then (Agnus.pokeMem env m a w).slow (a &&& env.ptrMask)
      else (Agnus.pokeMem env m a w).chip (a &&& env.ptrMask)) = w := by
  unfold Agnus.pokeMem
  by_cases hc : 0x80000 ≤ a &&& env.ptrMask ∧ env.slowRamIsMirroredIn = true
  · simp only [hc, and_self, if_true, Memory.pokeSlow16]
  · simp only [if_neg hc, Memory.pokeChip16, if_true]

theorem dmaCell_zero (env : Env) (a : Nat) (ha : a < 2 ^ 32) :
    dmaCell env a 0 = a &&& env.ptrMask := by
  unfold dmaCell
  rw [Nat.mul_zero, Nat.add_zero, Nat.mod_eq_of_lt ha]

theorem dmaCell_succ (env : Env) (a j : Nat) :
    dmaCell env ((a + 2) % 2 ^ 32) j = dmaCell env a (j + 1) := by
  unfold dmaCell
  rw [ptr_step]

/-- The cells that none of the words written by `pokeWords` addresses keep their
content. -/
theorem pokeWords_frame (env : Env) :
    ∀ (ws : List Nat) (m : Memory) (a c : Nat), a < 2 ^ 32 →
      (∀ j, j < ws.length → dmaCell env a j ≠ c) →
      (pokeWords env m a ws).chip c = m.chip c ∧ (pokeWords env m a ws).slow c = m.slow c := by
  intro ws
  induction ws with
  | nil => intro m a c _ _; exact ⟨rfl, rfl⟩
  | cons w ws ih =>
    intro m a c ha hc
    have h0 : a &&& env.ptrMask ≠ c := by
      rw [← dmaCell_zero env a ha]; exact hc 0 (Nat.succ_pos _)
    have hrest := ih (Agnus.pokeMem env m a w) ((a + 2) % 2 ^ 32) c (Nat.mod_lt _ (by positivity))
      (fun j hj => by rw [dmaCell_succ]; exact hc (j + 1) (Nat.succ_lt_succ hj))
    obtain ⟨f1, f2⟩ := pokeMem_frame env m a w c h0
    simp only [pokeWords]
    exact ⟨hrest.1.trans f1, hrest.2.trans f2⟩

/-- Word `j` of the words written by `pokeWords` is in its cell afterwards, unless
a later word has the same cell. -/
theorem pokeWords_cell (env : Env) :
    ∀ (ws : List Nat) (m : Memory) (a j : Nat), a < 2 ^ 32 → j < ws.length →
      (∀ k, j < k → k < ws.length → dmaCell env a k ≠ dmaCell env a j) →
      (if 0x80000 ≤ dmaCell env a j ∧ env.slowRamIsMirroredIn = true
        then (pokeWords env m a ws).slow (dmaCell env a j)
        else (pokeWords env m a ws).chip (dmaCell env a j)) = ws.getD j 0 := by
  intro ws
  induction ws with
  | nil => intro m a j _ hj; exact absurd hj (Nat.not_lt_zero _)
  | cons w ws ih =>
    intro m a j ha hj hk
    have ha2 : (a + 2) % 2 ^ 32 < 2 ^ 32 := Nat.mod_lt _ (by positivity)
    cases j with
    | zero =>
      have hfr := pokeWords_frame env ws (Agnus.pokeMem env m a w) ((a + 2) % 2 ^ 32)
        (dmaCell env a 0) ha2
        (fun k hk2 => by
          rw [dmaCell_succ]
          exact hk (k + 1) (Nat.succ_pos _) (Nat.succ_lt_succ hk2))
      simp only [pokeWords, hfr.1, hfr.2, List.getD_cons_zero]
      rw [dmaCell_zero env a ha]
      exact pokeMem_cell env m a w
    | succ j =>
      have hj2 : j < ws.length := Nat.lt_of_succ_lt_succ hj
      have := ih (Agnus.pokeMem env m a w) ((a + 2) % 2 ^ 32) j ha2 hj2
        (fun k h1 h2 => by
          rw [dmaCell_succ, dmaCell_succ]
          exact hk (k + 1) (Nat.succ_lt_succ h1) (Nat.succ_lt_succ h2))
      rw [dmaCell_succ] at this
      simp only [pokeWords, List.getD_cons_succ]
      exact this

/-- `performDMA` in READ with drive `i` selected and a word in the FIFO is the
read loop on the machine with the word statistics updated. -/
theorem performDMA_read_eq (env : Env) (ops : DriveOps D) (s : Amiga D) (i : Nat)
    (hsel : (getSelectedDrive s).1 = some i) (hst : s.state = .DRIVE_DMA_READ)
    (h2 : 2 ≤ s.fifoCount) (hn : s.dsklen &&& 0x3FFF ≠ 0) :
    performDMA env ops s =
      performDMAReadLoop env ops 0x4000 (ops.speed (s.df i) % 2 ^ 32)
        (addWordCount (getSelectedDrive s).2 (ops.nr (s.df i)) (ops.speed (s.df i) % 2 ^ 32)) := by
  unfold performDMA
  have hsts : ¬ (s.state ≠ .DRIVE_DMA_READ ∧ s.state ≠ .DRIVE_DMA_WRITE) := fun h => h.1 hst
  rw [if_neg hn, if_neg hsts]
  simp only [hsel]
  have hdf : (getSelectedDrive s).2.df = s.df := by rw [getSelectedDrive_snd]
  have hAst : ∀ nr count, (addWordCount (getSelectedDrive s).2 nr count).state
      = .DRIVE_DMA_READ := by
    intro nr count; simp only [addWordCount, getSelectedDrive_snd]; exact hst
  have hw : ∀ nr count, fifoHasWord (addWordCount (getSelectedDrive s).2 nr count) = true := by
    intro nr count
    simp only [fifoHasWord, addWordCount, getSelectedDrive_snd, decide_eq_true_eq]
    exact h2
  simp only [hAst, performDMARead, hw, Bool.not_true, Bool.false_eq_true, if_false, hdf]

/-- C8. In READ with drive `i` of speed `k >= 1` selected, at least two bytes in
the FIFO and a 14-bit DSKLEN counter `n >= 1`, `performDMA` transfers exactly
`min k n` words `ws`: the first one is the oldest FIFO word, the later ones are
the FIFO words after two more bytes from the drive head have been pushed.  Word
`j` is written through `Agnus::poke` at DSKPT + 2 * j: afterwards it is in the
cell of this address (the address masked with `ptrMask`; in Chip RAM, or in Slow
RAM when the masked address is at or above 0x80000 and Slow RAM is mirrored in),
unless a later word of the transfer has the same cell, and every cell that no
word addresses is unchanged.  The bus statistics count `min k n` disk accesses,
DSKPT grows by 2 per word (as a 32-bit register) and the counter drops by 1 per
word.  If the counter reaches 0 (`n <= k`), INT_DSKBLK is raised and the state
becomes OFF, otherwise the state stays READ and INT_DSKBLK is not raised; the
only other interrupts are INT_DSKSYN from the interleaved `executeFifo` calls. -/
theorem performDMA_read (env : Env) (ops : DriveOps D) (s : Amiga D) (i : Nat)
    (hsel : s.selected = (i : Int)) (hst : s.state = .DRIVE_DMA_READ)
    (h2 : 2 ≤ s.fifoCount) (h6 : s.fifoCount ≤ 6)
    (hk1 : 1 ≤ ops.speed (s.df i)) (hk2 : ops.speed (s.df i) < 2 ^ 32)
    (hn : 1 ≤ s.dsklen &&& 0x3FFF) (hlen : s.dsklen < 65536) :
    ∃ (ws : List Nat) (syncs : List IrqCall),
      ws.length = min (ops.speed (s.df i)) (s.dsklen &&& 0x3FFF) ∧
      ws.head? = some ((s.fifo >>> (8 * (s.fifoCount - 2))) &&& 0xFFFF) ∧
      ws = fifoReadWords ops (min (ops.speed (s.df i)) (s.dsklen &&& 0x3FFF))
        s.fifo s.fifoCount (s.df i) ∧
      (performDMA env ops s).mem = pokeWords env s.mem s.dskpt ws ∧
      (s.dskpt < 2 ^ 32 →
        (∀ j, j < ws.length →
          (∀ l, j < l → l < ws.length → dmaCell env s.dskpt l ≠ dmaCell env s.dskpt j) →
          (if 0x80000 ≤ dmaCell env s.dskpt j ∧ env.slowRamIsMirroredIn = true
            then (performDMA env ops s).mem.slow (dmaCell env s.dskpt j)
            else (performDMA env ops s).mem.chip (dmaCell env s.dskpt j)) = ws.getD j 0) ∧
        (∀ c, (∀ j, j < ws.length → dmaCell env s.dskpt j ≠ c) →
          (performDMA env ops s).mem.chip c = s.mem.chip c ∧
          (performDMA env ops s).mem.slow c = s.mem.slow c)) ∧
      (performDMA env ops s).busRaw .BUS_DISK
        = s.busRaw .BUS_DISK + min (ops.speed (s.df i)) (s.dsklen &&& 0x3FFF) ∧
      (performDMA env ops s).dskpt
        = (s.dskpt + 2 * min (ops.speed (s.df i)) (s.dsklen &&& 0x3FFF)) % 2 ^ 32 ∧
      (performDMA env ops s).dsklen
        = s.dsklen - min (ops.speed (s.df i)) (s.dsklen &&& 0x3FFF) ∧
      (performDMA env ops s).dsklen &&& 0x3FFF
        = (s.dsklen &&& 0x3FFF) - min (ops.speed (s.df i)) (s.dsklen &&& 0x3FFF) ∧
      (∀ x ∈ syncs, x = .raiseIrq .INT_DSKSYN) ∧
      (performDMA env ops s).irqs
        = s.irqs ++ syncs ++
            (if s.dsklen &&& 0x3FFF ≤ ops.speed (s.df i) then [.raiseIrq .INT_DSKBLK]
             else []) ∧
      (performDMA env ops s).state
        = (if s.dsklen &&& 0x3FFF ≤ ops.speed (s.df i) then .DRIVE_DMA_OFF
           else .DRIVE_DMA_READ) := by
  have hsel' := getSelectedDrive_of_selected s i hsel
  have hn0 : s.dsklen &&& 0x3FFF ≠ 0 := by omega
  rw [performDMA_read_eq env ops s i hsel' hst h2 hn0, Nat.mod_eq_of_lt hk2]
  rw [and_3FFF] at hn ⊢
  generalize hA : addWordCount (getSelectedDrive s).2 (ops.nr (s.df i)) (ops.speed (s.df i)) = A
  obtain ⟨aSel0, aSt0, aCnt, aLen, aMem, aPt, aBus, aIrq, aFifo, aDf⟩ :=
    addWordCount_sel_fields s (ops.nr (s.df i)) (ops.speed (s.df i))
  rw [hA] at aSel0 aSt0 aCnt aLen aMem aPt aBus aIrq aFifo aDf
  have aSel : (getSelectedDrive A).1 = some i :=
    (getSelectedDrive_fst_congr s A aSel0).trans hsel'
  have aSt : A.state = .DRIVE_DMA_READ := aSt0.trans hst
  have aWord : fifoWord A = (s.fifo >>> (8 * (s.fifoCount - 2))) &&& 0xFFFF := by
    have hm : (s.fifoCount + 254) % 256 = s.fifoCount - 2 := by omega
    simp only [fifoWord, aFifo, aCnt, hm]
  have hfuel : s.dsklen % 16384 ≤ 0x4000 := by omega
  have hspec := performDMAReadLoop_spec env ops i 0x4000 (ops.speed (s.df i)) A aSel aSt
    (aCnt.symm ▸ h2) (aCnt.symm ▸ h6) hk1 hk2 (aLen.symm ▸ hn) (aLen.symm ▸ hfuel)
    (aLen.symm ▸ hlen)
  rw [aLen, aMem, aPt, aBus, aIrq, aWord, aFifo, aCnt, aDf] at hspec
  obtain ⟨ws, syncs, h1, h2', hws, h3, h4, h5, h6', h7, h8, h9⟩ := hspec
  refine ⟨ws, syncs, h1, h2', hws, h3, ?_, h6', h4, h5, ?_, h7, h8, h9⟩
  · intro hpt
    rw [h3]
    exact ⟨fun j hj hl => pokeWords_cell env ws s.mem s.dskpt j hpt hj hl,
      fun c hc => pokeWords_frame env ws s.mem s.dskpt c hpt hc⟩
  · rw [h5, and_3FFF]
    clear h1 h2' h3 h4 h5 h6' h7 h8 h9 hws aWord aSel aSt aSel0 aSt0 aCnt aLen aMem aPt aBus aIrq
    omega

/-- Witness for C8: speed 3, five words to go, FIFO AA BB CC, head 1..6: the three
words AABB, CC01, 0203 are in Chip RAM at 0x100, 0x102 and 0x104, the cell 0x106
is unchanged, DSKPT is 0x106 and the state stays READ. -/
theorem performDMA_read_witness :
    (performDMA env0 tapeOps dmaReadExample).state = .DRIVE_DMA_READ ∧
    (performDMA env0 tapeOps dmaReadExample).dskpt = 0x106 ∧
    (performDMA env0 tapeOps dmaReadExample).mem.chip 0x100 = 0xAABB ∧
    (performDMA env0 tapeOps dmaReadExample).mem.chip 0x102 = 0xCC01 ∧
    (performDMA env0 tapeOps dmaReadExample).mem.chip 0x104 = 0x0203 ∧
    (performDMA env0 tapeOps dmaReadExample).mem.chip 0x106 = 0 := by
  obtain ⟨ws, syncs, -, -, hws, -, hcell, -, hpt, -, -, -, -, hstate⟩ :=
    performDMA_read env0 tapeOps dmaReadExample 0 rfl rfl (by decide) (by decide) (by decide)
      (by decide) (by decide) (by decide)
  have hws2 : ws = [0xAABB, 0xCC01, 0x0203] := hws.trans (by decide)
  subst hws2
  obtain ⟨hc, hf⟩ := hcell (by decide)
  have e0 : dmaCell env0 dmaReadExample.dskpt 0 = 0x100 := by decide
  have e1 : dmaCell env0 dmaReadExample.dskpt 1 = 0x102 := by decide
  have e2 : dmaCell env0 dmaReadExample.dskpt 2 = 0x104 := by decide
  have hne : ∀ a : Nat, ¬ (0x80000 ≤ a ∧ env0.slowRamIsMirroredIn = true) :=
    fun a h => Bool.false_ne_true h.2
  have c0 := hc 0 (by decide) (fun l h1 h2 => by
    have h3 : l < 3 := h2
    interval_cases l <;> decide)
  have c1 := hc 1 (by decide) (fun l h1 h2 => by
    have h3 : l < 3 := h2
    have h4 : l = 2 := by omega
    subst h4
    decide)
  have c2 := hc 2 (by decide) (fun l h1 h2 => by
    have h3 : l < 3 := h2
    omega)
  have c3 := (hf 0x106 (fun j hj => by
    have h3 : j < 3 := hj
    interval_cases j <;> decide)).1
  rw [e0, if_neg (hne _)] at c0
  rw [e1, if_neg (hne _)] at c1
  rw [e2, if_neg (hne _)] at c2
  exact ⟨hstate, hpt, c0, c1, c2, c3⟩

theorem push_byte_shift (f b c : Nat) (hb : b < 256) (hc : c ≤ 5) :
    (pushBits f b >>> (8 * (c + 1))) &&& 0xFF = (f >>> (8 * c)) &&& 0xFF := by
  rw [pushBits_eq f b hb, and_FF, and_FF, Nat.shiftRight_eq_div_pow, Nat.shiftRight_eq_div_pow]
  interval_cases c <;> norm_num <;> omega

theorem fifoBytes_push (f b : Nat) (hb : b < 256) :
    ∀ c : Nat, c ≤ 6 → fifoBytes (pushBits f b) (c + 1) = fifoBytes f c ++ [b] := by
  intro c
  induction c with
  | zero =>
    intro _
    simp only [fifoBytes, Nat.mul_zero, Nat.shiftRight_zero, List.nil_append]
    rw [pushBits_low8 f b hb]
  | succ c ih =>
    intro hc
    have h1 : fifoBytes (pushBits f b) (c + 1 + 1)
        = ((pushBits f b >>> (8 * (c + 1))) &&& 0xFF) :: fifoBytes (pushBits f b) (c + 1) := rfl
    have h2 : fifoBytes f (c + 1) = ((f >>> (8 * c)) &&& 0xFF) :: fifoBytes f c := rfl
    rw [h1, h2, ih (by omega), push_byte_shift f b c hb (by omega)]
    rfl

theorem writeAll_append (ops : DriveOps D) (d : D) (xs ys : List Nat) :
    writeAll ops d (xs ++ ys) = writeAll ops (writeAll ops d xs) ys := by
  unfold writeAll; rw [List.foldl_append]

/-- The flush loop writes the bytes of the FIFO to the head, oldest first, and
empties the FIFO. -/
theorem flushFifo_spec (ops : DriveOps D) (i : Nat) :
    ∀ (fuel : Nat) (s : Amiga D), s.fifoCount ≤ fuel → s.fifoCount ≤ 255 →
      (flushFifo ops i fuel s).df i = writeAll ops (s.df i) (fifoBytes s.fifo s.fifoCount) ∧
      (flushFifo ops i fuel s).fifoCount = 0 ∧
      (flushFifo ops i fuel s).state = s.state ∧
      (flushFifo ops i fuel s).irqs = s.irqs ∧
      (flushFifo ops i fuel s).dsklen = s.dsklen ∧
      (flushFifo ops i fuel s).mem = s.mem := by
  intro fuel
  induction fuel with
  | zero =>
    intro s hf _
    have h0 : s.fifoCount = 0 := Nat.le_zero.1 hf
    simp only [flushFifo, h0, fifoBytes, writeAll, List.foldl_nil, and_self]
  | succ fuel ih =>
    intro s hf h255
    unfold flushFifo
    by_cases he : s.fifoCount = 0
    · simp only [fifoIsEmpty, he, beq_self_eq_true, if_true, fifoBytes, writeAll,
        List.foldl_nil, and_self]
    · have hb : (s.fifoCount == 0) = false := by simpa using he
      have hm : (s.fifoCount + 255) % 256 = s.fifoCount - 1 := by omega
      simp only [fifoIsEmpty, hb, Bool.false_eq_true, if_false, readFifo_eq, hm]
      obtain ⟨c, hc⟩ : ∃ c, s.fifoCount = c + 1 := ⟨s.fifoCount - 1, by omega⟩
      have hih := ih (setDrive { s with
          failed := if decide (0 < s.fifoCount) = true then s.failed
                    else Assertion.readFifoNonEmpty :: s.failed,
          fifoCount := s.fifoCount - 1 } i
        (ops.writeHead (s.df i) ((s.fifo >>> (8 * (s.fifoCount - 1))) &&& 0xFF)))
        (by simp only [setDrive]; omega) (by simp only [setDrive]; omega)
      obtain ⟨k1, k2, k3, k4, k5, k6⟩ := hih
      refine ⟨?_, k2, k3, k4, k5, k6⟩
      rw [k1]
      simp only [setDrive, if_true, hc, Nat.add_sub_cancel, fifoBytes, writeAll, List.foldl_cons]

/-- What `executeFifo` does in WRITE with a non-empty FIFO: the byte moves from
the FIFO to the head, everything else of interest stays. -/
theorem executeFifo_WRITE_frame (ops : DriveOps D) (s : Amiga D) (i : Nat)
    (hsel : (getSelectedDrive s).1 = some i) (hst : s.state = .DRIVE_DMA_WRITE)
    (hc : 0 < s.fifoCount) (h6 : s.fifoCount ≤ 6) :
    (executeFifo ops s).mem = s.mem ∧
    (executeFifo ops s).dskpt = s.dskpt ∧
    (executeFifo ops s).dsklen = s.dsklen ∧
    (executeFifo ops s).irqs = s.irqs ∧
    flushedDrive ops i (executeFifo ops s) = flushedDrive ops i s := by
  have e := executeFifo_write_eq ops s i hsel (Or.inl hst)
  have hne : s.fifoCount ≠ 0 := by omega
  have hm : (s.fifoCount + 255) % 256 = s.fifoCount - 1 := by omega
  rw [if_neg hne, hm] at e
  rw [e]
  refine ⟨rfl, rfl, rfl, rfl, ?_⟩
  obtain ⟨c, hc'⟩ : ∃ c, s.fifoCount = c + 1 := ⟨s.fifoCount - 1, by omega⟩
  simp only [flushedDrive, hc', Nat.add_sub_cancel, if_true, fifoBytes, writeAll,
    List.foldl_cons]

/-- The fields of the machine after one word of write DMA. -/
theorem dmaWriteWord_fields (env : Env) (ops : DriveOps D) (i : Nat) (s : Amiga D)
    (h4 : s.fifoCount ≤ 4) (hn : 1 ≤ s.dsklen % 16384) (hlen : s.dsklen < 65536) :
    (dmaWriteWord env s).mem = s.mem ∧
    (dmaWriteWord env s).dskpt = (s.dskpt + 2) % 2 ^ 32 ∧
    (dmaWriteWord env s).dsklen = s.dsklen - 1 ∧
    (dmaWriteWord env s).irqs = s.irqs ∧
    (dmaWriteWord env s).state = s.state ∧
    (dmaWriteWord env s).fifoCount = s.fifoCount + 2 ∧
    (dmaWriteWord env s).selected = s.selected ∧
    flushedDrive ops i (dmaWriteWord env s)
      = writeAll ops (flushedDrive ops i s)
          [HI_BYTE (Agnus.peekMem env s.mem s.dskpt), LO_BYTE (Agnus.peekMem env s.mem s.dskpt)] := by
  rw [dmaWriteWord_eq env s h4]
  refine ⟨rfl, rfl, ?_, rfl, rfl, rfl, rfl, ?_⟩
  · show (s.dsklen + 65535) % 65536 = s.dsklen - 1
    omega
  · simp only [flushedDrive, Agnus.peek]
    rw [fifoBytes_push _ _ (LO_BYTE_lt _) (s.fifoCount + 1) (by omega),
      fifoBytes_push _ _ (HI_BYTE_lt _) s.fifoCount (by omega), List.append_assoc,
      writeAll_append]
    rfl

/-- The machine after one word of write DMA and the two `executeFifo` calls that
follow it when the loop repeats. -/
theorem dmaWritePass_fields (env : Env) (ops : DriveOps D) (i : Nat) (s : Amiga D)
    (hsel : (getSelectedDrive s).1 = some i) (hst : s.state = .DRIVE_DMA_WRITE)
    (h4 : s.fifoCount ≤ 4) (hn : 1 ≤ s.dsklen % 16384) (hlen : s.dsklen < 65536) :
    (getSelectedDrive (executeFifo ops (executeFifo ops (dmaWriteWord env s)))).1 = some i ∧
    (executeFifo ops (executeFifo ops (dmaWriteWord env s))).state = .DRIVE_DMA_WRITE ∧
    (executeFifo ops (executeFifo ops (dmaWriteWord env s))).fifoCount = s.fifoCount ∧
    (executeFifo ops (executeFifo ops (dmaWriteWord env s))).mem = s.mem ∧
    (executeFifo ops (executeFifo ops (dmaWriteWord env s))).dskpt = (s.dskpt + 2) % 2 ^ 32 ∧
    (executeFifo ops (executeFifo ops (dmaWriteWord env s))).dsklen = s.dsklen - 1 ∧
    (executeFifo ops (executeFifo ops (dmaWriteWord env s))).irqs = s.irqs ∧
    flushedDrive ops i (executeFifo ops (executeFifo ops (dmaWriteWord env s)))
      = writeAll ops (flushedDrive ops i s)
          [HI_BYTE (Agnus.peekMem env s.mem s.dskpt),
           LO_BYTE (Agnus.peekMem env s.mem s.dskpt)] := by
  obtain ⟨xmem, xpt, xlen, xirq, xst, xcnt, xsel, xfl⟩ :=
    dmaWriteWord_fields env ops i s h4 hn hlen
  have hXsel : (getSelectedDrive (dmaWriteWord env s)).1 = some i :=
    (getSelectedDrive_fst_congr s _ xsel).trans hsel
  have hXst : (dmaWriteWord env s).state = .DRIVE_DMA_WRITE := xst.trans hst
  generalize dmaWriteWord env s = X at *
  have hX0 : 0 < X.fifoCount := by omega
  have hX6 : X.fifoCount ≤ 6 := by omega
  have e1 := executeFifo_WRITE ops X i hXsel hXst hX0 hX6
  obtain ⟨ymem1, ypt1, ylen1, yirq1, yfl1⟩ := executeFifo_WRITE_frame ops X i hXsel hXst hX0 hX6
  have hsel1 : (getSelectedDrive (executeFifo ops X)).1 = some i :=
    (getSelectedDrive_fst_congr _ _ e1.2.1).trans hXsel
  have hst1 := e1.1
  have hc1 : (executeFifo ops X).fifoCount = X.fifoCount - 1 := e1.2.2.1
  clear e1
  generalize executeFifo ops X = Y1 at *
  have hY0 : 0 < Y1.fifoCount := by omega
  have hY6 : Y1.fifoCount ≤ 6 := by omega
  have e2 := executeFifo_WRITE ops Y1 i hsel1 hst1 hY0 hY6
  obtain ⟨ymem2, ypt2, ylen2, yirq2, yfl2⟩ :=
    executeFifo_WRITE_frame ops Y1 i hsel1 hst1 hY0 hY6
  have hsel2 : (getSelectedDrive (executeFifo ops Y1)).1 = some i :=
    (getSelectedDrive_fst_congr _ _ e2.2.1).trans hsel1
  have hst2 := e2.1
  have hc2 : (executeFifo ops Y1).fifoCount = Y1.fifoCount - 1 := e2.2.2.1
  clear e2
  generalize executeFifo ops Y1 = Y2 at *
  refine ⟨hsel2, hst2, ?_, ?_, ?_, ?_, ?_, ?_⟩
  · omega
  · rw [ymem2, ymem1, xmem]
  · rw [ypt2, ypt1, xpt]
  · rw [ylen2, ylen1, xlen]
  · rw [yirq2, yirq1, xirq]
  · rw [yfl2, yfl1, xfl]

theorem performDMAWriteLoop_spec (env : Env) (ops : DriveOps D) (i : Nat) :
    ∀ (fuel r : Nat) (s : Amiga D),
      (getSelectedDrive s).1 = some i → s.state = .DRIVE_DMA_WRITE →
      s.fifoCount ≤ 4 → r < 4294967296 →
      1 ≤ s.dsklen % 16384 → s.dsklen % 16384 ≤ r → s.dsklen % 16384 ≤ fuel →
      s.dsklen < 65536 →
      (performDMAWriteLoop env ops i fuel r s).df i
        = writeAll ops (flushedDrive ops i s)
            (memBytes env s.mem s.dskpt (s.dsklen % 16384)) ∧
      (performDMAWriteLoop env ops i fuel r s).fifoCount = 0 ∧
      (performDMAWriteLoop env ops i fuel r s).state = .DRIVE_DMA_OFF ∧
      (performDMAWriteLoop env ops i fuel r s).irqs = s.irqs ++ [.raiseIrq .INT_DSKBLK] ∧
      (performDMAWriteLoop env ops i fuel r s).dsklen = s.dsklen - s.dsklen % 16384 ∧
      (performDMAWriteLoop env ops i fuel r s).mem = s.mem := by
  intro fuel
  induction fuel with
  | zero =>
    intro r s _ _ _ _ hn _ hf _
    omega
  | succ fuel ih =>
    intro r s hsel hst h4 hr2 hn hnr hf hlen
    obtain ⟨xmem, xpt, xlen, xirq, xst, xcnt, -, xfl⟩ :=
      dmaWriteWord_fields env ops i s h4 hn hlen
    have hcnt : (dmaWriteWord env s).dsklen &&& 0x3FFF = s.dsklen % 16384 - 1 := by
      rw [and_3FFF, xlen]; exact mod_pred_16384 _ hn
    have hdec := decU32_pos r (by omega) hr2
    rw [performDMAWriteLoop_succ, hcnt, hdec]
    by_cases hend : s.dsklen % 16384 - 1 = 0
    · -- the last word of the block: flush
      have hn1 : s.dsklen % 16384 = 1 := by omega
      rw [if_pos hend, setState_eq, hn1]
      have hR6 : (raiseIrq (dmaWriteWord env s) .INT_DSKBLK).fifoCount ≤ 256 := by
        simp only [raiseIrq, xcnt]; omega
      have hR255 : (raiseIrq (dmaWriteWord env s) .INT_DSKBLK).fifoCount ≤ 255 := by
        simp only [raiseIrq, xcnt]; omega
      obtain ⟨k1, k2, -, k4, k5, k6⟩ :=
        flushFifo_spec ops i 256 (raiseIrq (dmaWriteWord env s) .INT_DSKBLK) hR6 hR255
      have hfl : writeAll ops ((raiseIrq (dmaWriteWord env s) .INT_DSKBLK).df i)
          (fifoBytes (raiseIrq (dmaWriteWord env s) .INT_DSKBLK).fifo
            (raiseIrq (dmaWriteWord env s) .INT_DSKBLK).fifoCount)
          = flushedDrive ops i (dmaWriteWord env s) := by
        simp only [raiseIrq, flushedDrive]
      have hirq : (raiseIrq (dmaWriteWord env s) .INT_DSKBLK).irqs
          = s.irqs ++ [.raiseIrq .INT_DSKBLK] := by
        simp only [raiseIrq, xirq]
      have hlen' : (raiseIrq (dmaWriteWord env s) .INT_DSKBLK).dsklen = s.dsklen - 1 := by
        simp only [raiseIrq, xlen]
      have hmem' : (raiseIrq (dmaWriteWord env s) .INT_DSKBLK).mem = s.mem := by
        simp only [raiseIrq, xmem]
      rw [hfl, xfl] at k1
      rw [hirq] at k4
      rw [hlen'] at k5
      rw [hmem'] at k6
      generalize flushFifo ops i 256 (raiseIrq (dmaWriteWord env s) .INT_DSKBLK) = F at *
      simp only [memBytes]
      exact ⟨k1, k2, trivial, k4, k5, k6⟩
    · rw [if_neg hend]
      have hn2 : 2 ≤ s.dsklen % 16384 := by omega
      have hrem : r - 1 ≠ 0 := by omega
      rw [if_pos hrem]
      obtain ⟨ysel, yst, ycnt, ymem, ypt, ylen, yirq, yfl⟩ :=
        dmaWritePass_fields env ops i s hsel hst h4 hn hlen
      have hw : fifoCanStoreWord (executeFifo ops (executeFifo ops (dmaWriteWord env s)))
          = true := by
        simp only [fifoCanStoreWord, decide_eq_true_eq, ycnt]; exact h4
      rw [hw, assertThat_true]
      have hn' : (s.dsklen - 1) % 16384 = s.dsklen % 16384 - 1 := mod_pred_16384 _ hn
      have a2 : r - 1 < 4294967296 := by omega
      have a3 : 1 ≤ s.dsklen % 16384 - 1 := by omega
      have a4 : s.dsklen % 16384 - 1 ≤ fuel := by omega
      have a5 : s.dsklen - 1 < 65536 := by omega
      have a6 : s.dsklen % 16384 - 1 ≤ r - 1 := by omega
      have hsub : s.dsklen - 1 - (s.dsklen % 16384 - 1) = s.dsklen - s.dsklen % 16384 := by
        omega
      obtain ⟨m, hm⟩ : ∃ m, s.dsklen % 16384 = m + 1 := ⟨s.dsklen % 16384 - 1, by omega⟩
      clear hcnt hdec hend hrem hf hr2 hnr xmem xpt xlen xirq xst xcnt xfl
      generalize executeFifo ops (executeFifo ops (dmaWriteWord env s)) = Y at *
      have hih := ih (r - 1) Y ysel yst (ycnt.symm ▸ h4) a2
        (by rw [ylen, hn']; exact a3) (by rw [ylen, hn']; exact a6)
        (by rw [ylen, hn']; exact a4) (by rw [ylen]; exact a5)
      rw [ylen, hn', ymem, ypt, yirq, yfl, hsub] at hih
      obtain ⟨k1, k2, k3, k4, k5, k6⟩ := hih
      refine ⟨?_, k2, k3, k4, k5, k6⟩
      rw [k1, hm, ← writeAll_append]
      rfl

/-- `performDMA` in WRITE with drive `i` selected and room for a word in the FIFO
is the write loop on the machine with the word statistics updated. -/
theorem performDMA_write_eq (env : Env) (ops : DriveOps D) (s : Amiga D) (i : Nat)
    (hsel : (getSelectedDrive s).1 = some i) (hst : s.state = .DRIVE_DMA_WRITE)
    (h4 : s.fifoCount ≤ 4) (hn : s.dsklen &&& 0x3FFF ≠ 0) :
    performDMA env ops s =
      performDMAWriteLoop env ops i 0x4000 (ops.speed (s.df i) % 2 ^ 32)
        (addWordCount (getSelectedDrive s).2 (ops.nr (s.df i)) (ops.speed (s.df i) % 2 ^ 32)) := by
  unfold performDMA
  have hsts : ¬ (s.state ≠ .DRIVE_DMA_READ ∧ s.state ≠ .DRIVE_DMA_WRITE) := fun h => h.2 hst
  rw [if_neg hn, if_neg hsts]
  simp only [hsel]
  have hdf : (getSelectedDrive s).2.df = s.df := by rw [getSelectedDrive_snd]
  have hAst : ∀ nr count, (addWordCount (getSelectedDrive s).2 nr count).state
      = .DRIVE_DMA_WRITE := by
    intro nr count; simp only [addWordCount, getSelectedDrive_snd]; exact hst
  have hw : ∀ nr count,
      fifoCanStoreWord (addWordCount (getSelectedDrive s).2 nr count) = true := by
    intro nr count
    simp only [fifoCanStoreWord, addWordCount, getSelectedDrive_snd, decide_eq_true_eq]
    exact h4
  simp only [hAst, performDMAWrite, hw, Bool.not_true, Bool.false_eq_true, if_false, hdf]

/-- C10. When `performDMA` in WRITE transfers the last word of a block (drive `i`
selected, room for a word in the FIFO, counter `n` with `1 <= n <= speed`):
each word read from memory is pushed to the FIFO as high byte, then low byte;
INT_DSKBLK is raised; the head of the drive receives, oldest first, every byte
that was in the FIFO and then the bytes of the `n` words; and the call ends
with an empty FIFO, a counter of 0 and `state = OFF`. -/
theorem performDMA_write_last_word (env : Env) (ops : DriveOps D) (s : Amiga D) (i : Nat)
    (hsel : s.selected = (i : Int)) (hst : s.state = .DRIVE_DMA_WRITE)
    (h4 : s.fifoCount ≤ 4) (hk2 : ops.speed (s.df i) < 2 ^ 32)
    (hn : 1 ≤ s.dsklen &&& 0x3FFF) (hnk : s.dsklen &&& 0x3FFF ≤ ops.speed (s.df i))
    (hlen : s.dsklen < 65536) :
    (dmaWriteWord env s).fifo
      = (((((s.fifo <<< 8) ||| HI_BYTE (Agnus.peek env s s.dskpt)) % 2 ^ 64) <<< 8)
          ||| LO_BYTE (Agnus.peek env s s.dskpt)) % 2 ^ 64 ∧
    (performDMA env ops s).df i
      = writeAll ops (s.df i)
          (fifoBytes s.fifo s.fifoCount ++ memBytes env s.mem s.dskpt (s.dsklen &&& 0x3FFF)) ∧
    (performDMA env ops s).irqs = s.irqs ++ [.raiseIrq .INT_DSKBLK] ∧
    (performDMA env ops s).fifoCount = 0 ∧
    (performDMA env ops s).dsklen &&& 0x3FFF = 0 ∧
    (performDMA env ops s).state = .DRIVE_DMA_OFF := by
  refine ⟨by rw [dmaWriteWord_eq env s h4]; rfl, ?_⟩
  have hsel' := getSelectedDrive_of_selected s i hsel
  have hn0 : s.dsklen &&& 0x3FFF ≠ 0 := by omega
  rw [performDMA_write_eq env ops s i hsel' hst h4 hn0, Nat.mod_eq_of_lt hk2]
  rw [and_3FFF] at hn hnk
  rw [and_3FFF s.dsklen]
  generalize hA : addWordCount (getSelectedDrive s).2 (ops.nr (s.df i)) (ops.speed (s.df i)) = A
  obtain ⟨aSel0, aSt0, aCnt, aLen, aMem, aPt, -, aIrq, aFifo, aDf⟩ :=
    addWordCount_sel_fields s (ops.nr (s.df i)) (ops.speed (s.df i))
  rw [hA] at aSel0 aSt0 aCnt aLen aMem aPt aIrq aFifo aDf
  have aSel : (getSelectedDrive A).1 = some i :=
    (getSelectedDrive_fst_congr s A aSel0).trans hsel'
  have aSt : A.state = .DRIVE_DMA_WRITE := aSt0.trans hst
  have aFl : flushedDrive ops i A = writeAll ops (s.df i) (fifoBytes s.fifo s.fifoCount) := by
    simp only [flushedDrive, aDf, aFifo, aCnt]
  have hfuel : s.dsklen % 16384 ≤ 0x4000 := by omega
  have hspec := performDMAWriteLoop_spec env ops i 0x4000 (ops.speed (s.df i)) A aSel aSt
    (aCnt.symm ▸ h4) hk2 (aLen.symm ▸ hn) (aLen.symm ▸ hnk) (aLen.symm ▸ hfuel)
    (aLen.symm ▸ hlen)
  rw [aLen, aMem, aPt, aIrq, aFl, ← writeAll_append] at hspec
  obtain ⟨k1, k2, k3, k4, k5, -⟩ := hspec
  refine ⟨k1, k4, k2, ?_, k3⟩
  rw [k5, and_3FFF]
  clear k1 k2 k3 k4 k5 aFl aSel aSt aSel0 aSt0 aCnt aLen aMem aPt aIrq aFifo aDf
  omega

/-- Witness for C10: one word 0x1234 left, the FIFO holds AA BB, the head receives
AA BB 12 34. -/
theorem performDMA_write_last_word_witness :
    ((performDMA env0 tapeOps
      { amiga0 (tapeDrive []) with
          state := .DRIVE_DMA_WRITE, fifo := 0xAABB, fifoCount := 2, dsklen := 0xC001,
          mem := ⟨fun _ => 0x1234, fun _ => 0⟩ }).df 0).written = [0xAA, 0xBB, 0x12, 0x34] ∧
    (performDMA env0 tapeOps
      { amiga0 (tapeDrive []) with
          state := .DRIVE_DMA_WRITE, fifo := 0xAABB, fifoCount := 2, dsklen := 0xC001,
          mem := ⟨fun _ => 0x1234, fun _ => 0⟩ }).state = .DRIVE_DMA_OFF :=
  have h := performDMA_write_last_word env0 tapeOps
    { amiga0 (tapeDrive []) with
        state := .DRIVE_DMA_WRITE, fifo := 0xAABB, fifoCount := 2, dsklen := 0xC001,
        mem := ⟨fun _ => 0x1234, fun _ => 0⟩ } 0 rfl rfl (by decide) (by decide) (by decide)
    (by decide) (by decide)
  ⟨by rw [h.2.1]; decide, h.2.2.2.2.2⟩

/-! ## DMA is on only while DMAEN is stored -/

theorem and_8000_eq (x : Nat) : x &&& 0x8000 = x / 32768 % 2 * 32768 := by
  have h := Nat.two_pow_and x 15
  rw [Nat.land_comm, Nat.testBit_to_div_mod] at h
  have h1 : (2 : Nat) ^ 15 = 32768 := by norm_num
  rw [h1] at h
  rw [h]
  by_cases hb : x / 32768 % 2 = 1
  · simp [hb]
  · have h0 : x / 32768 % 2 = 0 := by omega
    simp [h0]

theorem dec_keeps_bit15 (d : Nat) (hd : d < 65536) (hn : 1 ≤ d % 16384) :
    (d + 65535) % 65536 < 65536 ∧
    ((d + 65535) % 65536) &&& 0x8000 = d &&& 0x8000 := by
  rw [and_8000_eq, and_8000_eq]
  omega

theorem DriveState.eq_cases (t : DriveState) :
    t = .DRIVE_DMA_OFF ∨ t = .DRIVE_DMA_WAIT ∨ t = .DRIVE_DMA_READ ∨ t = .DRIVE_DMA_WRITE ∨
      t = .DRIVE_DMA_FLUSH := by
  cases t <;> simp

theorem executeFifo_dsklen (ops : DriveOps D) (s : Amiga D) :
    (executeFifo ops s).dsklen = s.dsklen ∧
    ((executeFifo ops s).state = s.state ∨ (executeFifo ops s).state = .DRIVE_DMA_OFF ∨
      (s.state ≠ .DRIVE_DMA_OFF ∧ (executeFifo ops s).state = .DRIVE_DMA_READ)) := by
  cases hsel : (getSelectedDrive s).1 with
  | none => rw [executeFifo_none ops s hsel]; exact ⟨rfl, Or.inl rfl⟩
  | some i =>
    rcases DriveState.eq_cases s.state with hst | hst | hst | hst | hst
    · rw [executeFifo_off_eq ops s i hsel hst]; exact ⟨rfl, Or.inl rfl⟩
    · have e := executeFifo_read_eq ops s i hsel (Or.inl hst)
      have hl : (executeFifo ops s).dsklen = s.dsklen := by rw [e]
      have hs : (executeFifo ops s).state
          = if syncAfterPush s ((ops.readHead (s.df i)).1 % 256) = true then .DRIVE_DMA_READ
            else s.state := by rw [e]
      refine ⟨hl, ?_⟩
      rw [hs]
      split_ifs
      · exact Or.inr (Or.inr ⟨by rw [hst]; decide, rfl⟩)
      · exact Or.inl rfl
    · have e := executeFifo_read_eq ops s i hsel (Or.inr hst)
      have hl : (executeFifo ops s).dsklen = s.dsklen := by rw [e]
      have hs : (executeFifo ops s).state
          = if syncAfterPush s ((ops.readHead (s.df i)).1 % 256) = true then .DRIVE_DMA_READ
            else s.state := by rw [e]
      refine ⟨hl, ?_⟩
      rw [hs]
      split_ifs
      · exact Or.inl hst.symm
      · exact Or.inl rfl
    · have e := executeFifo_write_eq ops s i hsel (Or.inl hst)
      by_cases hc : s.fifoCount = 0
      · rw [if_pos hc] at e
        have hl : (executeFifo ops s).dsklen = s.dsklen := by rw [e]
        have hs : (executeFifo ops s).state
            = if s.state = .DRIVE_DMA_FLUSH then .DRIVE_DMA_OFF else s.state := by rw [e]
        refine ⟨hl, Or.inl ?_⟩
        rw [hs, if_neg (by rw [hst]; decide)]
      · rw [if_neg hc] at e
        rw [e]; exact ⟨rfl, Or.inl rfl⟩
    · have e := executeFifo_write_eq ops s i hsel (Or.inr hst)
      by_cases hc : s.fifoCount = 0
      · rw [if_pos hc] at e
        have hl : (executeFifo ops s).dsklen = s.dsklen := by rw [e]
        have hs : (executeFifo ops s).state
            = if s.state = .DRIVE_DMA_FLUSH then .DRIVE_DMA_OFF else s.state := by rw [e]
        refine ⟨hl, Or.inr (Or.inl ?_)⟩
        rw [hs, if_pos hst]
      · rw [if_neg hc] at e
        rw [e]; exact ⟨rfl, Or.inl rfl⟩

theorem executeFifo_dmaenStored (ops : DriveOps D) (s : Amiga D) (h : dmaenStored s) :
    dmaenStored (executeFifo ops s) := by
  obtain ⟨hl, hs⟩ := executeFifo_dsklen ops s
  unfold dmaenStored at h ⊢
  rw [hl]
  refine ⟨h.1, fun hne => ?_⟩
  rcases hs with hs | hs | hs
  · exact h.2 (hs ▸ hne)
  · exact absurd hs hne
  · exact h.2 hs.1

theorem pokeDSKLEN_dmaenStored (env : Env) (ops : DriveOps D) (s : Amiga D) (v : Nat)
    (hv : v < 65536) : dmaenStored (pokeDSKLEN env ops s v) := by
  rw [pokeDSKLEN_eq]
  unfold dmaenStored
  rw [(turboIfSelected_fifo _ _ _ _).2.2.1]
  have hlen : (dsklenLatched env ops s v).dsklen = v := rfl
  rw [hlen]
  refine ⟨hv, fun hne hbit => ?_⟩
  apply hne
  apply turboIfSelected_off
  simp only [dsklenLatched, dsklenTarget, if_pos hbit]

theorem reset_dmaenStored (s : Amiga D) : dmaenStored (reset s) := by
  simp [dmaenStored, reset, resetSnapshotItems]

theorem dmaReadWord_dsklen (env : Env) (s : Amiga D) :
    (dmaReadWord env s).dsklen = (s.dsklen + 65535) % 65536 := by
  rw [dmaReadWord_eq]

theorem dmaWriteWord_dsklen (env : Env) (s : Amiga D) :
    (dmaWriteWord env s).dsklen = (s.dsklen + 65535) % 65536 := by
  unfold dmaWriteWord decDsklen
  simp only [writeFifo_eq, assertThat_eq, noteChecksum_eq, Agnus.doDiskDMARead,
    Agnus.recordDiskBus]

theorem flushFifo_dsklen (ops : DriveOps D) (i : Nat) :
    ∀ (fuel : Nat) (s : Amiga D), (flushFifo ops i fuel s).dsklen = s.dsklen := by
  intro fuel
  induction fuel with
  | zero => intro s; rfl
  | succ fuel ih =>
    intro s
    unfold flushFifo
    by_cases he : fifoIsEmpty s = true
    · rw [if_pos he]
    · rw [if_neg he]
      simp only [ih, setDrive, readFifo_eq]

theorem performDMAReadLoop_zero (env : Env) (ops : DriveOps D) (r : Nat) (s : Amiga D) :
    performDMAReadLoop env ops 0 r s = s := rfl

theorem performDMAWriteLoop_zero (env : Env) (ops : DriveOps D) (i r : Nat) (s : Amiga D) :
    performDMAWriteLoop env ops i 0 r s = s := rfl

/-- Both DMA loops leave bit 15 of DSKLEN alone when the counter is not 0 at entry. -/
theorem performDMAReadLoop_bit15 (env : Env) (ops : DriveOps D) :
    ∀ (fuel r : Nat) (s : Amiga D), s.dsklen < 65536 → 1 ≤ s.dsklen % 16384 →
      (performDMAReadLoop env ops fuel r s).dsklen < 65536 ∧
      (performDMAReadLoop env ops fuel r s).dsklen &&& 0x8000 = s.dsklen &&& 0x8000 := by
  intro fuel
  induction fuel with
  | zero => intro r s h _; rw [performDMAReadLoop_zero]; exact ⟨h, Eq.refl _⟩
  | succ fuel ih =>
    intro r s hlen hn
    obtain ⟨d1, d2⟩ := dec_keeps_bit15 s.dsklen hlen hn
    rw [← dmaReadWord_dsklen env s] at d1 d2
    rw [performDMAReadLoop_succ]
    by_cases hend : (dmaReadWord env s).dsklen &&& 0x3FFF = 0
    · rw [if_pos hend, setState_eq]
      simp only [raiseIrq]
      exact ⟨d1, d2⟩
    rw [if_neg hend]
    by_cases hrem : decU32 r ≠ 0
    · rw [if_pos hrem]
      have hY : (assertThat (fifoHasWord (executeFifo ops (executeFifo ops (dmaReadWord env s))))
          Assertion.dmaReadHasWord (executeFifo ops (executeFifo ops (dmaReadWord env s)))).dsklen
          = (dmaReadWord env s).dsklen := by
        rw [assertThat_eq]
        show (executeFifo ops (executeFifo ops (dmaReadWord env s))).dsklen = _
        rw [(executeFifo_dsklen ops _).1, (executeFifo_dsklen ops _).1]
      rw [and_3FFF] at hend
      generalize assertThat
        (fifoHasWord (executeFifo ops (executeFifo ops (dmaReadWord env s))))
        Assertion.dmaReadHasWord (executeFifo ops (executeFifo ops (dmaReadWord env s))) = Y at *
      have hih := ih (decU32 r) Y (by rw [hY]; exact d1) (by rw [hY]; omega)
      rw [hY] at hih
      exact ⟨hih.1, hih.2.trans d2⟩
    · rw [if_neg hrem]; exact ⟨d1, d2⟩

theorem performDMAWriteLoop_bit15 (env : Env) (ops : DriveOps D) (i : Nat) :
    ∀ (fuel r : Nat) (s : Amiga D), s.dsklen < 65536 → 1 ≤ s.dsklen % 16384 →
      (performDMAWriteLoop env ops i fuel r s).dsklen < 65536 ∧
      (performDMAWriteLoop env ops i fuel r s).dsklen &&& 0x8000 = s.dsklen &&& 0x8000 := by
  intro fuel
  induction fuel with
  | zero => intro r s h _; rw [performDMAWriteLoop_zero]; exact ⟨h, Eq.refl _⟩
  | succ fuel ih =>
    intro r s hlen hn
    obtain ⟨d1, d2⟩ := dec_keeps_bit15 s.dsklen hlen hn
    rw [← dmaWriteWord_dsklen env s] at d1 d2
    rw [performDMAWriteLoop_succ]
    by_cases hend : (dmaWriteWord env s).dsklen &&& 0x3FFF = 0
    · rw [if_pos hend, setState_eq]
      have hF : (flushFifo ops i 256 (raiseIrq (dmaWriteWord env s) .INT_DSKBLK)).dsklen
          = (dmaWriteWord env s).dsklen := by
        rw [flushFifo_dsklen]; simp only [raiseIrq]
      generalize flushFifo ops i 256 (raiseIrq (dmaWriteWord env s) .INT_DSKBLK) = F at *
      simp only [hF]
      exact ⟨d1, d2⟩
    rw [if_neg hend]
    by_cases hrem : decU32 r ≠ 0
    · rw [if_pos hrem]
      have hY : (assertThat
          (fifoCanStoreWord (executeFifo ops (executeFifo ops (dmaWriteWord env s))))
          Assertion.dmaWriteCanStore
          (executeFifo ops (executeFifo ops (dmaWriteWord env s)))).dsklen
          = (dmaWriteWord env s).dsklen := by
        rw [assertThat_eq]
        show (executeFifo ops (executeFifo ops (dmaWriteWord env s))).dsklen = _
        rw [(executeFifo_dsklen ops _).1, (executeFifo_dsklen ops _).1]
      rw [and_3FFF] at hend
      generalize assertThat
        (fifoCanStoreWord (executeFifo ops (executeFifo ops (dmaWriteWord env s))))
        Assertion.dmaWriteCanStore (executeFifo ops (executeFifo ops (dmaWriteWord env s)))
        = Y at *
      have hih := ih (decU32 r) Y (by rw [hY]; exact d1) (by rw [hY]; omega)
      rw [hY] at hih
      exact ⟨hih.1, hih.2.trans d2⟩
    · rw [if_neg hrem]; exact ⟨d1, d2⟩

theorem performDMA_dmaenStored (env : Env) (ops : DriveOps D) (s : Amiga D)
    (h : dmaenStored s) : dmaenStored (performDMA env ops s) := by
  unfold performDMA
  by_cases h0 : s.dsklen &&& 0x3FFF = 0
  · rw [if_pos h0]; exact h
  rw [if_neg h0]
  by_cases hsts : s.state ≠ .DRIVE_DMA_READ ∧ s.state ≠ .DRIVE_DMA_WRITE
  · rw [if_pos hsts]; exact h
  rw [if_neg hsts]
  have hoff : s.state ≠ .DRIVE_DMA_OFF := by
    intro hc; apply hsts; rw [hc]; exact ⟨by decide, by decide⟩
  have hbit := h.2 hoff
  have hn : 1 ≤ s.dsklen % 16384 := by rw [and_3FFF] at h0; omega
  cases hsel : (getSelectedDrive s).1 with
  | none =>
    simp only [hsel]
    rw [getSelectedDrive_snd]; exact h
  | some i =>
    simp only [hsel]
    generalize ops.speed ((getSelectedDrive s).2.df i) % 2 ^ 32 = count
    generalize ops.nr ((getSelectedDrive s).2.df i) = nr
    obtain ⟨-, aSt, -, aLen, -, -, -, -, -, -⟩ := addWordCount_sel_fields s nr count
    generalize addWordCount (getSelectedDrive s).2 nr count = A at *
    have key : ∀ B : Amiga D, B.dsklen < 65536 ∧ B.dsklen &&& 0x8000 = A.dsklen &&& 0x8000 →
        dmaenStored B := by
      intro B hB
      refine ⟨hB.1, fun _ => ?_⟩
      rw [hB.2, aLen]; exact hbit
    rcases DriveState.eq_cases s.state with hst | hst | hst | hst | hst <;> rw [hst] at aSt <;>
      simp only [aSt]
    · exact key A ⟨aLen ▸ h.1, rfl⟩
    · exact key A ⟨aLen ▸ h.1, rfl⟩
    · unfold performDMARead
      split_ifs
      · exact key A ⟨aLen ▸ h.1, rfl⟩
      · exact key _ (performDMAReadLoop_bit15 env ops _ _ A (aLen ▸ h.1) (aLen ▸ hn))
    · unfold performDMAWrite
      split_ifs
      · exact key A ⟨aLen ▸ h.1, rfl⟩
      · exact key _ (performDMAWriteLoop_bit15 env ops i _ _ A (aLen ▸ h.1) (aLen ▸ hn))
    · exact key A ⟨aLen ▸ h.1, rfl⟩

/-- The condition under which C2 is stated holds in every state that the
controller reaches: it holds after reset and after every `pokeDSKLEN`, and
`executeFifo` and `performDMA` preserve it. -/
theorem dmaenStored_reachable (env : Env) (ops : DriveOps D) :
    (∀ s : Amiga D, dmaenStored (reset s)) ∧
    (∀ (s : Amiga D) (v : Nat), v < 65536 → dmaenStored (pokeDSKLEN env ops s v)) ∧
    (∀ s : Amiga D, dmaenStored s → dmaenStored (executeFifo ops s)) ∧
    (∀ s : Amiga D, dmaenStored s → dmaenStored (performDMA env ops s)) :=
  ⟨reset_dmaenStored, fun s v hv => pokeDSKLEN_dmaenStored env ops s v hv,
   fun s h => executeFifo_dmaenStored ops s h, fun s h => performDMA_dmaenStored env ops s h⟩


/-! ## `executeFifo` in WRITE, FLUSH and OFF -/

theorem selFailed_of_lt (s : Amiga D) (h : s.selected < 4) : selFailed s = s.failed := by
  unfold selFailed
  simp only [h, decide_True, if_true]

/-- C12. `executeFifo` with drive `i` selected.  In WRITE or FLUSH with a
non-empty FIFO it removes exactly the oldest byte (the fill level drops by one,
the shift register is not touched), writes that byte to the head of the drive
and keeps the state.  In WRITE with an empty FIFO it changes nothing.  In FLUSH
with an empty FIFO it switches to OFF and changes nothing else.  In OFF it only
rotates the drive. -/
theorem executeFifo_write_flush_off (ops : DriveOps D) (s : Amiga D) (i : Nat)
    (hsel : s.selected = (i : Int)) (hi : i < 4) :
    ((s.state = .DRIVE_DMA_WRITE ∨ s.state = .DRIVE_DMA_FLUSH) → 0 < s.fifoCount →
      s.fifoCount < 256 →
      fifoBytes s.fifo s.fifoCount
        = ((s.fifo >>> (8 * (s.fifoCount - 1))) &&& 0xFF)
            :: fifoBytes (executeFifo ops s).fifo (executeFifo ops s).fifoCount ∧
      executeFifo ops s
        = setDrive { s with fifoCount := s.fifoCount - 1 } i
            (ops.writeHead (s.df i) ((s.fifo >>> (8 * (s.fifoCount - 1))) &&& 0xFF))) ∧
    (s.state = .DRIVE_DMA_WRITE → s.fifoCount = 0 → executeFifo ops s = s) ∧
    (s.state = .DRIVE_DMA_FLUSH → s.fifoCount = 0 →
      executeFifo ops s = { s with state := .DRIVE_DMA_OFF }) ∧
    (s.state = .DRIVE_DMA_OFF → executeFifo ops s = setDrive s i (ops.rotate (s.df i))) := by
  have hsel' := getSelectedDrive_of_selected s i hsel
  have hF : selFailed s = s.failed := selFailed_of_lt s (by rw [hsel]; omega)
  refine ⟨?_, ?_, ?_, ?_⟩
  · intro hst hc h256
    have e := executeFifo_write_eq ops s i hsel' hst
    have hne : s.fifoCount ≠ 0 := by omega
    have hm : (s.fifoCount + 255) % 256 = s.fifoCount - 1 := by omega
    rw [if_neg hne, hm, hF] at e
    obtain ⟨c, hc'⟩ : ∃ c, s.fifoCount = c + 1 := ⟨s.fifoCount - 1, by omega⟩
    rw [e]
    refine ⟨?_, ?_⟩
    · simp only [hc', Nat.add_sub_cancel, fifoBytes]
    · simp only [setDrive]
  · intro hst hc
    have e := executeFifo_write_eq ops s i hsel' (Or.inl hst)
    have hne : s.state ≠ .DRIVE_DMA_FLUSH := by rw [hst]; decide
    rw [if_pos hc, hF] at e
    rw [e]
    simp only [hne, if_false]
  · intro hst hc
    have e := executeFifo_write_eq ops s i hsel' (Or.inr hst)
    rw [if_pos hc, hF] at e
    rw [e]
    simp only [hst, if_true]
  · intro hst
    rw [executeFifo_off_eq ops s i hsel' hst, hF]
    simp only [setDrive]

/-- Witness for C12: WRITE with the FIFO AA BB CC sends AA to the head. -/
theorem executeFifo_write_flush_off_witness :
    ((executeFifo tapeOps
      { amiga0 (tapeDrive []) with state := .DRIVE_DMA_WRITE, fifo := 0xAABBCC,
                                   fifoCount := 3 }).df 0).written = [0xAA] ∧
    (executeFifo tapeOps
      { amiga0 (tapeDrive []) with state := .DRIVE_DMA_WRITE, fifo := 0xAABBCC,
                                   fifoCount := 3 }).fifoCount = 2 :=
  have h := ((executeFifo_write_flush_off tapeOps
    { amiga0 (tapeDrive []) with state := .DRIVE_DMA_WRITE, fifo := 0xAABBCC, fifoCount := 3 }
    0 rfl (by decide)).1 (Or.inl rfl) (by decide) (by decide)).2
  ⟨by rw [h]; decide, by rw [h]; rfl⟩

/-! ## The DSKLEN counter under DMA -/

theorem and_4000_eq (x : Nat) : x &&& 0x4000 = x / 16384 % 2 * 16384 := by
  have h := Nat.two_pow_and x 14
  rw [Nat.land_comm, Nat.testBit_to_div_mod] at h
  have h1 : (2 : Nat) ^ 14 = 16384 := by norm_num
  rw [h1] at h
  rw [h]
  by_cases hb : x / 16384 % 2 = 1
  · simp [hb]
  · have h0 : x / 16384 % 2 = 0 := by omega
    simp [h0]

/-- Subtracting at most the 14-bit counter leaves bits 15 and 14 alone. -/
theorem sub_keeps_bits (d t : Nat) (ht : t ≤ d &&& 0x3FFF) :
    (d - t) &&& 0x8000 = d &&& 0x8000 ∧ (d - t) &&& 0x4000 = d &&& 0x4000 ∧
    (d - t) &&& 0x3FFF = (d &&& 0x3FFF) - t := by
  rw [and_3FFF] at ht
  rw [and_8000_eq, and_8000_eq, and_4000_eq, and_4000_eq, and_3FFF, and_3FFF]
  omega

theorem dec_counter (d : Nat) (hd : d < 65536) (hn : 1 ≤ d % 16384) :
    (d + 65535) % 65536 = d - 1 ∧ (d - 1) % 16384 = d % 16384 - 1 ∧ d - 1 < 65536 := by
  omega

theorem performDMAReadLoop_counter (env : Env) (ops : DriveOps D) :
    ∀ (fuel r : Nat) (s : Amiga D), s.dsklen < 65536 → 1 ≤ s.dsklen % 16384 →
      ∃ t, t ≤ s.dsklen % 16384 ∧
        (performDMAReadLoop env ops fuel r s).dsklen = s.dsklen - t := by
  intro fuel
  induction fuel with
  | zero => intro r s _ _; exact ⟨0, Nat.zero_le _, by rw [performDMAReadLoop_zero]; rfl⟩
  | succ fuel ih =>
    intro r s hlen hn
    obtain ⟨d1, d2, d3⟩ := dec_counter s.dsklen hlen hn
    rw [← dmaReadWord_dsklen env s] at d1
    rw [performDMAReadLoop_succ]
    by_cases hend : (dmaReadWord env s).dsklen &&& 0x3FFF = 0
    · rw [if_pos hend, setState_eq]
      simp only [raiseIrq]
      exact ⟨1, hn, d1⟩
    rw [if_neg hend]
    by_cases hrem : decU32 r ≠ 0
    · rw [if_pos hrem]
      have hY : (assertThat (fifoHasWord (executeFifo ops (executeFifo ops (dmaReadWord env s))))
          Assertion.dmaReadHasWord (executeFifo ops (executeFifo ops (dmaReadWord env s)))).dsklen
          = s.dsklen - 1 := by
        rw [assertThat_eq]
        show (executeFifo ops (executeFifo ops (dmaReadWord env s))).dsklen = _
        rw [(executeFifo_dsklen ops _).1, (executeFifo_dsklen ops _).1, d1]
      rw [and_3FFF, d1, d2] at hend
      generalize assertThat
        (fifoHasWord (executeFifo ops (executeFifo ops (dmaReadWord env s))))
        Assertion.dmaReadHasWord (executeFifo ops (executeFifo ops (dmaReadWord env s))) = Y at *
      obtain ⟨t, ht, hY2⟩ := ih (decU32 r) Y (by rw [hY]; exact d3) (by rw [hY, d2]; omega)
      rw [hY, d2] at ht
      rw [hY] at hY2
      refine ⟨t + 1, by omega, ?_⟩
      rw [hY2]; omega
    · rw [if_neg hrem]; exact ⟨1, hn, d1⟩

theorem performDMAWriteLoop_counter (env : Env) (ops : DriveOps D) (i : Nat) :
    ∀ (fuel r : Nat) (s : Amiga D), s.dsklen < 65536 → 1 ≤ s.dsklen % 16384 →
      ∃ t, t ≤ s.dsklen % 16384 ∧
        (performDMAWriteLoop env ops i fuel r s).dsklen = s.dsklen - t := by
  intro fuel
  induction fuel with
  | zero => intro r s _ _; exact ⟨0, Nat.zero_le _, by rw [performDMAWriteLoop_zero]; rfl⟩
  | succ fuel ih =>
    intro r s hlen hn
    obtain ⟨d1, d2, d3⟩ := dec_counter s.dsklen hlen hn
    rw [← dmaWriteWord_dsklen env s] at d1
    rw [performDMAWriteLoop_succ]
    by_cases hend : (dmaWriteWord env s).dsklen &&& 0x3FFF = 0
    · rw [if_pos hend, setState_eq]
      have hF : (flushFifo ops i 256 (raiseIrq (dmaWriteWord env s) .INT_DSKBLK)).dsklen
          = (dmaWriteWord env s).dsklen := by
        rw [flushFifo_dsklen]; simp only [raiseIrq]
      generalize flushFifo ops i 256 (raiseIrq (dmaWriteWord env s) .INT_DSKBLK) = F at *
      simp only [hF]
      exact ⟨1, hn, d1⟩
    rw [if_neg hend]
    by_cases hrem : decU32 r ≠ 0
    · rw [if_pos hrem]
      have hY : (assertThat
          (fifoCanStoreWord (executeFifo ops (executeFifo ops (dmaWriteWord env s))))
          Assertion.dmaWriteCanStore
          (executeFifo ops (executeFifo ops (dmaWriteWord env s)))).dsklen
          = s.dsklen - 1 := by
        rw [assertThat_eq]
        show (executeFifo ops (executeFifo ops (dmaWriteWord env s))).dsklen = _
        rw [(executeFifo_dsklen ops _).1, (executeFifo_dsklen ops _).1, d1]
      rw [and_3FFF, d1, d2] at hend
      generalize assertThat
        (fifoCanStoreWord (executeFifo ops (executeFifo ops (dmaWriteWord env s))))
        Assertion.dmaWriteCanStore (executeFifo ops (executeFifo ops (dmaWriteWord env s)))
        = Y at *
      obtain ⟨t, ht, hY2⟩ := ih (decU32 r) Y (by rw [hY]; exact d3) (by rw [hY, d2]; omega)
      rw [hY, d2] at ht
      rw [hY] at hY2
      refine ⟨t + 1, by omega, ?_⟩
      rw [hY2]; omega
    · rw [if_neg hrem]; exact ⟨1, hn, d1⟩

theorem performSimpleDMARead_succ (env : Env) (ops : DriveOps D) (i n : Nat) (s : Amiga D) :
    performSimpleDMARead env ops i (n + 1) s =
      if (simpleReadWord env ops i s).dsklen &&& 0x3FFF = 0 then
        setState (raiseIrq (simpleReadWord env ops i s) .INT_DSKBLK) .DRIVE_DMA_OFF
      else performSimpleDMARead env ops i n (simpleReadWord env ops i s) := by
  rfl

theorem performSimpleDMAWrite_succ (env : Env) (ops : DriveOps D) (i n : Nat) (s : Amiga D) :
    performSimpleDMAWrite env ops i (n + 1) s =
      if (simpleWriteWord env ops i s).dsklen &&& 0x3FFF = 0 then
        setState (raiseIrq (simpleWriteWord env ops i s) .INT_DSKBLK) .DRIVE_DMA_OFF
      else performSimpleDMAWrite env ops i n (simpleWriteWord env ops i s) := by
  rfl

theorem simpleReadWord_dsklen (env : Env) (ops : DriveOps D) (i : Nat) (s : Amiga D) :
    (simpleReadWord env ops i s).dsklen = (s.dsklen + 65535) % 65536 := by
  unfold simpleReadWord decDsklen
  simp only [noteChecksum_eq, Agnus.doDiskDMAWrite, Agnus.recordDiskBus, Agnus.poke,
    assertThat_eq, setDrive]

theorem simpleWriteWord_dsklen (env : Env) (ops : DriveOps D) (i : Nat) (s : Amiga D) :
    (simpleWriteWord env ops i s).dsklen = (s.dsklen + 65535) % 65536 := by
  unfold simpleWriteWord decDsklen
  simp only [noteChecksum_eq, Agnus.doDiskDMARead, Agnus.recordDiskBus, assertThat_eq, setDrive]

theorem performSimpleDMAWait_dsklen (ops : DriveOps D) (i : Nat) :
    ∀ (n : Nat) (s : Amiga D), (performSimpleDMAWait ops i n s).dsklen = s.dsklen := by
  intro n
  induction n with
  | zero => intro s; rfl
  | succ n ih =>
    intro s
    unfold performSimpleDMAWait
    dsimp only
    split_ifs
    · rw [setState_eq]; simp only [raiseIrq, setDrive]
    · rw [ih]; simp only [setDrive]

theorem performSimpleDMARead_counter (env : Env) (ops : DriveOps D) (i : Nat) :
    ∀ (n : Nat) (s : Amiga D), s.dsklen < 65536 → 1 ≤ s.dsklen % 16384 →
      ∃ t, t ≤ s.dsklen % 16384 ∧
        (performSimpleDMARead env ops i n s).dsklen = s.dsklen - t := by
  intro n
  induction n with
  | zero => intro s _ _; exact ⟨0, Nat.zero_le _, rfl⟩
  | succ n ih =>
    intro s hlen hn
    obtain ⟨d1, d2, d3⟩ := dec_counter s.dsklen hlen hn
    rw [← simpleReadWord_dsklen env ops i s] at d1
    rw [performSimpleDMARead_succ]
    by_cases hend : (simpleReadWord env ops i s).dsklen &&& 0x3FFF = 0
    · rw [if_pos hend, setState_eq]
      simp only [raiseIrq]
      exact ⟨1, hn, d1⟩
    · rw [if_neg hend]
      rw [and_3FFF, d1, d2] at hend
      generalize simpleReadWord env ops i s = X at *
      obtain ⟨t, ht, hX⟩ := ih X (by rw [d1]; exact d3) (by rw [d1, d2]; omega)
      rw [d1, d2] at ht
      rw [d1] at hX
      refine ⟨t + 1, by omega, ?_⟩
      rw [hX]; omega

theorem performSimpleDMAWrite_counter (env : Env) (ops : DriveOps D) (i : Nat) :
    ∀ (n : Nat) (s : Amiga D), s.dsklen < 65536 → 1 ≤ s.dsklen % 16384 →
      ∃ t, t ≤ s.dsklen % 16384 ∧
        (performSimpleDMAWrite env ops i n s).dsklen = s.dsklen - t := by
  intro n
  induction n with
  | zero => intro s _ _; exact ⟨0, Nat.zero_le _, rfl⟩
  | succ n ih =>
    intro s hlen hn
    obtain ⟨d1, d2, d3⟩ := dec_counter s.dsklen hlen hn
    rw [← simpleWriteWord_dsklen env ops i s] at d1
    rw [performSimpleDMAWrite_succ]
    by_cases hend : (simpleWriteWord env ops i s).dsklen &&& 0x3FFF = 0
    · rw [if_pos hend, setState_eq]
      simp only [raiseIrq]
      exact ⟨1, hn, d1⟩
    · rw [if_neg hend]
      rw [and_3FFF, d1, d2] at hend
      generalize simpleWriteWord env ops i s = X at *
      obtain ⟨t, ht, hX⟩ := ih X (by rw [d1]; exact d3) (by rw [d1, d2]; omega)
      rw [d1, d2] at ht
      rw [d1] at hX
      refine ⟨t + 1, by omega, ?_⟩
      rw [hX]; omega

theorem performDMA_counter (env : Env) (ops : DriveOps D) (s : Amiga D)
    (hlen : s.dsklen < 65536) :
    ∃ t, t ≤ s.dsklen &&& 0x3FFF ∧ (performDMA env ops s).dsklen = s.dsklen - t := by
  rw [and_3FFF]
  unfold performDMA
  by_cases h0 : s.dsklen &&& 0x3FFF = 0
  · rw [if_pos h0]; exact ⟨0, Nat.zero_le _, rfl⟩
  rw [if_neg h0]
  by_cases hsts : s.state ≠ .DRIVE_DMA_READ ∧ s.state ≠ .DRIVE_DMA_WRITE
  · rw [if_pos hsts]; exact ⟨0, Nat.zero_le _, rfl⟩
  rw [if_neg hsts]
  have hn : 1 ≤ s.dsklen % 16384 := by rw [and_3FFF] at h0; omega
  cases hsel : (getSelectedDrive s).1 with
  | none =>
    simp only [hsel]
    rw [getSelectedDrive_snd]; exact ⟨0, Nat.zero_le _, rfl⟩
  | some i =>
    simp only [hsel]
    generalize ops.speed ((getSelectedDrive s).2.df i) % 2 ^ 32 = count
    generalize ops.nr ((getSelectedDrive s).2.df i) = nr
    obtain ⟨-, aSt, -, aLen, -, -, -, -, -, -⟩ := addWordCount_sel_fields s nr count
    generalize addWordCount (getSelectedDrive s).2 nr count = A at *
    rw [← aLen]
    have hA1 : A.dsklen < 65536 := by rw [aLen]; exact hlen
    have hA2 : 1 ≤ A.dsklen % 16384 := by rw [aLen]; exact hn
    have hz : ∃ t, t ≤ A.dsklen % 16384 ∧ A.dsklen = A.dsklen - t := ⟨0, Nat.zero_le _, rfl⟩
    rcases DriveState.eq_cases s.state with hst | hst | hst | hst | hst <;> rw [hst] at aSt <;>
      simp only [aSt]
    · exact hz
    · exact hz
    · unfold performDMARead
      split_ifs
      · exact hz
      · exact performDMAReadLoop_counter env ops _ _ A hA1 hA2
    · unfold performDMAWrite
      split_ifs
      · exact hz
      · exact performDMAWriteLoop_counter env ops i _ _ A hA1 hA2
    · exact hz

theorem performSimpleDMA_counter (env : Env) (ops : DriveOps D) (s : Amiga D)
    (hlen : s.dsklen < 65536) :
    ∃ t, t ≤ s.dsklen &&& 0x3FFF ∧ (performSimpleDMA env ops s).dsklen = s.dsklen - t := by
  rw [and_3FFF]
  unfold performSimpleDMA
  cases hsel : (getSelectedDrive s).1 with
  | none =>
    simp only [hsel]
    rw [getSelectedDrive_snd]; exact ⟨0, Nat.zero_le _, rfl⟩
  | some i =>
    simp only [hsel]
    have hG : (getSelectedDrive s).2.dsklen = s.dsklen := by rw [getSelectedDrive_snd]
    rw [hG]
    by_cases h0 : s.dsklen &&& 0x3FFF = 0
    · rw [if_pos h0, getSelectedDrive_snd]; exact ⟨0, Nat.zero_le _, rfl⟩
    rw [if_neg h0]
    have hn : 1 ≤ s.dsklen % 16384 := by rw [and_3FFF] at h0; omega
    generalize ops.speed ((getSelectedDrive s).2.df i) % 2 ^ 32 = count
    generalize ops.nr ((getSelectedDrive s).2.df i) = nr
    obtain ⟨-, aSt, -, aLen, -, -, -, -, -, -⟩ := addWordCount_sel_fields s nr count
    generalize addWordCount (getSelectedDrive s).2 nr count = A at *
    rw [← aLen]
    have hA1 : A.dsklen < 65536 := by rw [aLen]; exact hlen
    have hA2 : 1 ≤ A.dsklen % 16384 := by rw [aLen]; exact hn
    have hz : ∃ t, t ≤ A.dsklen % 16384 ∧ A.dsklen = A.dsklen - t := ⟨0, Nat.zero_le _, rfl⟩
    rcases DriveState.eq_cases s.state with hst | hst | hst | hst | hst <;> rw [hst] at aSt <;>
      simp only [aSt]
    · exact hz
    · exact ⟨0, Nat.zero_le _, by rw [performSimpleDMAWait_dsklen]; rfl⟩
    · exact performSimpleDMARead_counter env ops i _ A hA1 hA2
    · exact performSimpleDMAWrite_counter env ops i _ A hA1 hA2
    · exact hz

/-- C11. The 14-bit word counter of DSKLEN is non-increasing across DMA: in every
state (DSKLEN a 16-bit value), a call of `performDMA` or of `performSimpleDMA`
changes `dsklen` to `dsklen - t` for some `t` with
`0 <= t <= dsklen & 0x3FFF`; so the counter drops by `t` without wrapping and
bits 15 and 14 of DSKLEN are not altered. -/
theorem dsklen_counter_nonincreasing (env : Env) (ops : DriveOps D) (s : Amiga D)
    (hlen : s.dsklen < 65536) :
    (∃ t, t ≤ s.dsklen &&& 0x3FFF ∧
      (performDMA env ops s).dsklen = s.dsklen - t ∧
      (performDMA env ops s).dsklen &&& 0x3FFF = (s.dsklen &&& 0x3FFF) - t ∧
      (performDMA env ops s).dsklen &&& 0x8000 = s.dsklen &&& 0x8000 ∧
      (performDMA env ops s).dsklen &&& 0x4000 = s.dsklen &&& 0x4000) ∧
    (∃ t, t ≤ s.dsklen &&& 0x3FFF ∧
      (performSimpleDMA env ops s).dsklen = s.dsklen - t ∧
      (performSimpleDMA env ops s).dsklen &&& 0x3FFF = (s.dsklen &&& 0x3FFF) - t ∧
      (performSimpleDMA env ops s).dsklen &&& 0x8000 = s.dsklen &&& 0x8000 ∧
      (performSimpleDMA env ops s).dsklen &&& 0x4000 = s.dsklen &&& 0x4000) := by
  constructor
  · obtain ⟨t, ht, h⟩ := performDMA_counter env ops s hlen
    obtain ⟨b15, b14, b0⟩ := sub_keeps_bits s.dsklen t ht
    exact ⟨t, ht, h, by rw [h]; exact b0, by rw [h]; exact b15, by rw [h]; exact b14⟩
  · obtain ⟨t, ht, h⟩ := performSimpleDMA_counter env ops s hlen
    obtain ⟨b15, b14, b0⟩ := sub_keeps_bits s.dsklen t ht
    exact ⟨t, ht, h, by rw [h]; exact b0, by rw [h]; exact b15, by rw [h]; exact b14⟩

/-- Witness for C11: a read DMA of three words with DSKLEN = 0xC005 leaves 0xC002. -/
theorem dsklen_counter_nonincreasing_witness :
    ∃ t, t ≤ 0xC005 &&& 0x3FFF ∧
      (performDMA env0 tapeOps
        { amiga0 { tapeDrive [1, 2, 3, 4, 5, 6] with speed := 3 } with
            state := .DRIVE_DMA_READ, fifo := 0xAABBCC, fifoCount := 3,
            dsklen := 0xC005 }).dsklen = 0xC005 - t :=
  have h := (dsklen_counter_nonincreasing env0 tapeOps
    { amiga0 { tapeDrive [1, 2, 3, 4, 5, 6] with speed := 3 } with
        state := .DRIVE_DMA_READ, fifo := 0xAABBCC, fifoCount := 3, dsklen := 0xC005 }
    (by decide)).1
  h.elim fun t ht => ⟨t, ht.1, ht.2.1⟩

/-! ## Turbo DMA -/

theorem headWords_length (ops : DriveOps D) :
    ∀ (n : Nat) (d : D), (headWords ops n d).1.length = n := by
  intro n
  induction n with
  | zero => intro d; rfl
  | succ n ih => intro d; simp only [headWords, List.length_cons, ih]

theorem peekChipWords_length (env : Env) (m : Memory) :
    ∀ (n a : Nat), (peekChipWords env m a n).length = n := by
  intro n
  induction n with
  | zero => intro a; rfl
  | succ n ih => intro a; simp only [peekChipWords, List.length_cons, ih]

/-- What `performTurboRead` does to the drive, the memory and DSKPT. -/
theorem performTurboRead_spec (env : Env) (ops : DriveOps D) (i : Nat) :
    ∀ (n : Nat) (s : Amiga D),
      (performTurboRead env ops i n s).df i = (headWords ops n (s.df i)).2 ∧
      (performTurboRead env ops i n s).mem =
        pokeChipWords env s.mem s.dskpt (headWords ops n (s.df i)).1 ∧
      (performTurboRead env ops i n s).dskpt = env.INC_CHIP_PTR^[n] s.dskpt := by
  intro n
  induction n with
  | zero => intro s; exact ⟨rfl, rfl, rfl⟩
  | succ n ih =>
    intro s
    simp only [performTurboRead, headWords, pokeChipWords, Function.iterate_succ_apply]
    obtain ⟨h1, h2, h3⟩ := ih (noteChecksum env
      { setDrive s i (ops.readHead16 (s.df i)).2 with
        mem := s.mem.pokeChip16 s.dskpt ((ops.readHead16 (s.df i)).1 % 65536),
        dskpt := env.INC_CHIP_PTR s.dskpt } ((ops.readHead16 (s.df i)).1 % 65536))
    simp only [noteChecksum_eq, setDrive, if_true] at h1 h2 h3
    simp only [noteChecksum_eq, setDrive]
    exact ⟨h1, h2, h3⟩

/-- What `performTurboWrite` does to the drive, the memory and DSKPT. -/
theorem performTurboWrite_spec (env : Env) (ops : DriveOps D) (i : Nat) :
    ∀ (n : Nat) (s : Amiga D),
      (performTurboWrite env ops i n s).df i =
        (peekChipWords env s.mem s.dskpt n).foldl ops.writeHead16 (s.df i) ∧
      (performTurboWrite env ops i n s).mem = s.mem ∧
      (performTurboWrite env ops i n s).dskpt = env.INC_CHIP_PTR^[n] s.dskpt := by
  intro n
  induction n with
  | zero => intro s; exact ⟨rfl, rfl, rfl⟩
  | succ n ih =>
    intro s
    simp only [performTurboWrite, peekChipWords, List.foldl_cons, Function.iterate_succ_apply]
    obtain ⟨h1, h2, h3⟩ := ih (setDrive (noteChecksum env
      { s with dskpt := env.INC_CHIP_PTR s.dskpt } (s.mem.peekChip16 s.dskpt)) i
      (ops.writeHead16 ((noteChecksum env
        { s with dskpt := env.INC_CHIP_PTR s.dskpt } (s.mem.peekChip16 s.dskpt)).df i)
        (s.mem.peekChip16 s.dskpt)))
    simp only [noteChecksum_eq, setDrive, if_true] at h1 h2 h3
    simp only [noteChecksum_eq, setDrive]
    exact ⟨h1, h2, h3⟩

theorem performTurboRead_df_other (env : Env) (ops : DriveOps D) (i j : Nat) (hj : j ≠ i) :
    ∀ (n : Nat) (s : Amiga D), (performTurboRead env ops i n s).df j = s.df j := by
  intro n
  induction n with
  | zero => intro s; rfl
  | succ n ih =>
    intro s
    simp only [performTurboRead]
    rw [ih]
    simp only [noteChecksum_eq, setDrive, if_neg hj]

theorem performTurboWrite_df_other (env : Env) (ops : DriveOps D) (i j : Nat) (hj : j ≠ i) :
    ∀ (n : Nat) (s : Amiga D), (performTurboWrite env ops i n s).df j = s.df j := by
  intro n
  induction n with
  | zero => intro s; rfl
  | succ n ih =>
    intro s
    simp only [performTurboWrite]
    rw [ih]
    simp only [noteChecksum_eq, setDrive, if_neg hj]

theorem performTurboDMA_read_eq (env : Env) (ops : DriveOps D) (s : Amiga D) (i : Nat)
    (hn : s.dsklen &&& 0x3FFF ≠ 0) (hst : s.state = .DRIVE_DMA_READ) :
    performTurboDMA env ops s i =
      setState (scheduleIrqRel (performTurboRead env ops i (s.dsklen &&& 0x3FFF)
        (addWordCount s (ops.nr (s.df i)) (s.dsklen &&& 0x3FFF)))
        .INT_DSKBLK (DMA_CYCLES 512)) .DRIVE_DMA_OFF := by
  unfold performTurboDMA
  rw [if_neg hn]
  simp only [addWordCount, hst]

theorem performTurboDMA_wait_eq (env : Env) (ops : DriveOps D) (s : Amiga D) (i : Nat)
    (hn : s.dsklen &&& 0x3FFF ≠ 0) (hst : s.state = .DRIVE_DMA_WAIT) :
    performTurboDMA env ops s i =
      setState (scheduleIrqRel (performTurboRead env ops i (s.dsklen &&& 0x3FFF)
        (setDrive (addWordCount s (ops.nr (s.df i)) (s.dsklen &&& 0x3FFF)) i
          (ops.findSyncMark (s.df i))))
        .INT_DSKBLK (DMA_CYCLES 512)) .DRIVE_DMA_OFF := by
  unfold performTurboDMA
  rw [if_neg hn]
  simp only [addWordCount, hst, setDrive]

theorem performTurboDMA_write_eq (env : Env) (ops : DriveOps D) (s : Amiga D) (i : Nat)
    (hn : s.dsklen &&& 0x3FFF ≠ 0) (hst : s.state = .DRIVE_DMA_WRITE) :
    performTurboDMA env ops s i =
      setState (scheduleIrqRel (performTurboWrite env ops i (s.dsklen &&& 0x3FFF)
        (addWordCount s (ops.nr (s.df i)) (s.dsklen &&& 0x3FFF)))
        .INT_DSKBLK (DMA_CYCLES 512)) .DRIVE_DMA_OFF := by
  unfold performTurboDMA
  rw [if_neg hn]
  simp only [addWordCount, hst]

theorem performTurboDMA_off_eq (env : Env) (ops : DriveOps D) (s : Amiga D) (i : Nat)
    (hst : s.state = .DRIVE_DMA_OFF) :
    performTurboDMA env ops s i =
      if s.dsklen &&& 0x3FFF = 0 then s
      else addWordCount s (ops.nr (s.df i)) (s.dsklen &&& 0x3FFF) := by
  unfold performTurboDMA
  by_cases hn : s.dsklen &&& 0x3FFF = 0
  · rw [if_pos hn, if_pos hn]
  · rw [if_neg hn, if_neg hn]
    simp only [addWordCount, hst]

/-- C13. Turbo DMA with `n = DSKLEN & 0x3FFF`. If `n > 0`: in state READ the
`n` words that `readHead16` delivers are stored in chip RAM at DSKPT,
`INC_CHIP_PTR(DSKPT)`, ...; in state WAIT the same happens after `findSyncMark`;
in state WRITE the `n` words of chip RAM at DSKPT, ... are written with
`writeHead16` and memory is not changed; in all three states exactly `n` words
are moved, DSKPT is advanced `n` times, one `scheduleIrqRel(INT_DSKBLK,
DMA_CYCLES(512))` call is made, `DMA_CYCLES(512)` being 1024 master cycles, and
the state becomes OFF. If `n = 0` or the state is OFF, memory, the drives,
DSKPT, the interrupts and the state are unchanged. -/
theorem performTurboDMA_transfers_block (env : Env) (ops : DriveOps D) (s : Amiga D) (i : Nat) :
    (s.dsklen &&& 0x3FFF ≠ 0 → s.state = .DRIVE_DMA_READ →
      (performTurboDMA env ops s i).df i = (headWords ops (s.dsklen &&& 0x3FFF) (s.df i)).2 ∧
      (performTurboDMA env ops s i).mem =
        pokeChipWords env s.mem s.dskpt (headWords ops (s.dsklen &&& 0x3FFF) (s.df i)).1 ∧
      (headWords ops (s.dsklen &&& 0x3FFF) (s.df i)).1.length = s.dsklen &&& 0x3FFF) ∧
    (s.dsklen &&& 0x3FFF ≠ 0 → s.state = .DRIVE_DMA_WAIT →
      (performTurboDMA env ops s i).df i =
        (headWords ops (s.dsklen &&& 0x3FFF) (ops.findSyncMark (s.df i))).2 ∧
      (performTurboDMA env ops s i).mem =
        pokeChipWords env s.mem s.dskpt
          (headWords ops (s.dsklen &&& 0x3FFF) (ops.findSyncMark (s.df i))).1 ∧
      (headWords ops (s.dsklen &&& 0x3FFF) (ops.findSyncMark (s.df i))).1.length =
        s.dsklen &&& 0x3FFF) ∧
    (s.dsklen &&& 0x3FFF ≠ 0 → s.state = .DRIVE_DMA_WRITE →
      (performTurboDMA env ops s i).df i =
        (peekChipWords env s.mem s.dskpt (s.dsklen &&& 0x3FFF)).foldl ops.writeHead16 (s.df i) ∧
      (performTurboDMA env ops s i).mem = s.mem ∧
      (peekChipWords env s.mem s.dskpt (s.dsklen &&& 0x3FFF)).length = s.dsklen &&& 0x3FFF) ∧
    (s.dsklen &&& 0x3FFF ≠ 0 →
      s.state = .DRIVE_DMA_WAIT ∨ s.state = .DRIVE_DMA_READ ∨ s.state = .DRIVE_DMA_WRITE →
      (performTurboDMA env ops s i).dskpt = env.INC_CHIP_PTR^[s.dsklen &&& 0x3FFF] s.dskpt ∧
      (∀ j, j ≠ i → (performTurboDMA env ops s i).df j = s.df j) ∧
      (performTurboDMA env ops s i).irqs =
        s.irqs ++ [.scheduleIrqRel .INT_DSKBLK (DMA_CYCLES 512)] ∧
      DMA_CYCLES 512 = 1024 ∧
      (performTurboDMA env ops s i).state = .DRIVE_DMA_OFF) ∧
    (s.dsklen &&& 0x3FFF = 0 ∨ s.state = .DRIVE_DMA_OFF →
      (performTurboDMA env ops s i).mem = s.mem ∧
      (performTurboDMA env ops s i).df = s.df ∧
      (performTurboDMA env ops s i).dskpt = s.dskpt ∧
      (performTurboDMA env ops s i).irqs = s.irqs ∧
      (performTurboDMA env ops s i).state = s.state) := by
  refine ⟨?_, ?_, ?_, ?_, ?_⟩
  · intro hn hst
    obtain ⟨h1, h2, -⟩ := performTurboRead_spec env ops i (s.dsklen &&& 0x3FFF)
      (addWordCount s (ops.nr (s.df i)) (s.dsklen &&& 0x3FFF))
    rw [performTurboDMA_read_eq env ops s i hn hst, setState_eq]
    simp only [scheduleIrqRel]
    exact ⟨h1, h2, headWords_length ops _ _⟩
  · intro hn hst
    obtain ⟨h1, h2, -⟩ := performTurboRead_spec env ops i (s.dsklen &&& 0x3FFF)
      (setDrive (addWordCount s (ops.nr (s.df i)) (s.dsklen &&& 0x3FFF)) i
        (ops.findSyncMark (s.df i)))
    simp only [setDrive, addWordCount, if_true] at h1 h2
    rw [performTurboDMA_wait_eq env ops s i hn hst, setState_eq]
    simp only [scheduleIrqRel, setDrive, addWordCount]
    exact ⟨h1, h2, headWords_length ops _ _⟩
  · intro hn hst
    obtain ⟨h1, h2, -⟩ := performTurboWrite_spec env ops i (s.dsklen &&& 0x3FFF)
      (addWordCount s (ops.nr (s.df i)) (s.dsklen &&& 0x3FFF))
    rw [performTurboDMA_write_eq env ops s i hn hst, setState_eq]
    simp only [scheduleIrqRel]
    exact ⟨h1, h2, peekChipWords_length env _ _ _⟩
  · intro hn hst
    refine ⟨?_, ?_, ?_, rfl, ?_⟩
    · rcases hst with hst | hst | hst
      · rw [performTurboDMA_wait_eq env ops s i hn hst, setState_eq]
        simp only [scheduleIrqRel]
        exact (performTurboRead_spec env ops i _ _).2.2
      · rw [performTurboDMA_read_eq env ops s i hn hst, setState_eq]
        simp only [scheduleIrqRel]
        exact (performTurboRead_spec env ops i _ _).2.2
      · rw [performTurboDMA_write_eq env ops s i hn hst, setState_eq]
        simp only [scheduleIrqRel]
        exact (performTurboWrite_spec env ops i _ _).2.2
    · intro j hj
      rcases hst with hst | hst | hst
      · rw [performTurboDMA_wait_eq env ops s i hn hst, setState_eq]
        simp only [scheduleIrqRel]
        rw [performTurboRead_df_other env ops i j hj]
        simp only [setDrive, addWordCount, if_neg hj]
      · rw [performTurboDMA_read_eq env ops s i hn hst, setState_eq]
        simp only [scheduleIrqRel]
        rw [performTurboRead_df_other env ops i j hj]
        rfl
      · rw [performTurboDMA_write_eq env ops s i hn hst, setState_eq]
        simp only [scheduleIrqRel]
        rw [performTurboWrite_df_other env ops i j hj]
        rfl
    · rcases hst with hst | hst | hst
      · rw [performTurboDMA_wait_eq env ops s i hn hst, setState_eq]
        simp only [scheduleIrqRel]
        rw [(performTurboRead_frame env ops i _ _).2.2.2.2.1]
        rfl
      · rw [performTurboDMA_read_eq env ops s i hn hst, setState_eq]
        simp only [scheduleIrqRel]
        rw [(performTurboRead_frame env ops i _ _).2.2.2.2.1]
        rfl
      · rw [performTurboDMA_write_eq env ops s i hn hst, setState_eq]
        simp only [scheduleIrqRel]
        rw [(performTurboWrite_frame env ops i _ _).2.2.2.2.1]
        rfl
    · rcases hst with hst | hst | hst
      · rw [performTurboDMA_wait_eq env ops s i hn hst, setState_eq]
      · rw [performTurboDMA_read_eq env ops s i hn hst, setState_eq]
      · rw [performTurboDMA_write_eq env ops s i hn hst, setState_eq]
  · intro h
    rcases h with h | h
    · rw [performTurboDMA_zero env ops s i h]
      exact ⟨rfl, rfl, rfl, rfl, rfl⟩
    · rw [performTurboDMA_off_eq env ops s i h]
      split_ifs
      · exact ⟨rfl, rfl, rfl, rfl, rfl⟩
      · exact ⟨rfl, rfl, rfl, rfl, rfl⟩

/-- Witness for C13: a turbo read of two words stores both at DSKPT = 0x100 and
0x102, leaves the drive behind them, and becomes OFF. -/
theorem performTurboDMA_transfers_block_witness :
    (performTurboDMA env0 tapeOps
      { amiga0 (tapeDrive [1, 2, 3, 4, 5, 6]) with
          state := .DRIVE_DMA_READ, dsklen := 0x8002, dskpt := 0x100 } 0).mem.chip 0x102 = 0x0304 ∧
    (performTurboDMA env0 tapeOps
      { amiga0 (tapeDrive [1, 2, 3, 4, 5, 6]) with
          state := .DRIVE_DMA_READ, dsklen := 0x8002, dskpt := 0x100 } 0).state = .DRIVE_DMA_OFF :=
  have h := performTurboDMA_transfers_block env0 tapeOps
    { amiga0 (tapeDrive [1, 2, 3, 4, 5, 6]) with
        state := .DRIVE_DMA_READ, dsklen := 0x8002, dskpt := 0x100 } 0
  ⟨by rw [(h.1 (by decide) rfl).2.1]; decide,
   (h.2.2.2.1 (by decide) (Or.inr (Or.inl rfl))).2.2.2.2⟩

/-! ## Bus arbitration -/

theorem busIsFree_snd_busOwner (t : DmaconTests) (owner : BusOwner) (a : Agnus) :
    (busIsFree t owner a).2.busOwner = a.busOwner ∧
    (busIsFree t owner a).2.posH = a.posH := by
  unfold busIsFree
  cases owner <;> dsimp only <;>
    first
    | exact ⟨rfl, rfl⟩
    | (split_ifs <;> exact ⟨rfl, rfl⟩)

theorem busIsFree_taken (t : DmaconTests) (owner : BusOwner) (a : Agnus)
    (h : a.busOwner a.posH ≠ .BUS_NONE) : busIsFree t owner a = (false, a) := by
  unfold busIsFree
  rw [if_pos h]

theorem allocateBus_taken (t : DmaconTests) (owner : BusOwner) (a : Agnus)
    (h : a.busOwner a.posH ≠ .BUS_NONE) : allocateBus t owner a = (false, a) := by
  unfold allocateBus
  rw [if_pos h]

theorem busIsFree_copper_iff (t : DmaconTests) (a : Agnus) :
    (busIsFree t .BUS_COPPER a).1 = true ↔
      a.busOwner a.posH = .BUS_NONE ∧ t.copdma a.dmacon = true ∧ a.posH ≠ 0xE0 := by
  unfold busIsFree
  by_cases h : a.busOwner a.posH = .BUS_NONE <;>
    by_cases hc : t.copdma a.dmacon = true <;>
    by_cases he : a.posH = 0xE0 <;> simp [h, hc, he]

theorem busIsFree_blitter_iff (t : DmaconTests) (a : Agnus) :
    (busIsFree t .BUS_BLITTER a).1 = true ↔
      a.busOwner a.posH = .BUS_NONE ∧ t.bltdma a.dmacon = true ∧
        (t.bltpri a.dmacon = true ∨ a.bls = false) := by
  unfold busIsFree
  by_cases h : a.busOwner a.posH = .BUS_NONE <;>
    cases hc : t.bltdma a.dmacon <;>
    cases hp : t.bltpri a.dmacon <;> cases hb : a.bls <;> simp [h]

theorem allocateBus_blitter_iff (t : DmaconTests) (a : Agnus) :
    (allocateBus t .BUS_BLITTER a).1 = true ↔
      a.busOwner a.posH = .BUS_NONE ∧ t.bltdma a.dmacon = true ∧
        (t.bltpri a.dmacon = true ∨ a.bls = false) := by
  unfold allocateBus
  by_cases h : a.busOwner a.posH = .BUS_NONE <;>
    cases hc : t.bltdma a.dmacon <;>
    cases hp : t.bltpri a.dmacon <;> cases hb : a.bls <;> simp [h]

theorem allocateBus_copper_iff (t : DmaconTests) (a : Agnus) :
    (allocateBus t .BUS_COPPER a).1 = true ↔ a.busOwner a.posH = .BUS_NONE := by
  unfold allocateBus
  by_cases h : a.busOwner a.posH = .BUS_NONE <;> simp [h]

/-- C15. `busIsFree<BUS_COPPER>` returns true if and only if `busOwner[pos.h]` is
`BUS_NONE`, `copdma()` holds and `pos.h != 0xE0`; the call changes nothing in
Agnus, in particular not the `busOwner` vector. -/
theorem busIsFree_copper (t : DmaconTests) (a : Agnus) :
    ((busIsFree t .BUS_COPPER a).1 = true ↔
      a.busOwner a.posH = .BUS_NONE ∧ t.copdma a.dmacon = true ∧ a.posH ≠ 0xE0) ∧
    (busIsFree t .BUS_COPPER a).2.busOwner = a.busOwner ∧
    (busIsFree t .BUS_COPPER a).2 = a := by
  refine ⟨busIsFree_copper_iff t a, (busIsFree_snd_busOwner t _ a).1, ?_⟩
  unfold busIsFree
  split_ifs <;> rfl

/-- C16, counterexample.  At `pos.h = 0xE0` with a free slot (and Copper DMA
enabled) `busIsFree<BUS_COPPER>` denies, but `allocateBus<BUS_COPPER>` returns
true and changes `busOwner[0xE0]` from `BUS_NONE` to `BUS_COPPER`. -/
theorem allocateBus_copper_grants_at_E0 :
    (agnus0 0xE0 0x280 false).posH = 0xE0 ∧
    (agnus0 0xE0 0x280 false).busOwner 0xE0 = .BUS_NONE ∧
    (busIsFree dmaconBits .BUS_COPPER (agnus0 0xE0 0x280 false)).1 = false ∧
    (allocateBus dmaconBits .BUS_COPPER (agnus0 0xE0 0x280 false)).1 = true ∧
    (allocateBus dmaconBits .BUS_COPPER (agnus0 0xE0 0x280 false)).2.busOwner 0xE0 =
      .BUS_COPPER := by
  decide

/-- C16, amended.  The denial at `pos.h = 0xE0` is made by `busIsFree<BUS_COPPER>`,
which returns false there for every DMACON value and every owner vector.
`allocateBus<BUS_COPPER>` tests the slot only: it returns true exactly when
`busOwner[pos.h]` is `BUS_NONE`, and then sets `busOwner[pos.h]` to `BUS_COPPER`
and leaves the other positions alone; when it returns false Agnus is unchanged.
Whenever `busIsFree<BUS_COPPER>` holds, `allocateBus<BUS_COPPER>` grants. -/
theorem allocateBus_copper (t : DmaconTests) (a : Agnus) :
    (a.posH = 0xE0 → (busIsFree t .BUS_COPPER a).1 = false) ∧
    ((allocateBus t .BUS_COPPER a).1 = true ↔ a.busOwner a.posH = .BUS_NONE) ∧
    ((allocateBus t .BUS_COPPER a).1 = true →
      (allocateBus t .BUS_COPPER a).2.busOwner a.posH = .BUS_COPPER ∧
      ∀ h, h ≠ a.posH → (allocateBus t .BUS_COPPER a).2.busOwner h = a.busOwner h) ∧
    ((allocateBus t .BUS_COPPER a).1 = false → (allocateBus t .BUS_COPPER a).2 = a) ∧
    ((busIsFree t .BUS_COPPER a).1 = true → (allocateBus t .BUS_COPPER a).1 = true) := by
  refine ⟨?_, allocateBus_copper_iff t a, ?_, ?_, ?_⟩
  · intro hE
    cases hb : (busIsFree t .BUS_COPPER a).1 with
    | false => rfl
    | true => exact absurd hE ((busIsFree_copper_iff t a).1 hb).2.2
  · intro hg
    have hfree := (allocateBus_copper_iff t a).1 hg
    unfold allocateBus
    rw [if_neg (not_not.2 hfree)]
    refine ⟨by simp only [if_true], ?_⟩
    intro h hh
    simp only [if_neg hh]
  · intro hd
    by_cases hfree : a.busOwner a.posH = .BUS_NONE
    · rw [(allocateBus_copper_iff t a).2 hfree] at hd
      exact absurd hd (by decide)
    · rw [allocateBus_taken t _ a hfree]
  · intro hb
    exact (allocateBus_copper_iff t a).2 ((busIsFree_copper_iff t a).1 hb).1

/-- Witness for C16: at `pos.h = 0xE0` `busIsFree<BUS_COPPER>` denies, and on a
slot taken by the disk `allocateBus<BUS_COPPER>` changes nothing. -/
theorem allocateBus_copper_witness :
    (busIsFree dmaconBits .BUS_COPPER (agnus0 0xE0 0x280 false)).1 = false ∧
    (allocateBus dmaconBits .BUS_COPPER
      { agnus0 0x30 0x280 false with busOwner := fun _ => .BUS_DISK }).2 =
      { agnus0 0x30 0x280 false with busOwner := fun _ => .BUS_DISK } :=
  ⟨(allocateBus_copper dmaconBits (agnus0 0xE0 0x280 false)).1 rfl,
   (allocateBus_copper dmaconBits
      { agnus0 0x30 0x280 false with busOwner := fun _ => .BUS_DISK }).2.2.2.1 (by decide)⟩

/-- C17. `busIsFree<BUS_BLITTER>` and `allocateBus<BUS_BLITTER>` return the same
answer in every state: true exactly when `busOwner[pos.h]` is `BUS_NONE`,
`bltdma()` holds and (`bltpri()` holds or `bls` is not set).  With `bltpri` clear
and `bls` set both deny, at every position; with `bltpri` set (and Blitter DMA
enabled) both grant on a free slot. -/
theorem blitter_busIsFree_allocateBus (t : DmaconTests) (a : Agnus) :
    (busIsFree t .BUS_BLITTER a).1 = (allocateBus t .BUS_BLITTER a).1 ∧
    ((busIsFree t .BUS_BLITTER a).1 = true ↔
      a.busOwner a.posH = .BUS_NONE ∧ t.bltdma a.dmacon = true ∧
        (t.bltpri a.dmacon = true ∨ a.bls = false)) ∧
    ((allocateBus t .BUS_BLITTER a).1 = true ↔
      a.busOwner a.posH = .BUS_NONE ∧ t.bltdma a.dmacon = true ∧
        (t.bltpri a.dmacon = true ∨ a.bls = false)) ∧
    (t.bltpri a.dmacon = false → a.bls = true →
      (busIsFree t .BUS_BLITTER a).1 = false ∧ (allocateBus t .BUS_BLITTER a).1 = false) ∧
    (t.bltpri a.dmacon = true → t.bltdma a.dmacon = true → a.busOwner a.posH = .BUS_NONE →
      (busIsFree t .BUS_BLITTER a).1 = true ∧ (allocateBus t .BUS_BLITTER a).1 = true) := by
  have hf := busIsFree_blitter_iff t a
  have ha := allocateBus_blitter_iff t a
  refine ⟨?_, hf, ha, ?_, ?_⟩
  · rw [Bool.eq_iff_iff, hf, ha]
  · intro hp hb
    have hno : ¬ (a.busOwner a.posH = .BUS_NONE ∧ t.bltdma a.dmacon = true ∧
        (t.bltpri a.dmacon = true ∨ a.bls = false)) := by
      rintro ⟨-, -, h | h⟩
      · rw [hp] at h; exact absurd h (by decide)
      · rw [hb] at h; exact absurd h (by decide)
    exact ⟨by rw [← Bool.not_eq_true, hf]; exact hno,
      by rw [← Bool.not_eq_true, ha]; exact hno⟩
  · intro hp hd hfree
    exact ⟨hf.2 ⟨hfree, hd, Or.inl hp⟩, ha.2 ⟨hfree, hd, Or.inl hp⟩⟩

/-- Witness for C17: with Blitter DMA enabled and `bls` set, `bltpri = 0`
(DMACON 0x240) is denied and `bltpri = 1` (DMACON 0x640) is granted. -/
theorem blitter_busIsFree_allocateBus_witness :
    ((busIsFree dmaconBits .BUS_BLITTER (agnus0 0x40 0x240 true)).1 = false ∧
      (allocateBus dmaconBits .BUS_BLITTER (agnus0 0x40 0x240 true)).1 = false) ∧
    ((busIsFree dmaconBits .BUS_BLITTER (agnus0 0x40 0x640 true)).1 = true ∧
      (allocateBus dmaconBits .BUS_BLITTER (agnus0 0x40 0x640 true)).1 = true) :=
  ⟨(blitter_busIsFree_allocateBus dmaconBits (agnus0 0x40 0x240 true)).2.2.2.1
      (by decide) rfl,
   (blitter_busIsFree_allocateBus dmaconBits (agnus0 0x40 0x640 true)).2.2.2.2
      (by decide) (by decide) rfl⟩

theorem serveRequests_taken (t : DmaconTests) :
    ∀ (rs : List BusRequest) (a : Agnus), a.busOwner a.posH ≠ .BUS_NONE →
      serveRequests t rs a = (List.replicate rs.length false, a) := by
  intro rs
  induction rs with
  | nil => intro a _; rfl
  | cons r rs ih =>
    intro a h
    have hr : serveRequest t a r = (false, a) := by
      cases r with
      | isFree owner => exact busIsFree_taken t owner a h
      | allocate owner => exact allocateBus_taken t owner a h
    simp only [serveRequests, hr, ih a h, List.length_cons, List.replicate_succ]

/-- A grant by `allocateBus` goes to the Copper or the Blitter and is recorded
at `pos.h`; the position is not changed. -/
theorem allocateBus_granted (t : DmaconTests) (owner : BusOwner) (a : Agnus)
    (hg : (allocateBus t owner a).1 = true) :
    (owner = .BUS_COPPER ∨ owner = .BUS_BLITTER) ∧
    (allocateBus t owner a).2.busOwner a.posH = owner ∧
    (allocateBus t owner a).2.posH = a.posH := by
  by_cases hfree : a.busOwner a.posH = .BUS_NONE
  · unfold allocateBus at hg ⊢
    rw [if_neg (not_not.2 hfree)] at hg ⊢
    cases owner <;> dsimp only at hg ⊢ <;>
      first
      | exact absurd hg (by decide)
      | exact ⟨Or.inl rfl, by simp only [if_true], rfl⟩
      | (split_ifs at hg ⊢
         exact ⟨Or.inr rfl, by simp only [if_true], rfl⟩)
  · rw [allocateBus_taken t owner a hfree] at hg
    exact absurd hg Bool.false_ne_true

/-- A denied `allocateBus` leaves the owner vector as it was. -/
theorem allocateBus_denied (t : DmaconTests) (owner : BusOwner) (a : Agnus)
    (hd : (allocateBus t owner a).1 = false) :
    (allocateBus t owner a).2.busOwner = a.busOwner := by
  unfold allocateBus at hd ⊢
  cases owner <;> dsimp only at hd ⊢ <;> split_ifs at hd ⊢ <;> rfl

/-- C18. Once granted, the bus stays taken.  If `allocateBus<owner>` returns true
at position `h = pos.h`, then `busOwner[h]` equals `owner` afterwards; every
sequence of later `busIsFree` and `allocateBus` requests at that position is
answered false throughout and leaves Agnus unchanged; and in any later state at
the same position whose `busOwner[h]` still holds that owner (the vector has not
been cleared), whatever DMACON and BLS are, each request of either kind returns
false and changes nothing.  An `allocateBus` call that returns false leaves the
whole `busOwner` vector unchanged. -/
theorem bus_granted_stays_taken (t : DmaconTests) (owner : BusOwner) (a : Agnus) :
    ((allocateBus t owner a).1 = true →
      (allocateBus t owner a).2.busOwner a.posH = owner ∧
      (∀ (rs : List BusRequest),
        serveRequests t rs (allocateBus t owner a).2 =
          (List.replicate rs.length false, (allocateBus t owner a).2)) ∧
      (∀ (t2 : DmaconTests) (a2 : Agnus) (owner2 : BusOwner),
        a2.posH = a.posH → a2.busOwner a.posH = owner →
          busIsFree t2 owner2 a2 = (false, a2) ∧ allocateBus t2 owner2 a2 = (false, a2))) ∧
    ((allocateBus t owner a).1 = false →
      (allocateBus t owner a).2.busOwner = a.busOwner) := by
  refine ⟨?_, allocateBus_denied t owner a⟩
  intro hg
  obtain ⟨ho, hown, hpos⟩ := allocateBus_granted t owner a hg
  have hne : owner ≠ .BUS_NONE := by
    rcases ho with ho | ho <;> rw [ho] <;> decide
  refine ⟨hown, ?_, ?_⟩
  · intro rs
    apply serveRequests_taken
    rw [hpos, hown]
    exact hne
  · intro t2 a2 owner2 hp2 ho2
    have htaken : a2.busOwner a2.posH ≠ .BUS_NONE := by
      rw [hp2, ho2]; exact hne
    exact ⟨busIsFree_taken t2 owner2 a2 htaken, allocateBus_taken t2 owner2 a2 htaken⟩

/-- Witness for C18: the Copper is granted position 0x40; the Blitter's query and
request and a second Copper request are then all denied. -/
theorem bus_granted_stays_taken_witness :
    (serveRequests dmaconBits
      [.isFree .BUS_BLITTER, .allocate .BUS_BLITTER, .allocate .BUS_COPPER]
      (allocateBus dmaconBits .BUS_COPPER (agnus0 0x40 0x3C0 false)).2).1 =
        [false, false, false] :=
  congrArg Prod.fst
    (((bus_granted_stays_taken dmaconBits .BUS_COPPER (agnus0 0x40 0x3C0 false)).1
      (by decide)).2.1 [.isFree .BUS_BLITTER, .allocate .BUS_BLITTER, .allocate .BUS_COPPER])

/-! ## The bitplane DMA lookup table -/

theorem pokeBplDMA_failed (a : Agnus) (r bpu h id : Nat) :
    (pokeBplDMA a r bpu h id).failed = a.failed := rfl

theorem written_none_of_bound :
    ∀ (stmts : List (Nat × Nat)) (off : Nat), (∀ w ∈ stmts, w.1 < 8) → 8 ≤ off →
      written stmts off = none := by
  intro stmts
  induction stmts with
  | nil => intro off _ _; rfl
  | cons w ws ih =>
    intro off hb ho
    have hw : w.1 ≠ off := by
      have := hb w (List.mem_cons_self _ _)
      omega
    simp only [written, ih off (fun x hx => hb x (List.mem_cons_of_mem _ hx)) ho, if_neg hw]

/-- One fetch unit: a position of the row `bplDMA[r][bpu]` at or after `i` takes
the last id assigned to its offset; everything else is kept. -/
theorem fetchUnit_apply (r bpu i : Nat) :
    ∀ (stmts : List (Nat × Nat)) (a : Agnus) (r2 b2 h2 : Nat),
      (fetchUnit r bpu i stmts a).bplDMA r2 b2 h2 =
        (if r2 = r ∧ b2 = bpu ∧ i ≤ h2 then
          (written stmts (h2 - i)).getD (a.bplDMA r2 b2 h2)
        else a.bplDMA r2 b2 h2) ∧
      (fetchUnit r bpu i stmts a).failed = a.failed := by
  intro stmts
  induction stmts with
  | nil =>
    intro a r2 b2 h2
    simp only [fetchUnit, List.foldl_nil, written, Option.getD_none, ite_self, and_self]
  | cons w ws ih =>
    intro a r2 b2 h2
    have h := ih (pokeBplDMA a r bpu (i + w.1) w.2) r2 b2 h2
    unfold fetchUnit at h ⊢
    rw [List.foldl_cons, h.1, h.2]
    refine ⟨?_, rfl⟩
    by_cases hc : r2 = r ∧ b2 = bpu ∧ i ≤ h2
    · rw [if_pos hc, if_pos hc]
      simp only [written]
      cases hw : written ws (h2 - i) with
      | some id => rfl
      | none =>
        simp only [Option.getD_none, pokeBplDMA]
        by_cases ho : w.1 = h2 - i
        · have h2eq : h2 = i + w.1 := by omega
          rw [if_pos ho, if_pos ⟨hc.1, hc.2.1, h2eq⟩]
          rfl
        · have h2ne : ¬ (r2 = r ∧ b2 = bpu ∧ h2 = i + w.1) := by
            rintro ⟨-, -, h3⟩
            omega
          rw [if_neg ho, if_neg h2ne]
          rfl
    · rw [if_neg hc, if_neg hc]
      simp only [pokeBplDMA]
      have h2ne : ¬ (r2 = r ∧ b2 = bpu ∧ h2 = i + w.1) := by
        rintro ⟨h1, h2', h3⟩
        exact hc ⟨h1, h2', by omega⟩
      rw [if_neg h2ne]

/-- The first `n` fetch units of a row. -/
theorem fetchUnits_range (r bpu : Nat) (stmts : List (Nat × Nat))
    (hb : ∀ w ∈ stmts, w.1 < 8) :
    ∀ (n : Nat) (a : Agnus) (r2 b2 h2 : Nat),
      ((List.range n).foldl (fun a u => fetchUnit r bpu (8 * u) stmts a) a).bplDMA r2 b2 h2 =
        (if r2 = r ∧ b2 = bpu ∧ h2 < 8 * n then
          (written stmts (h2 % 8)).getD (a.bplDMA r2 b2 h2)
        else a.bplDMA r2 b2 h2) ∧
      ((List.range n).foldl (fun a u => fetchUnit r bpu (8 * u) stmts a) a).failed =
        a.failed := by
  intro n
  induction n with
  | zero =>
    intro a r2 b2 h2
    have h0 : ¬ (r2 = r ∧ b2 = bpu ∧ h2 < 8 * 0) := by
      rintro ⟨-, -, h3⟩
      omega
    simp only [List.range_zero, List.foldl_nil, if_neg h0, and_self]
  | succ n ih =>
    intro a r2 b2 h2
    rw [List.range_succ, List.foldl_append, List.foldl_cons, List.foldl_nil]
    have hP := ih a r2 b2 h2
    generalize (List.range n).foldl (fun a u => fetchUnit r bpu (8 * u) stmts a) a = P at hP ⊢
    obtain ⟨hU, hF⟩ := fetchUnit_apply r bpu (8 * n) stmts P r2 b2 h2
    rw [hU, hF, hP.1, hP.2]
    refine ⟨?_, rfl⟩
    by_cases hrb : r2 = r ∧ b2 = bpu
    · by_cases h1 : h2 < 8 * n
      · have c1 : ¬ (r2 = r ∧ b2 = bpu ∧ 8 * n ≤ h2) := by
          rintro ⟨-, -, h3⟩
          omega
        rw [if_neg c1, if_pos ⟨hrb.1, hrb.2, h1⟩, if_pos ⟨hrb.1, hrb.2, by omega⟩]
      · have c0 : ¬ (r2 = r ∧ b2 = bpu ∧ h2 < 8 * n) := fun h => h1 h.2.2
        rw [if_pos ⟨hrb.1, hrb.2, by omega⟩, if_neg c0]
        by_cases h3 : h2 < 8 * (n + 1)
        · rw [if_pos ⟨hrb.1, hrb.2, h3⟩]
          have : h2 - 8 * n = h2 % 8 := by omega
          rw [this]
        · have c3 : ¬ (r2 = r ∧ b2 = bpu ∧ h2 < 8 * (n + 1)) := fun h => h3 h.2.2
          rw [if_neg c3, written_none_of_bound stmts _ hb (by omega)]
          rfl
    · have c1 : ¬ (r2 = r ∧ b2 = bpu ∧ 8 * n ≤ h2) := fun h => hrb ⟨h.1, h.2.1⟩
      have c2 : ¬ (r2 = r ∧ b2 = bpu ∧ h2 < 8 * n) := fun h => hrb ⟨h.1, h.2.1⟩
      have c3 : ¬ (r2 = r ∧ b2 = bpu ∧ h2 < 8 * (n + 1)) := fun h => hrb ⟨h.1, h.2.1⟩
      rw [if_neg c1, if_neg c2, if_neg c3]

/-- One row of the table: `BPL_EOL` at `HPOS_MAX`, the fetch pattern below 0xE0,
and the assertion holds when the row had `EVENT_NONE` at `HPOS_MAX`. -/
theorem bplRow_apply (ids : BplEventIds) (r bpu : Nat) (stmts : List (Nat × Nat))
    (hb : ∀ w ∈ stmts, w.1 < 8) (a : Agnus) (r2 b2 h2 : Nat) :
    (bplRow ids r bpu stmts a).bplDMA r2 b2 h2 =
      (if r2 = r ∧ b2 = bpu then
        (if h2 = 0xE2 then ids.BPL_EOL
         else if h2 < 0xE0 then (written stmts (h2 % 8)).getD (a.bplDMA r2 b2 h2)
         else a.bplDMA r2 b2 h2)
      else a.bplDMA r2 b2 h2) ∧
    (a.bplDMA r bpu 0xE2 = 0 → (bplRow ids r bpu stmts a).failed = a.failed) := by
  have hU := fun x y z => fetchUnits_range r bpu stmts hb 28 a x y z
  unfold bplRow fetchUnits HPOS_MAX EVENT_NONE
  dsimp only
  generalize (List.range 28).foldl (fun a u => fetchUnit r bpu (8 * u) stmts a) a = P at hU ⊢
  have hE : P.bplDMA r bpu 0xE2 = a.bplDMA r bpu 0xE2 := by
    rw [(hU r bpu 0xE2).1]
    have : ¬ (r = r ∧ bpu = bpu ∧ 0xE2 < 8 * 28) := by
      rintro ⟨-, -, h3⟩
      omega
    rw [if_neg this]
  constructor
  · have hpk : ∀ Q : Agnus, Q.bplDMA = P.bplDMA →
        (pokeBplDMA Q r bpu 0xE2 ids.BPL_EOL).bplDMA r2 b2 h2 =
          if r2 = r ∧ b2 = bpu ∧ h2 = 0xE2 then ids.BPL_EOL else P.bplDMA r2 b2 h2 := by
      intro Q hQ
      simp only [pokeBplDMA, hQ]
    rw [hpk _ (by split_ifs <;> rfl), (hU r2 b2 h2).1]
    by_cases hrb : r2 = r ∧ b2 = bpu
    · rw [if_pos hrb]
      by_cases he : h2 = 0xE2
      · have c0 : r2 = r ∧ b2 = bpu ∧ h2 = 0xE2 := ⟨hrb.1, hrb.2, he⟩
        rw [if_pos c0, if_pos he]
      · have c1 : ¬ (r2 = r ∧ b2 = bpu ∧ h2 = 0xE2) := fun h => he h.2.2
        rw [if_neg c1, if_neg he]
        by_cases hl : h2 < 0xE0
        · have c2 : r2 = r ∧ b2 = bpu ∧ h2 < 8 * 28 := ⟨hrb.1, hrb.2, by omega⟩
          rw [if_pos c2, if_pos hl]
        · have c2 : ¬ (r2 = r ∧ b2 = bpu ∧ h2 < 8 * 28) := by
            rintro ⟨-, -, h3⟩
            omega
          rw [if_neg c2, if_neg hl]
    · have c1 : ¬ (r2 = r ∧ b2 = bpu ∧ h2 = 0xE2) := fun h => hrb ⟨h.1, h.2.1⟩
      have c2 : ¬ (r2 = r ∧ b2 = bpu ∧ h2 < 8 * 28) := fun h => hrb ⟨h.1, h.2.1⟩
      rw [if_neg c1, if_neg c2, if_neg hrb]
  · intro h0
    rw [pokeBplDMA_failed, if_pos (by rw [hE]; exact h0)]
    exact (hU 0 0 0).2

/-- The first `n` rows of the table `bplDMA[r]`. -/
theorem bplRows_range (ids : BplEventIds) (r : Nat) (sw : Nat → List (Nat × Nat))
    (hb : ∀ b, ∀ w ∈ sw b, w.1 < 8) :
    ∀ (n : Nat) (a : Agnus),
      (∀ (r2 b2 h2 : Nat),
        ((List.range n).foldl (fun a bpu => bplRow ids r bpu (sw bpu) a) a).bplDMA r2 b2 h2 =
          (if r2 = r ∧ b2 < n then
            (if h2 = 0xE2 then ids.BPL_EOL
             else if h2 < 0xE0 then (written (sw b2) (h2 % 8)).getD (a.bplDMA r2 b2 h2)
             else a.bplDMA r2 b2 h2)
          else a.bplDMA r2 b2 h2)) ∧
      ((∀ b, b < n → a.bplDMA r b 0xE2 = 0) →
        ((List.range n).foldl (fun a bpu => bplRow ids r bpu (sw bpu) a) a).failed =
          a.failed) := by
  intro n
  induction n with
  | zero =>
    intro a
    refine ⟨?_, fun _ => rfl⟩
    intro r2 b2 h2
    have h0 : ¬ (r2 = r ∧ b2 < 0) := fun h => Nat.not_lt_zero _ h.2
    rw [if_neg h0]
    rfl
  | succ n ih =>
    intro a
    obtain ⟨hP, hPf⟩ := ih a
    rw [List.range_succ, List.foldl_append, List.foldl_cons, List.foldl_nil]
    generalize (List.range n).foldl (fun a bpu => bplRow ids r bpu (sw bpu) a) a = P at hP hPf ⊢
    constructor
    · intro r2 b2 h2
      rw [(bplRow_apply ids r n (sw n) (hb n) P r2 b2 h2).1, hP r2 b2 h2]
      by_cases hr : r2 = r
      · by_cases hlt : b2 < n
        · have c1 : ¬ (r2 = r ∧ b2 = n) := fun h => by omega
          have c2 : r2 = r ∧ b2 < n := ⟨hr, hlt⟩
          have c3 : r2 = r ∧ b2 < n + 1 := ⟨hr, by omega⟩
          rw [if_neg c1, if_pos c2, if_pos c3]
        · have c2 : ¬ (r2 = r ∧ b2 < n) := fun h => hlt h.2
          rw [if_neg c2]
          by_cases heq : b2 = n
          · have c1 : r2 = r ∧ b2 = n := ⟨hr, heq⟩
            have c3 : r2 = r ∧ b2 < n + 1 := ⟨hr, by omega⟩
            rw [if_pos c1, if_pos c3, heq]
          · have c1 : ¬ (r2 = r ∧ b2 = n) := fun h => heq h.2
            have c3 : ¬ (r2 = r ∧ b2 < n + 1) := fun h => by omega
            rw [if_neg c1, if_neg c3]
      · have c1 : ¬ (r2 = r ∧ b2 = n) := fun h => hr h.1
        have c2 : ¬ (r2 = r ∧ b2 < n) := fun h => hr h.1
        have c3 : ¬ (r2 = r ∧ b2 < n + 1) := fun h => hr h.1
        rw [if_neg c1, if_neg c2, if_neg c3]
    · intro h0
      have hPn : P.bplDMA r n 0xE2 = 0 := by
        have c2 : ¬ (r = r ∧ n < n) := fun h => Nat.lt_irrefl _ h.2
        rw [hP r n 0xE2, if_neg c2]
        exact h0 n (Nat.lt_succ_self n)
      rw [(bplRow_apply ids r n (sw n) (hb n) P 0 0 0).2 hPn]
      exact hPf (fun b hbn => h0 b (Nat.lt_succ_of_lt hbn))

/-- The table `bplDMA[r]` after `initBplEventTable`; no assertion fails. -/
theorem initBplEventTable_apply (ids : BplEventIds) (r : Nat) (sw : Nat → List (Nat × Nat))
    (hb : ∀ b, ∀ w ∈ sw b, w.1 < 8) (a : Agnus) :
    (∀ (b h : Nat), b < 7 →
      (initBplEventTable ids r sw a).bplDMA r b h =
        if h = 0xE2 then ids.BPL_EOL
        else if h < 0xE0 then (written (sw b) (h % 8)).getD 0
        else 0) ∧
    (∀ (r2 b h : Nat), r2 ≠ r → (initBplEventTable ids r sw a).bplDMA r2 b h = a.bplDMA r2 b h) ∧
    (initBplEventTable ids r sw a).failed = a.failed := by
  unfold initBplEventTable
  dsimp only
  obtain ⟨h1, h2⟩ := bplRows_range ids r sw hb 7
    { a with bplDMA := fun r2 b h => if r2 = r then 0 else a.bplDMA r2 b h }
  refine ⟨?_, ?_, ?_⟩
  · intro b h hb7
    have c : r = r ∧ b < 7 := ⟨rfl, hb7⟩
    rw [h1 r b h, if_pos c]
    simp only [if_true]
  · intro r2 b h hr
    have c : ¬ (r2 = r ∧ b < 7) := fun x => hr x.1
    rw [h1 r2 b h, if_neg c]
    simp only [if_neg hr]
  · rw [h2 (fun b _ => by simp only [if_true])]

theorem loresSwitch_bound (ids : BplEventIds) : ∀ b, ∀ w ∈ loresSwitch ids b, w.1 < 8 := by
  intro b w hw
  have h : (loresSwitch ids b).all (fun w => decide (w.1 < 8)) = true := by
    unfold loresSwitch
    split <;> rfl
  exact of_decide_eq_true (List.all_eq_true.1 h w hw)

theorem hiresSwitch_bound (ids : BplEventIds) : ∀ b, ∀ w ∈ hiresSwitch ids b, w.1 < 8 := by
  intro b w hw
  have h : (hiresSwitch ids b).all (fun w => decide (w.1 < 8)) = true := by
    unfold hiresSwitch
    split <;> rfl
  exact of_decide_eq_true (List.all_eq_true.1 h w hw)

/-- The last assignment of the lores switch to each offset. -/
theorem written_loresSwitch (ids : BplEventIds) (b off : Nat) (hb : b < 7) (ho : off < 8) :
    (written (loresSwitch ids b) off).getD 0 =
      match loresPlane off with
      | some k => if k ≤ b then loresFetch ids k else EVENT_NONE
      | none => EVENT_NONE := by
  interval_cases b <;> interval_cases off <;> rfl

/-- The last assignment of the hires switch to each offset. -/
theorem written_hiresSwitch (ids : BplEventIds) (b off : Nat) (hb : b < 7) (ho : off < 8) :
    (written (hiresSwitch ids b) off).getD 0 =
      match hiresPlane off with
      | some k => if k ≤ min b 4 then hiresFetch ids k else EVENT_NONE
      | none => EVENT_NONE := by
  interval_cases b <;> interval_cases off <;> rfl

theorem range8 : List.range 8 = [0, 1, 2, 3, 4, 5, 6, 7] := by decide

/-- C19. After `initBplEventTableLores`, for every BPU `b` in 0..6: at every
`h` in 0..0xDF, `bplDMA[0][b][h]` is the fetch event of the plane `k` selected by
the offset `h mod 8` (7 -> 1, 3 -> 2, 5 -> 3, 1 -> 4, 6 -> 5, 2 -> 6) when
`k <= b`, and `EVENT_NONE` otherwise (also at the offsets 0 and 4); every
8-cycle fetch unit holds exactly `b` events (the fetch events being different
from `EVENT_NONE`); positions 0xE0 and 0xE1 hold `EVENT_NONE` and position
`HPOS_MAX` holds `BPL_EOL`.  The assertion of the function never fails. -/
theorem initBplEventTableLores_table (ids : BplEventIds) (a : Agnus) (b : Nat) (hb : b ≤ 6) :
    (∀ h, h ≤ 0xDF →
      (initBplEventTableLores ids a).bplDMA 0 b h =
        match loresPlane (h % 8) with
        | some k => if k ≤ b then loresFetch ids k else EVENT_NONE
        | none => EVENT_NONE) ∧
    ((∀ k, 1 ≤ k → k ≤ 6 → loresFetch ids k ≠ EVENT_NONE) →
      ∀ u, u < 28 → unitEvents (initBplEventTableLores ids a) 0 b u = b) ∧
    (initBplEventTableLores ids a).bplDMA 0 b 0xE0 = EVENT_NONE ∧
    (initBplEventTableLores ids a).bplDMA 0 b 0xE1 = EVENT_NONE ∧
    (initBplEventTableLores ids a).bplDMA 0 b HPOS_MAX = ids.BPL_EOL ∧
    (initBplEventTableLores ids a).failed = a.failed := by
  obtain ⟨hT, -, hF⟩ := initBplEventTable_apply ids 0 (loresSwitch ids) (loresSwitch_bound ids) a
  have hb7 : b < 7 := by omega
  have hval : ∀ h, h ≤ 0xDF →
      (initBplEventTableLores ids a).bplDMA 0 b h =
        match loresPlane (h % 8) with
        | some k => if k ≤ b then loresFetch ids k else EVENT_NONE
        | none => EVENT_NONE := by
    intro h hh
    have c1 : ¬ h = 0xE2 := by omega
    have c2 : h < 0xE0 := by omega
    unfold initBplEventTableLores
    rw [hT b h hb7, if_neg c1, if_pos c2]
    exact written_loresSwitch ids b (h % 8) hb7 (Nat.mod_lt _ (by decide))
  refine ⟨hval, ?_, ?_, ?_, ?_, hF⟩
  · intro hne u hu
    have h1 : ids.BPL_L1 ≠ 0 := hne 1 (by decide) (by decide)
    have h2 : ids.BPL_L2 ≠ 0 := hne 2 (by decide) (by decide)
    have h3 : ids.BPL_L3 ≠ 0 := hne 3 (by decide) (by decide)
    have h4 : ids.BPL_L4 ≠ 0 := hne 4 (by decide) (by decide)
    have h5 : ids.BPL_L5 ≠ 0 := hne 5 (by decide) (by decide)
    have h6 : ids.BPL_L6 ≠ 0 := hne 6 (by decide) (by decide)
    have hv : ∀ off, off < 8 →
        (initBplEventTableLores ids a).bplDMA 0 b (8 * u + off) =
          match loresPlane off with
          | some k => if k ≤ b then loresFetch ids k else EVENT_NONE
          | none => EVENT_NONE := by
      intro off hoff
      rw [hval (8 * u + off) (by omega)]
      have : (8 * u + off) % 8 = off := by omega
      rw [this]
    unfold unitEvents
    generalize (initBplEventTableLores ids a).bplDMA 0 b = row at hv
    have hv0 := hv 0 (by decide)
    rw [Nat.add_zero] at hv0
    rw [range8]
    simp only [List.filter_cons, List.filter_nil, Nat.add_zero, hv0,
      hv 1 (by decide), hv 2 (by decide), hv 3 (by decide),
      hv 4 (by decide), hv 5 (by decide), hv 6 (by decide), hv 7 (by decide)]
    clear hv hv0 hval hT hF
    interval_cases b <;>
      simp [loresPlane, loresFetch, EVENT_NONE, h1, h2, h3, h4, h5, h6]
  · unfold initBplEventTableLores
    rw [hT b 0xE0 hb7]
    rfl
  · unfold initBplEventTableLores
    rw [hT b 0xE1 hb7]
    rfl
  · unfold initBplEventTableLores HPOS_MAX
    rw [hT b 0xE2 hb7]
    rfl

/-- Witness for C19: with three bitplanes, position 0x3D (offset 5) fetches plane 3
and position 0x3E (offset 6, plane 5) is empty. -/
theorem initBplEventTableLores_table_witness :
    (initBplEventTableLores ids0 (agnus0 0 0 false)).bplDMA 0 3 0x3D = ids0.BPL_L3 ∧
    (initBplEventTableLores ids0 (agnus0 0 0 false)).bplDMA 0 3 0x3E = EVENT_NONE :=
  ⟨(initBplEventTableLores_table ids0 (agnus0 0 0 false) 3 (by decide)).1 0x3D (by decide),
   (initBplEventTableLores_table ids0 (agnus0 0 0 false) 3 (by decide)).1 0x3E (by decide)⟩

/-- C20. After `initBplEventTableHires`, for every BPU `b` in 0..6: at every `h`
in 0..0xDF, `bplDMA[1][b][h]` is the fetch event of the plane `k` selected by the
offset `h mod 8` (0, 4 -> 4; 2, 6 -> 3; 1, 5 -> 2; 3, 7 -> 1) when
`k <= min(b, 4)`, and `EVENT_NONE` otherwise; every enabled plane is fetched
exactly twice in every 8-cycle unit (the event ids being distinct); the rows
for BPU 5 and 6 equal the row for BPU 4; position `HPOS_MAX` holds `BPL_EOL`.
The assertion of the function never fails. -/
theorem initBplEventTableHires_table (ids : BplEventIds) (a : Agnus) (b : Nat) (hb : b ≤ 6) :
    (∀ h, h ≤ 0xDF →
      (initBplEventTableHires ids a).bplDMA 1 b h =
        match hiresPlane (h % 8) with
        | some k => if k ≤ min b 4 then hiresFetch ids k else EVENT_NONE
        | none => EVENT_NONE) ∧
    ([EVENT_NONE, ids.BPL_H1, ids.BPL_H2, ids.BPL_H3, ids.BPL_H4].Nodup →
      ∀ u, u < 28 → ∀ k, 1 ≤ k → k ≤ min b 4 →
        unitFetches (initBplEventTableHires ids a) 1 b u (hiresFetch ids k) = 2) ∧
    (∀ h, (initBplEventTableHires ids a).bplDMA 1 5 h =
        (initBplEventTableHires ids a).bplDMA 1 4 h ∧
      (initBplEventTableHires ids a).bplDMA 1 6 h =
        (initBplEventTableHires ids a).bplDMA 1 4 h) ∧
    (initBplEventTableHires ids a).bplDMA 1 b HPOS_MAX = ids.BPL_EOL ∧
    (initBplEventTableHires ids a).failed = a.failed := by
  obtain ⟨hT, -, hF⟩ := initBplEventTable_apply ids 1 (hiresSwitch ids) (hiresSwitch_bound ids) a
  have hb7 : b < 7 := by omega
  have hval : ∀ h, h ≤ 0xDF →
      (initBplEventTableHires ids a).bplDMA 1 b h =
        match hiresPlane (h % 8) with
        | some k => if k ≤ min b 4 then hiresFetch ids k else EVENT_NONE
        | none => EVENT_NONE := by
    intro h hh
    have c1 : ¬ h = 0xE2 := by omega
    have c2 : h < 0xE0 := by omega
    unfold initBplEventTableHires
    rw [hT b h hb7, if_neg c1, if_pos c2]
    exact written_hiresSwitch ids b (h % 8) hb7 (Nat.mod_lt _ (by decide))
  refine ⟨hval, ?_, ?_, ?_, hF⟩
  · intro hnd u hu k hk1 hk2
    simp only [List.nodup_cons, List.mem_cons, List.mem_singleton, List.not_mem_nil,
      not_or, or_false, List.nodup_nil, and_true, not_false_eq_true, EVENT_NONE] at hnd
    obtain ⟨⟨n1, n2, n3, n4⟩, ⟨d12, d13, d14⟩, ⟨d23, d24⟩, d34⟩ := hnd
    have hv : ∀ off, off < 8 →
        (initBplEventTableHires ids a).bplDMA 1 b (8 * u + off) =
          match hiresPlane off with
          | some k => if k ≤ min b 4 then hiresFetch ids k else EVENT_NONE
          | none => EVENT_NONE := by
      intro off hoff
      rw [hval (8 * u + off) (by omega)]
      have : (8 * u + off) % 8 = off := by omega
      rw [this]
    unfold unitFetches
    generalize (initBplEventTableHires ids a).bplDMA 1 b = row at hv
    have hv0 := hv 0 (by decide)
    rw [Nat.add_zero] at hv0
    rw [range8]
    simp only [List.filter_cons, List.filter_nil, Nat.add_zero, hv0,
      hv 1 (by decide), hv 2 (by decide), hv 3 (by decide),
      hv 4 (by decide), hv 5 (by decide), hv 6 (by decide), hv 7 (by decide)]
    clear hv hv0 hval hT hF
    have hk4 : k ≤ 4 := le_trans hk2 (min_le_right _ _)
    have hkb : k ≤ b := le_trans hk2 (min_le_left _ _)
    interval_cases b <;> interval_cases k <;>
      first
      | omega
      | simp [hiresPlane, hiresFetch, EVENT_NONE, n1, n2, n3, n4, d12, d13, d14, d23, d24, d34,
          Ne.symm n1, Ne.symm n2, Ne.symm n3, Ne.symm n4, Ne.symm d12, Ne.symm d13,
          Ne.symm d14, Ne.symm d23, Ne.symm d24, Ne.symm d34]
  · intro h
    unfold initBplEventTableHires
    rw [hT 5 h (by decide), hT 6 h (by decide), hT 4 h (by decide)]
    exact ⟨rfl, rfl⟩
  · unfold initBplEventTableHires HPOS_MAX
    rw [hT b 0xE2 hb7]
    rfl

/-- Witness for C20: with two bitplanes, position 0x45 (offset 5) fetches plane 2
and position 0x46 (offset 6, plane 3) is empty. -/
theorem initBplEventTableHires_table_witness :
    (initBplEventTableHires ids0 (agnus0 0 0 false)).bplDMA 1 2 0x45 = ids0.BPL_H2 ∧
    (initBplEventTableHires ids0 (agnus0 0 0 false)).bplDMA 1 2 0x46 = EVENT_NONE :=
  ⟨(initBplEventTableHires_table ids0 (agnus0 0 0 false) 2 (by decide)).1 0x45 (by decide),
   (initBplEventTableHires_table ids0 (agnus0 0 0 false) 2 (by decide)).1 0x46 (by decide)⟩

/-! ## The event handler -/

theorem primarySlots_nil : primarySlots [] = [] := rfl

/-- The example of C14 evaluated: the dispatches are exactly `CIAA_SLOT` with
`CIA_EXECUTE`, then `BLT_SLOT` with `BLT_EXECUTE`. -/
theorem executeUntil_example :
    (executeUntil exampleRoutines 4 1000 exampleHandler).1 =
      [⟨true, 0, 1, 0⟩, ⟨true, 4, 2, 0⟩] := by
  decide


/-! ## Serialization -/

theorem swap16_bytes (lo hi : Nat) (h1 : lo < 256) (h2 : hi < 256) :
    (lo * 256 + hi) % 256 = hi ∧ (lo * 256 + hi) / 256 % 256 = lo ∧
    (lo * 256 + hi) / 256 = lo := by
  omega

/-- Storing `htons(v)` puts the high byte of `v` first, on either host. -/
theorem store16_htons (o : ByteOrder) (mem : Nat → Nat) (p v : Nat) (hv : v < 65536) :
    store16 o mem p (ntohs o v) =
      fun a => if a = p then v / 256 else if a = p + 1 then v % 256 else mem a := by
  have h1 : v % 256 < 256 := Nat.mod_lt _ (by decide)
  have h2 : v / 256 < 256 := by omega
  have h3 : v / 256 % 256 = v / 256 := Nat.mod_eq_of_lt h2
  cases o
  · obtain ⟨s1, s2, -⟩ := swap16_bytes (v % 256) (v / 256) h1 h2
    simp only [store16, ntohs, h3, s1, s2]
  · simp only [store16, ntohs, Nat.mod_eq_of_lt hv, h3]

/-- Loading and applying `ntohs` reads the byte at `p` as the high byte, on either
host. -/
theorem ntohs_load16 (o : ByteOrder) (mem : Nat → Nat) (p : Nat) :
    ntohs o (load16 o mem p) = 256 * (mem p % 256) + mem (p + 1) % 256 := by
  have h1 : mem p % 256 < 256 := Nat.mod_lt _ (by decide)
  have h2 : mem (p + 1) % 256 < 256 := Nat.mod_lt _ (by decide)
  cases o
  · simp only [load16, ntohs]
    generalize mem p % 256 = x at h1 ⊢
    generalize mem (p + 1) % 256 = y at h2 ⊢
    have e : x + 256 * y = y * 256 + x := by omega
    obtain ⟨s1, s2, -⟩ := swap16_bytes y x h2 h1
    rw [e, s1, s2]
    omega
  · simp only [load16, ntohs]
    generalize mem p % 256 = x at h1 ⊢
    generalize mem (p + 1) % 256 = y at h2 ⊢
    omega

theorem swap32_bytes (b0 b1 b2 b3 : Nat) (h0 : b0 < 256) (h1 : b1 < 256) (h2 : b2 < 256)
    (h3 : b3 < 256) :
    (b0 * 16777216 + b1 * 65536 + b2 * 256 + b3) % 256 = b3 ∧
    (b0 * 16777216 + b1 * 65536 + b2 * 256 + b3) / 256 % 256 = b2 ∧
    (b0 * 16777216 + b1 * 65536 + b2 * 256 + b3) / 65536 % 256 = b1 ∧
    (b0 * 16777216 + b1 * 65536 + b2 * 256 + b3) / 16777216 % 256 = b0 := by
  omega

/-- Storing `htonl(v)` puts the bytes of `v` most significant first, on either
host. -/
theorem store32_htonl (o : ByteOrder) (mem : Nat → Nat) (p v : Nat) (hv : v < 4294967296) :
    store32 o mem p (ntohl o v) =
      fun a =>
        if a = p then v / 16777216 % 256
        else if a = p + 1 then v / 65536 % 256
        else if a = p + 2 then v / 256 % 256
        else if a = p + 3 then v % 256
        else mem a := by
  cases o
  · obtain ⟨s0, s1, s2, s3⟩ := swap32_bytes (v % 256) (v / 256 % 256) (v / 65536 % 256)
      (v / 16777216 % 256) (Nat.mod_lt _ (by decide)) (Nat.mod_lt _ (by decide))
      (Nat.mod_lt _ (by decide)) (Nat.mod_lt _ (by decide))
    simp only [store32, ntohl, s0, s1, s2, s3]
  · simp only [store32, ntohl, Nat.mod_eq_of_lt hv]

/-- Loading and applying `ntohl` reads the four bytes most significant first, on
either host. -/
theorem ntohl_load32 (o : ByteOrder) (mem : Nat → Nat) (p : Nat) :
    ntohl o (load32 o mem p) =
      16777216 * (mem p % 256) + 65536 * (mem (p + 1) % 256) + 256 * (mem (p + 2) % 256) +
        mem (p + 3) % 256 := by
  have h0 : mem p % 256 < 256 := Nat.mod_lt _ (by decide)
  have h1 : mem (p + 1) % 256 < 256 := Nat.mod_lt _ (by decide)
  have h2 : mem (p + 2) % 256 < 256 := Nat.mod_lt _ (by decide)
  have h3 : mem (p + 3) % 256 < 256 := Nat.mod_lt _ (by decide)
  cases o
  · simp only [load32, ntohl]
    generalize mem p % 256 = x0 at h0 ⊢
    generalize mem (p + 1) % 256 = x1 at h1 ⊢
    generalize mem (p + 2) % 256 = x2 at h2 ⊢
    generalize mem (p + 3) % 256 = x3 at h3 ⊢
    have e : x0 + 256 * x1 + 65536 * x2 + 16777216 * x3 =
        x3 * 16777216 + x2 * 65536 + x1 * 256 + x0 := by omega
    obtain ⟨s0, s1, s2, s3⟩ := swap32_bytes x3 x2 x1 x0 h3 h2 h1 h0
    rw [e, s0, s1, s2, s3]
    omega
  · simp only [load32, ntohl]
    generalize mem p % 256 = x0 at h0 ⊢
    generalize mem (p + 1) % 256 = x1 at h1 ⊢
    generalize mem (p + 2) % 256 = x2 at h2 ⊢
    generalize mem (p + 3) % 256 = x3 at h3 ⊢
    omega

/-- The four bytes of a 32-bit value, most significant first, give the value back. -/
theorem bytes32 (v : Nat) (hv : v < 4294967296) :
    16777216 * (v / 16777216 % 256) + 65536 * (v / 65536 % 256) + 256 * (v / 256 % 256) +
      v % 256 = v := by
  omega

theorem write8_mem (b : Buffer) (v : Nat) (hv : v < 256) :
    write8 b v = ⟨fun a => if a = b.ptr then v else b.mem a, b.ptr + 1⟩ := by
  simp only [write8, Nat.mod_eq_of_lt hv]

theorem write16_mem (o : ByteOrder) (b : Buffer) (v : Nat) (hv : v < 65536) :
    write16 o b v =
      ⟨fun a => if a = b.ptr then v / 256 else if a = b.ptr + 1 then v % 256 else b.mem a,
        b.ptr + 2⟩ := by
  simp only [write16, Nat.mod_eq_of_lt hv, store16_htons o b.mem b.ptr v hv]

theorem write32_mem (o : ByteOrder) (b : Buffer) (v : Nat) (hv : v < 4294967296) :
    write32 o b v =
      ⟨fun a =>
        if a = b.ptr then v / 16777216 % 256
        else if a = b.ptr + 1 then v / 65536 % 256
        else if a = b.ptr + 2 then v / 256 % 256
        else if a = b.ptr + 3 then v % 256
        else b.mem a, b.ptr + 4⟩ := by
  simp only [write32, Nat.mod_eq_of_lt hv, store32_htonl o b.mem b.ptr v hv]

/-- `write64` is `write32` of the upper half followed by `write32` of the lower
half. -/
theorem write64_eq (o : ByteOrder) (b : Buffer) (v : Nat) (hv : v < 2 ^ 64) :
    write64 o b v = write32 o (write32 o b (v / 4294967296)) (v % 4294967296) := by
  have h1 : v / 4294967296 < 4294967296 := by
    have : (2 : Nat) ^ 64 = 18446744073709551616 := by norm_num
    omega
  simp only [write64, Nat.mod_eq_of_lt hv, Nat.shiftRight_eq_div_pow, Nat.mod_eq_of_lt h1]

theorem bytesAt_one (mem : Nat → Nat) (p : Nat) : bytesAt mem p 1 = [mem p] := rfl

theorem bytesAt_two (mem : Nat → Nat) (p : Nat) : bytesAt mem p 2 = [mem p, mem (p + 1)] := rfl

theorem bytesAt_four (mem : Nat → Nat) (p : Nat) :
    bytesAt mem p 4 = [mem p, mem (p + 1), mem (p + 2), mem (p + 3)] := rfl

theorem bytesAt_append (mem : Nat → Nat) :
    ∀ (m n p : Nat), bytesAt mem p (m + n) = bytesAt mem p m ++ bytesAt mem (p + m) n := by
  intro m
  induction m with
  | zero => intro n p; simp only [Nat.zero_add, bytesAt, List.nil_append, Nat.add_zero]
  | succ m ih =>
    intro n p
    have e : m + 1 + n = (m + n) + 1 := by omega
    have e2 : p + 1 + m = p + (m + 1) := by omega
    rw [e]
    simp only [bytesAt, ih, List.cons_append, e2]

theorem bytesAt_congr (m1 m2 : Nat → Nat) :
    ∀ (n p : Nat), (∀ a, p ≤ a → a < p + n → m1 a = m2 a) → bytesAt m1 p n = bytesAt m2 p n := by
  intro n
  induction n with
  | zero => intro p _; rfl
  | succ n ih =>
    intro p h
    simp only [bytesAt]
    rw [h p (le_refl _) (by omega), ih (p + 1) (fun a h1 h2 => h a (by omega) (by omega))]

theorem read8_eq (b : Buffer) : read8 b = (fromBE (bytesAt b.mem b.ptr 1), ⟨b.mem, b.ptr + 1⟩) := by
  simp only [read8, fromBE, bytesAt_one, List.foldl_cons, List.foldl_nil, Nat.zero_mul,
    Nat.zero_add]

theorem read16_eq (o : ByteOrder) (b : Buffer) :
    read16 o b = (fromBE (bytesAt b.mem b.ptr 2), ⟨b.mem, b.ptr + 2⟩) := by
  simp only [read16, ntohs_load16, fromBE, bytesAt_two, List.foldl_cons, List.foldl_nil,
    Nat.zero_mul, Nat.zero_add, Prod.mk.injEq, and_true]
  generalize b.mem b.ptr % 256 = x
  generalize b.mem (b.ptr + 1) % 256 = y
  omega

theorem read32_eq (o : ByteOrder) (b : Buffer) :
    read32 o b = (fromBE (bytesAt b.mem b.ptr 4), ⟨b.mem, b.ptr + 4⟩) := by
  simp only [read32, ntohl_load32, fromBE, bytesAt_four, List.foldl_cons, List.foldl_nil,
    Nat.zero_mul, Nat.zero_add, Prod.mk.injEq, and_true]
  generalize b.mem b.ptr % 256 = x0
  generalize b.mem (b.ptr + 1) % 256 = x1
  generalize b.mem (b.ptr + 2) % 256 = x2
  generalize b.mem (b.ptr + 3) % 256 = x3
  omega

theorem foldl_fromBE (bs : List Nat) :
    ∀ acc, bs.foldl (fun acc x => acc * 256 + x % 256) acc =
      acc * 256 ^ bs.length + fromBE bs := by
  unfold fromBE
  induction bs with
  | nil => intro acc; simp only [List.foldl_nil, List.length_nil, pow_zero, Nat.mul_one,
      Nat.add_zero]
  | cons x xs ih =>
    intro acc
    rw [List.foldl_cons, List.foldl_cons, ih (acc * 256 + x % 256), ih (0 * 256 + x % 256),
      List.length_cons, pow_succ]
    ring

theorem fromBE_append (xs ys : List Nat) :
    fromBE (xs ++ ys) = fromBE xs * 256 ^ ys.length + fromBE ys := by
  unfold fromBE
  rw [List.foldl_append, foldl_fromBE ys]
  rfl

theorem fromBE_lt (bs : List Nat) : fromBE bs < 256 ^ bs.length := by
  induction bs using List.reverseRecOn with
  | nil => simp only [fromBE, List.foldl_nil, List.length_nil, pow_zero, Nat.lt_one_iff]
  | append_singleton xs x ih =>
    have hx : fromBE [x] < 256 := by
      simp only [fromBE, List.foldl_cons, List.foldl_nil, Nat.zero_mul, Nat.zero_add]
      exact Nat.mod_lt _ (by decide)
    rw [fromBE_append]
    simp only [List.length_append, List.length_singleton, List.length_nil, pow_succ, pow_zero,
      one_mul, Nat.zero_add]
    generalize fromBE xs = a at ih ⊢
    generalize 256 ^ xs.length = m at ih ⊢
    generalize fromBE [x] = c at hx ⊢
    omega

theorem bytesAt_length (mem : Nat → Nat) : ∀ (n p : Nat), (bytesAt mem p n).length = n := by
  intro n
  induction n with
  | zero => intro p; rfl
  | succ n ih => intro p; simp only [bytesAt, List.length_cons, ih]

theorem read64_eq (o : ByteOrder) (b : Buffer) :
    read64 o b = (fromBE (bytesAt b.mem b.ptr 8), ⟨b.mem, b.ptr + 8⟩) := by
  have e : bytesAt b.mem b.ptr 8 = bytesAt b.mem b.ptr 4 ++ bytesAt b.mem (b.ptr + 4) 4 :=
    bytesAt_append b.mem 4 4 b.ptr
  have h1 := fromBE_lt (bytesAt b.mem b.ptr 4)
  have h2 := fromBE_lt (bytesAt b.mem (b.ptr + 4) 4)
  rw [bytesAt_length] at h1 h2
  simp only [read64, read32_eq, e, fromBE_append, bytesAt_length, Prod.mk.injEq]
  generalize fromBE (bytesAt b.mem b.ptr 4) = hi at h1 ⊢
  generalize fromBE (bytesAt b.mem (b.ptr + 4) 4) = lo at h2 ⊢
  have p4 : (256 : Nat) ^ 4 = 2 ^ 32 := by norm_num
  rw [p4] at h1 h2 ⊢
  refine ⟨?_, trivial⟩
  have hs : hi <<< 32 % 2 ^ 64 = 2 ^ 32 * hi := by
    rw [Nat.shiftLeft_eq, Nat.mul_comm]
    apply Nat.mod_eq_of_lt
    omega
  rw [hs, ← Nat.mul_add_lt_is_or h2 hi, Nat.mul_comm]

theorem bytesBE_length : ∀ (n v : Nat), (bytesBE n v).length = n := by
  intro n
  induction n with
  | zero => intro v; rfl
  | succ n ih => intro v; simp only [bytesBE, List.length_cons, ih]

/-- Reading the `n` big-endian bytes of `v` gives `v` modulo `256 ^ n`. -/
theorem fromBE_bytesBE : ∀ (n v : Nat), fromBE (bytesBE n v) = v % 256 ^ n := by
  intro n
  induction n with
  | zero => intro v; simp only [bytesBE, fromBE, List.foldl_nil, pow_zero, Nat.mod_one]
  | succ n ih =>
    intro v
    have e : bytesBE (n + 1) v = [v / 256 ^ n % 256] ++ bytesBE n v := rfl
    have h1 : fromBE [v / 256 ^ n % 256] = v / 256 ^ n % 256 := by
      simp only [fromBE, List.foldl_cons, List.foldl_nil, Nat.zero_mul, Nat.zero_add,
        Nat.mod_mod]
    rw [e, fromBE_append, bytesBE_length, ih, h1, Nat.mod_pow_succ]
    ring

theorem bytesBE_one (v : Nat) : bytesBE 1 v = [v % 256] := by
  simp only [bytesBE, pow_zero, Nat.div_one]

theorem bytesBE_two (v : Nat) : bytesBE 2 v = [v / 256 % 256, v % 256] := by
  simp only [bytesBE, pow_zero, pow_one, Nat.div_one]

theorem bytesBE_four (v : Nat) :
    bytesBE 4 v = [v / 16777216 % 256, v / 65536 % 256, v / 256 % 256, v % 256] := by
  have p3 : (256 : Nat) ^ 3 = 16777216 := by norm_num
  have p2 : (256 : Nat) ^ 2 = 65536 := by norm_num
  simp only [bytesBE, pow_zero, pow_one, Nat.div_one, p3, p2]

/-- The eight bytes of a 64-bit value are the four bytes of its upper half followed
by the four bytes of its lower half. -/
theorem bytesBE_eight (v : Nat) :
    bytesBE 8 v = bytesBE 4 (v / 4294967296) ++ bytesBE 4 (v % 4294967296) := by
  have p7 : (256 : Nat) ^ 7 = 72057594037927936 := by norm_num
  have p6 : (256 : Nat) ^ 6 = 281474976710656 := by norm_num
  have p5 : (256 : Nat) ^ 5 = 1099511627776 := by norm_num
  have p4 : (256 : Nat) ^ 4 = 4294967296 := by norm_num
  have p3 : (256 : Nat) ^ 3 = 16777216 := by norm_num
  have p2 : (256 : Nat) ^ 2 = 65536 := by norm_num
  rw [bytesBE_four, bytesBE_four]
  simp only [bytesBE, pow_zero, pow_one, Nat.div_one, p7, p6, p5, p4, p3, p2, List.cons_append,
    List.nil_append, List.cons.injEq, and_true]
  refine ⟨?_, ?_, ?_, ?_, ?_, ?_, ?_, ?_⟩ <;> first | omega | trivial

theorem write32_spec (o : ByteOrder) (b : Buffer) (v : Nat) (hv : v < 4294967296) :
    bytesAt (write32 o b v).mem b.ptr 4 = bytesBE 4 v ∧
    (write32 o b v).ptr = b.ptr + 4 ∧
    (∀ a, a < b.ptr ∨ b.ptr + 4 ≤ a → (write32 o b v).mem a = b.mem a) := by
  have n1 : ¬ b.ptr + 1 = b.ptr := by omega
  have n2 : ¬ b.ptr + 2 = b.ptr := by omega
  have n3 : ¬ b.ptr + 3 = b.ptr := by omega
  have n4 : ¬ b.ptr + 2 = b.ptr + 1 := by omega
  have n5 : ¬ b.ptr + 3 = b.ptr + 1 := by omega
  have n6 : ¬ b.ptr + 3 = b.ptr + 2 := by omega
  rw [write32_mem o b v hv, bytesAt_four, bytesBE_four]
  refine ⟨?_, rfl, ?_⟩
  · simp only [if_true, if_neg n1, if_neg n2, if_neg n3, if_neg n4, if_neg n5, if_neg n6]
  · intro a ha
    have m0 : ¬ a = b.ptr := by omega
    have m1 : ¬ a = b.ptr + 1 := by omega
    have m2 : ¬ a = b.ptr + 2 := by omega
    have m3 : ¬ a = b.ptr + 3 := by omega
    simp only [if_neg m0, if_neg m1, if_neg m2, if_neg m3]

/-- Each write primitive stores the bytes of the value most significant first,
advances the cursor by the width, and leaves the other bytes alone. -/
theorem writeN_spec (o : ByteOrder) (w : Width) (b : Buffer) (v : Nat)
    (hv : v < 2 ^ (8 * w.bytes)) :
    bytesAt (writeN o w b v).mem b.ptr w.bytes = bytesBE w.bytes v ∧
    (writeN o w b v).ptr = b.ptr + w.bytes ∧
    (∀ a, a < b.ptr ∨ b.ptr + w.bytes ≤ a → (writeN o w b v).mem a = b.mem a) := by
  cases w
  · have hv8 : v < 256 := by simpa [Width.bytes] using hv
    simp only [writeN, Width.bytes, write8_mem b v hv8, bytesAt_one, bytesBE_one, if_true,
      Nat.mod_eq_of_lt hv8, true_and]
    intro a ha
    rw [if_neg (by omega)]
  · have hv16 : v < 65536 := by simpa [Width.bytes] using hv
    have n1 : ¬ b.ptr + 1 = b.ptr := by omega
    have h2 : v / 256 % 256 = v / 256 := by omega
    simp only [writeN, Width.bytes, write16_mem o b v hv16, bytesAt_two, bytesBE_two, if_true,
      if_neg n1, h2, true_and]
    intro a ha
    rw [if_neg (by omega), if_neg (by omega)]
  · have hv32 : v < 4294967296 := by simpa [Width.bytes] using hv
    exact write32_spec o b v hv32
  · have hv64 : v < 2 ^ 64 := by simpa [Width.bytes] using hv
    have hhi : v / 4294967296 < 4294967296 := by omega
    have hlo : v % 4294967296 < 4294967296 := Nat.mod_lt _ (by decide)
    obtain ⟨a1, a2, a3⟩ := write32_spec o b (v / 4294967296) hhi
    obtain ⟨c1, c2, c3⟩ := write32_spec o (write32 o b (v / 4294967296)) (v % 4294967296) hlo
    simp only [writeN, Width.bytes, write64_eq o b v hv64]
    rw [a2] at c1 c2 c3
    refine ⟨?_, by rw [c2], ?_⟩
    · rw [bytesAt_append _ 4 4 b.ptr, c1, bytesBE_eight, ← a1]
      congr 1
      exact bytesAt_congr _ _ 4 b.ptr (fun a h1 h2 => c3 a (Or.inl h2))
    · intro a ha
      rw [c3 a (by omega), a3 a (by omega)]

theorem readN_eq (o : ByteOrder) (w : Width) (b : Buffer) :
    readN o w b = (fromBE (bytesAt b.mem b.ptr w.bytes), ⟨b.mem, b.ptr + w.bytes⟩) := by
  cases w
  · exact read8_eq b
  · exact read16_eq o b
  · exact read32_eq o b
  · exact read64_eq o b

theorem pow_bytes (w : Width) : 2 ^ (8 * w.bytes) = 256 ^ w.bytes := by
  cases w <;> simp only [Width.bytes] <;> norm_num

theorem SerWriter.cast_lt {F32 F64 : Type} (c : FloatCasts F32 F64) (f : Field F32 F64) :
    SerWriter.cast c f < 2 ^ (8 * f.type.width.bytes) := by
  cases f with
  | unsigned w v => exact Nat.mod_lt _ (by positivity)
  | signed w v =>
    simp only [SerWriter.cast, Field.type, FieldType.width]
    have h1 : (0 : Int) < 2 ^ (8 * w.bytes) := by positivity
    have h2 := Int.emod_lt_of_pos v h1
    have h3 := Int.emod_nonneg v (ne_of_gt h1)
    have h4 : ((v % 2 ^ (8 * w.bytes)).toNat : Int) = v % 2 ^ (8 * w.bytes) :=
      Int.toNat_of_nonneg h3
    have h5 : ((v % 2 ^ (8 * w.bytes)).toNat : Int) < ((2 ^ (8 * w.bytes) : Nat) : Int) := by
      rw [h4]; push_cast; exact h2
    exact Int.ofNat_lt.1 h5
  | bool v => cases v <;> simp [SerWriter.cast, Field.type, FieldType.width, Width.bytes]
  | float v => exact Nat.mod_lt _ (by positivity)
  | double v => exact Nat.mod_lt _ (by positivity)

theorem SerWriter.write_spec {F32 F64 : Type} (o : ByteOrder) (c : FloatCasts F32 F64)
    (b : Buffer) (f : Field F32 F64) :
    bytesAt (SerWriter.write o c b f).mem b.ptr f.type.width.bytes =
      bytesBE f.type.width.bytes (SerWriter.cast c f) ∧
    (SerWriter.write o c b f).ptr = b.ptr + f.type.width.bytes ∧
    (∀ a, a < b.ptr ∨ b.ptr + f.type.width.bytes ≤ a →
      (SerWriter.write o c b f).mem a = b.mem a) :=
  writeN_spec o f.type.width b (SerWriter.cast c f) (SerWriter.cast_lt c f)

theorem SerWriter.writeAll_frame {F32 F64 : Type} (o : ByteOrder) (c : FloatCasts F32 F64) :
    ∀ (fs : List (Field F32 F64)) (b : Buffer),
      b.ptr ≤ (SerWriter.writeAll o c b fs).ptr ∧
      ∀ a, a < b.ptr → (SerWriter.writeAll o c b fs).mem a = b.mem a := by
  intro fs
  induction fs with
  | nil => intro b; exact ⟨le_refl _, fun _ _ => rfl⟩
  | cons f fs ih =>
    intro b
    obtain ⟨-, h2, h3⟩ := SerWriter.write_spec o c b f
    obtain ⟨i1, i2⟩ := ih (SerWriter.write o c b f)
    rw [h2] at i1 i2
    simp only [SerWriter.writeAll]
    refine ⟨by omega, ?_⟩
    intro a ha
    rw [i2 a (by omega), h3 a (Or.inl ha)]

/-- A chain of writes followed by the same chain of reads from the start of the
buffer returns, for every field, the field converted by the cast of the writer
and back by the cast of the reader, and ends at the cursor of the writer. -/
theorem SerReader.readAll_writeAll {F32 F64 : Type} (o : ByteOrder) (c : FloatCasts F32 F64) :
    ∀ (fs : List (Field F32 F64)) (b : Buffer),
      SerReader.readAll o c ⟨(SerWriter.writeAll o c b fs).mem, b.ptr⟩ (fs.map Field.type) =
        (fs.map (Field.restored c), SerWriter.writeAll o c b fs) := by
  intro fs
  induction fs with
  | nil => intro b; rfl
  | cons f fs ih =>
    intro b
    have hf := SerWriter.cast_lt c f
    obtain ⟨h1, h2, -⟩ := SerWriter.write_spec o c b f
    obtain ⟨-, i2⟩ := SerWriter.writeAll_frame o c fs (SerWriter.write o c b f)
    have hrest := ih (SerWriter.write o c b f)
    rw [h2] at i2 hrest
    simp only [SerWriter.writeAll, List.map_cons, SerReader.readAll, SerReader.read, readN_eq]
    generalize SerWriter.writeAll o c (SerWriter.write o c b f) fs = W at i2 hrest ⊢
    have hbytes : bytesAt W.mem b.ptr f.type.width.bytes =
        bytesBE f.type.width.bytes (SerWriter.cast c f) := by
      rw [bytesAt_congr W.mem (SerWriter.write o c b f).mem f.type.width.bytes b.ptr
        (fun a _ h2 => i2 a h2), h1]
    rw [hbytes, fromBE_bytesBE, ← pow_bytes, Nat.mod_eq_of_lt hf, hrest]
    rfl

/-- A field of an integer type or of type `bool` whose value is a value of the type
is restored by the reader. -/
theorem Field.restored_integral {F32 F64 : Type} (c : FloatCasts F32 F64) (f : Field F32 F64)
    (hi : f.isIntegral) (hr : f.inRange) : f.restored c = f := by
  cases f with
  | unsigned w v =>
    simp only [Field.inRange] at hr
    simp only [Field.restored, SerReader.cast, SerWriter.cast, Field.type, Nat.mod_mod,
      Nat.mod_eq_of_lt hr]
  | signed w v =>
    simp only [Field.inRange] at hr
    simp only [Field.restored, SerReader.cast, SerWriter.cast, Field.type]
    congr 1
    cases w <;> simp only [Width.bytes] at hr ⊢ <;> norm_num at hr ⊢ <;> omega
  | bool v => cases v <;> rfl
  | float v => exact absurd hi (by simp [Field.isIntegral])
  | double v => exact absurd hi (by simp [Field.isIntegral])

/-- C28, the buffer primitives and the integer fields.  On a host of either byte
order: for a value `v` of width 8, 16, 32 or 64 bits, the write primitive stores
the bytes of `v` most significant first and advances the cursor by the number of
bytes; the read primitive on these bytes returns `v` and advances the cursor by
the same amount; `write64` is `write32` of the upper 32 bits followed by `write32`
of the lower 32 bits.  A chain of `SerWriter` writes followed by the same chain of
`SerReader` reads from the start ends at the cursor of the writer and returns
every field as the casts of the writer and the reader convert it: a field of an
integer type or of type `bool` is restored, a `float` or `double` field is the
floating-point value of the integer that the cast of the writer produced. -/
theorem serialization_round_trip {F32 F64 : Type} (o : ByteOrder) (c : FloatCasts F32 F64) :
    (∀ (w : Width) (b : Buffer) (v : Nat), v < 2 ^ (8 * w.bytes) →
      bytesAt (writeN o w b v).mem b.ptr w.bytes = bytesBE w.bytes v ∧
      (writeN o w b v).ptr = b.ptr + w.bytes ∧
      readN o w ⟨(writeN o w b v).mem, b.ptr⟩ =
        (v, ⟨(writeN o w b v).mem, b.ptr + w.bytes⟩)) ∧
    (∀ (b : Buffer) (v : Nat), v < 2 ^ 64 →
      write64 o b v = write32 o (write32 o b (v / 2 ^ 32)) (v % 2 ^ 32)) ∧
    (∀ (fs : List (Field F32 F64)) (b : Buffer),
      SerReader.readAll o c ⟨(SerWriter.writeAll o c b fs).mem, b.ptr⟩ (fs.map Field.type) =
        (fs.map (Field.restored c), SerWriter.writeAll o c b fs)) ∧
    (∀ (fs : List (Field F32 F64)) (b : Buffer), (∀ f ∈ fs, f.isIntegral ∧ f.inRange) →
      SerReader.readAll o c ⟨(SerWriter.writeAll o c b fs).mem, b.ptr⟩ (fs.map Field.type) =
        (fs, SerWriter.writeAll o c b fs)) ∧
    (∀ v : F32, (Field.float v : Field F32 F64).restored c =
      .float (c.u32ToFloat (c.floatToU32 v % 2 ^ 32))) ∧
    (∀ v : F64, (Field.double v : Field F32 F64).restored c =
      .double (c.u64ToDouble (c.doubleToU64 v % 2 ^ 64))) := by
  refine ⟨?_, ?_, SerReader.readAll_writeAll o c, ?_, fun _ => rfl, fun _ => rfl⟩
  · intro w b v hv
    obtain ⟨h1, h2, -⟩ := writeN_spec o w b v hv
    refine ⟨h1, h2, ?_⟩
    rw [readN_eq]
    simp only [h1, fromBE_bytesBE, ← pow_bytes, Nat.mod_eq_of_lt hv]
  · intro b v hv
    exact write64_eq o b v hv
  · intro fs b hfs
    rw [SerReader.readAll_writeAll o c fs b]
    congr 1
    calc fs.map (Field.restored c) = fs.map id :=
          List.map_congr_left (fun f hf => Field.restored_integral c f (hfs f hf).1 (hfs f hf).2)
      _ = fs := List.map_id fs

/-- The primitives of C28 at an example: on a little-endian host `write16` of 0xABCD
stores 0xAB, 0xCD, and `read16` returns 0xABCD. -/
theorem serialization_round_trip_witness :
    bytesAt (write16 .little ⟨fun _ => 0, 10⟩ 0xABCD).mem 10 2 = [0xAB, 0xCD] ∧
    (read16 .little ⟨(write16 .little ⟨fun _ => 0, 10⟩ 0xABCD).mem, 10⟩).1 = 0xABCD :=
  have h := (serialization_round_trip .little ratCasts).1 .w16 ⟨fun _ => 0, 10⟩ 0xABCD
    (by decide)
  ⟨h.1, congrArg Prod.fst h.2.2⟩

/-- C28, the failing input.  A `float` field of value 1/2 and a `double` field of
value 5/2, written in a chain with a `uint16_t`, an `int` and a `bool`: the writer
stores the integers `(uint32_t)0.5 = 0` and `(uint64_t)2.5 = 2`, as the bytes
00 00 00 00 and 00 00 00 00 00 00 00 02, and the reader returns the `float` 0 and
the `double` 2; the three other fields are restored. -/
theorem serialization_float_field_lost :
    SerWriter.cast ratCasts (Field.float (1 / 2)) = 0 ∧
    SerWriter.cast ratCasts (Field.double (5 / 2)) = 2 ∧
    bytesAt (SerWriter.writeAll .little ratCasts ⟨fun _ => 0xEE, 10⟩ exampleFields).mem 10 19 =
      [0xAB, 0xCD, 0, 0, 0, 0, 0xFF, 0xFF, 0xFF, 0xFE, 0, 0, 0, 0, 0, 0, 0, 2, 1] ∧
    (SerReader.readAll .little ratCasts
        ⟨(SerWriter.writeAll .little ratCasts ⟨fun _ => 0xEE, 10⟩ exampleFields).mem, 10⟩
        (exampleFields.map Field.type)).1 =
      [.unsigned .w16 0xABCD, .float 0, .signed .w32 (-2), .double 2, .bool true] ∧
    (Field.float 0 : Field ℚ ℚ) ≠ .float (1 / 2) ∧
    (Field.double 2 : Field ℚ ℚ) ≠ .double (5 / 2) := by
  decide!

/-! ## The slot checks of the event handler -/

/-- C29. `isEventSlot(s)` compares `s <= EVENT_SLOT_COUNT` and admits the sentinel:
`isEventSlot(EVENT_SLOT_COUNT)` is true although 7 is not an index of the 7-entry
table `eventSlot`, and `isSecondarySlot(SEC_SLOT_COUNT)` is true although 15 is
not an index of the 15-entry table `secondarySlot`.  So in `hasEvent` and
`isPending` called with `EVENT_SLOT_COUNT` the assertion holds and the read of
`eventSlot` is outside the array. -/
theorem isEventSlot_admits_sentinel (h : EventHandler) :
    (∀ s : Int, isEventSlot s = true ↔ s ≤ 7) ∧
    (∀ s : Int, isSecondarySlot s = true ↔ s ≤ 15) ∧
    isEventSlot (EVENT_SLOT_COUNT : Int) = true ∧
    eventSlotAt h (EVENT_SLOT_COUNT : Int) = none ∧
    isSecondarySlot (SEC_SLOT_COUNT : Int) = true ∧
    secondarySlotAt h (SEC_SLOT_COUNT : Int) = none ∧
    hasEvent h (EVENT_SLOT_COUNT : Int) = (true, none) ∧
    isPending h (EVENT_SLOT_COUNT : Int) = (true, none) ∧
    (∀ s : Int, (eventSlotAt h s).isSome = true ↔ 0 ≤ s ∧ s < 7) := by
  refine ⟨?_, ?_, by decide, rfl, by decide, rfl, rfl, rfl, ?_⟩
  · intro s
    simp only [isEventSlot, EVENT_SLOT_COUNT, decide_eq_true_eq, Nat.cast_ofNat]
  · intro s
    simp only [isSecondarySlot, SEC_SLOT_COUNT, decide_eq_true_eq, Nat.cast_ofNat]
  · intro s
    unfold eventSlotAt EVENT_SLOT_COUNT
    by_cases hs : 0 ≤ s ∧ s < ((7 : Nat) : Int)
    · rw [if_pos hs]
      simpa using hs
    · rw [if_neg hs]
      simpa using hs

/-! ## DSKBYTR -/

theorem and_2000_eq (x : Nat) : x &&& 0x2000 = x / 8192 % 2 * 8192 := by
  have h := Nat.two_pow_and x 13
  rw [Nat.land_comm, Nat.testBit_to_div_mod] at h
  have h1 : (2 : Nat) ^ 13 = 8192 := by norm_num
  rw [h1] at h
  rw [h]
  by_cases hb : x / 8192 % 2 = 1
  · simp [hb]
  · have h0 : x / 8192 % 2 = 0 := by omega
    simp [h0]

theorem and_1000_eq (x : Nat) : x &&& 0x1000 = x / 4096 % 2 * 4096 := by
  have h := Nat.two_pow_and x 12
  rw [Nat.land_comm, Nat.testBit_to_div_mod] at h
  have h1 : (2 : Nat) ^ 12 = 4096 := by norm_num
  rw [h1] at h
  rw [h]
  by_cases hb : x / 4096 % 2 = 1
  · simp [hb]
  · have h0 : x / 4096 % 2 = 0 := by omega
    simp [h0]

theorem and_0F00_of_low (r : Nat) (h : r % 4096 < 256) : r &&& 0x0F00 = 0 := by
  have e1 : (0x0F00 : Nat) = 0xFFF &&& 0x0F00 := by decide
  have e2 : (0xFF : Nat) &&& 0x0F00 = 0 := by decide
  have e3 : r % 4096 = r % 4096 &&& 0xFF := by
    rw [and_FF]
    omega
  rw [e1, ← Nat.and_assoc, Nat.and_pow_two_sub_one_eq_mod r 12]
  have p : (2 : Nat) ^ 12 = 4096 := by norm_num
  rw [p, e3, Nat.and_assoc, e2, Nat.and_zero]

/-- Setting a bit above bit 11 in a value below 4096 adds the bit. -/
theorem or_high (x c : Nat) (hx : x < 4096) (hc : c % 4096 = 0) : x ||| c = c + x := by
  have e : c = 2 ^ 12 * (c / 4096) := by
    have : (2 : Nat) ^ 12 = 4096 := by norm_num
    omega
  rw [Nat.or_comm]
  nth_rewrite 1 [e]
  nth_rewrite 2 [e]
  exact (Nat.mul_add_lt_is_or (by norm_num; exact hx) (c / 4096)).symm

/-- The word returned by `peekDSKBYTR` as a sum. -/
theorem peekDSKBYTR_value (doDskDMA : Bool) (s : Amiga D) (hin : s.incoming < 256) :
    (peekDSKBYTR doDskDMA s).1 =
      (if s.clock - s.incomingCycle ≤ 7 then 32768 else 0) +
      (if doDskDMA = true ∧ s.state ≠ .DRIVE_DMA_OFF then 16384 else 0) +
      (if s.dsklen &&& 0x4000 ≠ 0 then 8192 else 0) +
      (if s.syncFlag = true then 4096 else 0) + s.incoming := by
  have h1 : s.incoming % 65536 = s.incoming := Nat.mod_eq_of_lt (by omega)
  have hx : s.incoming < 4096 := by omega
  unfold peekDSKBYTR SET_BIT
  simp only [h1]
  generalize s.incoming = x at hx
  by_cases c15 : s.clock - s.incomingCycle ≤ 7 <;>
    by_cases c14 : doDskDMA = true ∧ s.state ≠ .DRIVE_DMA_OFF <;>
    by_cases c13 : s.dsklen &&& 0x4000 ≠ 0 <;>
    by_cases c12 : s.syncFlag = true <;>
    simp [c15, c14, c13, c12, Nat.or_assoc] <;>
    first
    | done
    | exact or_high x _ hx (by decide)

theorem ite_bit (P : Prop) [Decidable P] (K : Nat) :
    ∃ b, b ≤ 1 ∧ (b = 1 ↔ P) ∧ (if P then K else 0) = K * b := by
  by_cases h : P
  · exact ⟨1, le_refl _, ⟨fun _ => h, fun _ => rfl⟩, by rw [if_pos h, Nat.mul_one]⟩
  · exact ⟨0, Nat.zero_le _, ⟨fun h0 => absurd h0 (by decide), fun hp => absurd hp h⟩,
      by rw [if_neg h, Nat.mul_zero]⟩

/-- C30. `peekDSKBYTR`, with `incoming` a byte, returns a word whose bits 7-0 are
`incoming`, whose bit 15 is set iff `agnus.clock - incomingCycle <= 7`, bit 14 iff
`agnus.doDskDMA()` holds and the state is not OFF, bit 13 iff bit 14 of DSKLEN is
set, bit 12 iff `syncFlag` is set, and whose bits 11-8 are zero.  The machine is
returned unchanged, apart from the record of the assertion
`agnus.clock >= incomingCycle` when that fails. -/
theorem peekDSKBYTR_word (doDskDMA : Bool) (s : Amiga D) (hin : s.incoming < 256) :
    (peekDSKBYTR doDskDMA s).1 &&& 0xFF = s.incoming ∧
    ((peekDSKBYTR doDskDMA s).1 &&& 0x8000 ≠ 0 ↔ s.clock - s.incomingCycle ≤ 7) ∧
    ((peekDSKBYTR doDskDMA s).1 &&& 0x4000 ≠ 0 ↔
      doDskDMA = true ∧ s.state ≠ .DRIVE_DMA_OFF) ∧
    ((peekDSKBYTR doDskDMA s).1 &&& 0x2000 ≠ 0 ↔ s.dsklen &&& 0x4000 ≠ 0) ∧
    ((peekDSKBYTR doDskDMA s).1 &&& 0x1000 ≠ 0 ↔ s.syncFlag = true) ∧
    (peekDSKBYTR doDskDMA s).1 &&& 0x0F00 = 0 ∧
    (peekDSKBYTR doDskDMA s).1 < 65536 ∧
    (peekDSKBYTR doDskDMA s).2 =
      assertThat (decide (s.clock ≥ s.incomingCycle)) .clockAfterIncoming s ∧
    (s.clock ≥ s.incomingCycle → (peekDSKBYTR doDskDMA s).2 = s) := by
  have hv := peekDSKBYTR_value doDskDMA s hin
  generalize (peekDSKBYTR doDskDMA s).1 = r at hv
  obtain ⟨b15, l15, i15, e15⟩ := ite_bit (s.clock - s.incomingCycle ≤ 7) 32768
  obtain ⟨b14, l14, i14, e14⟩ := ite_bit (doDskDMA = true ∧ s.state ≠ .DRIVE_DMA_OFF) 16384
  obtain ⟨b13, l13, i13, e13⟩ := ite_bit (s.dsklen &&& 0x4000 ≠ 0) 8192
  obtain ⟨b12, l12, i12, e12⟩ := ite_bit (s.syncFlag = true) 4096
  rw [e15, e14, e13, e12] at hv
  generalize s.incoming = x at hin hv
  refine ⟨?_, ?_, ?_, ?_, ?_, ?_, ?_, rfl, ?_⟩
  · rw [and_FF, hv]
    omega
  · rw [and_8000_eq, ← i15]
    constructor <;> intro <;> omega
  · rw [and_4000_eq, ← i14]
    constructor <;> intro <;> omega
  · rw [and_2000_eq, ← i13]
    constructor <;> intro <;> omega
  · rw [and_1000_eq, ← i12]
    constructor <;> intro <;> omega
  · apply and_0F00_of_low
    omega
  · omega
  · intro hc
    unfold peekDSKBYTR
    simp only [decide_eq_true hc, assertThat_true]

/-- Witness for C30: with the byte 0x5A incoming, `syncFlag` set and the state OFF
the word read is 0x905A. -/
theorem peekDSKBYTR_word_witness :
    (peekDSKBYTR true
      { amiga0 (tapeDrive []) with incoming := 0x5A, syncFlag := true }).1 &&& 0xFF = 0x5A ∧
    (peekDSKBYTR true
      { amiga0 (tapeDrive []) with incoming := 0x5A, syncFlag := true }).1 = 0x905A :=
  ⟨(peekDSKBYTR_word true
      { amiga0 (tapeDrive []) with incoming := 0x5A, syncFlag := true } (by decide)).1,
    by decide⟩

/-! ## The DAS lookup table -/

theorem written_none_of_le (B : Nat) :
    ∀ (stmts : List (Nat × Nat)) (off : Nat), (∀ w ∈ stmts, w.1 ≤ B) → B < off →
      written stmts off = none := by
  intro stmts
  induction stmts with
  | nil => intro off _ _; rfl
  | cons w ws ih =>
    intro off hb ho
    have hw : w.1 ≠ off := by
      have := hb w (List.mem_cons_self _ _)
      omega
    simp only [written, ih off (fun x hx => hb x (List.mem_cons_of_mem _ hx)) ho, if_neg hw]

/-- A sequence of assignments to the row `dasDMA[d]`. -/
theorem pokeDasDMA_foldl (d : Nat) :
    ∀ (stmts : List (Nat × Nat)) (a : Agnus) (d2 h2 : Nat),
      (stmts.foldl (fun a w => pokeDasDMA a d w.1 w.2) a).dasDMA d2 h2 =
        if d2 = d then (written stmts h2).getD (a.dasDMA d2 h2) else a.dasDMA d2 h2 := by
  intro stmts
  induction stmts with
  | nil =>
    intro a d2 h2
    simp only [List.foldl_nil, written, Option.getD_none, ite_self]
  | cons w ws ih =>
    intro a d2 h2
    rw [List.foldl_cons, ih]
    by_cases hd : d2 = d
    · rw [if_pos hd, if_pos hd]
      simp only [written]
      cases hw : written ws h2 with
      | some id => rfl
      | none =>
        simp only [Option.getD_none, pokeDasDMA]
        by_cases ho : w.1 = h2
        · have c : d2 = d ∧ h2 = w.1 := ⟨hd, ho.symm⟩
          rw [if_pos ho, if_pos c]
          rfl
        · have c : ¬ (d2 = d ∧ h2 = w.1) := fun x => ho x.2.symm
          rw [if_neg ho, if_neg c]
          rfl
    · rw [if_neg hd, if_neg hd]
      have c : ¬ (d2 = d ∧ h2 = w.1) := fun x => hd x.1
      simp only [pokeDasDMA, if_neg c]

theorem dasRow_apply (bits : DmaconBits) (ids : DasEventIds) (d : Nat) (a : Agnus)
    (d2 h2 : Nat) :
    (dasRow bits ids d a).dasDMA d2 h2 =
      if d2 = d then (written (dasStmts bits ids d) h2).getD (a.dasDMA d2 h2)
      else a.dasDMA d2 h2 := by
  unfold dasRow
  exact pokeDasDMA_foldl d _ a d2 h2

/-- The first `n` rows of the DAS table. -/
theorem dasRows_range (bits : DmaconBits) (ids : DasEventIds) :
    ∀ (n : Nat) (a : Agnus) (d2 h2 : Nat),
      ((List.range n).foldl (fun a dmacon => dasRow bits ids dmacon a) a).dasDMA d2 h2 =
        if d2 < n then (written (dasStmts bits ids d2) h2).getD (a.dasDMA d2 h2)
        else a.dasDMA d2 h2 := by
  intro n
  induction n with
  | zero =>
    intro a d2 h2
    rw [if_neg (Nat.not_lt_zero _)]
    rfl
  | succ n ih =>
    intro a d2 h2
    rw [List.range_succ, List.foldl_append, List.foldl_cons, List.foldl_nil]
    rw [dasRow_apply, ih]
    by_cases h1 : d2 = n
    · have c1 : ¬ d2 < n := by omega
      have c2 : d2 < n + 1 := by omega
      rw [if_pos h1, if_neg c1, if_pos c2, h1]
    · rw [if_neg h1]
      by_cases h2' : d2 < n
      · have c2 : d2 < n + 1 := by omega
        rw [if_pos h2', if_pos c2]
      · have c2 : ¬ d2 < n + 1 := by omega
        rw [if_neg h2', if_neg c2]

theorem dasStmts_bound (bits : DmaconBits) (ids : DasEventIds) (d : Nat) :
    ∀ w ∈ dasStmts bits ids d, w.1 ≤ 0xDF := by
  intro w hw
  have h : (dasStmts bits ids d).all (fun w => decide (w.1 ≤ 0xDF)) = true := by
    unfold dasStmts
    split_ifs <;> rfl
  exact of_decide_eq_true (List.all_eq_true.1 h w hw)

/-- The last assignment of one pass to each position. -/
theorem written_dasStmts (bits : DmaconBits) (ids : DasEventIds) (d h : Nat) :
    (written (dasStmts bits ids d) h).getD 0 =
      dasPattern ids (decide (d &&& bits.DSKEN ≠ 0)) (decide (d &&& bits.SPREN ≠ 0)) h := by
  by_cases hh : h ≤ 0xDF
  · generalize hb1 : decide (d &&& bits.DSKEN ≠ 0) = b1
    generalize hb2 : decide (d &&& bits.SPREN ≠ 0) = b2
    cases b1 <;> cases b2
    · have c1 := of_decide_eq_false hb1
      have c2 := of_decide_eq_false hb2
      simp only [dasStmts, if_neg c1, if_neg c2]
      interval_cases h <;> rfl
    · have c1 := of_decide_eq_false hb1
      have c2 := of_decide_eq_true hb2
      simp only [dasStmts, if_neg c1, if_pos c2]
      interval_cases h <;> rfl
    · have c1 := of_decide_eq_true hb1
      have c2 := of_decide_eq_false hb2
      simp only [dasStmts, if_pos c1, if_neg c2]
      interval_cases h <;> rfl
    · have c1 := of_decide_eq_true hb1
      have c2 := of_decide_eq_true hb2
      simp only [dasStmts, if_pos c1, if_pos c2]
      interval_cases h <;> rfl
  · rw [written_none_of_le 0xDF _ h (dasStmts_bound bits ids d) (by omega)]
    have n1 : ¬ h = 0x01 := by omega
    have n2 : ¬ h = 0x07 := by omega
    have n3 : ¬ h = 0x09 := by omega
    have n4 : ¬ h = 0x0B := by omega
    have n5 : ¬ h = 0x0D := by omega
    have n6 : ¬ h = 0x0F := by omega
    have n7 : ¬ h = 0x11 := by omega
    have n8 : ¬ h = 0x13 := by omega
    have n9 : ¬ (0x15 ≤ h ∧ h ≤ 0x33 ∧ h % 2 = 1) := by omega
    have n10 : ¬ h = 0xDF := by omega
    simp only [dasPattern, if_neg n1, if_neg n2, if_neg n3, if_neg n4, if_neg n5, if_neg n6,
      if_neg n7, if_neg n8, if_neg n9, if_neg n10]
    rfl

/-- C21. After `initDasEventTable`, for every DMACON value `d` in 0..63 the row
`dasDMA[d]` holds `DAS_REFRESH` at 0x01; `DAS_D0`, `DAS_D1`, `DAS_D2` at 0x07,
0x09, 0x0B when DSKEN is set in `d` and `EVENT_NONE` there otherwise; `DAS_A0 ..
DAS_A3` at 0x0D, 0x0F, 0x11, 0x13 for every `d`; `DAS_S0_1 .. DAS_S7_2` at the odd
positions 0x15 .. 0x33 when SPREN is set and `EVENT_NONE` there otherwise;
`DAS_SDMA` at 0xDF; and `EVENT_NONE` at every other position.  Two DMACON values
that agree on DSKEN and on SPREN have equal rows. -/
theorem initDasEventTable_table (bits : DmaconBits) (ids : DasEventIds) (a : Agnus) :
    (∀ d h, d < 64 →
      (initDasEventTable bits ids a).dasDMA d h =
        dasPattern ids (decide (d &&& bits.DSKEN ≠ 0)) (decide (d &&& bits.SPREN ≠ 0)) h) ∧
    (∀ d1 d2, d1 < 64 → d2 < 64 →
      (d1 &&& bits.DSKEN ≠ 0 ↔ d2 &&& bits.DSKEN ≠ 0) →
      (d1 &&& bits.SPREN ≠ 0 ↔ d2 &&& bits.SPREN ≠ 0) →
      ∀ h, (initDasEventTable bits ids a).dasDMA d1 h =
        (initDasEventTable bits ids a).dasDMA d2 h) := by
  have hT : ∀ d h, d < 64 →
      (initDasEventTable bits ids a).dasDMA d h =
        dasPattern ids (decide (d &&& bits.DSKEN ≠ 0)) (decide (d &&& bits.SPREN ≠ 0)) h := by
    intro d h hd
    unfold initDasEventTable
    dsimp only
    rw [dasRows_range, if_pos hd]
    exact written_dasStmts bits ids d h
  refine ⟨hT, ?_⟩
  intro d1 d2 h1 h2 e1 e2 h
  rw [hT d1 h h1, hT d2 h h2, decide_eq_decide.2 e1, decide_eq_decide.2 e2]

/-- Witness for C21: the row of DMACON 0x10 (DSKEN only) has `DAS_D1` at 0x09 and
`EVENT_NONE` at the sprite position 0x15; the rows of 0x10 and 0x1F are equal. -/
theorem initDasEventTable_table_witness :
    (initDasEventTable dmaconBits0 dasIds0 (agnus0 0 0 false)).dasDMA 0x10 0x09 =
      dasIds0.DAS_D1 ∧
    (initDasEventTable dmaconBits0 dasIds0 (agnus0 0 0 false)).dasDMA 0x10 0x15 =
      EVENT_NONE ∧
    (initDasEventTable dmaconBits0 dasIds0 (agnus0 0 0 false)).dasDMA 0x10 0x2F =
      (initDasEventTable dmaconBits0 dasIds0 (agnus0 0 0 false)).dasDMA 0x1F 0x2F :=
  have h := initDasEventTable_table dmaconBits0 dasIds0 (agnus0 0 0 false)
  ⟨h.1 0x10 0x09 (by decide), h.1 0x10 0x15 (by decide),
   h.2 0x10 0x1F (by decide) (by decide) (by decide) (by decide) 0x2F⟩


/-! ## Bitplane pointer writes -/

/-- C27. For every plane `x` in 1..6: when `bplEvent[pos.h + 1]` is a fetch event of
plane `x` (`isBplxEvent`) and `bplEvent[pos.h + 2]` is `EVENT_NONE`,
`pokeBPLxPTH<x>` and `pokeBPLxPTL<x>` change nothing in Agnus, so no register
change is recorded; in every other case they record exactly one change, of
`REG_BPLxPTH` respectively `REG_BPLxPTL`, with the written value and the delay
`DMA_CYCLES(2)`; in no case is `bplpt` changed by the call. -/
theorem pokeBPLxPT_lost (ops : BplOps) (x value : Nat) (a : Agnus)
    (h1 : 1 ≤ x) (h6 : x ≤ 6) :
    (ops.isBplxEvent (a.bplEvent (a.posH + 1)) x = true ∧
        a.bplEvent (a.posH + 2) = EVENT_NONE →
      pokeBPLxPTH ops x value a = a ∧ pokeBPLxPTL ops x value a = a) ∧
    (¬ (ops.isBplxEvent (a.bplEvent (a.posH + 1)) x = true ∧
        a.bplEvent (a.posH + 2) = EVENT_NONE) →
      pokeBPLxPTH ops x value a =
        { a with changes := a.changes ++ [⟨DMA_CYCLES 2, regBPLxPTH x, value⟩] } ∧
      pokeBPLxPTL ops x value a =
        { a with changes := a.changes ++ [⟨DMA_CYCLES 2, regBPLxPTL x, value⟩] }) ∧
    (pokeBPLxPTH ops x value a).bplpt = a.bplpt ∧
    (pokeBPLxPTL ops x value a).bplpt = a.bplpt := by
  have hskip : skipBPLxPT ops x a = true ↔
      (ops.isBplxEvent (a.bplEvent (a.posH + 1)) x = true ∧
        a.bplEvent (a.posH + 2) = EVENT_NONE) := by
    unfold skipBPLxPT
    by_cases c1 : ops.isBplxEvent (a.bplEvent (a.posH + 1)) x = true <;>
      by_cases c2 : a.bplEvent (a.posH + 2) = EVENT_NONE <;>
      simp only [c1, c2, if_true, if_false, and_self, and_false, false_and, and_true,
        Bool.false_eq_true]
  have hno : ¬ skipBPLxPT ops x a = true →
      pokeBPLxPTH ops x value a =
        { a with changes := a.changes ++ [⟨DMA_CYCLES 2, regBPLxPTH x, value⟩] } ∧
      pokeBPLxPTL ops x value a =
        { a with changes := a.changes ++ [⟨DMA_CYCLES 2, regBPLxPTL x, value⟩] } := by
    intro hs
    unfold pokeBPLxPTH pokeBPLxPTL
    simp only [if_neg hs]
    interval_cases x <;> exact ⟨rfl, rfl⟩
  refine ⟨?_, ?_, ?_, ?_⟩
  · intro hc
    unfold pokeBPLxPTH pokeBPLxPTL
    simp only [if_pos (hskip.2 hc), and_self]
  · intro hc
    exact hno (fun hs => hc (hskip.1 hs))
  · by_cases hs : skipBPLxPT ops x a = true
    · unfold pokeBPLxPTH
      rw [if_pos hs]
    · rw [(hno hs).1]
  · by_cases hs : skipBPLxPT ops x a = true
    · unfold pokeBPLxPTL
      rw [if_pos hs]
    · rw [(hno hs).2]

/-- Witness for C27: with the fetch event of plane 1 at `pos.h + 1` and nothing at
`pos.h + 2` the write to BPL1PTH is lost; for plane 2 it is recorded. -/
theorem pokeBPLxPT_lost_witness :
    pokeBPLxPTH bplOps0 1 0x1234
        { agnus0 0x40 0 false with bplEvent := fun h => if h = 0x41 then 1 else 0 } =
      { agnus0 0x40 0 false with bplEvent := fun h => if h = 0x41 then 1 else 0 } ∧
    (pokeBPLxPTH bplOps0 2 0x1234
        { agnus0 0x40 0 false with bplEvent := fun h => if h = 0x41 then 1 else 0 }).changes =
      [⟨4, .REG_BPL2PTH, 0x1234⟩] :=
  ⟨((pokeBPLxPT_lost bplOps0 1 0x1234
      { agnus0 0x40 0 false with bplEvent := fun h => if h = 0x41 then 1 else 0 }
      (by decide) (by decide)).1 (by decide)).1,
   congrArg Agnus.changes ((pokeBPLxPT_lost bplOps0 2 0x1234
      { agnus0 0x40 0 false with bplEvent := fun h => if h = 0x41 then 1 else 0 }
      (by decide) (by decide)).2.1 (by decide)).1⟩

/-! ## The jump tables -/

theorem firstEventFrom_succ (ev : Nat → Nat) :
    ∀ (n s : Nat), firstEventFrom ev (n + 1) s =
      match firstEventFrom ev n s with
      | some k => some k
      | none => if ev (s + n) ≠ 0 then some (s + n) else none := by
  intro n
  induction n with
  | zero =>
    intro s
    simp only [firstEventFrom, Nat.add_zero]
  | succ n ih =>
    intro s
    rw [firstEventFrom]
    by_cases h : ev s ≠ 0
    · rw [if_pos h]
      simp only [firstEventFrom, if_pos h]
    · rw [if_neg h, ih (s + 1)]
      have e : s + 1 + n = s + (n + 1) := by omega
      simp only [firstEventFrom, if_neg h, e]

/-- What `firstEventFrom` finds. -/
theorem firstEventFrom_spec (ev : Nat → Nat) :
    ∀ (n s : Nat),
      (∀ k, firstEventFrom ev n s = some k →
        s ≤ k ∧ k < s + n ∧ ev k ≠ 0 ∧ ∀ m, s ≤ m → m < k → ev m = 0) ∧
      (firstEventFrom ev n s = none → ∀ m, s ≤ m → m < s + n → ev m = 0) := by
  intro n
  induction n with
  | zero =>
    intro s
    refine ⟨fun k hk => ?_, fun _ m h1 h2 => ?_⟩
    · simp only [firstEventFrom] at hk
      cases hk
    · omega
  | succ n ih =>
    intro s
    rw [firstEventFrom]
    by_cases h : ev s ≠ 0
    · rw [if_pos h]
      refine ⟨fun k hk => ?_, fun hk => ?_⟩
      · have e : s = k := Option.some.inj hk
        subst e
        exact ⟨le_refl _, by omega, h, fun m h1 h2 => by omega⟩
      · cases hk
    · rw [if_neg h]
      have h0 : ev s = 0 := not_not.1 h
      obtain ⟨i1, i2⟩ := ih (s + 1)
      refine ⟨fun k hk => ?_, fun hk m h1 h2 => ?_⟩
      · obtain ⟨a1, a2, a3, a4⟩ := i1 k hk
        refine ⟨by omega, by omega, a3, fun m h1 h2 => ?_⟩
        by_cases hm : m = s
        · rw [hm]; exact h0
        · exact a4 m (by omega) h2
      · by_cases hm : m = s
        · rw [hm]; exact h0
        · exact i2 hk m (by omega) (by omega)

/-- The jump table after the loop: an entry at or below `i` holds the first event
position above it, up to `i`, or `next` when there is none; the entries above `i`
are kept. -/
theorem jumpLoop_apply (ev : Nat → Nat) :
    ∀ (i next : Nat) (tbl : Nat → Nat) (h : Nat),
      jumpLoop ev i next tbl h =
        if h ≤ i then
          match firstEventFrom ev (i - h) (h + 1) with
          | some k => k % 256
          | none => next
        else tbl h := by
  intro i
  induction i with
  | zero =>
    intro next tbl h
    simp only [jumpLoop]
    by_cases h0 : h = 0
    · have c : h ≤ 0 := by omega
      rw [if_pos h0, if_pos c, h0]
      rfl
    · have c : ¬ h ≤ 0 := by omega
      rw [if_neg h0, if_neg c]
  | succ i ih =>
    intro next tbl h
    rw [jumpLoop, ih]
    by_cases h1 : h ≤ i
    · have e : i + 1 - h = (i - h) + 1 := by omega
      have e2 : h + 1 + (i - h) = i + 1 := by omega
      have c : h ≤ i + 1 := by omega
      rw [if_pos h1, if_pos c, e, firstEventFrom_succ, e2]
      cases firstEventFrom ev (i - h) (h + 1) with
      | some k => rfl
      | none =>
        by_cases hev : ev (i + 1) ≠ 0
        · simp only [if_pos hev]
        · simp only [if_neg hev]
    · rw [if_neg h1]
      by_cases h2 : h = i + 1
      · have e : i + 1 - h = 0 := by omega
        have c : h ≤ i + 1 := by omega
        rw [if_pos h2, if_pos c, e]
        rfl
      · have c : ¬ h ≤ i + 1 := by omega
        rw [if_neg h2, if_neg c]

/-- The recurrence of the jump table, from right to left. -/
theorem jumpLoop_step (ev : Nat → Nat) (e next : Nat) (tbl : Nat → Nat) (i : Nat)
    (he : e < 256) (hi : i < e) :
    jumpLoop ev e next tbl i =
      if ev (i + 1) ≠ 0 then i + 1 else jumpLoop ev e next tbl (i + 1) := by
  have c1 : i ≤ e := by omega
  have c2 : i + 1 ≤ e := by omega
  have e1 : e - i = (e - (i + 1)) + 1 := by omega
  rw [jumpLoop_apply, jumpLoop_apply, if_pos c1, if_pos c2, e1, firstEventFrom]
  by_cases h : ev (i + 1) ≠ 0
  · rw [if_pos h, if_pos h]
    exact Nat.mod_eq_of_lt (by omega)
  · rw [if_neg h, if_neg h]

/-- The jump table entry of a position below `e` is the next event position, when
there is one up to `e`, and the entry value `next` otherwise. -/
theorem jumpLoop_next (ev : Nat → Nat) (e next : Nat) (tbl : Nat → Nat) (i : Nat)
    (he : e < 256) (hi : i ≤ e) :
    (∀ j, IsNextEvent ev e i j → jumpLoop ev e next tbl i = j) ∧
    ((∀ m, i < m → m ≤ e → ev m = 0) → jumpLoop ev e next tbl i = next) := by
  obtain ⟨s1, s2⟩ := firstEventFrom_spec ev (e - i) (i + 1)
  rw [jumpLoop_apply, if_pos hi]
  cases hf : firstEventFrom ev (e - i) (i + 1) with
  | some k =>
    obtain ⟨a1, a2, a3, a4⟩ := s1 k hf
    refine ⟨fun j hj => ?_, fun hz => ?_⟩
    · obtain ⟨b1, b2, b3, b4⟩ := hj
      have hkj : k = j := by
        by_contra hne
        rcases Nat.lt_or_gt_of_ne hne with hlt | hgt
        · exact a3 (b4 k (by omega) hlt)
        · exact b3 (a4 j (by omega) hgt)
      show k % 256 = j
      rw [hkj]
      exact Nat.mod_eq_of_lt (by omega)
    · exact absurd (hz k (by omega) (by omega)) a3
  | none =>
    refine ⟨fun j hj => ?_, fun _ => rfl⟩
    obtain ⟨b1, b2, b3, -⟩ := hj
    exact absurd (s2 hf j (by omega) (by omega)) b3

theorem jumpLoop_end (ev : Nat → Nat) (e next : Nat) (tbl : Nat → Nat) :
    jumpLoop ev e next tbl e = next ∧ ∀ h, e < h → jumpLoop ev e next tbl h = tbl h := by
  constructor
  · have c : e ≤ e := le_refl _
    rw [jumpLoop_apply, if_pos c, Nat.sub_self]
    rfl
  · intro h hh
    have c : ¬ h ≤ e := by omega
    rw [jumpLoop_apply, if_neg c]

/-- C24, counterexample.  With events at positions 3 and `HPOS_MAX` only,
`bplEvent[3]` is not `EVENT_NONE`, and after `updateBplJumpTable(HPOS_MAX)` the
entry `nextBplEvent[3]` is `HPOS_MAX`, not 3; the same holds for
`updateDasJumpTable`. -/
theorem jumpTable_entry_not_own_position :
    ({ agnus0 0 0 false with
        bplEvent := fun h => if h = 3 ∨ h = 0xE2 then 1 else 0 } : Agnus).bplEvent 3 ≠
      EVENT_NONE ∧
    (updateBplJumpTable HPOS_MAX
      { agnus0 0 0 false with
        bplEvent := fun h => if h = 3 ∨ h = 0xE2 then 1 else 0 }).nextBplEvent 3 = 0xE2 ∧
    (updateDasJumpTable HPOS_MAX
      { agnus0 0 0 false with
        dasEvent := fun h => if h = 3 ∨ h = 0xE2 then 1 else 0 }).nextDasEvent 3 = 0xE2 := by
  decide

/-- C24, amended.  After `updateBplJumpTable(end)` with `end <= HPOS_MAX`, for each
`i < end`: `nextBplEvent[i] = i + 1` if `bplEvent[i + 1]` is not `EVENT_NONE`, else
`nextBplEvent[i] = nextBplEvent[i + 1]`; the entry `nextBplEvent[end]` keeps its
value (as a `u8`) and the entries above `end` are kept.  So `nextBplEvent[i]` is
the smallest position above `i`, up to `end`, that holds an event, when there is
one.  The same holds for `updateDasJumpTable` with `dasEvent` and
`nextDasEvent`. -/
theorem updateJumpTable_recurrence (a : Agnus) (endPos : Nat) (hend : endPos ≤ HPOS_MAX) :
    ((∀ i, i < endPos →
        (updateBplJumpTable endPos a).nextBplEvent i =
          if a.bplEvent (i + 1) ≠ EVENT_NONE then i + 1
          else (updateBplJumpTable endPos a).nextBplEvent (i + 1)) ∧
      (updateBplJumpTable endPos a).nextBplEvent endPos = a.nextBplEvent endPos % 256 ∧
      (∀ h, endPos < h → (updateBplJumpTable endPos a).nextBplEvent h = a.nextBplEvent h) ∧
      (∀ i j, i < endPos → IsNextEvent a.bplEvent endPos i j →
        (updateBplJumpTable endPos a).nextBplEvent i = j)) ∧
    ((∀ i, i < endPos →
        (updateDasJumpTable endPos a).nextDasEvent i =
          if a.dasEvent (i + 1) ≠ EVENT_NONE then i + 1
          else (updateDasJumpTable endPos a).nextDasEvent (i + 1)) ∧
      (updateDasJumpTable endPos a).nextDasEvent endPos = a.nextDasEvent endPos % 256 ∧
      (∀ h, endPos < h → (updateDasJumpTable endPos a).nextDasEvent h = a.nextDasEvent h) ∧
      (∀ i j, i < endPos → IsNextEvent a.dasEvent endPos i j →
        (updateDasJumpTable endPos a).nextDasEvent i = j)) := by
  have he : endPos < 256 := by unfold HPOS_MAX at hend; omega
  constructor
  · have e : (updateBplJumpTable endPos a).nextBplEvent =
        jumpLoop a.bplEvent endPos (a.nextBplEvent endPos % 256) a.nextBplEvent := by
      unfold updateBplJumpTable
      rw [if_pos hend]
    rw [e]
    exact ⟨fun i hi => jumpLoop_step _ _ _ _ i he hi, (jumpLoop_end _ _ _ _).1,
      (jumpLoop_end _ _ _ _).2,
      fun i j hi hj => (jumpLoop_next _ _ _ _ i he (Nat.le_of_lt hi)).1 j hj⟩
  · have e : (updateDasJumpTable endPos a).nextDasEvent =
        jumpLoop a.dasEvent endPos (a.nextDasEvent endPos % 256) a.nextDasEvent := by
      unfold updateDasJumpTable
      rw [if_pos hend]
    rw [e]
    exact ⟨fun i hi => jumpLoop_step _ _ _ _ i he hi, (jumpLoop_end _ _ _ _).1,
      (jumpLoop_end _ _ _ _).2,
      fun i j hi hj => (jumpLoop_next _ _ _ _ i he (Nat.le_of_lt hi)).1 j hj⟩

/-- Witness for C24: with events at positions 3 and `HPOS_MAX` only, the entry of
position 2 is 3. -/
theorem updateJumpTable_recurrence_witness :
    (updateBplJumpTable HPOS_MAX
      { agnus0 0 0 false with
        bplEvent := fun h => if h = 3 ∨ h = 0xE2 then 1 else 0 }).nextBplEvent 2 = 3 :=
  ((updateJumpTable_recurrence
      { agnus0 0 0 false with bplEvent := fun h => if h = 3 ∨ h = 0xE2 then 1 else 0 }
      HPOS_MAX (le_refl _)).1.1 2 (by decide)).trans (if_pos (by decide))

theorem exists_next_event (ev : Nat → Nat) (e i : Nat) (hi : i < e) (hev : ev e ≠ 0) :
    ∃ j, IsNextEvent ev e i j := by
  obtain ⟨s1, s2⟩ := firstEventFrom_spec ev (e - i) (i + 1)
  cases hf : firstEventFrom ev (e - i) (i + 1) with
  | some k =>
    obtain ⟨a1, a2, a3, a4⟩ := s1 k hf
    exact ⟨k, by omega, by omega, a3, fun m h1 h2 => a4 m (by omega) h2⟩
  | none => exact absurd (s2 hf e (by omega) (by omega)) hev

theorem jumpChain_zero (next : Nat → Nat) : ∀ fuel, jumpChain next fuel 0 = [] := by
  intro fuel
  cases fuel with
  | zero => rfl
  | succ n => simp only [jumpChain, if_true]

/-- From a populated position the chain of the jump table visits the populated
positions up to `e`, in increasing order. -/
theorem jumpChain_eq (ev next : Nat → Nat) (e : Nat)
    (hnext : ∀ i, i < e → IsNextEvent ev e i (next i)) (hend : next e = 0) :
    ∀ (fuel i : Nat), 1 ≤ i → i ≤ e → ev i ≠ 0 → e + 1 - i ≤ fuel →
      jumpChain next fuel i =
        (List.range' i (e + 1 - i)).filter (fun h => decide (ev h ≠ 0)) := by
  intro fuel
  induction fuel with
  | zero => intro i h1 h2 _ h4; omega
  | succ fuel ih =>
    intro i h1 h2 hev hf
    have hi0 : ¬ i = 0 := by omega
    rw [jumpChain, if_neg hi0]
    have e1 : e + 1 - i = (e - i) + 1 := by omega
    rw [e1, List.range'_succ, List.filter_cons_of_pos (by simpa using hev)]
    congr 1
    by_cases hie : i = e
    · have e2 : e - i = 0 := by omega
      rw [hie, hend, jumpChain_zero, Nat.sub_self]
      rfl
    · obtain ⟨b1, b2, b3, b4⟩ := hnext i (by omega)
      have e3 : e - i = (next i - i - 1) + (e + 1 - next i) := by omega
      have e4 : i + 1 + (next i - i - 1) = next i := by omega
      have hsplit : List.range' (i + 1) (e - i) =
          List.range' (i + 1) (next i - i - 1) ++ List.range' (next i) (e + 1 - next i) := by
        have h := List.range'_append_1 (i + 1) (next i - i - 1) (e + 1 - next i)
        have e5 : (e + 1 - next i) + (next i - i - 1) = e - i := by omega
        rw [e4, e5] at h
        exact h.symm
      rw [ih (next i) (by omega) b2 b3 (by omega), hsplit, List.filter_append]
      have hnil : (List.range' (i + 1) (next i - i - 1)).filter
          (fun h => decide (ev h ≠ 0)) = [] := by
        rw [List.filter_eq_nil_iff]
        intro m hm
        have := List.mem_range'_1.1 hm
        simp only [decide_eq_true_eq, not_not]
        exact b4 m (by omega) (by omega)
      rw [hnil, List.nil_append]

/-- The chain that starts at the entry of position 0 visits every populated
position above 0 up to `e`, in increasing order, and ends at `e`. -/
theorem jumpChain_from_zero (ev next : Nat → Nat) (e : Nat) (he : 0 < e)
    (hnext : ∀ i, i < e → IsNextEvent ev e i (next i)) (hend : next e = 0) :
    jumpChain next (e + 1) (next 0) =
      (List.range' 1 e).filter (fun h => decide (ev h ≠ 0)) ∧
    (jumpChain next (e + 1) (next 0)).getLast? = some e := by
  obtain ⟨b1, b2, b3, b4⟩ := hnext 0 he
  have hev : ev e ≠ 0 := by
    rcases Nat.lt_or_ge (e - 1) 0 with h | _
    · omega
    · obtain ⟨c1, c2, c3, -⟩ := hnext (e - 1) (by omega)
      have : next (e - 1) = e := by omega
      rw [this] at c3
      exact c3
  have hchain := jumpChain_eq ev next e hnext hend (e + 1) (next 0) (by omega) b2 b3 (by omega)
  have hsplit : List.range' 1 e =
      List.range' 1 (next 0 - 1) ++ List.range' (next 0) (e + 1 - next 0) := by
    have h := List.range'_append_1 1 (next 0 - 1) (e + 1 - next 0)
    have e4 : 1 + (next 0 - 1) = next 0 := by omega
    have e5 : (e + 1 - next 0) + (next 0 - 1) = e := by omega
    rw [e4, e5] at h
    exact h.symm
  have hnil : (List.range' 1 (next 0 - 1)).filter (fun h => decide (ev h ≠ 0)) = [] := by
    rw [List.filter_eq_nil_iff]
    intro m hm
    have := List.mem_range'_1.1 hm
    simp only [decide_eq_true_eq, not_not]
    exact b4 m (by omega) (by omega)
  have h1 : jumpChain next (e + 1) (next 0) =
      (List.range' 1 e).filter (fun h => decide (ev h ≠ 0)) := by
    rw [hchain, hsplit, List.filter_append, hnil, List.nil_append]
  refine ⟨h1, ?_⟩
  have e6 : e = (e - 1) + 1 := by omega
  have e7 : 1 + 1 * (e - 1) = e := by omega
  rw [h1]
  nth_rewrite 1 [e6]
  rw [List.range'_concat, e7, List.filter_append,
    List.filter_cons_of_pos (by simpa using hev), List.filter_nil, List.getLast?_concat]

/-- C25. The jump table points to the next event.  If `bplEvent[HPOS_MAX]` is not
`EVENT_NONE` and `nextBplEvent[HPOS_MAX] = 0`, then after
`updateBplJumpTable(HPOS_MAX)` every `i < HPOS_MAX` has `nextBplEvent[i]` equal to
the smallest `j > i` with `bplEvent[j] != EVENT_NONE`; `nextBplEvent[HPOS_MAX]` is
still 0; every entry is 0 or greater than its index; and the chain that starts at
`nextBplEvent[0]` visits exactly the populated positions above 0, in increasing
order, and ends at `HPOS_MAX`.  After `updateDasJumpTable(end)`, `end <= HPOS_MAX`,
every `i < end` has `nextDasEvent[i]` equal to the smallest populated position in
`i + 1 .. end` when there is one, and to the entry `nextDasEvent[end]` otherwise;
that entry is not changed (it is a `u8`). -/
theorem jumpTable_points_to_next_event (a : Agnus)
    (hev : a.bplEvent HPOS_MAX ≠ EVENT_NONE) (hnx : a.nextBplEvent HPOS_MAX = 0) :
    (∀ i, i < HPOS_MAX →
      IsNextEvent a.bplEvent HPOS_MAX i ((updateBplJumpTable HPOS_MAX a).nextBplEvent i)) ∧
    (updateBplJumpTable HPOS_MAX a).nextBplEvent HPOS_MAX = 0 ∧
    (∀ i, i ≤ HPOS_MAX →
      (updateBplJumpTable HPOS_MAX a).nextBplEvent i = 0 ∨
      i < (updateBplJumpTable HPOS_MAX a).nextBplEvent i) ∧
    jumpChain (updateBplJumpTable HPOS_MAX a).nextBplEvent HPOS_CNT
        ((updateBplJumpTable HPOS_MAX a).nextBplEvent 0) =
      (List.range' 1 HPOS_MAX).filter (fun h => decide (a.bplEvent h ≠ 0)) ∧
    (jumpChain (updateBplJumpTable HPOS_MAX a).nextBplEvent HPOS_CNT
        ((updateBplJumpTable HPOS_MAX a).nextBplEvent 0)).getLast? = some HPOS_MAX ∧
    (∀ endPos i, endPos ≤ HPOS_MAX → i < endPos →
      (∀ j, IsNextEvent a.dasEvent endPos i j →
        (updateDasJumpTable endPos a).nextDasEvent i = j) ∧
      ((∀ m, i < m → m ≤ endPos → a.dasEvent m = 0) →
        (updateDasJumpTable endPos a).nextDasEvent i = a.nextDasEvent endPos % 256) ∧
      (updateDasJumpTable endPos a).nextDasEvent endPos = a.nextDasEvent endPos % 256) := by
  have e : (updateBplJumpTable HPOS_MAX a).nextBplEvent =
      jumpLoop a.bplEvent HPOS_MAX 0 a.nextBplEvent := by
    have e0 : (updateBplJumpTable HPOS_MAX a).nextBplEvent =
        jumpLoop a.bplEvent HPOS_MAX (a.nextBplEvent HPOS_MAX % 256) a.nextBplEvent := by
      unfold updateBplJumpTable
      rw [if_pos (le_refl _)]
    rw [e0, hnx]
  have hmax : HPOS_MAX < 256 := by decide
  have hnext : ∀ i, i < HPOS_MAX →
      IsNextEvent a.bplEvent HPOS_MAX i (jumpLoop a.bplEvent HPOS_MAX 0 a.nextBplEvent i) := by
    intro i hi
    obtain ⟨j, hj⟩ := exists_next_event a.bplEvent HPOS_MAX i hi hev
    rw [(jumpLoop_next a.bplEvent HPOS_MAX 0 a.nextBplEvent i hmax (Nat.le_of_lt hi)).1 j hj]
    exact hj
  have hend := (jumpLoop_end a.bplEvent HPOS_MAX 0 a.nextBplEvent).1
  obtain ⟨c1, c2⟩ := jumpChain_from_zero a.bplEvent
    (jumpLoop a.bplEvent HPOS_MAX 0 a.nextBplEvent) HPOS_MAX (by decide) hnext hend
  rw [e]
  refine ⟨hnext, hend, ?_, c1, c2, ?_⟩
  · intro i hi
    by_cases hie : i = HPOS_MAX
    · rw [hie]
      exact Or.inl hend
    · exact Or.inr (hnext i (by omega)).1
  · intro endPos i hE hi
    have he : endPos < 256 := by unfold HPOS_MAX at hE; omega
    have e2 : (updateDasJumpTable endPos a).nextDasEvent =
        jumpLoop a.dasEvent endPos (a.nextDasEvent endPos % 256) a.nextDasEvent := by
      unfold updateDasJumpTable
      rw [if_pos hE]
    rw [e2]
    exact ⟨(jumpLoop_next _ _ _ _ i he (Nat.le_of_lt hi)).1,
      (jumpLoop_next _ _ _ _ i he (Nat.le_of_lt hi)).2, (jumpLoop_end _ _ _ _).1⟩

/-- Witness for C25: with events at positions 3 and `HPOS_MAX` only, the chain from
`nextBplEvent[0]` ends at `HPOS_MAX`. -/
theorem jumpTable_points_to_next_event_witness :
    (jumpChain (updateBplJumpTable HPOS_MAX
        { agnus0 0 0 false with
          bplEvent := fun h => if h = 3 ∨ h = 0xE2 then 1 else 0 }).nextBplEvent HPOS_CNT
      ((updateBplJumpTable HPOS_MAX
        { agnus0 0 0 false with
          bplEvent := fun h => if h = 3 ∨ h = 0xE2 then 1 else 0 }).nextBplEvent 0)).getLast? =
      some HPOS_MAX :=
  (jumpTable_points_to_next_event
    { agnus0 0 0 false with bplEvent := fun h => if h = 3 ∨ h = 0xE2 then 1 else 0 }
    (by decide) rfl).2.2.2.2.1

/-! ## Agnus: the bitplane event table of a line -/

/-- The frame relation is reflexive. -/
theorem sameLine_refl (a : Agnus) : SameLine a a := rfl

/-- The frame relation is transitive. -/
theorem sameLine_trans {a b c : Agnus} (hb : SameLine a b) (hc : SameLine b c) :
    SameLine a c := by
  unfold SameLine at hb hc ⊢
  have h1 : ({ b with bplEvent := c.bplEvent, failed := c.failed } : Agnus) =
      { ({ a with bplEvent := b.bplEvent, failed := b.failed } : Agnus) with
        bplEvent := c.bplEvent, failed := c.failed } :=
    congrArg (fun x : Agnus => ({ x with bplEvent := c.bplEvent, failed := c.failed } : Agnus)) hb
  exact hc.trans h1

theorem sameLine_poke (a : Agnus) (i id : Nat) : SameLine a (pokeBplEvent a i id) := rfl

theorem sameLine_foldl (f : Agnus → Nat → Agnus) (hf : ∀ a i, SameLine a (f a i)) :
    ∀ (l : List Nat) (a : Agnus), SameLine a (l.foldl f a) := by
  intro l
  induction l with
  | nil => intro a; exact sameLine_refl a
  | cons x l ih =>
    intro a
    rw [List.foldl_cons]
    exact sameLine_trans (hf a x) (ih (f a x))

theorem sameLine_allocateSlots (odd even : Agnus → Nat → Bool) (r ch first last : Nat)
    (a : Agnus) : SameLine a (allocateSlots odd even r ch first last a) :=
  sameLine_foldl _ (fun a i => sameLine_poke a i _) _ a

theorem sameLine_addShiftRegEvents (ops : BplOps) (mask lo hi : Nat) (a : Agnus) :
    SameLine a (addShiftRegEvents ops mask lo hi a) := by
  refine sameLine_foldl _ (fun a i => ?_) _ a
  dsimp only
  split_ifs
  · exact sameLine_poke a i _
  · exact sameLine_refl a

theorem sameLine_drawingFlagLoop (stride flag : Nat) :
    ∀ (fuel i : Nat) (a : Agnus), SameLine a (drawingFlagLoop stride flag fuel i a) := by
  intro fuel
  induction fuel with
  | zero => intro i a; exact sameLine_refl a
  | succ fuel ih =>
    intro i a
    rw [drawingFlagLoop]
    split_ifs
    · exact sameLine_trans (sameLine_poke a i _) (ih _ _)
    · exact sameLine_refl a

/-- The scroll values, the tables and the jump table of the frame are kept. -/
theorem sameLine_fields {a b : Agnus} (h : SameLine a b) :
    b.bplDMA = a.bplDMA ∧ b.nextBplEvent = a.nextBplEvent ∧
    b.scrollLoresOdd = a.scrollLoresOdd ∧ b.scrollLoresEven = a.scrollLoresEven ∧
    b.scrollHiresOdd = a.scrollHiresOdd ∧ b.scrollHiresEven = a.scrollHiresEven := by
  unfold SameLine at h
  have h1 := congrArg Agnus.bplDMA h
  have h2 := congrArg Agnus.nextBplEvent h
  have h3 := congrArg Agnus.scrollLoresOdd h
  have h4 := congrArg Agnus.scrollLoresEven h
  have h5 := congrArg Agnus.scrollHiresOdd h
  have h6 := congrArg Agnus.scrollHiresEven h
  exact ⟨h1, h2, h3, h4, h5, h6⟩

/-- The entries of the event table after the drawing flag loop that starts at
position `i`: the flag is added at the positions `i`, `i + stride`, ... below
`HPOS_CNT`. -/
theorem drawingFlagLoop_apply (stride flag : Nat) (hs : stride = 4 ∨ stride = 8) :
    ∀ (fuel i : Nat) (a : Agnus) (h : Nat), HPOS_CNT ≤ i + fuel →
      (drawingFlagLoop stride flag fuel i a).bplEvent h =
        a.bplEvent h ||| flagAt stride i flag h := by
  intro fuel
  induction fuel with
  | zero =>
    intro i a h hf
    have c : ¬ (i ≤ h ∧ h < HPOS_CNT ∧ (h - i) % stride = 0) := by omega
    simp only [drawingFlagLoop, flagAt, if_neg c, Nat.or_zero]
  | succ fuel ih =>
    intro i a h hf
    rw [drawingFlagLoop]
    by_cases hi : i < HPOS_CNT
    · rw [if_pos hi, ih (i + stride) _ h (by omega)]
      by_cases hh : h = i
      · subst hh
        have c1 : ¬ (h + stride ≤ h ∧ h < HPOS_CNT ∧ (h - (h + stride)) % stride = 0) := by
          omega
        have c2 : h ≤ h ∧ h < HPOS_CNT ∧ (h - h) % stride = 0 :=
          ⟨le_refl _, hi, by simp⟩
        simp only [flagAt, if_neg c1, if_pos c2, Nat.or_zero, pokeBplEvent, eq_self_iff_true,
          if_true]
      · have c : (i + stride ≤ h ∧ h < HPOS_CNT ∧ (h - (i + stride)) % stride = 0) ↔
            (i ≤ h ∧ h < HPOS_CNT ∧ (h - i) % stride = 0) := by
          rcases hs with hs | hs <;> subst hs <;> omega
        simp only [flagAt, c, pokeBplEvent, if_neg hh]
    · have c : ¬ (i ≤ h ∧ h < HPOS_CNT ∧ (h - i) % stride = 0) := by omega
      simp only [if_neg hi, flagAt, if_neg c, Nat.or_zero]

/-- The entries of the event table after the slot loop of `updateBplEvents` over
`n` positions from `first` on: a position of the range holds its table entry or
`EVENT_NONE`, the other positions are kept. -/
theorem allocateSlots_range (odd even : Agnus → Nat → Bool) (r ch first : Nat) (a : Agnus)
    (h : Nat) (f : Agnus → Nat → Agnus)
    (hf : f = fun a i => pokeBplEvent a i
      (if odd a i = true then a.bplDMA r ch i
       else if even a i = true then a.bplDMA r ch i
       else EVENT_NONE)) : ∀ n,
    (if first ≤ h ∧ h < first + n then
      ((List.range' first n).foldl f a).bplEvent h = a.bplDMA r ch h ∨
      ((List.range' first n).foldl f a).bplEvent h = EVENT_NONE
    else ((List.range' first n).foldl f a).bplEvent h = a.bplEvent h) := by
  intro n
  induction n with
  | zero =>
    have c : ¬ (first ≤ h ∧ h < first + 0) := by omega
    rw [if_neg c]
    rfl
  | succ n ih =>
    rw [List.range'_concat, List.foldl_append, List.foldl_cons, List.foldl_nil]
    have hD := (sameLine_fields (sameLine_foldl f
      (fun a i => by rw [hf]; exact sameLine_poke a i _) (List.range' first n) a)).1
    generalize List.foldl f a (List.range' first n) = A at ih hD ⊢
    by_cases hh : h = first + 1 * n
    · have c : first ≤ h ∧ h < first + (n + 1) := by omega
      rw [if_pos c, hf]
      simp only [pokeBplEvent, if_pos hh, hD]
      subst hh
      split_ifs
      · exact Or.inl rfl
      · exact Or.inl rfl
      · exact Or.inr rfl
    · have e : (f A (first + 1 * n)).bplEvent h = A.bplEvent h := by
        rw [hf]
        simp only [pokeBplEvent, if_neg hh]
      rw [e]
      by_cases c : first ≤ h ∧ h < first + n
      · have c2 : first ≤ h ∧ h < first + (n + 1) := by omega
        rw [if_pos c] at ih
        rw [if_pos c2]
        exact ih
      · have c2 : ¬ (first ≤ h ∧ h < first + (n + 1)) := by omega
        rw [if_neg c] at ih
        rw [if_neg c2]
        exact ih

/-- The entries of the event table after a shift register loop of
`updateBplEvents`: an entry is kept, or it was `EVENT_NONE`, its position has all
the bits of the mask, and it is `BPL_SR` now. -/
theorem addShiftRegEvents_range (ops : BplOps) (mask lo : Nat) (h : Nat)
    (f : Agnus → Nat → Agnus)
    (hf : f = fun a i =>
      if i &&& mask = mask ∧ a.bplEvent i = EVENT_NONE then pokeBplEvent a i ops.BPL_SR
      else a) :
    ∀ (n : Nat) (a : Agnus),
    ((List.range' lo n).foldl f a).bplEvent h = a.bplEvent h ∨
    (((List.range' lo n).foldl f a).bplEvent h = ops.BPL_SR ∧ h &&& mask = mask ∧
      a.bplEvent h = EVENT_NONE) := by
  intro n
  induction n with
  | zero => intro a; exact Or.inl rfl
  | succ n ih =>
    intro a
    rw [List.range'_concat, List.foldl_append, List.foldl_cons, List.foldl_nil]
    have ih := ih a
    generalize List.foldl f a (List.range' lo n) = A at ih ⊢
    by_cases c : (lo + 1 * n) &&& mask = mask ∧ A.bplEvent (lo + 1 * n) = EVENT_NONE
    · have e1 : f A (lo + 1 * n) = pokeBplEvent A (lo + 1 * n) ops.BPL_SR := by
        rw [hf]
        simp only [if_pos c]
      rw [e1]
      by_cases hh : h = lo + 1 * n
      · simp only [pokeBplEvent, if_pos hh]
        rw [← hh] at c
        rcases ih with e | e
        · exact Or.inr ⟨trivial, c.1, e ▸ c.2⟩
        · exact Or.inr ⟨trivial, c.1, e.2.2⟩
      · simp only [pokeBplEvent, if_neg hh]
        exact ih
    · have e1 : f A (lo + 1 * n) = A := by
        rw [hf]
        simp only [if_neg c]
      rw [e1]
      exact ih

theorem sameLine_assert (c : Prop) [Decidable c] (x : AgnusAssertion) (a : Agnus) :
    SameLine a (if c then a else { a with failed := x :: a.failed }) := by
  split_ifs
  · exact sameLine_refl a
  · rfl

/-- The entries of the event table after the slot loop over the whole line and the
two shift register loops of `updateBplEvents`. -/
theorem slots_block (ops : BplOps) (r mask ch : Nat) (odd even : Agnus → Nat → Bool)
    (a a0 : Agnus) (hD : a.bplDMA = a0.bplDMA) (h : Nat) (hh : h ≤ HPOS_MAX)
    (lo1 hi1 lo2 hi2 : Nat) :
    (addShiftRegEvents ops mask lo2 hi2 (addShiftRegEvents ops mask lo1 hi1
        (allocateSlots odd even r ch 0 HPOS_MAX a))).bplEvent h = a0.bplDMA r ch h ∨
    (addShiftRegEvents ops mask lo2 hi2 (addShiftRegEvents ops mask lo1 hi1
        (allocateSlots odd even r ch 0 HPOS_MAX a))).bplEvent h = EVENT_NONE ∨
    ((addShiftRegEvents ops mask lo2 hi2 (addShiftRegEvents ops mask lo1 hi1
        (allocateSlots odd even r ch 0 HPOS_MAX a))).bplEvent h = ops.BPL_SR ∧
      h &&& mask = mask) := by
  have h1 := allocateSlots_range odd even r ch 0 a h _ rfl (HPOS_MAX + 1 - 0)
  have c : 0 ≤ h ∧ h < 0 + (HPOS_MAX + 1 - 0) := by
    unfold HPOS_MAX at hh ⊢
    omega
  rw [if_pos c, hD] at h1
  have e1 : allocateSlots odd even r ch 0 HPOS_MAX a =
      (List.range' 0 (HPOS_MAX + 1 - 0)).foldl (fun a i => pokeBplEvent a i
        (if odd a i = true then a.bplDMA r ch i
         else if even a i = true then a.bplDMA r ch i
         else EVENT_NONE)) a := rfl
  rw [← e1] at h1
  generalize allocateSlots odd even r ch 0 HPOS_MAX a = A at h1 ⊢
  have h2 := addShiftRegEvents_range ops mask lo1 h _ rfl (hi1 - lo1) A
  have e2 : addShiftRegEvents ops mask lo1 hi1 A =
      (List.range' lo1 (hi1 - lo1)).foldl (fun a i =>
        if i &&& mask = mask ∧ a.bplEvent i = EVENT_NONE then pokeBplEvent a i ops.BPL_SR
        else a) A := rfl
  rw [← e2] at h2
  generalize addShiftRegEvents ops mask lo1 hi1 A = B at h2 ⊢
  have h3 := addShiftRegEvents_range ops mask lo2 h _ rfl (hi2 - lo2) B
  have e3 : addShiftRegEvents ops mask lo2 hi2 B =
      (List.range' lo2 (hi2 - lo2)).foldl (fun a i =>
        if i &&& mask = mask ∧ a.bplEvent i = EVENT_NONE then pokeBplEvent a i ops.BPL_SR
        else a) B := rfl
  rw [← e3] at h3
  generalize addShiftRegEvents ops mask lo2 hi2 B = C at h3 ⊢
  rcases h3 with h3 | ⟨h3, h3m, -⟩
  · rcases h2 with h2 | ⟨h2, h2m, -⟩
    · rw [h3, h2]
      rcases h1 with h1 | h1
      · exact Or.inl h1
      · exact Or.inr (Or.inl h1)
    · rw [h3]
      exact Or.inr (Or.inr ⟨h2, h2m⟩)
  · exact Or.inr (Or.inr ⟨h3, h3m⟩)

/-- The part of `updateBplEvents` before the drawing flags changes the event table
of the line and the list of failed assertions only. -/
theorem sameLine_updateBplEventsSlots (ops : BplOps) (ids : BplEventIds)
    (dmacon bplcon0 first last : Nat) (a : Agnus) :
    SameLine a (updateBplEventsSlots ops ids dmacon bplcon0 first last a) := by
  unfold updateBplEventsSlots
  dsimp only
  refine sameLine_trans ?_ (sameLine_poke _ _ _)
  have h1 := sameLine_assert (last < HPOS_CNT) .bplRangeInLine a
  generalize (if last < HPOS_CNT then a
    else { a with failed := AgnusAssertion.bplRangeInLine :: a.failed }) = a1 at h1 ⊢
  generalize (if ops.inBplDmaLine a1 dmacon bplcon0 = true then ops.bpu bplcon0 else 0) = ch
  have h2 := sameLine_assert (ch ≤ 6) .channelsBelow7 a1
  generalize (if ch ≤ 6 then a1
    else { a1 with failed := AgnusAssertion.channelsBelow7 :: a1.failed }) = a2 at h2 ⊢
  refine sameLine_trans (sameLine_trans h1 h2) ?_
  split_ifs
  · exact sameLine_trans (sameLine_trans (sameLine_allocateSlots _ _ _ _ _ _ _)
      (sameLine_addShiftRegEvents _ _ _ _ _)) (sameLine_addShiftRegEvents _ _ _ _ _)
  · exact sameLine_trans (sameLine_trans (sameLine_allocateSlots _ _ _ _ _ _ _)
      (sameLine_addShiftRegEvents _ _ _ _ _)) (sameLine_addShiftRegEvents _ _ _ _ _)

/-- The entry of `HPOS_MAX` before the drawing flags is `BPL_EOL`. -/
theorem updateBplEventsSlots_end (ops : BplOps) (ids : BplEventIds)
    (dmacon bplcon0 first last : Nat) (a : Agnus) :
    (updateBplEventsSlots ops ids dmacon bplcon0 first last a).bplEvent HPOS_MAX =
      ids.BPL_EOL := by
  unfold updateBplEventsSlots
  simp only [pokeBplEvent, if_true]

/-- The entries below `HPOS_MAX` of a full line before the drawing flags: the entry
of the table for a number of channels that is the BPU value or 0, or `EVENT_NONE`,
or `BPL_SR` at a position with all the bits of the mask 3 (hires) or 7 (lores). -/
theorem updateBplEventsSlots_apply (ops : BplOps) (ids : BplEventIds)
    (dmacon bplcon0 : Nat) (a : Agnus) (h : Nat) (hh : h < HPOS_MAX) :
    ∃ c, (c = ops.bpu bplcon0 ∨ c = 0) ∧
      ((updateBplEventsSlots ops ids dmacon bplcon0 0 HPOS_MAX a).bplEvent h =
          a.bplDMA (if ops.hires bplcon0 = true then 1 else 0) c h ∨
        (updateBplEventsSlots ops ids dmacon bplcon0 0 HPOS_MAX a).bplEvent h = EVENT_NONE ∨
        ((updateBplEventsSlots ops ids dmacon bplcon0 0 HPOS_MAX a).bplEvent h = ops.BPL_SR ∧
          h &&& (if ops.hires bplcon0 = true then 3 else 7) =
            (if ops.hires bplcon0 = true then 3 else 7))) := by
  have hne : ¬ h = HPOS_MAX := by omega
  have hlt : HPOS_MAX < HPOS_CNT := by decide
  unfold updateBplEventsSlots
  simp only [pokeBplEvent, if_neg hne, if_pos hlt]
  refine ⟨if ops.inBplDmaLine a dmacon bplcon0 = true then ops.bpu bplcon0 else 0, ?_, ?_⟩
  rotate_left
  · cases ops.hires bplcon0
    · simp only [Bool.false_eq_true, if_false]
      refine slots_block ops 0 7 _ _ _ _ a ?_ h (Nat.le_of_lt hh) _ _ _ _
      split_ifs <;> rfl
    · simp only [if_true]
      refine slots_block ops 1 3 _ _ _ _ a ?_ h (Nat.le_of_lt hh) _ _ _ _
      split_ifs <;> rfl
  · split_ifs
    · exact Or.inl rfl
    · exact Or.inr rfl

theorem assert_bplEvent (c : Prop) [Decidable c] (x : AgnusAssertion) (a : Agnus) :
    (if c then a else { a with failed := x :: a.failed }).bplEvent = a.bplEvent := by
  split_ifs <;> rfl

/-- `verifyBplEvents` changes the list of failed assertions only. -/
theorem verifyBplEvents_tables (ids : BplEventIds) (a : Agnus) :
    (verifyBplEvents ids a).bplEvent = a.bplEvent ∧
    (verifyBplEvents ids a).nextBplEvent = a.nextBplEvent := by
  unfold verifyBplEvents
  dsimp only
  split_ifs <;> exact ⟨rfl, rfl⟩

/-- The event table and the jump table after `updateDrawingFlags`: the flag of the
odd planes and the flag of the even planes are added to the entries, and the jump
table is that of the loop of `updateBplJumpTable` from `HPOS_MAX` down. -/
theorem updateDrawingFlags_tables (hires : Bool) (a : Agnus) :
    (∀ h, (updateDrawingFlags hires a).bplEvent h =
      (a.bplEvent h |||
        flagAt (if hires = true then 4 else 8)
          (if hires = true then a.scrollHiresOdd else a.scrollLoresOdd) 1 h) |||
        flagAt (if hires = true then 4 else 8)
          (if hires = true then a.scrollHiresEven else a.scrollLoresEven) 2 h) ∧
    (updateDrawingFlags hires a).nextBplEvent =
      jumpLoop (updateDrawingFlags hires a).bplEvent HPOS_MAX
        (a.nextBplEvent HPOS_MAX % 256) a.nextBplEvent := by
  unfold updateDrawingFlags
  dsimp only
  have h1 := sameLine_assert (a.scrollHiresEven < 8) .scrollHiresEvenBelow8 a
  have e1 := assert_bplEvent (a.scrollHiresEven < 8) .scrollHiresEvenBelow8 a
  generalize (if a.scrollHiresEven < 8 then a
    else { a with failed := AgnusAssertion.scrollHiresEvenBelow8 :: a.failed }) = a1
    at h1 e1 ⊢
  have h2 := sameLine_assert (a1.scrollHiresOdd < 8) .scrollHiresOddBelow8 a1
  have e2 := assert_bplEvent (a1.scrollHiresOdd < 8) .scrollHiresOddBelow8 a1
  generalize (if a1.scrollHiresOdd < 8 then a1
    else { a1 with failed := AgnusAssertion.scrollHiresOddBelow8 :: a1.failed }) = a2
    at h2 e2 ⊢
  have h3 := sameLine_assert (a2.scrollLoresEven < 8) .scrollLoresEvenBelow8 a2
  have e3 := assert_bplEvent (a2.scrollLoresEven < 8) .scrollLoresEvenBelow8 a2
  generalize (if a2.scrollLoresEven < 8 then a2
    else { a2 with failed := AgnusAssertion.scrollLoresEvenBelow8 :: a2.failed }) = a3
    at h3 e3 ⊢
  have h4 := sameLine_assert (a3.scrollHiresOdd < 8) .scrollHiresOddBelow8b a3
  have e4 := assert_bplEvent (a3.scrollHiresOdd < 8) .scrollHiresOddBelow8b a3
  generalize (if a3.scrollHiresOdd < 8 then a3
    else { a3 with failed := AgnusAssertion.scrollHiresOddBelow8b :: a3.failed }) = a4
    at h4 e4 ⊢
  have hS : SameLine a a4 := sameLine_trans (sameLine_trans (sameLine_trans h1 h2) h3) h4
  have hE : a4.bplEvent = a.bplEvent := by rw [e4, e3, e2, e1]
  obtain ⟨-, f2, f3, f4, f5, f6⟩ := sameLine_fields hS
  have hmax : updateBplJumpTableDefaultEnd ≤ HPOS_MAX := le_refl _
  cases hires
  · simp only [Bool.false_eq_true, if_false]
    have g1 := sameLine_drawingFlagLoop 8 1 HPOS_CNT a4.scrollLoresOdd a4
    have k1 := fun h => drawingFlagLoop_apply 8 1 (Or.inr rfl) HPOS_CNT a4.scrollLoresOdd a4 h
      (Nat.le_add_left _ _)
    generalize drawingFlagLoop 8 1 HPOS_CNT a4.scrollLoresOdd a4 = b1 at g1 k1 ⊢
    have g2 := sameLine_drawingFlagLoop 8 2 HPOS_CNT b1.scrollLoresEven b1
    have k2 := fun h => drawingFlagLoop_apply 8 2 (Or.inr rfl) HPOS_CNT b1.scrollLoresEven b1 h
      (Nat.le_add_left _ _)
    generalize drawingFlagLoop 8 2 HPOS_CNT b1.scrollLoresEven b1 = b2 at g2 k2 ⊢
    obtain ⟨-, m2, m3, m4, m5, m6⟩ := sameLine_fields g1
    obtain ⟨-, n2, -, -, -, -⟩ := sameLine_fields g2
    unfold updateBplJumpTable
    simp only [if_pos hmax]
    refine ⟨fun h => ?_, ?_⟩
    · rw [k2 h, k1 h, hE, m4, f4, f3]
    · rw [n2, m2, f2]
      rfl
  · simp only [if_true]
    have g1 := sameLine_drawingFlagLoop 4 1 HPOS_CNT a4.scrollHiresOdd a4
    have k1 := fun h => drawingFlagLoop_apply 4 1 (Or.inl rfl) HPOS_CNT a4.scrollHiresOdd a4 h
      (Nat.le_add_left _ _)
    generalize drawingFlagLoop 4 1 HPOS_CNT a4.scrollHiresOdd a4 = b1 at g1 k1 ⊢
    have g2 := sameLine_drawingFlagLoop 4 2 HPOS_CNT b1.scrollHiresEven b1
    have k2 := fun h => drawingFlagLoop_apply 4 2 (Or.inl rfl) HPOS_CNT b1.scrollHiresEven b1 h
      (Nat.le_add_left _ _)
    generalize drawingFlagLoop 4 2 HPOS_CNT b1.scrollHiresEven b1 = b2 at g2 k2 ⊢
    obtain ⟨-, m2, m3, m4, m5, m6⟩ := sameLine_fields g1
    obtain ⟨-, n2, -, -, -, -⟩ := sameLine_fields g2
    unfold updateBplJumpTable
    simp only [if_pos hmax]
    refine ⟨fun h => ?_, ?_⟩
    · rw [k2 h, k1 h, hE, m6, f6, f5]
    · rw [n2, m2, f2]
      rfl

/-- The event table and the jump table after `updateBplEvents`, from the event
table before the drawing flags. -/
theorem updateBplEvents_tables (ops : BplOps) (ids : BplEventIds)
    (dmacon bplcon0 first last : Nat) (a : Agnus) :
    (∀ h, (updateBplEvents ops ids dmacon bplcon0 first last a).bplEvent h =
      ((updateBplEventsSlots ops ids dmacon bplcon0 first last a).bplEvent h |||
        flagAt (if ops.hires bplcon0 = true then 4 else 8)
          (if ops.hires bplcon0 = true then a.scrollHiresOdd else a.scrollLoresOdd) 1 h) |||
        flagAt (if ops.hires bplcon0 = true then 4 else 8)
          (if ops.hires bplcon0 = true then a.scrollHiresEven else a.scrollLoresEven) 2 h) ∧
    (updateBplEvents ops ids dmacon bplcon0 first last a).nextBplEvent =
      jumpLoop (updateBplEvents ops ids dmacon bplcon0 first last a).bplEvent HPOS_MAX
        (a.nextBplEvent HPOS_MAX % 256) a.nextBplEvent := by
  obtain ⟨-, f2, f3, f4, f5, f6⟩ :=
    sameLine_fields (sameLine_updateBplEventsSlots ops ids dmacon bplcon0 first last a)
  obtain ⟨t1, t2⟩ := updateDrawingFlags_tables (ops.hires bplcon0)
    (updateBplEventsSlots ops ids dmacon bplcon0 first last a)
  obtain ⟨v1, v2⟩ := verifyBplEvents_tables ids (updateDrawingFlags (ops.hires bplcon0)
    (updateBplEventsSlots ops ids dmacon bplcon0 first last a))
  unfold updateBplEvents
  rw [v1, v2]
  refine ⟨fun h => ?_, ?_⟩
  · rw [t1 h, f3, f4, f5, f6]
  · rw [t2, f2]

theorem or_div4 (x f : Nat) (hf : f < 4) : (x ||| f) / 4 = x / 4 := by
  have e : ∀ y, y / 4 = y >>> 2 := fun y => (Nat.shiftRight_eq_div_pow y 2).symm
  rw [e, e]
  apply Nat.eq_of_testBit_eq
  intro j
  have h4 : 4 ≤ 2 ^ (2 + j) := by
    calc 4 = 2 ^ 2 := rfl
      _ ≤ 2 ^ (2 + j) := Nat.pow_le_pow_right (by decide) (by omega)
  rw [Nat.testBit_shiftRight, Nat.testBit_shiftRight, Nat.testBit_or,
    Nat.testBit_lt_two_pow (lt_of_lt_of_le hf h4), Bool.or_false]

theorem or_flags_add (x f1 f2 : Nat) (hx : x % 4 = 0) (h1 : f1 = 0 ∨ f1 = 1)
    (h2 : f2 = 0 ∨ f2 = 2) : (x ||| f1) ||| f2 = x + f1 + f2 := by
  have e : x = 2 ^ 2 * (x / 4) := by omega
  have e12 : f1 ||| f2 = f1 + f2 := by
    rcases h1 with h1 | h1 <;> rcases h2 with h2 | h2 <;> subst h1 <;> subst h2 <;> rfl
  have lt : f1 + f2 < 2 ^ 2 := by
    rcases h1 with h1 | h1 <;> rcases h2 with h2 | h2 <;> subst h1 <;> subst h2 <;> decide
  rw [Nat.or_assoc, e12]
  have := Nat.mul_add_lt_is_or lt (x / 4)
  rw [← e] at this
  omega

theorem flagAt_cases (stride scroll flag h : Nat) :
    flagAt stride scroll flag h = 0 ∨ flagAt stride scroll flag h = flag := by
  unfold flagAt
  split_ifs
  · exact Or.inr rfl
  · exact Or.inl rfl

/-- The drawing flag is superimposed exactly at the positions `scroll + k * stride`
below `HPOS_CNT`. -/
theorem flagAt_iff (stride scroll flag h : Nat) (hs : stride = 4 ∨ stride = 8)
    (hf : flag ≠ 0) (hh : h < HPOS_CNT) :
    flagAt stride scroll flag h = flag ↔ ∃ k, h = scroll + k * stride := by
  unfold flagAt
  constructor
  · intro hfl
    by_cases c : scroll ≤ h ∧ h < HPOS_CNT ∧ (h - scroll) % stride = 0
    · refine ⟨(h - scroll) / stride, ?_⟩
      rcases hs with hs | hs <;> subst hs <;> omega
    · rw [if_neg c] at hfl
      exact absurd hfl.symm hf
  · rintro ⟨k, hk⟩
    have c : scroll ≤ h ∧ h < HPOS_CNT ∧ (h - scroll) % stride = 0 := by
      refine ⟨by omega, hh, ?_⟩
      have : h - scroll = k * stride := by omega
      rw [this]
      exact Nat.mul_mod_left _ _
    rw [if_pos c]

/-- The flag at position `HPOS_MAX` for a scroll value in 0..7. -/
theorem flagAt_end (stride scroll flag : Nat) (hs : stride = 4 ∨ stride = 8)
    (hsc : scroll < 8) :
    flagAt stride scroll flag HPOS_MAX = if scroll % stride = 2 then flag else 0 := by
  unfold flagAt HPOS_MAX HPOS_CNT
  have c : (scroll ≤ 0xE2 ∧ 0xE2 < 0xE3 ∧ (0xE2 - scroll) % stride = 0) ↔
      scroll % stride = 2 := by
    rcases hs with hs | hs <;> subst hs <;> omega
  simp only [c]

/-- The smallest populated position above `i` is the first event from `i + 1`. -/
theorem firstEventFrom_of_next (ev : Nat → Nat) (e i j : Nat) (h : IsNextEvent ev e i j) :
    firstEventFrom ev (e - i) (i + 1) = some j := by
  obtain ⟨s1, s2⟩ := firstEventFrom_spec ev (e - i) (i + 1)
  obtain ⟨b1, b2, b3, b4⟩ := h
  cases hf : firstEventFrom ev (e - i) (i + 1) with
  | some k =>
    obtain ⟨a1, a2, a3, a4⟩ := s1 k hf
    have hkj : k = j := by
      by_contra hne
      rcases Nat.lt_or_gt_of_ne hne with hlt | hgt
      · exact a3 (b4 k (by omega) hlt)
      · exact b3 (a4 j (by omega) hgt)
    rw [hkj]
  | none => exact absurd (s2 hf j (by omega) (by omega)) b3

/-- The entries of both bitplane tables of the example Agnus have their two low
bits clear. -/
theorem agnus4_table (so se r c h : Nat) (hr : r ≤ 1) (hc : c ≤ 6) :
    (agnus4 so se).bplDMA r c h % 4 = 0 := by
  obtain ⟨hL, -, -⟩ := initBplEventTable_apply ids4 0 (loresSwitch ids4) (loresSwitch_bound ids4)
    (agnus0 0 0 false)
  obtain ⟨hH, hH2, -⟩ := initBplEventTable_apply ids4 1 (hiresSwitch ids4) (hiresSwitch_bound ids4)
    (initBplEventTableLores ids4 (agnus0 0 0 false))
  have hc7 : c < 7 := by omega
  have ho : h % 8 < 8 := Nat.mod_lt _ (by decide)
  have e : (agnus4 so se).bplDMA =
      (initBplEventTableHires ids4 (initBplEventTableLores ids4 (agnus0 0 0 false))).bplDMA := rfl
  rw [e]
  rcases Nat.lt_or_ge r 1 with h0 | h1
  · have hr0 : r = 0 := by omega
    subst hr0
    unfold initBplEventTableHires
    rw [hH2 0 c h (by decide)]
    unfold initBplEventTableLores
    rw [hL c h hc7]
    split_ifs
    · rfl
    · generalize h % 8 = off at ho
      interval_cases c <;> interval_cases off <;> rfl
    · rfl
  · have hr1 : r = 1 := by omega
    subst hr1
    unfold initBplEventTableHires
    rw [hH c h hc7]
    split_ifs
    · rfl
    · generalize h % 8 = off at ho
      interval_cases c <;> interval_cases off <;> rfl
    · rfl

set_option maxRecDepth 100000

/-- C22, counterexample.  In a lores line with the odd planes scrolled by 2, the
loop of `updateDrawingFlags` visits the positions 2, 10, ..., 0xE2 and sets bit 0
of `bplEvent[HPOS_MAX]`: with `BPL_EOL = 44`, whose two low bits are clear (as the
assertion of `verifyBplEvents` requires), the entry is 45 after `updateBplEvents`
and not `BPL_EOL`.  All scroll values are in 0..7. -/
theorem updateBplEvents_end_of_line_flagged :
    (agnus4 2 0).scrollLoresOdd < 8 ∧ (agnus4 2 0).scrollLoresEven < 8 ∧
    (agnus4 2 0).scrollHiresOdd < 8 ∧ (agnus4 2 0).scrollHiresEven < 8 ∧
    ids4.BPL_EOL = 44 ∧
    (updateBplEvents bplOps4 ids4 0 0 0 HPOS_MAX (agnus4 2 0)).bplEvent HPOS_MAX = 45 ∧
    (updateBplEvents bplOps4 ids4 0 0 0 HPOS_MAX (agnus4 2 0)).bplEvent HPOS_MAX ≠
      ids4.BPL_EOL := by
  decide

/-- C22 (amended).  After every call of `updateBplEvents`, for all DMACON and
BPLCON0 values, all ranges and all scroll values in 0..7, the entry
`bplEvent[HPOS_MAX]` is `BPL_EOL` with the drawing flags of position `HPOS_MAX`
superimposed: in lores bit 0 is set in addition if `scrollLoresOdd = 2` and bit 1
if `scrollLoresEven = 2`, in hires bit 0 if `scrollHiresOdd` is 2 or 6 and bit 1 if
`scrollHiresEven` is 2 or 6.  So the bits above bit 1 are always those of
`BPL_EOL`, and if the two low bits of `BPL_EOL` are clear, the entry equals
`BPL_EOL` exactly when neither scroll value has the remainder 2 (modulo 8 in
lores, modulo 4 in hires). -/
theorem updateBplEvents_end_of_line (ops : BplOps) (ids : BplEventIds)
    (dmacon bplcon0 first last : Nat) (a : Agnus)
    (hs : a.scrollLoresOdd < 8 ∧ a.scrollLoresEven < 8 ∧
      a.scrollHiresOdd < 8 ∧ a.scrollHiresEven < 8) :
    (ops.hires bplcon0 = false →
      (updateBplEvents ops ids dmacon bplcon0 first last a).bplEvent HPOS_MAX =
        (ids.BPL_EOL ||| (if a.scrollLoresOdd = 2 then 1 else 0)) |||
          (if a.scrollLoresEven = 2 then 2 else 0)) ∧
    (ops.hires bplcon0 = true →
      (updateBplEvents ops ids dmacon bplcon0 first last a).bplEvent HPOS_MAX =
        (ids.BPL_EOL ||| (if a.scrollHiresOdd % 4 = 2 then 1 else 0)) |||
          (if a.scrollHiresEven % 4 = 2 then 2 else 0)) ∧
    (updateBplEvents ops ids dmacon bplcon0 first last a).bplEvent HPOS_MAX / 4 =
      ids.BPL_EOL / 4 ∧
    (ids.BPL_EOL % 4 = 0 →
      ((updateBplEvents ops ids dmacon bplcon0 first last a).bplEvent HPOS_MAX =
          ids.BPL_EOL ↔
        if ops.hires bplcon0 = true then
          a.scrollHiresOdd % 4 ≠ 2 ∧ a.scrollHiresEven % 4 ≠ 2
        else a.scrollLoresOdd ≠ 2 ∧ a.scrollLoresEven ≠ 2)) := by
  obtain ⟨s1, s2, s3, s4⟩ := hs
  have hT := (updateBplEvents_tables ops ids dmacon bplcon0 first last a).1 HPOS_MAX
  rw [updateBplEventsSlots_end] at hT
  have m1 : a.scrollLoresOdd % 8 = 2 ↔ a.scrollLoresOdd = 2 := by omega
  have m2 : a.scrollLoresEven % 8 = 2 ↔ a.scrollLoresEven = 2 := by omega
  have hL : ops.hires bplcon0 = false →
      (updateBplEvents ops ids dmacon bplcon0 first last a).bplEvent HPOS_MAX =
        (ids.BPL_EOL ||| (if a.scrollLoresOdd = 2 then 1 else 0)) |||
          (if a.scrollLoresEven = 2 then 2 else 0) := by
    intro hh
    rw [hT, hh]
    simp only [Bool.false_eq_true, if_false]
    rw [flagAt_end 8 _ 1 (Or.inr rfl) s1, flagAt_end 8 _ 2 (Or.inr rfl) s2]
    simp only [m1, m2]
  have hH : ops.hires bplcon0 = true →
      (updateBplEvents ops ids dmacon bplcon0 first last a).bplEvent HPOS_MAX =
        (ids.BPL_EOL ||| (if a.scrollHiresOdd % 4 = 2 then 1 else 0)) |||
          (if a.scrollHiresEven % 4 = 2 then 2 else 0) := by
    intro hh
    rw [hT, hh]
    simp only [if_true]
    rw [flagAt_end 4 _ 1 (Or.inl rfl) s3, flagAt_end 4 _ 2 (Or.inl rfl) s4]
  refine ⟨hL, hH, ?_, ?_⟩
  · rw [hT, or_div4, or_div4]
    · rcases flagAt_cases (if ops.hires bplcon0 = true then 4 else 8)
        (if ops.hires bplcon0 = true then a.scrollHiresOdd else a.scrollLoresOdd) 1 HPOS_MAX
        with h | h <;> rw [h] <;> decide
    · rcases flagAt_cases (if ops.hires bplcon0 = true then 4 else 8)
        (if ops.hires bplcon0 = true then a.scrollHiresEven else a.scrollLoresEven) 2 HPOS_MAX
        with h | h <;> rw [h] <;> decide
  · intro hE
    cases hh : ops.hires bplcon0
    · rw [hL hh]
      simp only [Bool.false_eq_true, if_false]
      by_cases c1 : a.scrollLoresOdd = 2 <;> by_cases c2 : a.scrollLoresEven = 2
      · simp only [if_pos c1, if_pos c2]
        rw [or_flags_add _ 1 2 hE (Or.inr rfl) (Or.inr rfl)]
        constructor
        · intro h; omega
        · intro h; exact absurd c1 h.1
      · simp only [if_pos c1, if_neg c2]
        rw [or_flags_add _ 1 0 hE (Or.inr rfl) (Or.inl rfl)]
        constructor
        · intro h; omega
        · intro h; exact absurd c1 h.1
      · simp only [if_neg c1, if_pos c2]
        rw [or_flags_add _ 0 2 hE (Or.inl rfl) (Or.inr rfl)]
        constructor
        · intro h; omega
        · intro h; exact absurd c2 h.2
      · simp only [if_neg c1, if_neg c2]
        rw [or_flags_add _ 0 0 hE (Or.inl rfl) (Or.inl rfl)]
        exact ⟨fun _ => ⟨c1, c2⟩, fun _ => rfl⟩
    · rw [hH hh]
      simp only [if_true]
      by_cases c1 : a.scrollHiresOdd % 4 = 2 <;> by_cases c2 : a.scrollHiresEven % 4 = 2
      · simp only [if_pos c1, if_pos c2]
        rw [or_flags_add _ 1 2 hE (Or.inr rfl) (Or.inr rfl)]
        constructor
        · intro h; omega
        · intro h; exact absurd c1 h.1
      · simp only [if_pos c1, if_neg c2]
        rw [or_flags_add _ 1 0 hE (Or.inr rfl) (Or.inl rfl)]
        constructor
        · intro h; omega
        · intro h; exact absurd c1 h.1
      · simp only [if_neg c1, if_pos c2]
        rw [or_flags_add _ 0 2 hE (Or.inl rfl) (Or.inr rfl)]
        constructor
        · intro h; omega
        · intro h; exact absurd c2 h.2
      · simp only [if_neg c1, if_neg c2]
        rw [or_flags_add _ 0 0 hE (Or.inl rfl) (Or.inl rfl)]
        exact ⟨fun _ => ⟨c1, c2⟩, fun _ => rfl⟩

/-- Witness for C22 (amended): in a lores line with both scroll values 3 the entry
of `HPOS_MAX` has the bits above bit 1 of `BPL_EOL`. -/
theorem updateBplEvents_end_of_line_witness :
    ((agnus4 3 3).scrollLoresOdd < 8 ∧ (agnus4 3 3).scrollLoresEven < 8 ∧
      (agnus4 3 3).scrollHiresOdd < 8 ∧ (agnus4 3 3).scrollHiresEven < 8) ∧
    (updateBplEvents bplOps4 ids4 0 0 0 HPOS_MAX (agnus4 3 3)).bplEvent HPOS_MAX / 4 =
      ids4.BPL_EOL / 4 :=
  ⟨by decide, (updateBplEvents_end_of_line bplOps4 ids4 0 0 0 HPOS_MAX (agnus4 3 3)
    (by decide)).2.2.1⟩

/-- The entries of a full line before the drawing flags have their two low bits
clear, if the table entries, `BPL_SR` and `BPL_EOL` have. -/
theorem updateBplEventsSlots_low_bits (ops : BplOps) (ids : BplEventIds)
    (dmacon bplcon0 : Nat) (a : Agnus)
    (hT : ∀ r c h, r ≤ 1 → c ≤ 6 → h ≤ HPOS_MAX → a.bplDMA r c h % 4 = 0)
    (hbpu : ops.bpu bplcon0 ≤ 6) (hSR : ops.BPL_SR % 4 = 0) (hEOL : ids.BPL_EOL % 4 = 0)
    (h : Nat) (hh : h < HPOS_CNT) :
    (updateBplEventsSlots ops ids dmacon bplcon0 0 HPOS_MAX a).bplEvent h % 4 = 0 := by
  by_cases he : h = HPOS_MAX
  · rw [he, updateBplEventsSlots_end]
    exact hEOL
  · have hlt : h < HPOS_MAX := by
      unfold HPOS_CNT at hh
      unfold HPOS_MAX at he ⊢
      omega
    obtain ⟨c, hc, hv⟩ := updateBplEventsSlots_apply ops ids dmacon bplcon0 a h hlt
    have hc6 : c ≤ 6 := by
      rcases hc with hc | hc <;> omega
    have hr : (if ops.hires bplcon0 = true then 1 else 0) ≤ 1 := by
      split_ifs <;> omega
    rcases hv with hv | hv | ⟨hv, -⟩
    · rw [hv]
      exact hT _ c h hr hc6 (Nat.le_of_lt hlt)
    · rw [hv]
      rfl
    · rw [hv]
      exact hSR

/-- C23. Drawing-flag overlay.  Assume that the bitplane event ids have their two
low bits clear: the entries of the tables `bplDMA[0..1][0..6][0..HPOS_MAX]`,
`BPL_SR` and `BPL_EOL`; the BPU value is at most 6.  After the full-line
`updateBplEvents(dmacon, bplcon0, 0, HPOS_MAX)`, for every `h < HPOS_CNT`: bit 0
of `bplEvent[h]` is set exactly if `h = scrollOdd + k * stride` for some `k >= 0`,
and bit 1 exactly if `h = scrollEven + k * stride`, with stride 4 and the hires
scroll values in hires mode and stride 8 and the lores scroll values in lores
mode; the bits above bit 1 are those of the event assigned before the overlay,
whose two low bits are clear. -/
theorem updateBplEvents_drawing_flags (ops : BplOps) (ids : BplEventIds)
    (dmacon bplcon0 : Nat) (a : Agnus)
    (hT : ∀ r c h, r ≤ 1 → c ≤ 6 → h ≤ HPOS_MAX → a.bplDMA r c h % 4 = 0)
    (hbpu : ops.bpu bplcon0 ≤ 6) (hSR : ops.BPL_SR % 4 = 0) (hEOL : ids.BPL_EOL % 4 = 0)
    (h : Nat) (hh : h < HPOS_CNT) :
    (Nat.testBit ((updateBplEvents ops ids dmacon bplcon0 0 HPOS_MAX a).bplEvent h) 0 = true ↔
      ∃ k, h = (if ops.hires bplcon0 = true then a.scrollHiresOdd else a.scrollLoresOdd) +
        k * (if ops.hires bplcon0 = true then 4 else 8)) ∧
    (Nat.testBit ((updateBplEvents ops ids dmacon bplcon0 0 HPOS_MAX a).bplEvent h) 1 = true ↔
      ∃ k, h = (if ops.hires bplcon0 = true then a.scrollHiresEven else a.scrollLoresEven) +
        k * (if ops.hires bplcon0 = true then 4 else 8)) ∧
    (updateBplEvents ops ids dmacon bplcon0 0 HPOS_MAX a).bplEvent h / 4 =
      (updateBplEventsSlots ops ids dmacon bplcon0 0 HPOS_MAX a).bplEvent h / 4 ∧
    (updateBplEventsSlots ops ids dmacon bplcon0 0 HPOS_MAX a).bplEvent h % 4 = 0 := by
  have hlow := updateBplEventsSlots_low_bits ops ids dmacon bplcon0 a hT hbpu hSR hEOL h hh
  have hR := (updateBplEvents_tables ops ids dmacon bplcon0 0 HPOS_MAX a).1 h
  have hs : (if ops.hires bplcon0 = true then 4 else 8) = 4 ∨
      (if ops.hires bplcon0 = true then 4 else 8) = 8 := by
    split_ifs
    · exact Or.inl rfl
    · exact Or.inr rfl
  have i1 := flagAt_iff (if ops.hires bplcon0 = true then 4 else 8)
    (if ops.hires bplcon0 = true then a.scrollHiresOdd else a.scrollLoresOdd) 1 h hs
    (by decide) hh
  have i2 := flagAt_iff (if ops.hires bplcon0 = true then 4 else 8)
    (if ops.hires bplcon0 = true then a.scrollHiresEven else a.scrollLoresEven) 2 h hs
    (by decide) hh
  have c1 := flagAt_cases (if ops.hires bplcon0 = true then 4 else 8)
    (if ops.hires bplcon0 = true then a.scrollHiresOdd else a.scrollLoresOdd) 1 h
  have c2 := flagAt_cases (if ops.hires bplcon0 = true then 4 else 8)
    (if ops.hires bplcon0 = true then a.scrollHiresEven else a.scrollLoresEven) 2 h
  rw [← i1, ← i2, hR, or_flags_add _ _ _ hlow c1 c2]
  generalize flagAt (if ops.hires bplcon0 = true then 4 else 8)
    (if ops.hires bplcon0 = true then a.scrollHiresOdd else a.scrollLoresOdd) 1 h = f1 at c1 ⊢
  generalize flagAt (if ops.hires bplcon0 = true then 4 else 8)
    (if ops.hires bplcon0 = true then a.scrollHiresEven else a.scrollLoresEven) 2 h = f2 at c2 ⊢
  generalize (updateBplEventsSlots ops ids dmacon bplcon0 0 HPOS_MAX a).bplEvent h = x at hlow ⊢
  refine ⟨?_, ?_, ?_, hlow⟩
  · rw [Nat.testBit_zero, decide_eq_true_iff]
    omega
  · rw [Nat.testBit_to_div_mod, decide_eq_true_iff]
    omega
  · omega

/-- Witness for C23: a lores line with two bitplanes, the odd planes scrolled by 3
and the even planes by 5; `bplEvent[0x3B]` is `BPL_L2` with bit 0 set, and
`0x3B = 3 + 7 * 8`. -/
theorem updateBplEvents_drawing_flags_witness :
    (updateBplEvents bplOps4 ids4 0 0 0 HPOS_MAX (agnus4 3 5)).bplEvent 0x3B =
      ids4.BPL_L2 + 1 ∧
    (Nat.testBit ((updateBplEvents bplOps4 ids4 0 0 0 HPOS_MAX (agnus4 3 5)).bplEvent 0x3B) 0 =
      true ↔
    ∃ k, 0x3B = (if bplOps4.hires 0 = true then (agnus4 3 5).scrollHiresOdd
        else (agnus4 3 5).scrollLoresOdd) +
      k * (if bplOps4.hires 0 = true then 4 else 8)) :=
  ⟨by decide, (updateBplEvents_drawing_flags bplOps4 ids4 0 0 (agnus4 3 5)
    (fun r c h hr hc _ => agnus4_table 3 5 r c h hr hc) (by decide) (by decide) (by decide)
    0x3B (by decide)).1⟩

theorem or_eq_zero (x y : Nat) (h : x ||| y = 0) : x = 0 ∧ y = 0 := by
  have hx : ∀ i, (x ||| y).testBit i = false := by
    intro i
    rw [h]
    exact Nat.zero_testBit i
  constructor
  · apply Nat.eq_of_testBit_eq
    intro i
    have := hx i
    rw [Nat.testBit_or, Bool.or_eq_false_iff] at this
    rw [this.1, Nat.zero_testBit]
  · apply Nat.eq_of_testBit_eq
    intro i
    have := hx i
    rw [Nat.testBit_or, Bool.or_eq_false_iff] at this
    rw [this.2, Nat.zero_testBit]

/-- C26, counterexample.  A lores line with two bitplanes and both scroll values 0
(all entries of the table row at the positions below 0x38 are outside the DMA
area): the loops of `updateDrawingFlags` visit the positions 0, 8, 16, ... and set
both flags there, so `bplEvent[0]` is 3 and not `EVENT_NONE`, and position 0 is
the smallest populated position; `nextBplEvent[0]` is 8. -/
theorem updateBplEvents_first_jump_skips_zero :
    bplOps4.bpu 0 = 2 ∧ bplOps4.hires 0 = false ∧
    (updateBplEvents bplOps4 ids4 0 0 0 HPOS_MAX (agnus4 0 0)).bplEvent 0 = 3 ∧
    (updateBplEvents bplOps4 ids4 0 0 0 HPOS_MAX (agnus4 0 0)).bplEvent 0 ≠ EVENT_NONE ∧
    firstEventFrom (updateBplEvents bplOps4 ids4 0 0 0 HPOS_MAX (agnus4 0 0)).bplEvent
      HPOS_CNT 0 = some 0 ∧
    (updateBplEvents bplOps4 ids4 0 0 0 HPOS_MAX (agnus4 0 0)).nextBplEvent 0 = 8 := by
  decide

/-- C26 (amended).  After a full-line `updateBplEvents` (any resolution, any BPU
value, every DDF window and every scroll value), with `BPL_EOL` different from
`EVENT_NONE`: `nextBplEvent[0]` is the smallest position `h >= 1` at which
`bplEvent[h]` is not `EVENT_NONE`.  The smallest populated position of all is 0 if
`bplEvent[0]` is not `EVENT_NONE`, and `nextBplEvent[0]` otherwise; `bplEvent[0]`
is `EVENT_NONE` exactly if the event assigned to position 0 before the drawing
flags is `EVENT_NONE` and neither scroll value of the resolution is 0; the event
assigned to position 0 is `EVENT_NONE` if the table entries of position 0 are, as
in the lores table. -/
theorem updateBplEvents_first_jump (ops : BplOps) (ids : BplEventIds)
    (dmacon bplcon0 : Nat) (a : Agnus) (hEOL : ids.BPL_EOL ≠ EVENT_NONE) :
    IsNextEvent (updateBplEvents ops ids dmacon bplcon0 0 HPOS_MAX a).bplEvent HPOS_MAX 0
      ((updateBplEvents ops ids dmacon bplcon0 0 HPOS_MAX a).nextBplEvent 0) ∧
    firstEventFrom (updateBplEvents ops ids dmacon bplcon0 0 HPOS_MAX a).bplEvent HPOS_CNT 0 =
      some (if (updateBplEvents ops ids dmacon bplcon0 0 HPOS_MAX a).bplEvent 0 ≠ EVENT_NONE
        then 0 else (updateBplEvents ops ids dmacon bplcon0 0 HPOS_MAX a).nextBplEvent 0) ∧
    ((updateBplEvents ops ids dmacon bplcon0 0 HPOS_MAX a).bplEvent 0 = EVENT_NONE ↔
      (updateBplEventsSlots ops ids dmacon bplcon0 0 HPOS_MAX a).bplEvent 0 = EVENT_NONE ∧
      (if ops.hires bplcon0 = true then a.scrollHiresOdd else a.scrollLoresOdd) ≠ 0 ∧
      (if ops.hires bplcon0 = true then a.scrollHiresEven else a.scrollLoresEven) ≠ 0) ∧
    ((∀ c, a.bplDMA (if ops.hires bplcon0 = true then 1 else 0) c 0 = EVENT_NONE) →
      (updateBplEventsSlots ops ids dmacon bplcon0 0 HPOS_MAX a).bplEvent 0 = EVENT_NONE) := by
  obtain ⟨hR, hN⟩ := updateBplEvents_tables ops ids dmacon bplcon0 0 HPOS_MAX a
  have hEnd : (updateBplEvents ops ids dmacon bplcon0 0 HPOS_MAX a).bplEvent HPOS_MAX ≠ 0 := by
    rw [hR, updateBplEventsSlots_end]
    intro h0
    have h1 := or_eq_zero _ _ h0
    have h2 := or_eq_zero _ _ h1.1
    exact hEOL h2.1
  obtain ⟨j, hj⟩ := exists_next_event _ HPOS_MAX 0 (by decide) hEnd
  have hJ : (updateBplEvents ops ids dmacon bplcon0 0 HPOS_MAX a).nextBplEvent 0 = j := by
    rw [hN]
    exact (jumpLoop_next _ HPOS_MAX _ _ 0 (by decide) (Nat.zero_le _)).1 j hj
  have hF := firstEventFrom_of_next _ HPOS_MAX 0 j hj
  have hs : (if ops.hires bplcon0 = true then 4 else 8) = 4 ∨
      (if ops.hires bplcon0 = true then 4 else 8) = 8 := by
    split_ifs
    · exact Or.inl rfl
    · exact Or.inr rfl
  have z : ∀ scroll flag, flag ≠ 0 →
      (flagAt (if ops.hires bplcon0 = true then 4 else 8) scroll flag 0 = 0 ↔ scroll ≠ 0) := by
    intro scroll flag hfl
    unfold flagAt HPOS_CNT
    by_cases c : scroll = 0
    · subst c
      simp only [le_refl, Nat.sub_self, Nat.zero_mod, true_and, ne_eq, not_true_eq_false,
        iff_false]
      have : (0 : Nat) < 0xE3 := by decide
      simp only [this, and_self, if_true]
      exact hfl
    · have c2 : ¬ (scroll ≤ 0 ∧ 0 < 0xE3 ∧
          (0 - scroll) % (if ops.hires bplcon0 = true then 4 else 8) = 0) := by omega
      simp only [if_neg c2, ne_eq, c, not_false_eq_true]
  refine ⟨hJ ▸ hj, ?_, ?_, ?_⟩
  · have e : HPOS_CNT = (HPOS_MAX - 0) + 1 := by decide
    rw [e, firstEventFrom, hF, hJ]
    unfold EVENT_NONE
    split_ifs <;> rfl
  · rw [hR 0]
    constructor
    · intro h0
      have h1 := or_eq_zero _ _ h0
      have h2 := or_eq_zero _ _ h1.1
      exact ⟨h2.1, (z _ 1 (by decide)).1 h2.2, (z _ 2 (by decide)).1 h1.2⟩
    · rintro ⟨g1, g2, g3⟩
      rw [g1, (z _ 1 (by decide)).2 g2, (z _ 2 (by decide)).2 g3]
      rfl
  · intro hz
    obtain ⟨c, -, hv⟩ := updateBplEventsSlots_apply ops ids dmacon bplcon0 a 0 (by decide)
    rcases hv with hv | hv | ⟨-, hm⟩
    · rw [hv]
      exact hz c
    · exact hv
    · exfalso
      rw [Nat.zero_and] at hm
      split_ifs at hm

/-- Witness for C26 (amended): a lores line with two bitplanes, the odd planes
scrolled by 3 and the even planes by 5; `bplEvent[0]` is `EVENT_NONE`, the smallest
populated position is 3 and `nextBplEvent[0]` is 3. -/
theorem updateBplEvents_first_jump_witness :
    (updateBplEvents bplOps4 ids4 0 0 0 HPOS_MAX (agnus4 3 5)).nextBplEvent 0 = 3 ∧
    firstEventFrom (updateBplEvents bplOps4 ids4 0 0 0 HPOS_MAX (agnus4 3 5)).bplEvent
        HPOS_CNT 0 =
      some (if (updateBplEvents bplOps4 ids4 0 0 0 HPOS_MAX (agnus4 3 5)).bplEvent 0 ≠
          EVENT_NONE
        then 0
        else (updateBplEvents bplOps4 ids4 0 0 0 HPOS_MAX (agnus4 3 5)).nextBplEvent 0) :=
  ⟨by decide, (updateBplEvents_first_jump bplOps4 ids4 0 0 (agnus4 3 5) (by decide)).2.1⟩


/-! ## The FIFO is first-in first-out -/

/-- The FIFO after the bytes `bs` have been written to it, while they fit: the
fill level grows by the number of bytes, the bytes held are the old ones followed
by `bs`, and no assertion fails. -/
theorem writeFifo_foldl :
    ∀ (bs : List Nat) (s : Amiga D), s.fifoCount + bs.length ≤ 6 → (∀ b ∈ bs, b < 256) →
      (bs.foldl writeFifo s).fifoCount = s.fifoCount + bs.length ∧
      fifoBytes (bs.foldl writeFifo s).fifo (s.fifoCount + bs.length) =
        fifoBytes s.fifo s.fifoCount ++ bs ∧
      (bs.foldl writeFifo s).failed = s.failed := by
  intro bs
  induction bs with
  | nil =>
    intro s _ _
    simp only [List.foldl_nil, List.length_nil, Nat.add_zero, List.append_nil, and_self]
  | cons b bs ih =>
    intro s hl hb
    simp only [List.length_cons] at hl
    have hc : s.fifoCount ≤ 6 := by omega
    have h5 : ¬ s.fifoCount = 6 := by omega
    have hp : pushCount s.fifoCount = s.fifoCount + 1 := by
      rw [pushCount_le _ hc, if_neg h5]
    have hb0 : b < 256 := hb b (List.mem_cons_self _ _)
    have e1 : (writeFifo s b).fifoCount = s.fifoCount + 1 := by
      rw [writeFifo_eq]
      exact hp
    have e2 : (writeFifo s b).fifo = pushBits s.fifo b := by
      rw [writeFifo_eq]
    have e3 : (writeFifo s b).failed = s.failed := by
      rw [writeFifo_eq]
      simp only [hc, decide_True, if_true]
    obtain ⟨i1, i2, i3⟩ := ih (writeFifo s b) (by rw [e1]; omega)
      (fun x hx => hb x (List.mem_cons_of_mem _ hx))
    rw [List.foldl_cons, List.length_cons]
    have e4 : s.fifoCount + (bs.length + 1) = s.fifoCount + 1 + bs.length := by omega
    refine ⟨?_, ?_, ?_⟩
    · rw [i1, e1]
      omega
    · rw [e4, ← e1, i2, e1, e2, fifoBytes_push _ _ hb0 _ hc, List.append_assoc]
      rfl
    · rw [i3, e3]

/-- Reading a FIFO of `n` bytes empty returns the bytes it holds, oldest first; the
shift register is not changed and no assertion fails. -/
theorem readFifoN_eq :
    ∀ (n : Nat) (s : Amiga D), s.fifoCount = n → n ≤ 255 →
      (readFifoN n s).1 = fifoBytes s.fifo n ∧
      (readFifoN n s).2.fifoCount = 0 ∧
      (readFifoN n s).2.fifo = s.fifo ∧
      (readFifoN n s).2.failed = s.failed := by
  intro n
  induction n with
  | zero =>
    intro s h0 _
    exact ⟨rfl, h0, rfl, rfl⟩
  | succ n ih =>
    intro s hc hn
    have hm : (s.fifoCount + 255) % 256 = n := by omega
    have hpos : 0 < s.fifoCount := by omega
    have e : readFifo s = ((s.fifo >>> (8 * n)) &&& 0xFF, { s with fifoCount := n }) := by
      rw [readFifo_eq, hm]
      simp only [hpos, decide_True, if_true]
    obtain ⟨i1, i2, i3, i4⟩ := ih { s with fifoCount := n } rfl (by omega)
    simp only [readFifoN, e]
    exact ⟨by rw [i1]; rfl, i2, i3, i4⟩

/-- C33. The disk FIFO is first-in first-out.  Starting from an empty FIFO
(`fifoCount = 0`, whatever bits are left in the shift register), for every `k <= 6`
and bytes `b1 .. bk`: after `k` calls of `writeFifo` the fill level is `k`, and `k`
calls of `readFifo` return `b1, ..., bk` in that order and leave `fifoCount = 0`;
no assertion fails. -/
theorem fifo_first_in_first_out (s : Amiga D) (bs : List Nat) (h0 : s.fifoCount = 0)
    (hk : bs.length ≤ 6) (hb : ∀ b ∈ bs, b < 256) :
    (bs.foldl writeFifo s).fifoCount = bs.length ∧
    (readFifoN bs.length (bs.foldl writeFifo s)).1 = bs ∧
    (readFifoN bs.length (bs.foldl writeFifo s)).2.fifoCount = 0 ∧
    (readFifoN bs.length (bs.foldl writeFifo s)).2.failed = s.failed := by
  obtain ⟨w1, w2, w3⟩ := writeFifo_foldl bs s (by omega) hb
  rw [h0, Nat.zero_add] at w1 w2
  obtain ⟨r1, r2, -, r4⟩ := readFifoN_eq bs.length (bs.foldl writeFifo s) w1 (by omega)
  refine ⟨w1, ?_, r2, by rw [r4, w3]⟩
  rw [r1, w2]
  rfl

/-- Witness for C33: six bytes go through a FIFO whose shift register still holds
old bits. -/
theorem fifo_first_in_first_out_witness :
    (readFifoN 6 ([1, 2, 3, 4, 5, 6].foldl writeFifo
      { amiga0 (tapeDrive []) with fifo := 0xFFFFFFFFFFFFFFFF, fifoCount := 0 })).1 =
      [1, 2, 3, 4, 5, 6] :=
  (fifo_first_in_first_out
    { amiga0 (tapeDrive []) with fifo := 0xFFFFFFFFFFFFFFFF, fifoCount := 0 }
    [1, 2, 3, 4, 5, 6] rfl (by decide) (by decide)).2.1

/-- C34. For every FIFO with `fifoCount >= 2` (`fifoCount` is a `uint8_t`),
`readFifo16` returns the two oldest bytes as one word, the older byte in the high
half: the value is `(b1 << 8) | b2` for the results `b1`, `b2` of two successive
`readFifo` calls, and the machine after `readFifo16` is the machine after the two
byte reads. -/
theorem readFifo16_two_bytes (s : Amiga D) (h2 : 2 ≤ s.fifoCount) (h8 : s.fifoCount < 256) :
    (readFifo16 s).1 = ((readFifo s).1 <<< 8) ||| (readFifo (readFifo s).2).1 ∧
    (readFifo16 s).2 = (readFifo (readFifo s).2).2 := by
  obtain ⟨c, hc⟩ : ∃ c, s.fifoCount = c + 2 := ⟨s.fifoCount - 2, by omega⟩
  have m1 : (s.fifoCount + 255) % 256 = c + 1 := by omega
  have m2 : (s.fifoCount + 254) % 256 = c := by omega
  have m3 : (c + 1 + 255) % 256 = c := by omega
  have p1 : 0 < s.fifoCount := by omega
  have p2 : 0 < c + 1 := by omega
  have e1 : readFifo s = ((s.fifo >>> (8 * (c + 1))) &&& 0xFF, { s with fifoCount := c + 1 }) := by
    rw [readFifo_eq, m1]
    simp only [p1, decide_True, if_true]
  have e2 : readFifo { s with fifoCount := c + 1 } =
      ((s.fifo >>> (8 * c)) &&& 0xFF, { s with fifoCount := c }) := by
    rw [readFifo_eq]
    simp only [m3, p2, decide_True, if_true]
  have e3 : readFifo16 s = ((s.fifo >>> (8 * c)) &&& 0xFFFF, { s with fifoCount := c }) := by
    rw [readFifo16_eq, m2]
    simp only [h2, decide_True, if_true]
  rw [e3, e1]
  simp only [e2]
  refine ⟨?_, trivial⟩
  have hlt : (s.fifo >>> (8 * c)) &&& 0xFF < 256 := by
    rw [and_FF]
    omega
  rw [shl8_or _ _ hlt, and_FF, and_FF, and_FFFF, Nat.shiftRight_eq_div_pow,
    Nat.shiftRight_eq_div_pow]
  have e8 : 2 ^ (8 * (c + 1)) = 2 ^ (8 * c) * 256 := by
    rw [Nat.mul_add, pow_add]
    norm_num
  rw [e8, ← Nat.div_div_eq_div_mul]
  generalize s.fifo / 2 ^ (8 * c) = y
  omega

/-- Witness for C34: the FIFO 11 22 33 yields the word 0x1122. -/
theorem readFifo16_two_bytes_witness :
    (readFifo16 { amiga0 (tapeDrive []) with fifo := 0x112233, fifoCount := 3 }).1 = 0x1122 ∧
    (readFifo16 { amiga0 (tapeDrive []) with fifo := 0x112233, fifoCount := 3 }).2 =
      (readFifo (readFifo
        { amiga0 (tapeDrive []) with fifo := 0x112233, fifoCount := 3 }).2).2 :=
  ⟨by decide, (readFifo16_two_bytes
    { amiga0 (tapeDrive []) with fifo := 0x112233, fifoCount := 3 } (by decide) (by decide)).2⟩

/-! ## The assertions of the DMA loops -/

/-- No assertion about the FIFO fill level is among the failed assertions of a
sound machine. -/
theorem fifoSound_not_mem (s : Amiga D) (h : fifoSound s) (a : Assertion)
    (ha : Assertion.isFifo a = true) : a ∉ s.failed := by
  intro hm
  have := h.2 a hm
  rw [ha] at this
  exact Bool.noConfusion this

/-- C35. The assertions inside the multi-word DMA loops never fail.  Let drive `i`
be selected, the FIFO hold at most 6 bytes and no assertion about the fill level
have failed so far.  In state READ with at least two bytes in the FIFO (the fill
levels with which `performDMARead` enters its loop): after a word has been moved
and `executeFifo` has run twice, `fifoHasWord()` is true, and for every drive speed
`k` and every number of passes neither `assert(fifoHasWord())` nor the assertions
of `readFifo16` and `writeFifo` fail in `performDMARead`.  In state WRITE with at
most four bytes in the FIFO (the fill levels with which `performDMAWrite` enters
its loop): after a word has been moved and `executeFifo` has run twice,
`fifoCanStoreWord()` is true, that is `fifoCount <= 4` before the next pair of
`writeFifo` calls, and for every `k` and every number of passes none of
`assert(fifoCanStoreWord())`, `assert(fifoCount <= 4)` and the assertions of
`writeFifo` and `readFifo` fails in `performDMAWrite`. -/
theorem dmaLoop_assertions_hold (env : Env) (ops : DriveOps D) (s : Amiga D) (i k : Nat)
    (hs : fifoSound s) (hsel : (getSelectedDrive s).1 = some i) :
    (s.state = .DRIVE_DMA_READ → 2 ≤ s.fifoCount →
      fifoHasWord (executeFifo ops (executeFifo ops (dmaReadWord env s))) = true ∧
      (∀ fuel, Assertion.dmaReadHasWord ∉ (performDMAReadLoop env ops fuel k s).failed ∧
        Assertion.readFifo16HasWord ∉ (performDMAReadLoop env ops fuel k s).failed ∧
        Assertion.writeFifoCount ∉ (performDMAReadLoop env ops fuel k s).failed) ∧
      Assertion.dmaReadHasWord ∉ (performDMARead env ops s k).failed ∧
      Assertion.readFifo16HasWord ∉ (performDMARead env ops s k).failed ∧
      Assertion.writeFifoCount ∉ (performDMARead env ops s k).failed) ∧
    (s.state = .DRIVE_DMA_WRITE → s.fifoCount ≤ 4 →
      fifoCanStoreWord (executeFifo ops (executeFifo ops (dmaWriteWord env s))) = true ∧
      (∀ fuel, Assertion.dmaWriteCanStore ∉ (performDMAWriteLoop env ops i fuel k s).failed ∧
        Assertion.dmaWriteCount4 ∉ (performDMAWriteLoop env ops i fuel k s).failed ∧
        Assertion.writeFifoCount ∉ (performDMAWriteLoop env ops i fuel k s).failed ∧
        Assertion.readFifoNonEmpty ∉ (performDMAWriteLoop env ops i fuel k s).failed) ∧
      Assertion.dmaWriteCanStore ∉ (performDMAWrite env ops s i k).failed ∧
      Assertion.dmaWriteCount4 ∉ (performDMAWrite env ops s i k).failed ∧
      Assertion.writeFifoCount ∉ (performDMAWrite env ops s i k).failed ∧
      Assertion.readFifoNonEmpty ∉ (performDMAWrite env ops s i k).failed) := by
  constructor
  · intro hst h2
    have h6 := hs.1
    have hXc : (dmaReadWord env s).fifoCount = s.fifoCount - 2 := by
      rw [dmaReadWord_eq]
      show (s.fifoCount + 254) % 256 = _
      omega
    have hXst : (dmaReadWord env s).state = .DRIVE_DMA_READ := by
      rw [dmaReadWord_eq]
      exact hst
    have hXsel : (getSelectedDrive (dmaReadWord env s)).1 = some i :=
      (getSelectedDrive_fst_congr s (dmaReadWord env s) (by rw [dmaReadWord_eq])).trans hsel
    have e1 := executeFifo_READ ops _ i hXsel hXst (by omega)
    have hsel1 : (getSelectedDrive (executeFifo ops (dmaReadWord env s))).1 = some i :=
      (getSelectedDrive_fst_congr _ _ e1.2.1).trans hXsel
    have e2 := executeFifo_READ ops _ i hsel1 e1.1 (by rw [e1.2.2.1]; omega)
    have hYc := e2.2.2.1
    rw [e1.2.2.1] at hYc
    have hL := fun fuel => performDMAReadLoop_sound env ops i fuel k s hs h2 hst hsel
    have hR : fifoSound (performDMARead env ops s k) := by
      unfold performDMARead
      split_ifs
      · exact hs
      · exact hL _
    refine ⟨?_, fun fuel => ⟨?_, ?_, ?_⟩, ?_, ?_, ?_⟩
    · simp only [fifoHasWord, decide_eq_true_eq]
      omega
    · exact fifoSound_not_mem _ (hL fuel) _ rfl
    · exact fifoSound_not_mem _ (hL fuel) _ rfl
    · exact fifoSound_not_mem _ (hL fuel) _ rfl
    · exact fifoSound_not_mem _ hR _ rfl
    · exact fifoSound_not_mem _ hR _ rfl
    · exact fifoSound_not_mem _ hR _ rfl
  · intro hst h4
    have hX := dmaWriteWord_sound env s hs h4
    have hXc : (dmaWriteWord env s).fifoCount = s.fifoCount + 2 := by
      rw [dmaWriteWord_eq env s h4]
    have hXst : (dmaWriteWord env s).state = .DRIVE_DMA_WRITE := by
      rw [dmaWriteWord_eq env s h4]
      exact hst
    have hXsel : (getSelectedDrive (dmaWriteWord env s)).1 = some i :=
      (getSelectedDrive_fst_congr s (dmaWriteWord env s)
        (by rw [dmaWriteWord_eq env s h4])).trans hsel
    have e1 := executeFifo_WRITE ops _ i hXsel hXst (by omega) hX.1
    have hsel1 : (getSelectedDrive (executeFifo ops (dmaWriteWord env s))).1 = some i :=
      (getSelectedDrive_fst_congr _ _ e1.2.1).trans hXsel
    have hc1 := e1.2.2.1
    rw [hXc] at hc1
    have e2 := executeFifo_WRITE ops _ i hsel1 e1.1 (by omega) (by omega)
    have hYc := e2.2.2.1
    rw [hc1] at hYc
    have hL := fun fuel => performDMAWriteLoop_sound env ops i fuel k s hs h4 hst hsel
    have hW : fifoSound (performDMAWrite env ops s i k) := by
      unfold performDMAWrite
      split_ifs
      · exact hs
      · exact hL _
    refine ⟨?_, fun fuel => ⟨?_, ?_, ?_, ?_⟩, ?_, ?_, ?_, ?_⟩
    · simp only [fifoCanStoreWord, decide_eq_true_eq]
      omega
    · exact fifoSound_not_mem _ (hL fuel) _ rfl
    · exact fifoSound_not_mem _ (hL fuel) _ rfl
    · exact fifoSound_not_mem _ (hL fuel) _ rfl
    · exact fifoSound_not_mem _ (hL fuel) _ rfl
    · exact fifoSound_not_mem _ hW _ rfl
    · exact fifoSound_not_mem _ hW _ rfl
    · exact fifoSound_not_mem _ hW _ rfl
    · exact fifoSound_not_mem _ hW _ rfl

/-- Witness for C35: a read DMA at drive speed 3 from a FIFO of three bytes fails
no assertion of the loop. -/
theorem dmaLoop_assertions_hold_witness :
    Assertion.dmaReadHasWord ∉
      (performDMARead env0 tapeOps
        { amiga0 { tapeDrive [1, 2, 3, 4, 5, 6] with speed := 3 } with
          state := .DRIVE_DMA_READ, fifo := 0xAABBCC, fifoCount := 3, dsklen := 0x8005 }
        3).failed :=
  ((dmaLoop_assertions_hold env0 tapeOps
      { amiga0 { tapeDrive [1, 2, 3, 4, 5, 6] with speed := 3 } with
        state := .DRIVE_DMA_READ, fifo := 0xAABBCC, fifoCount := 3, dsklen := 0x8005 }
      0 3 ⟨by decide, fun a ha => absurd ha (List.not_mem_nil a)⟩ rfl).1 rfl
    (by decide)).2.2.1

/-! ## The DMA state and the stored DSKLEN -/

theorem stateStep_refl (a : DriveState) : stateStep a a := Or.inl rfl

theorem stateStep_trans {a b c : DriveState} (h1 : stateStep a b) (h2 : stateStep b c) :
    stateStep a c := by
  unfold stateStep at *
  rcases h2 with h2 | h2 | ⟨h2, h3⟩
  · rw [h2]
    exact h1
  · exact Or.inr (Or.inl h2)
  · rcases h1 with h1 | h1 | ⟨h1, -⟩
    · rw [h1] at h2
      exact Or.inr (Or.inr ⟨h2, h3⟩)
    · exact absurd h1 h2
    · exact Or.inr (Or.inr ⟨h1, h3⟩)

/-- A step that keeps DSKLEN but for a decrement of its counter, and that changes
the state as `stateStep` allows, keeps the state in agreement with DSKLEN. -/
theorem dsklenAgrees_step (s t : Amiga D) (h : dsklenAgrees s)
    (hst : stateStep s.state t.state)
    (hlen : ∃ k, k ≤ s.dsklen &&& 0x3FFF ∧ t.dsklen = s.dsklen - k) : dsklenAgrees t := by
  obtain ⟨k, hk, hl⟩ := hlen
  obtain ⟨b15, b14, -⟩ := sub_keeps_bits s.dsklen k hk
  obtain ⟨h1, h2, h3, h4⟩ := h
  unfold dsklenAgrees
  rw [hl, b15, b14]
  unfold stateStep at hst
  refine ⟨by omega, fun hne => ?_, fun hw => ?_, fun hf => ?_⟩
  · rcases hst with e | e | ⟨e, -⟩
    · exact h2 (e ▸ hne)
    · exact absurd e hne
    · exact h2 e
  · rcases hst with e | e | ⟨-, e⟩
    · exact h3 (e ▸ hw)
    · rw [hw] at e
      exact DriveState.noConfusion e
    · rw [hw] at e
      exact DriveState.noConfusion e
  · rcases hst with e | e | ⟨-, e⟩
    · exact h4 (e ▸ hf)
    · rw [hf] at e
      exact DriveState.noConfusion e
    · rw [hf] at e
      exact DriveState.noConfusion e

theorem dsklenAgrees_reset (s : Amiga D) : dsklenAgrees (reset s) := by
  simp [dsklenAgrees, reset, resetSnapshotItems]

theorem dsklenAgrees_pokeDSKLEN (env : Env) (ops : DriveOps D) (s : Amiga D) (v : Nat)
    (h : dsklenAgrees s) (hv : v < 65536) : dsklenAgrees (pokeDSKLEN env ops s v) := by
  rw [pokeDSKLEN_eq]
  have hL : dsklenAgrees (dsklenLatched env ops s v) := by
    obtain ⟨h1, h2, h3, h4⟩ := h
    have hlen : (dsklenLatched env ops s v).dsklen = v := rfl
    have hstate : (dsklenLatched env ops s v).state = dsklenTarget s v := rfl
    unfold dsklenAgrees
    rw [hlen, hstate]
    unfold dsklenTarget
    by_cases c1 : v &&& 0x8000 = 0
    · simp only [if_pos c1]
      exact ⟨hv, fun x => absurd rfl x, fun x => DriveState.noConfusion x,
        fun x => DriveState.noConfusion x⟩
    · simp only [if_neg c1]
      by_cases c2 : s.dsklen &&& v &&& 0x8000 ≠ 0
      · simp only [if_pos c2]
        by_cases c3 : s.dsklen &&& v &&& 0x4000 ≠ 0
        · simp only [if_pos c3]
          exact ⟨hv, fun _ => c1, fun _ => ((and_and_4000 _ _).1 c3).2,
            fun x => DriveState.noConfusion x⟩
        · simp only [if_neg c3]
          by_cases c4 : GET_BIT s.adkcon 10 = true
          · simp only [if_pos c4]
            exact ⟨hv, fun _ => c1, fun x => DriveState.noConfusion x,
              fun x => DriveState.noConfusion x⟩
          · simp only [if_neg c4]
            exact ⟨hv, fun _ => c1, fun x => DriveState.noConfusion x,
              fun x => DriveState.noConfusion x⟩
      · simp only [if_neg c2]
        have hoff : s.state = .DRIVE_DMA_OFF := by
          by_contra hne
          exact c2 ((and_and_8000 _ _).2 ⟨h2 hne, c1⟩)
        rw [hoff]
        exact ⟨hv, fun _ => c1, fun x => DriveState.noConfusion x,
          fun x => DriveState.noConfusion x⟩
  refine dsklenAgrees_step _ _ hL ?_ ⟨0, Nat.zero_le _, (turboIfSelected_fifo _ _ _ _).2.2.1⟩
  unfold turboIfSelected
  cases (getSelectedDrive s).1 with
  | none => exact stateStep_refl _
  | some i =>
    dsimp only
    split_ifs
    · rw [performTurboDMA_state]
      split_ifs
      · exact stateStep_refl _
      · exact absurd (by assumption) hL.2.2.2
      · exact Or.inr (Or.inl rfl)
    · exact stateStep_refl _

theorem flushFifo_state (ops : DriveOps D) (i : Nat) :
    ∀ (fuel : Nat) (s : Amiga D), (flushFifo ops i fuel s).state = s.state := by
  intro fuel
  induction fuel with
  | zero => intro s; rfl
  | succ fuel ih =>
    intro s
    unfold flushFifo
    split_ifs
    · rfl
    · simp only [readFifo_eq]
      rw [ih]
      simp only [setDrive]

theorem dmaReadWord_state (env : Env) (s : Amiga D) :
    (dmaReadWord env s).state = s.state := by
  rw [dmaReadWord_eq]

theorem dmaWriteWord_state (env : Env) (s : Amiga D) :
    (dmaWriteWord env s).state = s.state := by
  unfold dmaWriteWord decDsklen
  simp only [writeFifo_eq, assertThat_eq, noteChecksum_eq, Agnus.doDiskDMARead,
    Agnus.recordDiskBus]

theorem performDMAReadLoop_stateStep (env : Env) (ops : DriveOps D) :
    ∀ (fuel r : Nat) (s : Amiga D),
      stateStep s.state (performDMAReadLoop env ops fuel r s).state := by
  intro fuel
  induction fuel with
  | zero => intro r s; rw [performDMAReadLoop_zero]; exact stateStep_refl _
  | succ fuel ih =>
    intro r s
    rw [performDMAReadLoop_succ]
    split_ifs
    · rw [setState_eq]
      exact Or.inr (Or.inl rfl)
    · refine stateStep_trans ?_ (ih _ _)
      rw [assertThat_eq]
      show stateStep s.state (executeFifo ops (executeFifo ops (dmaReadWord env s))).state
      have a1 := (executeFifo_dsklen ops (dmaReadWord env s)).2
      have a2 := (executeFifo_dsklen ops (executeFifo ops (dmaReadWord env s))).2
      rw [dmaReadWord_state] at a1
      exact stateStep_trans a1 a2
    · rw [dmaReadWord_state]
      exact stateStep_refl _

theorem performDMAWriteLoop_stateStep (env : Env) (ops : DriveOps D) (i : Nat) :
    ∀ (fuel r : Nat) (s : Amiga D),
      stateStep s.state (performDMAWriteLoop env ops i fuel r s).state := by
  intro fuel
  induction fuel with
  | zero => intro r s; rw [performDMAWriteLoop_zero]; exact stateStep_refl _
  | succ fuel ih =>
    intro r s
    rw [performDMAWriteLoop_succ]
    split_ifs
    · rw [setState_eq]
      exact Or.inr (Or.inl rfl)
    · refine stateStep_trans ?_ (ih _ _)
      rw [assertThat_eq]
      show stateStep s.state (executeFifo ops (executeFifo ops (dmaWriteWord env s))).state
      have a1 := (executeFifo_dsklen ops (dmaWriteWord env s)).2
      have a2 := (executeFifo_dsklen ops (executeFifo ops (dmaWriteWord env s))).2
      rw [dmaWriteWord_state] at a1
      exact stateStep_trans a1 a2
    · rw [dmaWriteWord_state]
      exact stateStep_refl _

theorem performDMA_stateStep (env : Env) (ops : DriveOps D) (s : Amiga D) :
    stateStep s.state (performDMA env ops s).state := by
  unfold performDMA
  split_ifs
  · exact stateStep_refl _
  · exact stateStep_refl _
  · cases hsel : (getSelectedDrive s).1 with
    | none =>
      simp only [hsel]
      rw [getSelectedDrive_snd]
      exact stateStep_refl _
    | some i =>
      simp only [hsel]
      generalize ops.speed ((getSelectedDrive s).2.df i) % 2 ^ 32 = count
      generalize ops.nr ((getSelectedDrive s).2.df i) = nr
      obtain ⟨-, aSt, -⟩ := addWordCount_sel_fields s nr count
      generalize addWordCount (getSelectedDrive s).2 nr count = A at *
      rw [← aSt]
      cases hA : A.state
      · exact Or.inl hA
      · exact Or.inl hA
      · simp only
        rw [← hA]
        unfold performDMARead
        split_ifs
        · exact stateStep_refl _
        · exact performDMAReadLoop_stateStep env ops _ _ A
      · simp only
        rw [← hA]
        unfold performDMAWrite
        split_ifs
        · exact stateStep_refl _
        · exact performDMAWriteLoop_stateStep env ops i _ _ A
      · exact Or.inl hA

theorem performSimpleDMAWait_stateStep (ops : DriveOps D) (i : Nat) :
    ∀ (n : Nat) (s : Amiga D), s.state = .DRIVE_DMA_WAIT →
      stateStep s.state (performSimpleDMAWait ops i n s).state := by
  intro n
  induction n with
  | zero => intro s _; exact stateStep_refl _
  | succ n ih =>
    intro s hst
    unfold performSimpleDMAWait
    dsimp only
    split_ifs
    · rw [setState_eq]
      refine Or.inr (Or.inr ⟨?_, rfl⟩)
      rw [hst]
      decide
    · exact ih _ hst

theorem simpleReadWord_state (env : Env) (ops : DriveOps D) (i : Nat) (s : Amiga D) :
    (simpleReadWord env ops i s).state = s.state := by
  unfold simpleReadWord decDsklen
  simp only [noteChecksum_eq, Agnus.doDiskDMAWrite, Agnus.recordDiskBus, Agnus.poke,
    assertThat_eq, setDrive]

theorem simpleWriteWord_state (env : Env) (ops : DriveOps D) (i : Nat) (s : Amiga D) :
    (simpleWriteWord env ops i s).state = s.state := by
  unfold simpleWriteWord decDsklen
  simp only [noteChecksum_eq, Agnus.doDiskDMARead, Agnus.recordDiskBus, assertThat_eq, setDrive]

theorem performSimpleDMARead_stateStep (env : Env) (ops : DriveOps D) (i : Nat) :
    ∀ (n : Nat) (s : Amiga D),
      stateStep s.state (performSimpleDMARead env ops i n s).state := by
  intro n
  induction n with
  | zero => intro s; exact stateStep_refl _
  | succ n ih =>
    intro s
    rw [performSimpleDMARead_succ]
    split_ifs
    · rw [setState_eq]
      exact Or.inr (Or.inl rfl)
    · have h := ih (simpleReadWord env ops i s)
      rw [simpleReadWord_state] at h
      exact h

theorem performSimpleDMAWrite_stateStep (env : Env) (ops : DriveOps D) (i : Nat) :
    ∀ (n : Nat) (s : Amiga D),
      stateStep s.state (performSimpleDMAWrite env ops i n s).state := by
  intro n
  induction n with
  | zero => intro s; exact stateStep_refl _
  | succ n ih =>
    intro s
    rw [performSimpleDMAWrite_succ]
    split_ifs
    · rw [setState_eq]
      exact Or.inr (Or.inl rfl)
    · have h := ih (simpleWriteWord env ops i s)
      rw [simpleWriteWord_state] at h
      exact h

theorem performSimpleDMA_stateStep (env : Env) (ops : DriveOps D) (s : Amiga D) :
    stateStep s.state (performSimpleDMA env ops s).state := by
  unfold performSimpleDMA
  cases hsel : (getSelectedDrive s).1 with
  | none =>
    simp only [hsel]
    rw [getSelectedDrive_snd]
    exact stateStep_refl _
  | some i =>
    simp only [hsel]
    split_ifs
    · rw [getSelectedDrive_snd]
      exact stateStep_refl _
    · generalize ops.speed ((getSelectedDrive s).2.df i) % 2 ^ 32 = count
      generalize ops.nr ((getSelectedDrive s).2.df i) = nr
      obtain ⟨-, aSt, -⟩ := addWordCount_sel_fields s nr count
      generalize addWordCount (getSelectedDrive s).2 nr count = A at *
      rw [← aSt]
      cases hA : A.state
      · exact Or.inl hA
      · simp only
        rw [← hA]
        exact performSimpleDMAWait_stateStep ops i _ A hA
      · simp only
        rw [← hA]
        exact performSimpleDMARead_stateStep env ops i _ A
      · simp only
        rw [← hA]
        exact performSimpleDMAWrite_stateStep env ops i _ A
      · exact Or.inl hA

/-- Every step of the controller keeps the DMA state in agreement with the stored
DSKLEN. -/
theorem dsklenAgrees_reachable (env : Env) (ops : DriveOps D) (s : Amiga D)
    (h : Reachable env ops s) : dsklenAgrees s := by
  induction h with
  | reset s => exact dsklenAgrees_reset s
  | pokeDSKLEN s v _ hv ih => exact dsklenAgrees_pokeDSKLEN env ops s v ih hv
  | executeFifo s _ ih =>
    exact dsklenAgrees_step _ _ ih (executeFifo_dsklen ops s).2
      ⟨0, Nat.zero_le _, (executeFifo_dsklen ops s).1⟩
  | performDMA s _ ih =>
    exact dsklenAgrees_step _ _ ih (performDMA_stateStep env ops s)
      (performDMA_counter env ops s ih.1)
  | performSimpleDMA s _ ih =>
    exact dsklenAgrees_step _ _ ih (performSimpleDMA_stateStep env ops s)
      (performSimpleDMA_counter env ops s ih.1)
  | performTurboDMA s i _ ih =>
    refine dsklenAgrees_step _ _ ih ?_ ⟨0, Nat.zero_le _, (performTurboDMA_fifo env ops s i).2.2.1⟩
    rw [performTurboDMA_state]
    split_ifs
    · exact stateStep_refl _
    · exact absurd (by assumption) ih.2.2.2
    · exact Or.inr (Or.inl rfl)

/-- C36. In every controller state that is reached from reset by calls of
`pokeDSKLEN`, `executeFifo`, `performDMA`, `performSimpleDMA` and
`performTurboDMA`: a state other than OFF implies that bit 15 (DMAEN) of the stored
DSKLEN is set, the state WRITE implies that bit 14 is set as well, and the state
is not FLUSH. -/
theorem reachable_state_agrees_with_dsklen (env : Env) (ops : DriveOps D) (s : Amiga D)
    (h : Reachable env ops s) :
    (s.state ≠ .DRIVE_DMA_OFF → s.dsklen &&& 0x8000 ≠ 0) ∧
    (s.state = .DRIVE_DMA_WRITE → s.dsklen &&& 0x8000 ≠ 0 ∧ s.dsklen &&& 0x4000 ≠ 0) ∧
    s.state ≠ .DRIVE_DMA_FLUSH := by
  obtain ⟨-, h2, h3, h4⟩ := dsklenAgrees_reachable env ops s h
  refine ⟨h2, fun hw => ⟨h2 ?_, h3 hw⟩, h4⟩
  rw [hw]
  decide

/-- Witness for C36: after a reset, two writes of 0xC005 to DSKLEN and one
`executeFifo` the state is WRITE and bits 15 and 14 of the stored DSKLEN are set. -/
theorem reachable_state_agrees_with_dsklen_witness :
    (executeFifo tapeOps (pokeDSKLEN env0 tapeOps (pokeDSKLEN env0 tapeOps
      (reset (amiga0 (tapeDrive []))) 0xC005) 0xC005)).state = .DRIVE_DMA_WRITE ∧
    ((executeFifo tapeOps (pokeDSKLEN env0 tapeOps (pokeDSKLEN env0 tapeOps
        (reset (amiga0 (tapeDrive []))) 0xC005) 0xC005)).state = .DRIVE_DMA_WRITE →
      (executeFifo tapeOps (pokeDSKLEN env0 tapeOps (pokeDSKLEN env0 tapeOps
        (reset (amiga0 (tapeDrive []))) 0xC005) 0xC005)).dsklen &&& 0x8000 ≠ 0 ∧
      (executeFifo tapeOps (pokeDSKLEN env0 tapeOps (pokeDSKLEN env0 tapeOps
        (reset (amiga0 (tapeDrive []))) 0xC005) 0xC005)).dsklen &&& 0x4000 ≠ 0) :=
  ⟨by decide, (reachable_state_agrees_with_dsklen env0 tapeOps _
    (.executeFifo _ (.pokeDSKLEN _ _ (.pokeDSKLEN _ _ (.reset _) (by decide))
      (by decide)))).2.1⟩

/-! ## The look-ahead of `skipBPLxPT` -/

/-- While both look-ahead positions are inside the table, the checked function
returns what `skipBPLxPT` returns; at the last position of the line the first
read is outside the table. -/
theorem skipBPLxPTChecked_eq (ops : BplOps) (x : Nat) (a : Agnus) :
    (a.posH + 2 < HPOS_CNT → skipBPLxPTChecked ops x a = some (skipBPLxPT ops x a)) ∧
    (HPOS_MAX ≤ a.posH → skipBPLxPTChecked ops x a = none) := by
  unfold skipBPLxPTChecked skipBPLxPT bplEventAt
  constructor
  · intro h
    have h1 : a.posH + 1 < HPOS_CNT := by omega
    simp only [if_pos h1, if_pos h]
    split_ifs <;> rfl
  · intro h
    have h1 : ¬ a.posH + 1 < HPOS_CNT := by
      unfold HPOS_MAX at h
      unfold HPOS_CNT
      omega
    simp only [if_neg h1]

/-- C37, the failing input.  At `pos.h = HPOS_MAX` (the empty table, plane 1) the
first read of `skipBPLxPT`, `bplEvent[pos.h + 1]`, has the index `HPOS_CNT`, which
is outside the table; at `pos.h = HPOS_MAX - 1`, when `bplEvent[HPOS_MAX]` is a
fetch event of the plane, the second read, `bplEvent[pos.h + 2]`, has that
index. -/
theorem skipBPLxPT_reads_past_table :
    (agnus0 HPOS_MAX 0 false).posH ≤ HPOS_MAX ∧
    (agnus0 HPOS_MAX 0 false).posH + 1 = HPOS_CNT ∧
    skipBPLxPTChecked bplOps0 1 (agnus0 HPOS_MAX 0 false) = none ∧
    skipBPLxPTChecked bplOps0 1
      { agnus0 (HPOS_MAX - 1) 0 false with bplEvent := fun h => if h = HPOS_MAX then 1 else 0 } =
      none := by
  decide

/-! ## DMACON -/

theorem sameLine_dmacon {a b : Agnus} (h : SameLine a b) : b.dmacon = a.dmacon := by
  unfold SameLine at h
  have h1 := congrArg Agnus.dmacon h
  exact h1

theorem updateBplJumpTable_dmacon (e : Nat) (a : Agnus) :
    (updateBplJumpTable e a).dmacon = a.dmacon := by
  unfold updateBplJumpTable
  dsimp only
  split_ifs <;> rfl

theorem updateDasJumpTable_dmacon (e : Nat) (a : Agnus) :
    (updateDasJumpTable e a).dmacon = a.dmacon := by
  unfold updateDasJumpTable
  dsimp only
  split_ifs <;> rfl

theorem verifyBplEvents_dmacon (ids : BplEventIds) (a : Agnus) :
    (verifyBplEvents ids a).dmacon = a.dmacon := by
  unfold verifyBplEvents
  dsimp only
  split_ifs <;> rfl

theorem updateDrawingFlags_dmacon (hires : Bool) (a : Agnus) :
    (updateDrawingFlags hires a).dmacon = a.dmacon := by
  unfold updateDrawingFlags
  dsimp only
  rw [updateBplJumpTable_dmacon]
  have h1 := sameLine_assert (a.scrollHiresEven < 8) .scrollHiresEvenBelow8 a
  generalize (if a.scrollHiresEven < 8 then a
    else { a with failed := AgnusAssertion.scrollHiresEvenBelow8 :: a.failed }) = a1 at h1 ⊢
  have h2 := sameLine_assert (a1.scrollHiresOdd < 8) .scrollHiresOddBelow8 a1
  generalize (if a1.scrollHiresOdd < 8 then a1
    else { a1 with failed := AgnusAssertion.scrollHiresOddBelow8 :: a1.failed }) = a2 at h2 ⊢
  have h3 := sameLine_assert (a2.scrollLoresEven < 8) .scrollLoresEvenBelow8 a2
  generalize (if a2.scrollLoresEven < 8 then a2
    else { a2 with failed := AgnusAssertion.scrollLoresEvenBelow8 :: a2.failed }) = a3 at h3 ⊢
  have h4 := sameLine_assert (a3.scrollHiresOdd < 8) .scrollHiresOddBelow8b a3
  generalize (if a3.scrollHiresOdd < 8 then a3
    else { a3 with failed := AgnusAssertion.scrollHiresOddBelow8b :: a3.failed }) = a4 at h4 ⊢
  have hS : SameLine a a4 := sameLine_trans (sameLine_trans (sameLine_trans h1 h2) h3) h4
  split_ifs
  · exact sameLine_dmacon (sameLine_trans (sameLine_trans hS (sameLine_drawingFlagLoop _ _ _ _ _))
      (sameLine_drawingFlagLoop _ _ _ _ _))
  · exact sameLine_dmacon (sameLine_trans (sameLine_trans hS (sameLine_drawingFlagLoop _ _ _ _ _))
      (sameLine_drawingFlagLoop _ _ _ _ _))

theorem updateBplEvents_dmacon (ops : BplOps) (ids : BplEventIds)
    (dmacon bplcon0 first last : Nat) (a : Agnus) :
    (updateBplEvents ops ids dmacon bplcon0 first last a).dmacon = a.dmacon := by
  unfold updateBplEvents
  rw [verifyBplEvents_dmacon, updateDrawingFlags_dmacon]
  exact sameLine_dmacon (sameLine_updateBplEventsSlots ops ids dmacon bplcon0 first last a)

theorem pokeDasEvent_foldl_dmacon (f : Agnus → Nat → Nat) :
    ∀ (l : List Nat) (a : Agnus),
      (l.foldl (fun a i => pokeDasEvent a i (f a i)) a).dmacon = a.dmacon := by
  intro l
  induction l with
  | nil => intro a; rfl
  | cons x l ih =>
    intro a
    rw [List.foldl_cons, ih]
    rfl

theorem dmaconBitplaneBlock_dmacon (env : DmaconEnv) (ops : BplOps) (ids : BplEventIds)
    (oldValue newValue : Nat) (t n : Bool) (a : Agnus) :
    (dmaconBitplaneBlock env ops ids oldValue newValue t n a).dmacon = a.dmacon := by
  unfold dmaconBitplaneBlock
  dsimp only
  split_ifs
  · simp only [recordCall, updateBplEvents_dmacon]
  · rfl
  · simp only [recordCall, updateBplEvents_dmacon]
  · rfl

theorem dmaconDasBlock_dmacon (env : DmaconEnv) (newValue : Nat) (d t1 t2 : Bool) (a : Agnus) :
    (dmaconDasBlock env newValue d t1 t2 a).dmacon = a.dmacon := by
  unfold dmaconDasBlock
  dsimp only
  split_ifs
  · simp only [recordCall, updateDasJumpTable_dmacon]
    rw [pokeDasEvent_foldl_dmacon (fun a i => a.dasDMA (newValue &&& 0x3F) i)]
  · simp only [recordCall, updateDasJumpTable_dmacon]
    rw [pokeDasEvent_foldl_dmacon (fun a i => a.dasDMA 0 i)]
  · rfl

theorem dmaconCopperBlock_dmacon (t n : Bool) (a : Agnus) :
    (dmaconCopperBlock t n a).dmacon = a.dmacon := by
  unfold dmaconCopperBlock
  split_ifs <;> rfl

theorem toggleAudioDMA_dmacon (ch : Nat) (o n : Bool) (a : Agnus) :
    (toggleAudioDMA ch o n a).dmacon = a.dmacon := by
  unfold toggleAudioDMA
  split_ifs <;> rfl

/-- The value of DMACON after `setDMACON`. -/
theorem setDMACON_dmacon (env : DmaconEnv) (ops : BplOps) (ids : BplEventIds)
    (oldValue value : Nat) (a : Agnus) :
    (setDMACON env ops ids oldValue value a).dmacon =
      if oldValue = (if value &&& 0x8000 ≠ 0 then (a.dmacon ||| value) &&& 0x07FF
          else (a.dmacon &&& bitNot value) &&& 0x07FF)
      then a.dmacon
      else (if value &&& 0x8000 ≠ 0 then (a.dmacon ||| value) &&& 0x07FF
          else (a.dmacon &&& bitNot value) &&& 0x07FF) := by
  unfold setDMACON
  dsimp only
  generalize (if value &&& 0x8000 ≠ 0 then (a.dmacon ||| value) &&& 0x07FF
    else (a.dmacon &&& bitNot value) &&& 0x07FF) = newValue
  by_cases h : oldValue = newValue
  · rw [if_pos h, if_pos h]
  · rw [if_neg h, if_neg h]
    rw [toggleAudioDMA_dmacon, toggleAudioDMA_dmacon, toggleAudioDMA_dmacon,
      toggleAudioDMA_dmacon, dmaconCopperBlock_dmacon, dmaconDasBlock_dmacon,
      dmaconBitplaneBlock_dmacon]
    simp only [recordCall]
    split_ifs <;> rfl

theorem or_mask_twice (d v m : Nat) : ((d ||| v) &&& m ||| v) &&& m = (d ||| v) &&& m := by
  apply Nat.eq_of_testBit_eq
  intro i
  simp only [Nat.testBit_and, Nat.testBit_or]
  cases Nat.testBit d i <;> cases Nat.testBit v i <;> cases Nat.testBit m i <;> rfl

theorem and_mask_twice (d n m : Nat) : (((d &&& n) &&& m) &&& n) &&& m = (d &&& n) &&& m := by
  apply Nat.eq_of_testBit_eq
  intro i
  simp only [Nat.testBit_and]
  cases Nat.testBit d i <;> cases Nat.testBit n i <;> cases Nat.testBit m i <;> rfl

theorem and_6000_of_lt (d : Nat) (h : d < 0x800) : d &&& ((1 <<< 14) ||| (1 <<< 13)) = 0 := by
  have e : ((1 : Nat) <<< 14) ||| (1 <<< 13) = 0x6000 := by decide
  rw [e]
  apply Nat.eq_of_testBit_eq
  intro i
  rw [Nat.testBit_and, Nat.zero_testBit]
  by_cases hi : i < 11
  · have : Nat.testBit 0x6000 i = false := by interval_cases i <;> rfl
    rw [this, Bool.and_false]
  · have h2 : 0x800 ≤ 2 ^ i := by
      calc 0x800 = 2 ^ 11 := rfl
        _ ≤ 2 ^ i := Nat.pow_le_pow_right (by decide) (by omega)
    rw [Nat.testBit_lt_two_pow (lt_of_lt_of_le h h2), Bool.false_and]

/-- The bits of `~value` that `setDMACON` keeps. -/
theorem testBit_bitNot (v i : Nat) (hi : i < 32) :
    Nat.testBit (bitNot v) i = !Nat.testBit v i := by
  unfold bitNot
  have e : (0xFFFFFFFF : Nat) = 2 ^ 32 - 1 := by norm_num
  rw [Nat.testBit_xor, e, Nat.testBit_two_pow_sub_one]
  simp only [hi, decide_True, Bool.true_xor]

/-- C38. For every Agnus and every written value `v`, `setDMACON(d, v)` with `d`
the current value of DMACON leaves DMACON equal to `(d | v) & 0x07FF` when bit 15 of
`v` is set and to `(d & ~v) & 0x07FF` when it is clear: bit `i < 11` of the new
value is `d_i or v_i`, respectively `d_i and not v_i`, and the bits from 11 on are
clear.  So DMACON is below 0x800 afterwards; a second `setDMACON` with the same
value changes nothing; and the assertion of `peekDMACONR` holds afterwards, as it
does for every DMACON value below 0x800. -/
theorem setDMACON_masks (env : DmaconEnv) (ops : BplOps) (ids : BplEventIds) (a : Agnus)
    (v : Nat) :
    (v &&& 0x8000 ≠ 0 →
      (setDMACON env ops ids a.dmacon v a).dmacon = (a.dmacon ||| v) &&& 0x07FF) ∧
    (v &&& 0x8000 = 0 →
      (setDMACON env ops ids a.dmacon v a).dmacon = (a.dmacon &&& bitNot v) &&& 0x07FF) ∧
    (∀ i, Nat.testBit (setDMACON env ops ids a.dmacon v a).dmacon i =
      (decide (i < 11) &&
        (if v &&& 0x8000 ≠ 0 then Nat.testBit a.dmacon i || Nat.testBit v i
         else Nat.testBit a.dmacon i && !Nat.testBit v i))) ∧
    (setDMACON env ops ids a.dmacon v a).dmacon < 0x800 ∧
    setDMACON env ops ids (setDMACON env ops ids a.dmacon v a).dmacon v
        (setDMACON env ops ids a.dmacon v a) =
      setDMACON env ops ids a.dmacon v a ∧
    (∀ busy zero, (peekDMACONR busy zero (setDMACON env ops ids a.dmacon v a)).2 =
      setDMACON env ops ids a.dmacon v a) ∧
    (a.dmacon < 0x800 → ∀ busy zero, (peekDMACONR busy zero a).2 = a) := by
  have hr := setDMACON_dmacon env ops ids a.dmacon v a
  have hnv : (setDMACON env ops ids a.dmacon v a).dmacon =
      (if v &&& 0x8000 ≠ 0 then (a.dmacon ||| v) &&& 0x07FF
        else (a.dmacon &&& bitNot v) &&& 0x07FF) := by
    rw [hr]
    generalize (if v &&& 0x8000 ≠ 0 then (a.dmacon ||| v) &&& 0x07FF
      else (a.dmacon &&& bitNot v) &&& 0x07FF) = nv
    by_cases h : a.dmacon = nv
    · rw [if_pos h]
      exact h
    · rw [if_neg h]
  have hlt : (setDMACON env ops ids a.dmacon v a).dmacon < 0x800 := by
    rw [hnv]
    split_ifs
    · exact Nat.lt_succ_of_le Nat.and_le_right
    · exact Nat.lt_succ_of_le Nat.and_le_right
  have hpeek : ∀ (b : Agnus), b.dmacon < 0x800 → ∀ busy zero, (peekDMACONR busy zero b).2 = b := by
    intro b hb busy zero
    unfold peekDMACONR
    simp only [if_pos (and_6000_of_lt b.dmacon hb)]
  have e7 : (0x07FF : Nat) = 2 ^ 11 - 1 := by norm_num
  refine ⟨fun h => ?_, fun h => ?_, fun i => ?_, hlt, ?_, hpeek _ hlt, hpeek a⟩
  · rw [hnv, if_pos h]
  · have h' : ¬ v &&& 0x8000 ≠ 0 := fun x => x h
    rw [hnv, if_neg h']
  · rw [hnv]
    by_cases h : v &&& 0x8000 ≠ 0
    · rw [if_pos h, if_pos h, Nat.testBit_and, Nat.testBit_or, e7, Nat.testBit_two_pow_sub_one,
        Bool.and_comm]
    · rw [if_neg h, if_neg h, Nat.testBit_and, Nat.testBit_and, e7, Nat.testBit_two_pow_sub_one]
      by_cases hi : i < 11
      · rw [testBit_bitNot v i (by omega), Bool.and_comm]
      · simp only [hi, decide_False, Bool.and_false, Bool.false_and]
  · generalize setDMACON env ops ids a.dmacon v a = r at hnv
    have key : r.dmacon = (if v &&& 0x8000 ≠ 0 then (r.dmacon ||| v) &&& 0x07FF
        else (r.dmacon &&& bitNot v) &&& 0x07FF) := by
      by_cases h : v &&& 0x8000 ≠ 0
      · rw [if_pos h] at hnv
        rw [if_pos h, hnv, or_mask_twice]
      · rw [if_neg h] at hnv
        rw [if_neg h, hnv, and_mask_twice]
    unfold setDMACON
    dsimp only
    rw [if_pos key]

/-- Witness for C38: DMACON = 0x0200 and the written value 0x8180: the bits 8
and 7 are set in addition. -/
theorem setDMACON_masks_witness :
    (setDMACON dmaconEnv0 bplOps4 ids4 0x0200 0x8180 { agnus4 0 0 with dmacon := 0x0200 }).dmacon =
      0x0380 :=
  ((setDMACON_masks dmaconEnv0 bplOps4 ids4 { agnus4 0 0 with dmacon := 0x0200 } 0x8180).1
    (by decide)).trans (by decide)

/-! ## The range check of the video settings -/

/-- C32. For `OPT_BRIGHTNESS`, `OPT_CONTRAST` and `OPT_SATURATION`,
`setConfigItem` throws `ERROR_OPT_INVARG` exactly when the value is below 0 or
above 100, and then the pixel engine, its configuration included, is unchanged;
for a value in 0 .. 100 the call returns normally, `getConfigItem` for the same
option returns the value, and `getConfigItem` for every other option returns what
it returned before. -/
theorem setConfigItem_video_range {T : Type} (ops : PixelOps T) (option : Opt)
    (value : Int) (p : PixelEngine T)
    (hopt : option = .OPT_BRIGHTNESS ∨ option = .OPT_CONTRAST ∨ option = .OPT_SATURATION) :
    ((setConfigItem ops option value p).2 = some .ERROR_OPT_INVARG ↔ (value < 0 ∨ value > 100)) ∧
    ((value < 0 ∨ value > 100) →
      (setConfigItem ops option value p).1 = p ∧
      (setConfigItem ops option value p).1.config = p.config) ∧
    ((0 ≤ value ∧ value ≤ 100) →
      (setConfigItem ops option value p).2 = none ∧
      getConfigItem option (setConfigItem ops option value p).1 = .ok value ∧
      ∀ other : Opt, other ≠ option →
        getConfigItem other (setConfigItem ops option value p).1 = getConfigItem other p) := by
  by_cases hv : value < 0 ∨ value > 100
  · have hn : ¬ (0 ≤ value ∧ value ≤ 100) := by omega
    rcases hopt with h | h | h <;> subst h <;>
      exact ⟨⟨fun _ => hv, fun _ => by simp only [setConfigItem, if_pos hv]⟩,
        fun _ => by simp only [setConfigItem, if_pos hv, and_self],
        fun h => absurd h hn⟩
  · rcases hopt with h | h | h <;> subst h <;>
      (refine ⟨⟨fun h => ?_, fun h => absurd h hv⟩, fun h => absurd h hv, fun _ => ⟨?_, ?_, ?_⟩⟩
       · simp only [setConfigItem, if_neg hv, reduceCtorEq] at h
       · simp only [setConfigItem, if_neg hv]
       · simp only [setConfigItem, if_neg hv, getConfigItem]
       · intro other ho
         simp only [setConfigItem, if_neg hv]
         cases other <;> first | rfl | exact absurd rfl ho)

/-- Witness for C32: brightness 70 is stored, and brightness 101 is refused. -/
theorem setConfigItem_video_range_witness :
    (Opt.OPT_BRIGHTNESS = .OPT_BRIGHTNESS ∨ Opt.OPT_BRIGHTNESS = .OPT_CONTRAST ∨
      Opt.OPT_BRIGHTNESS = .OPT_SATURATION) ∧
    getConfigItem .OPT_BRIGHTNESS (setConfigItem pixelOps0 .OPT_BRIGHTNESS 70 pixelEngine0).1
      = .ok 70 ∧
    (setConfigItem pixelOps0 .OPT_BRIGHTNESS 101 pixelEngine0).2 = some .ERROR_OPT_INVARG :=
  ⟨Or.inl rfl,
   ((setConfigItem_video_range pixelOps0 .OPT_BRIGHTNESS 70 pixelEngine0 (Or.inl rfl)).2.2
      (by decide)).2.1,
   (setConfigItem_video_range pixelOps0 .OPT_BRIGHTNESS 101 pixelEngine0 (Or.inl rfl)).1.2
      (by decide)⟩

/-! ## The version check of snapshots -/

/-- C39. `isTooOld` holds exactly when the header triple (major, minor,
subminor) is lexicographically smaller than (SNP_MAJOR, SNP_MINOR, SNP_SUBMINOR),
`isTooNew` exactly when it is larger; they are never both true, and both are false
exactly when the triples are equal.  A snapshot built by the constructor carries
the magic bytes 'VASNAP', and, the three constants being bytes, it is neither too
old nor too new. -/
theorem snapshot_version_check (env : SnapshotEnv) (s : Snapshot) (raw : SnapshotHeader)
    (capacity : Nat) :
    (s.isTooOld env = true ↔
      versionLt s.header.major s.header.minor s.header.subminor
        env.SNP_MAJOR env.SNP_MINOR env.SNP_SUBMINOR) ∧
    (s.isTooNew env = true ↔
      versionLt env.SNP_MAJOR env.SNP_MINOR env.SNP_SUBMINOR
        s.header.major s.header.minor s.header.subminor) ∧
    ¬ (s.isTooOld env = true ∧ s.isTooNew env = true) ∧
    ((s.isTooOld env = false ∧ s.isTooNew env = false) ↔
      (s.header.major = env.SNP_MAJOR ∧ s.header.minor = env.SNP_MINOR ∧
        s.header.subminor = env.SNP_SUBMINOR)) ∧
    (List.range 6).map (Snapshot.create env raw capacity).header.magic
      = ['V', 'A', 'S', 'N', 'A', 'P'].map Char.toNat ∧
    (Snapshot.create env raw capacity).size = capacity + env.headerSize ∧
    (env.SNP_MAJOR < 256 → env.SNP_MINOR < 256 → env.SNP_SUBMINOR < 256 →
      (Snapshot.create env raw capacity).isTooOld env = false ∧
      (Snapshot.create env raw capacity).isTooNew env = false) := by
  have hold : s.isTooOld env = true ↔
      versionLt s.header.major s.header.minor s.header.subminor
        env.SNP_MAJOR env.SNP_MINOR env.SNP_SUBMINOR := by
    unfold Snapshot.isTooOld versionLt
    split_ifs <;> simp only [decide_eq_true_eq, true_iff, Bool.false_eq_true, false_iff,
      gt_iff_lt] <;> omega
  have hnew : s.isTooNew env = true ↔
      versionLt env.SNP_MAJOR env.SNP_MINOR env.SNP_SUBMINOR
        s.header.major s.header.minor s.header.subminor := by
    unfold Snapshot.isTooNew versionLt
    split_ifs <;> simp only [decide_eq_true_eq, true_iff, Bool.false_eq_true, false_iff,
      gt_iff_lt] <;> omega
  refine ⟨hold, hnew, ?_, ?_, rfl, rfl, ?_⟩
  · rw [hold, hnew]; unfold versionLt; omega
  · rw [← Bool.not_eq_true, ← Bool.not_eq_true, hold, hnew]; unfold versionLt; omega
  · intro h1 h2 h3
    have e1 : (Snapshot.create env raw capacity).header.major = env.SNP_MAJOR :=
      Nat.mod_eq_of_lt h1
    have e2 : (Snapshot.create env raw capacity).header.minor = env.SNP_MINOR :=
      Nat.mod_eq_of_lt h2
    have e3 : (Snapshot.create env raw capacity).header.subminor = env.SNP_SUBMINOR :=
      Nat.mod_eq_of_lt h3
    unfold Snapshot.isTooOld Snapshot.isTooNew
    rw [e1, e2, e3]
    simp

/-- Witness for C39: a snapshot built for version 2.4.1 from memory filled with
0xCD is neither too old nor too new. -/
theorem snapshot_version_check_witness :
    snapshotEnv0.SNP_MAJOR < 256 ∧ snapshotEnv0.SNP_MINOR < 256 ∧
    snapshotEnv0.SNP_SUBMINOR < 256 ∧
    (Snapshot.create snapshotEnv0 rawHeader0 1000).isTooOld snapshotEnv0 = false ∧
    (Snapshot.create snapshotEnv0 rawHeader0 1000).isTooNew snapshotEnv0 = false :=
  ⟨by decide, by decide, by decide,
   (snapshot_version_check snapshotEnv0 (Snapshot.create snapshotEnv0 rawHeader0 1000)
      rawHeader0 1000).2.2.2.2.2.2 (by decide) (by decide) (by decide)⟩

/-! ## Changing disks -/

/-- C31. Inserting a disk into drive `nr`.  While the emulator runs and the
drive holds a disk, the old disk is ejected in the call and `DCH_INSERT` is
scheduled on the disk-change slot with delay `max(SEC(1.5), delay)`, so the event
is due at least 1.5 seconds after the eject, and serving it puts the new disk into
the drive; with an empty drive the requested delay is used unchanged and the
drives are untouched; while the emulator does not run, the disk is swapped in the
call and no event is scheduled.  No assertion fails. -/
theorem insertDisk_delay {D K : Type} (env : DiskChangeEnv) (ops : DiskOps D K) (disk : K)
    (nr delay : Int) (s : DiskChange D K) (h0 : 0 ≤ nr) (h3 : nr ≤ 3) :
    (s.running = true → ops.hasDisk (s.df nr.toNat) = true →
      (insertDisk env ops (some disk) nr delay s).df nr.toNat = ops.ejectDisk (s.df nr.toNat) ∧
      (∀ j, j ≠ nr.toNat → (insertDisk env ops (some disk) nr delay s).df j = s.df j) ∧
      (insertDisk env ops (some disk) nr delay s).dchSlot
        = { triggerCycle := s.clock + max env.SEC15 delay, id := env.DCH_INSERT, data := nr } ∧
      s.clock + env.SEC15 ≤ (insertDisk env ops (some disk) nr delay s).dchSlot.triggerCycle ∧
      s.clock + delay ≤ (insertDisk env ops (some disk) nr delay s).dchSlot.triggerCycle ∧
      (insertDisk env ops (some disk) nr delay s).diskToInsert = some disk ∧
      (serviceDiskChangeEvent env ops env.DCH_INSERT nr
          (insertDisk env ops (some disk) nr delay s)).df nr.toNat
        = ops.insertDisk (ops.ejectDisk (s.df nr.toNat)) (some disk)) ∧
    (s.running = true → ops.hasDisk (s.df nr.toNat) = false →
      (insertDisk env ops (some disk) nr delay s).df = s.df ∧
      (insertDisk env ops (some disk) nr delay s).dchSlot
        = { triggerCycle := s.clock + delay, id := env.DCH_INSERT, data := nr } ∧
      (insertDisk env ops (some disk) nr delay s).diskToInsert = some disk ∧
      (serviceDiskChangeEvent env ops env.DCH_INSERT nr
          (insertDisk env ops (some disk) nr delay s)).df nr.toNat
        = ops.insertDisk (s.df nr.toNat) (some disk)) ∧
    (s.running = false →
      (insertDisk env ops (some disk) nr delay s).df nr.toNat
        = ops.insertDisk (ops.ejectDisk (s.df nr.toNat)) (some disk) ∧
      (∀ j, j ≠ nr.toNat → (insertDisk env ops (some disk) nr delay s).df j = s.df j) ∧
      (insertDisk env ops (some disk) nr delay s).dchSlot = s.dchSlot ∧
      (insertDisk env ops (some disk) nr delay s).diskToInsert = s.diskToInsert ∧
      (insertDisk env ops (some disk) nr delay s).threadCalls = s.threadCalls) ∧
    (insertDisk env ops (some disk) nr delay s).clock = s.clock ∧
    (insertDisk env ops (some disk) nr delay s).running = s.running ∧
    (insertDisk env ops (some disk) nr delay s).failed = s.failed := by
  have hr : (0 ≤ nr ∧ nr ≤ 3) := ⟨h0, h3⟩
  have ha : ∀ t : DiskChange D K, DiskChange.assertThat (decide (0 ≤ nr ∧ nr ≤ 3))
      DiskChangeAssertion.nrInRange
      (DiskChange.assertThat (some disk).isSome DiskChangeAssertion.diskNotNull t) = t := by
    intro t
    simp only [DiskChange.assertThat, Option.isSome_some, if_true, hr, and_self, decide_True]
  unfold insertDisk
  simp only [ha]
  have hj : ∀ (j : Nat) (x y : D), j ≠ nr.toNat → (if j = nr.toNat then x else y) = y :=
    fun j x y h => if_neg h
  have hm1 := le_max_left env.SEC15 delay
  have hm2 := le_max_right env.SEC15 delay
  cases hrun : s.running
  · simp only [Bool.not_false, if_true, DiskChange.setDrive, reduceCtorEq, false_imp_iff,
      true_and, forall_const, and_true]
    exact ⟨fun j h => by rw [hj j _ _ h, hj j _ _ h], hrun⟩
  · cases hd : ops.hasDisk (s.df nr.toNat)
    · simp only [Bool.not_true, Bool.false_eq_true, if_false, DiskChange.thread,
        DiskChange.scheduleRel, hd, if_true, DiskChange.setDrive, serviceDiskChangeEvent,
        DiskChange.assertThat, DiskChange.cancel, hr, and_self, decide_True, Option.isSome_some,
        reduceCtorEq, false_imp_iff, forall_const, true_and, and_true]
      exact hrun
    · simp only [Bool.not_true, Bool.false_eq_true, if_false, DiskChange.thread,
        DiskChange.scheduleRel, hd, if_true, DiskChange.setDrive, serviceDiskChangeEvent,
        DiskChange.assertThat, DiskChange.cancel, hr, and_self, decide_True, Option.isSome_some,
        reduceCtorEq, false_imp_iff, forall_const, true_and, and_true]
      exact ⟨⟨fun j h => hj j _ _ h, by omega, by omega⟩, hrun⟩

/-- Witness for C31: disk 9 inserted into the occupied drive 0 of a running machine
with a requested delay of 100 cycles: the drive is empty after the call and the
event is due 42000000 cycles later. -/
theorem insertDisk_delay_witness :
    (0 : Int) ≤ 0 ∧ (0 : Int) ≤ 3 ∧
    (insertDisk diskChangeEnv0 slotOps (some 9) 0 100 diskChange0).df 0 = [] ∧
    (insertDisk diskChangeEnv0 slotOps (some 9) 0 100 diskChange0).dchSlot
      = { triggerCycle := 1000 + max 42000000 100, id := 1, data := 0 } :=
  ⟨by decide, by decide,
   ((insertDisk_delay diskChangeEnv0 slotOps 9 0 100 diskChange0 (by decide) (by decide)).1
      rfl rfl).1,
   ((insertDisk_delay diskChangeEnv0 slotOps 9 0 100 diskChange0 (by decide) (by decide)).1
      rfl rfl).2.2.1⟩

/-! ## Completion of command names -/

theorem getD_of_isPrefix {p m : List Char} (h : p <+: m) (i : Nat) (hi : i < p.length)
    (d : Char) : m.getD i d = p.getD i d := by
  obtain ⟨s, rfl⟩ := h
  exact List.getD_append p s d i hi

theorem getElem?_eq_some_getD (l : List Char) (i : Nat) (hi : i < l.length) (d : Char) :
    l[i]? = some (l.getD i d) := by
  rw [List.getD_eq_getElem?_getD, List.getElem?_eq_getElem hi]
  rfl

theorem take_succ_getD (f : List Char) (i : Nat) (hi : i < f.length) (d : Char) :
    f.take i ++ [f.getD i d] = f.take (i + 1) := by
  rw [List.take_succ, getElem?_eq_some_getD f i hi d]
  rfl

theorem take_succ_isPrefix (f m : List Char) (i : Nat) (d : Char) (hf : i < f.length)
    (hm : i < m.length) (he : m.getD i d = f.getD i d) (h : f.take i <+: m) :
    f.take (i + 1) <+: m := by
  rw [List.prefix_iff_eq_take] at h ⊢
  rw [List.length_take, Nat.min_eq_left (le_of_lt hf)] at h
  rw [List.length_take, Nat.min_eq_left hf]
  rw [List.take_succ, List.take_succ, h, getElem?_eq_some_getD f i hf d,
    getElem?_eq_some_getD m i hm d, he]

theorem autoCompleteLoop_spec (ms : List Command) (f : Command) (hf : f ∈ ms) :
    ∀ (n i : Nat), i + n = f.token.length → (∀ m ∈ ms, f.token.take i <+: m.token) →
      IsLongestCommonPrefix (autoCompleteLoop ms f n i (f.token.take i)) ms ∧
      f.token.take i <+: autoCompleteLoop ms f n i (f.token.take i) := by
  intro n
  induction n with
  | zero =>
    intro i hi hall
    have e : f.token.take i = f.token := by
      rw [List.take_of_length_le]; omega
    unfold autoCompleteLoop
    rw [e]
    rw [e] at hall
    exact ⟨⟨hall, fun p hp => hp f hf⟩, List.prefix_refl _⟩
  | succ n ih =>
    intro i hi hall
    have hif : i < f.token.length := by omega
    unfold autoCompleteLoop
    by_cases hany : ms.any (fun m => decide (m.token.length ≤ i) ||
        (m.token.getD i default != f.token.getD i default)) = true
    · rw [if_pos hany]
      refine ⟨⟨hall, ?_⟩, List.prefix_refl _⟩
      intro p hp
      rw [List.prefix_take_iff]
      refine ⟨hp f hf, ?_⟩
      by_contra hlen
      have hlt : i < p.length := by omega
      rw [List.any_eq_true] at hany
      obtain ⟨m, hm, hc⟩ := hany
      have hpm := hp m hm
      have h1 : p.length ≤ m.token.length := hpm.length_le
      have h2 := getD_of_isPrefix hpm i hlt default
      have h3 := getD_of_isPrefix (hp f hf) i hlt default
      simp only [Bool.or_eq_true, decide_eq_true_eq, bne_iff_ne, ne_eq] at hc
      rcases hc with hc | hc
      · omega
      · exact hc (h2.trans h3.symm)
    · rw [if_neg hany, take_succ_getD f.token i hif default]
      have hall2 : ∀ m ∈ ms, f.token.take (i + 1) <+: m.token := by
        intro m hm
        have hc : ¬ (m.token.length ≤ i ∨ m.token.getD i default ≠ f.token.getD i default) := by
          intro hc
          apply hany
          rw [List.any_eq_true]
          refine ⟨m, hm, ?_⟩
          simp only [Bool.or_eq_true, decide_eq_true_eq, bne_iff_ne, ne_eq]
          exact hc
        have h1 : i < m.token.length := by omega
        have h2 : m.token.getD i default = f.token.getD i default := by
          by_contra h
          exact hc (Or.inr h)
        exact take_succ_isPrefix f.token m.token i default hif h1 h2 (hall m hm)
      have := ih (i + 1) (by omega) hall2
      refine ⟨this.1, ?_⟩
      exact (List.take_prefix_take_left _ (Nat.le_succ i)).trans this.2

theorem mem_filterPrefix (c : Command) (t : List Char) (m : Command) :
    m ∈ c.filterPrefix t ↔ m ∈ c.args ∧ m.hidden = false ∧ t <+: m.token := by
  unfold Command.filterPrefix
  rw [List.mem_filter]
  simp only [Bool.and_eq_true, Bool.not_eq_true', decide_eq_true_eq]
  constructor
  · rintro ⟨h1, h2, h3⟩
    exact ⟨h1, h2, by rw [List.prefix_iff_eq_take]; exact h3.symm⟩
  · rintro ⟨h1, h2, h3⟩
    exact ⟨h1, h2, by rw [List.prefix_iff_eq_take] at h3; exact h3.symm⟩

theorem autoComplete_spec (c : Command) (t : List Char) :
    (c.filterPrefix t = [] → c.autoComplete t = t) ∧
    (c.filterPrefix t ≠ [] → IsLongestCommonPrefix (c.autoComplete t) (c.filterPrefix t)) ∧
    t <+: c.autoComplete t := by
  unfold Command.autoComplete
  cases hms : c.filterPrefix t with
  | nil => exact ⟨fun _ => rfl, fun h => absurd rfl h, List.prefix_refl _⟩
  | cons f rest =>
    have hf : f ∈ c.filterPrefix t := by rw [hms]; exact List.mem_cons_self _ _
    have hall : ∀ m ∈ c.filterPrefix t, t <+: m.token := fun m hm =>
      ((mem_filterPrefix c t m).1 hm).2.2
    have ht : f.token.take t.length = t := (List.prefix_iff_eq_take.1 (hall f hf)).symm
    have hlen : t.length ≤ f.token.length := (hall f hf).length_le
    have key := autoCompleteLoop_spec (c.filterPrefix t) f hf (f.token.length - t.length)
      t.length (by omega) (by rw [ht]; exact hall)
    rw [ht, hms] at key
    exact ⟨fun h => absurd h (List.cons_ne_nil _ _), fun _ => key.1, key.2⟩

theorem filterPrefix_autoComplete (c : Command) (t : List Char) :
    c.filterPrefix (c.autoComplete t) = c.filterPrefix t := by
  have sp := autoComplete_spec c t
  by_cases hms : c.filterPrefix t = []
  · rw [sp.1 hms]
  · have hl := sp.2.1 hms
    unfold Command.filterPrefix
    apply List.filter_congr
    intro m hm
    by_cases hh : m.hidden = true
    · simp only [hh, Bool.not_true, Bool.false_and]
    · have hh2 : m.hidden = false := by simpa using hh
      have h1 : (c.autoComplete t <+: m.token) ↔ (t <+: m.token) := by
        constructor
        · exact fun h => sp.2.2.trans h
        · exact fun h => hl.1 m ((mem_filterPrefix c t m).2 ⟨hm, hh2, h⟩)
      rw [List.prefix_iff_eq_take, List.prefix_iff_eq_take] at h1
      simp only [hh2, Bool.not_false, Bool.true_and]
      rw [decide_eq_decide]
      constructor
      · exact fun h => (h1.1 h.symm).symm
      · exact fun h => (h1.2 h.symm).symm

theorem isLongestCommonPrefix_unique {r r2 : List Char} {ms : List Command}
    (h : IsLongestCommonPrefix r ms) (h2 : IsLongestCommonPrefix r2 ms) : r = r2 := by
  have a := h2.2 r h.1
  have b := h.2 r2 h2.1
  exact a.eq_of_length (le_antisymm a.length_le b.length_le)

/-- C40. For every command node and every token `t`, `autoComplete` returns
`t` when no sub-command that is not hidden has a name starting with `t`;
otherwise the result is the longest common prefix of the names of all such
sub-commands: it is a prefix of each of them, and every common prefix of them is
a prefix of the result.  The result always starts with `t`, and completing the
result again returns it unchanged. -/
theorem autoComplete_common_prefix_longest (c : Command) (t : List Char) :
    ((∀ m ∈ c.args, m.hidden = false → ¬ t <+: m.token) → c.autoComplete t = t) ∧
    ((∃ m ∈ c.args, m.hidden = false ∧ t <+: m.token) →
      (∀ m ∈ c.args, m.hidden = false → t <+: m.token → c.autoComplete t <+: m.token) ∧
      (∀ p : List Char, (∀ m ∈ c.args, m.hidden = false → t <+: m.token → p <+: m.token) →
        p <+: c.autoComplete t)) ∧
    t <+: c.autoComplete t ∧
    c.autoComplete (c.autoComplete t) = c.autoComplete t := by
  have sp := autoComplete_spec c t
  refine ⟨?_, ?_, sp.2.2, ?_⟩
  · intro h
    apply sp.1
    rw [List.eq_nil_iff_forall_not_mem]
    intro m hm
    have := (mem_filterPrefix c t m).1 hm
    exact h m this.1 this.2.1 this.2.2
  · rintro ⟨m, hm, hh, hp⟩
    have hne : c.filterPrefix t ≠ [] :=
      List.ne_nil_of_mem ((mem_filterPrefix c t m).2 ⟨hm, hh, hp⟩)
    have hl := sp.2.1 hne
    refine ⟨fun m hm hh hp => hl.1 m ((mem_filterPrefix c t m).2 ⟨hm, hh, hp⟩), ?_⟩
    intro p hpall
    apply hl.2
    intro m hm
    have := (mem_filterPrefix c t m).1 hm
    exact hpall m this.1 this.2.1 this.2.2
  · by_cases hms : c.filterPrefix t = []
    · rw [sp.1 hms, sp.1 hms]
    · have sp2 := autoComplete_spec c (c.autoComplete t)
      have e := filterPrefix_autoComplete c t
      have hl2 := sp2.2.1 (by rw [e]; exact hms)
      rw [e] at hl2
      exact isLongestCommonPrefix_unique hl2 (sp.2.1 hms)

/-- Witness for C40: of `load`, `loop` and the hidden `log`, the token `l` is
completed to `lo`, and `lo` is completed to itself. -/
theorem autoComplete_common_prefix_longest_witness :
    command0.autoComplete ['l'] = ['l', 'o'] ∧
    ['l'] <+: command0.autoComplete ['l'] ∧
    command0.autoComplete (command0.autoComplete ['l']) = command0.autoComplete ['l'] :=
  ⟨by decide, (autoComplete_common_prefix_longest command0 ['l']).2.2.1,
   (autoComplete_common_prefix_longest command0 ['l']).2.2.2⟩

end VAmiga
